import Mathlib

/-!
# ToyC compiler: semantic analyzer and RISC-V code generator

A shallow embedding of `toyc-compiler/src` (AST, `Scope`, `SemanticAnalyzer`,
`RegisterManager`, `RISCVCodeGenerator`) together with theorems about it.

Conventions of the embedding:

* a visitor method that mutates the object becomes a function from the object's state to
  the new state; the analyzer, which also writes `returnType` into `FunctionCall` nodes,
  returns the rewritten node next to the new state;
* `std::unordered_map<std::string, V>` is an association list with unique keys
  (`mapFind`, `mapSet`); `std::vector` is a `List` in index order, except the scope stack,
  whose `back()` is the head of the list;
* C++ `int` is `Int`; where the source relies on 32-bit behaviour (`loadImmediate`) the
  wrap-around is explicit (`wrap32`);
* the output stream is the list of emitted lines (`Line`), an instruction line being an
  `Instr` whose `Instr.text` is the string the source passes to `emit`.
-/

namespace ToyC

/-! ## AST (`ast/ast.hpp`) -/

/-- The enumeration `Expression::Type`. -/
inductive VType where
  | INT
  | VOID
  deriving DecidableEq, Repr

/-- The enumeration `BinaryExpression::Operator`. -/
inductive BinOp where
  | ADD | SUB | MUL | DIV | MOD
  | LT | LE | GT | GE | EQ | NE
  | AND | OR
  deriving DecidableEq, Repr

/-- The enumeration `UnaryExpression::Operator`. -/
inductive UnOp where
  | PLUS | MINUS | NOT
  deriving DecidableEq, Repr

/-- The classes derived from `Expression`: `NumberLiteral`, `Identifier`,
`UnaryExpression`, `BinaryExpression`, `FunctionCall`. -/
inductive Expr where
  | number (value : Int)
  | ident (name : String)
  | unary (op : UnOp) (operand : Expr)
  | binary (left : Expr) (op : BinOp) (right : Expr)
  | call (functionName : String) (arguments : List Expr) (returnType : VType)

/-- The classes derived from `Statement`. A null `unique_ptr` is `none`; the field
`variable` of `AssignmentStatement` is `varName` here. -/
inductive Stmt where
  | assign (varName : String) (value : Expr)
  | varDecl (name : String) (initializer : Option Expr)
  | block (statements : List Stmt)
  | ifS (condition : Expr) (thenStatement : Stmt) (elseStatement : Option Stmt)
  | whileS (condition : Expr) (body : Stmt)
  | breakS
  | continueS
  | returnS (value : Option Expr)
  | exprS (expression : Expr)

/-- The class `Parameter`. -/
structure Parameter where
  name : String
  type : VType
  deriving DecidableEq, Repr

/-- The class `FunctionDefinition`; `body` is the statement list of its `Block`. -/
structure FunctionDefinition where
  name : String
  returnType : VType
  parameters : List Parameter
  body : List Stmt

/-- The class `CompilationUnit`. -/
structure CompilationUnit where
  functions : List FunctionDefinition

/-! ## Maps -/

/-- The lookup `m.find(k)` of an `unordered_map`: `none` stands for `m.end()`. -/
def mapFind {V : Type} : List (String × V) → String → Option V
  | [], _ => none
  | (k, v) :: rest, key => if k = key then some v else mapFind rest key

/-- The assignment `m[k] = v` of an `unordered_map`: overwrite the entry of `k`, or add one. -/
def mapSet {V : Type} : List (String × V) → String → V → List (String × V)
  | [], key, val => [(key, val)]
  | (k, v) :: rest, key, val =>
    if k = key then (k, val) :: rest else (k, v) :: mapSet rest key val

/-! ## Symbols and scopes (`sematic/analyzer.hpp`) -/

/-- The struct `Symbol`. -/
structure Symbol where
  name : String
  type : VType
  offset : Int
  isParameter : Bool
  deriving DecidableEq, Repr

/-- The struct `FunctionInfo`. -/
structure FunctionInfo where
  name : String
  returnType : VType
  paramTypes : List VType
  isDefined : Bool
  deriving DecidableEq, Repr

/-- The class `Scope`: `scopeStack` lists the scopes innermost first (the head is the
vector's `back()`). -/
structure Scope where
  scopeStack : List (List (String × Symbol))
  currentOffset : Int

namespace Scope

/-- Method `enterScope`. -/
def enterScope (s : Scope) : Scope :=
  { s with scopeStack := [] :: s.scopeStack }

/-- The constructor `Scope()`: offset 0, then `enterScope()` for the global scope. -/
def fresh : Scope :=
  enterScope { scopeStack := [], currentOffset := 0 }

/-- Method `exitScope`. -/
def exitScope (s : Scope) : Scope :=
  if s.scopeStack.length > 1 then { s with scopeStack := s.scopeStack.tail } else s

/-- Method `declareVariable`: the returned flag is the C++ return value. On an empty
stack `back()` is undefined in C++; the embedding then reports failure and changes
nothing. -/
def declareVariable (s : Scope) (name : String) (type : VType) (isParam : Bool) :
    Bool × Scope :=
  match s.scopeStack with
  | [] => (false, s)
  | currentScope :: outer =>
    match mapFind currentScope name with
    | some _ => (false, s)
    | none =>
      let offset := if isParam then s.currentOffset else s.currentOffset - 4
      (true,
        { scopeStack := mapSet currentScope name ⟨name, type, offset, isParam⟩ :: outer,
          currentOffset := if !isParam then s.currentOffset - 4 else s.currentOffset })

/-- The loop of `lookupVariable` over the stack, innermost scope first. -/
def lookupIn : List (List (String × Symbol)) → String → Option Symbol
  | [], _ => none
  | sc :: outer, name =>
    match mapFind sc name with
    | some sym => some sym
    | none => lookupIn outer name

/-- Method `lookupVariable`; `none` is the null pointer. -/
def lookupVariable (s : Scope) (name : String) : Option Symbol :=
  lookupIn s.scopeStack name

/-- Method `resetOffset`. -/
def resetOffset (s : Scope) : Scope :=
  { s with currentOffset := 0 }

end Scope

/-! ## Semantic analyzer (`sematic/analyzer.cpp`) -/

/-- The fields of class `SemanticAnalyzer`. -/
structure SemanticAnalyzer where
  scope : Scope
  functions : List (String × FunctionInfo)
  errors : List String
  currentFunction : String
  loopDepth : Int
  hasReturn : Bool

namespace SemanticAnalyzer

/-- The constructor `SemanticAnalyzer()`. -/
def fresh : SemanticAnalyzer :=
  { scope := Scope.fresh, functions := [], errors := [], currentFunction := "",
    loopDepth := 0, hasReturn := false }

/-- Method `addError`. -/
def addError (a : SemanticAnalyzer) (message : String) : SemanticAnalyzer :=
  { a with errors := a.errors ++ [message] }

/-- Method `checkMainFunction`. -/
def checkMainFunction (a : SemanticAnalyzer) : Bool :=
  match mapFind a.functions "main" with
  | none => false
  | some mainFunc => decide (mainFunc.returnType = VType.INT) && mainFunc.paramTypes.isEmpty

mutual
/-- The `visit` overloads for expressions: `visit(NumberLiteral&)`, `visit(Identifier&)`,
`visit(UnaryExpression&)`, `visit(BinaryExpression&)`, `visit(FunctionCall&)`. -/
def visitExpr (a : SemanticAnalyzer) : Expr → SemanticAnalyzer × Expr
  | .number value => (a, .number value)
  | .ident name =>
    match a.scope.lookupVariable name with
    | none => (a.addError ("Undefined variable '" ++ name ++ "'"), .ident name)
    | some _ => (a, .ident name)
  | .unary op operand =>
    let r := visitExpr a operand
    (r.1, .unary op r.2)
  | .binary left op right =>
    let rl := visitExpr a left
    let rr := visitExpr rl.1 right
    (rr.1, .binary rl.2 op rr.2)
  | .call functionName arguments returnType =>
    match mapFind a.functions functionName with
    | none =>
      (a.addError ("Undefined function '" ++ functionName ++ "'"),
        .call functionName arguments returnType)
    | some funcInfo =>
      if arguments.length ≠ funcInfo.paramTypes.length then
        (a.addError ("Function '" ++ functionName ++ "' expects " ++
            toString funcInfo.paramTypes.length ++ " arguments, got " ++
            toString arguments.length),
          .call functionName arguments returnType)
      else
        let r := visitExprs a arguments
        (r.1, .call functionName r.2 funcInfo.returnType)
/-- The loop `for (auto& arg : node.arguments) arg->accept(*this)`. -/
def visitExprs (a : SemanticAnalyzer) : List Expr → SemanticAnalyzer × List Expr
  | [] => (a, [])
  | e :: es =>
    let r := visitExpr a e
    let rs := visitExprs r.1 es
    (rs.1, r.2 :: rs.2)
end

/-- The check of `visit(ReturnStatement&)` against the signature of `currentFunction`. -/
def checkReturn (a : SemanticAnalyzer) (hasValue : Bool) : SemanticAnalyzer :=
  match mapFind a.functions a.currentFunction with
  | none => a
  | some funcInfo =>
    if funcInfo.returnType = VType.VOID ∧ hasValue = true then
      a.addError "void function should not return a value"
    else if funcInfo.returnType = VType.INT ∧ hasValue = false then
      a.addError "non-void function must return a value"
    else a

mutual
/-- The `visit` overloads for statements. -/
def visitStmt (a : SemanticAnalyzer) : Stmt → SemanticAnalyzer × Stmt
  | .varDecl name initializer =>
    let d := a.scope.declareVariable name VType.INT false
    if d.1 = false then
      (({ a with scope := d.2 }).addError
          ("Variable '" ++ name ++ "' is already declared in this scope"),
        .varDecl name initializer)
    else
      match initializer with
      | none => ({ a with scope := d.2 }, .varDecl name none)
      | some e =>
        let r := visitExpr { a with scope := d.2 } e
        (r.1, .varDecl name (some r.2))
  | .assign varName value =>
    match a.scope.lookupVariable varName with
    | none => (a.addError ("Undefined variable '" ++ varName ++ "'"), .assign varName value)
    | some _ =>
      let r := visitExpr a value
      (r.1, .assign varName r.2)
  | .block statements =>
    let r := visitStmts { a with scope := a.scope.enterScope } statements
    ({ r.1 with scope := r.1.scope.exitScope }, .block r.2)
  | .ifS condition thenStatement elseStatement =>
    let rc := visitExpr a condition
    let rt := visitStmt rc.1 thenStatement
    let re := visitOptStmt rt.1 elseStatement
    (re.1, .ifS rc.2 rt.2 re.2)
  | .whileS condition body =>
    let rc := visitExpr a condition
    let rb := visitStmt { rc.1 with loopDepth := rc.1.loopDepth + 1 } body
    ({ rb.1 with loopDepth := rb.1.loopDepth - 1 }, .whileS rc.2 rb.2)
  | .breakS =>
    if a.loopDepth = 0 then (a.addError "break statement not within a loop", .breakS)
    else (a, .breakS)
  | .continueS =>
    if a.loopDepth = 0 then (a.addError "continue statement not within a loop", .continueS)
    else (a, .continueS)
  | .returnS value =>
    let a1 := checkReturn { a with hasReturn := true } value.isSome
    match value with
    | none => (a1, .returnS none)
    | some e =>
      let r := visitExpr a1 e
      (r.1, .returnS (some r.2))
  | .exprS expression =>
    let r := visitExpr a expression
    (r.1, .exprS r.2)
/-- The loop of `visit(Block&)` over the statements. -/
def visitStmts (a : SemanticAnalyzer) : List Stmt → SemanticAnalyzer × List Stmt
  | [] => (a, [])
  | s :: ss =>
    let r := visitStmt a s
    let rs := visitStmts r.1 ss
    (rs.1, r.2 :: rs.2)
/-- The guarded visit `if (node.elseStatement) node.elseStatement->accept(*this)`. -/
def visitOptStmt (a : SemanticAnalyzer) : Option Stmt → SemanticAnalyzer × Option Stmt
  | none => (a, none)
  | some s =>
    let r := visitStmt a s
    (r.1, some r.2)
end

/-- The parameter loop of `visit(FunctionDefinition&)`. -/
def declareParameters (a : SemanticAnalyzer) : List Parameter → SemanticAnalyzer
  | [] => a
  | param :: rest =>
    let d := a.scope.declareVariable param.name param.type true
    if d.1 = false then
      declareParameters
        (({ a with scope := d.2 }).addError
          ("Parameter '" ++ param.name ++ "' is already declared")) rest
    else declareParameters { a with scope := d.2 } rest

/-- The overload `visit(Block&)`, as it is reached through `node.body->accept(*this)`:
it returns the rewritten statement list. -/
def visitBlock (a : SemanticAnalyzer) (statements : List Stmt) :
    SemanticAnalyzer × List Stmt :=
  let r := visitStmts { a with scope := a.scope.enterScope } statements
  ({ r.1 with scope := r.1.scope.exitScope }, r.2)

/-- The overload `visit(FunctionDefinition&)`. -/
def visitFunction (a : SemanticAnalyzer) (node : FunctionDefinition) :
    SemanticAnalyzer × FunctionDefinition :=
  let a1 := { a with currentFunction := node.name, hasReturn := false }
  let a2 := { a1 with scope := a1.scope.enterScope.resetOffset }
  let a3 := declareParameters a2 node.parameters
  let r := visitBlock a3 node.body
  let a4 := if node.returnType = VType.INT ∧ r.1.hasReturn = false then
      r.1.addError ("Function '" ++ node.name ++ "' must return a value")
    else r.1
  ({ a4 with scope := a4.scope.exitScope }, { node with body := r.2 })

/-- The overload `visit(CompilationUnit&)`, as a loop over the functions. -/
def visitFunctions (a : SemanticAnalyzer) :
    List FunctionDefinition → SemanticAnalyzer × List FunctionDefinition
  | [] => (a, [])
  | f :: fs =>
    let r := visitFunction a f
    let rs := visitFunctions r.1 fs
    (rs.1, r.2 :: rs.2)

/-- The first loop of `analyze`: collect the function declarations. -/
def collectFunctions (a : SemanticAnalyzer) : List FunctionDefinition → SemanticAnalyzer
  | [] => a
  | func :: rest =>
    let paramTypes := func.parameters.map (fun param => param.type)
    match mapFind a.functions func.name with
    | some _ =>
      collectFunctions (a.addError ("Function '" ++ func.name ++ "' is already declared")) rest
    | none =>
      collectFunctions
        { a with functions :=
            mapSet a.functions func.name ⟨func.name, func.returnType, paramTypes, true⟩ }
        rest

/-- Method `analyze`: the returned flag, the analyzer afterwards, and the unit with the
`returnType` fields written by `visit(FunctionCall&)`. -/
def analyze (a : SemanticAnalyzer) (unit : CompilationUnit) :
    Bool × SemanticAnalyzer × CompilationUnit :=
  let a0 := { a with errors := [] }
  let a1 := collectFunctions a0 unit.functions
  let a2 := if checkMainFunction a1 then a1
    else a1.addError "Missing main function with signature: int main()"
  let r := visitFunctions a2 unit.functions
  (r.1.errors.isEmpty, r.1, { functions := r.2 })

end SemanticAnalyzer

/-! ## Register manager (`codegen/riscv.cpp`) -/

/-- The static vector `RegisterManager::tempRegs`. -/
def tempRegs : List String := ["t0", "t1", "t2", "t3", "t4", "t5", "t6"]

/-- The static vector `RegisterManager::savedRegs`. -/
def savedRegs : List String :=
  ["s0", "s1", "s2", "s3", "s4", "s5", "s6", "s7", "s8", "s9", "s10", "s11"]

/-- The class `RegisterManager`: `used` holds the flags of t0-t6, then s0-s11. -/
structure RegisterManager where
  used : List Bool
  deriving DecidableEq, Repr

namespace RegisterManager

/-- The constructor `RegisterManager()`. -/
def fresh : RegisterManager :=
  { used := List.replicate (tempRegs.length + savedRegs.length) false }

/-- The loop of `allocateTemp` over the indices still to try. -/
def allocateTempLoop (rm : RegisterManager) : List Nat → String × RegisterManager
  | [] => ("", rm)
  | i :: rest =>
    if rm.used.getD i false = false then
      (tempRegs.getD i "", { used := rm.used.set i true })
    else allocateTempLoop rm rest

/-- Method `allocateTemp`: the returned register name (`""` when none is free) and the pool
afterwards. -/
def allocateTemp (rm : RegisterManager) : String × RegisterManager :=
  allocateTempLoop rm (List.range tempRegs.length)

/-- The loop of `allocateSaved` over the indices still to try. -/
def allocateSavedLoop (rm : RegisterManager) : List Nat → String × RegisterManager
  | [] => ("", rm)
  | i :: rest =>
    let idx := tempRegs.length + i
    if rm.used.getD idx false = false then
      (savedRegs.getD i "", { used := rm.used.set idx true })
    else allocateSavedLoop rm rest

/-- Method `allocateSaved`. -/
def allocateSaved (rm : RegisterManager) : String × RegisterManager :=
  allocateSavedLoop rm (List.range savedRegs.length)

/-- Method `getRegisterIndex`: `-1` when `reg` is in neither vector. -/
def getRegisterIndex (reg : String) : Int :=
  if reg ∈ tempRegs then (tempRegs.indexOf reg : Int)
  else if reg ∈ savedRegs then ((tempRegs.length + savedRegs.indexOf reg : Nat) : Int)
  else -1

/-- Method `releaseRegister`. -/
def releaseRegister (rm : RegisterManager) (reg : String) : RegisterManager :=
  let idx := getRegisterIndex reg
  if idx ≥ 0 then { used := rm.used.set idx.toNat false } else rm

/-- The loop of `releaseAllTemp`. -/
def releaseAllTempLoop (rm : RegisterManager) : List Nat → RegisterManager
  | [] => rm
  | i :: rest => releaseAllTempLoop { used := rm.used.set i false } rest

/-- Method `releaseAllTemp`. -/
def releaseAllTemp (rm : RegisterManager) : RegisterManager :=
  releaseAllTempLoop rm (List.range tempRegs.length)

end RegisterManager

/-! ## Emitted lines -/

/-- The three-register mnemonics passed to `emit` by `visit(BinaryExpression&)` and
`visit(UnaryExpression&)`. -/
inductive ROp where
  | add | sub | mul | div | rem | slt
  deriving DecidableEq, Repr

/-- The mnemonic as written in the source. -/
def ROp.text : ROp → String
  | .add => "add"
  | .sub => "sub"
  | .mul => "mul"
  | .div => "div"
  | .rem => "rem"
  | .slt => "slt"

/-- An argument of `emit`, by shape; `Instr.text` gives the string itself. `raw` covers
the strings without operands (`.text`, `.globl main` and the empty separator line). -/
inductive Instr where
  | raw (s : String)
  | addi (rd rs : String) (imm : Int)
  | lui (rd : String) (imm : Int)
  | lw (rd : String) (offset : Int) (base : String)
  | sw (rs : String) (offset : Int) (base : String)
  | op3 (op : ROp) (rd rs1 rs2 : String)
  | xori (rd rs : String) (imm : Int)
  | seqz (rd rs : String)
  | snez (rd rs : String)
  | mv (rd rs : String)
  | beqz (rs label : String)
  | bnez (rs label : String)
  | j (label : String)
  | jr (rs : String)
  | call (name : String)
  deriving DecidableEq, Repr

/-- The string passed to `emit`; `std::to_string` of an `int` is `toString` of an `Int`. -/
def Instr.text : Instr → String
  | .raw s => s
  | .addi rd rs imm => "addi " ++ rd ++ ", " ++ rs ++ ", " ++ toString imm
  | .lui rd imm => "lui " ++ rd ++ ", " ++ toString imm
  | .lw rd offset base => "lw " ++ rd ++ ", " ++ toString offset ++ "(" ++ base ++ ")"
  | .sw rs offset base => "sw " ++ rs ++ ", " ++ toString offset ++ "(" ++ base ++ ")"
  | .op3 op rd rs1 rs2 => op.text ++ " " ++ rd ++ ", " ++ rs1 ++ ", " ++ rs2
  | .xori rd rs imm => "xori " ++ rd ++ ", " ++ rs ++ ", " ++ toString imm
  | .seqz rd rs => "seqz " ++ rd ++ ", " ++ rs
  | .snez rd rs => "snez " ++ rd ++ ", " ++ rs
  | .mv rd rs => "mv " ++ rd ++ ", " ++ rs
  | .beqz rs label => "beqz " ++ rs ++ ", " ++ label
  | .bnez rs label => "bnez " ++ rs ++ ", " ++ label
  | .j label => "j " ++ label
  | .jr rs => "jr " ++ rs
  | .call name => "call " ++ name

/-- One line of the output stream: written by `emit`, `emitLabel` or `emitComment`. -/
inductive Line where
  | instr (i : Instr)
  | label (l : String)
  | comment (c : String)
  deriving DecidableEq, Repr

/-- The characters written for a line, without the final newline. -/
def Line.render : Line → String
  | .instr i => "    " ++ i.text
  | .label l => l ++ ":"
  | .comment c => "    # " ++ c

/-- The labels of the label lines of an output, in order. -/
def labelsOf : List Line → List String
  | [] => []
  | .label l :: rest => l :: labelsOf rest
  | _ :: rest => labelsOf rest

/-- The instructions of an output, in order (label and comment lines dropped). -/
def instrsOf : List Line → List Instr
  | [] => []
  | .instr i :: rest => i :: instrsOf rest
  | _ :: rest => instrsOf rest

/-! ## 32-bit integer operations -/

/-- The value of a C++ `int` computation that leaves the 32-bit range, taken with
two-complement wrap-around. -/
def wrap32 (x : Int) : Int := (x + 2147483648) % 4294967296 - 2147483648

/-- The 32-bit pattern of an `int`, as a natural number below `2^32`. -/
def toU32 (x : Int) : Nat := (x % 4294967296).toNat

/-- The `int` with a given 32-bit pattern. -/
def ofU32 (n : Nat) : Int := if n < 2147483648 then (n : Int) else (n : Int) - 4294967296

/-- The C++ operator `&` on two `int`s. -/
def and32 (x y : Int) : Int := ofU32 (toU32 x &&& toU32 y)

/-- The C++ operator `~` on an `int`. -/
def not32 (x : Int) : Int := ofU32 (4294967295 - toU32 x)

/-! ## Code generator (`codegen/riscv.cpp`) -/

/-- The fields of class `RISCVCodeGenerator`. `output` is the stream as a list of lines;
`breakLabels` and `continueLabels` have their `back()` at the head; `labelCounter` starts
at 0 and is only incremented, so it is a natural number. -/
structure RISCVCodeGenerator where
  output : List Line
  regManager : RegisterManager
  symbolTable : List (String × Symbol)
  functionTable : List (String × FunctionInfo)
  labelCounter : Nat
  currentFrameSize : Int
  currentFunction : String
  breakLabels : List String
  continueLabels : List String

namespace RISCVCodeGenerator

/-- The constructor `RISCVCodeGenerator()`. -/
def fresh : RISCVCodeGenerator :=
  { output := [], regManager := RegisterManager.fresh, symbolTable := [],
    functionTable := [], labelCounter := 0, currentFrameSize := 0, currentFunction := "",
    breakLabels := [], continueLabels := [] }

/-- Method `newLabel`: the label and the generator with the counter incremented. -/
def newLabel (g : RISCVCodeGenerator) (pfx : String) : String × RISCVCodeGenerator :=
  (pfx ++ toString g.labelCounter, { g with labelCounter := g.labelCounter + 1 })

/-- Method `emit`. -/
def emit (g : RISCVCodeGenerator) (instruction : Instr) : RISCVCodeGenerator :=
  { g with output := g.output ++ [Line.instr instruction] }

/-- Method `emitLabel`. -/
def emitLabel (g : RISCVCodeGenerator) (label : String) : RISCVCodeGenerator :=
  { g with output := g.output ++ [Line.label label] }

/-- Method `emitComment`. -/
def emitComment (g : RISCVCodeGenerator) (comment : String) : RISCVCodeGenerator :=
  { g with output := g.output ++ [Line.comment comment] }

/-- Method `allocateTemp` of the member `regManager`: the register and the generator with
the updated pool. -/
def allocTemp (g : RISCVCodeGenerator) : String × RISCVCodeGenerator :=
  let r := g.regManager.allocateTemp
  (r.1, { g with regManager := r.2 })

/-- Method `releaseRegister` of the member `regManager`. -/
def release (g : RISCVCodeGenerator) (reg : String) : RISCVCodeGenerator :=
  { g with regManager := g.regManager.releaseRegister reg }

/-- Method `loadImmediate` (its return value is the argument `reg`). The sum
`value + 0x800` is taken with 32-bit wrap-around and `>>` on a negative `int` is the
arithmetic shift. -/
def loadImmediate (g : RISCVCodeGenerator) (value : Int) (reg : String) :
    RISCVCodeGenerator :=
  if value ≥ -2048 ∧ value ≤ 2047 then
    g.emit (.addi reg "zero" value)
  else
    let upper := wrap32 (value + 0x800) >>> (12 : Nat)
    let lower := and32 value 0xfff
    let lower := if lower ≥ 2048 then lower - 4096 else lower
    let g1 := g.emit (.lui reg upper)
    if lower ≠ 0 then g1.emit (.addi reg reg lower) else g1

/-- Method `generateFunctionPrologue`. The operand `"-" + std::to_string(frameSize)` is
the text of `-frameSize` for the positive frame sizes that occur. -/
def generateFunctionPrologue (g : RISCVCodeGenerator) (funcName : String)
    (frameSize : Int) : RISCVCodeGenerator :=
  let g := g.emitComment ("Function: " ++ funcName)
  let g := g.emit (.addi "sp" "sp" (-frameSize))
  let g := g.emit (.sw "ra" (frameSize - 4) "sp")
  let g := g.emit (.sw "fp" (frameSize - 8) "sp")
  g.emit (.addi "fp" "sp" frameSize)

/-- Method `generateFunctionEpilogue`. -/
def generateFunctionEpilogue (g : RISCVCodeGenerator) : RISCVCodeGenerator :=
  let g := g.emit (.lw "ra" (g.currentFrameSize - 4) "sp")
  let g := g.emit (.lw "fp" (g.currentFrameSize - 8) "sp")
  let g := g.emit (.addi "sp" "sp" g.currentFrameSize)
  g.emit (.jr "ra")

/-- Method `saveRegisters`. -/
def saveRegisters (g : RISCVCodeGenerator) : List String → RISCVCodeGenerator
  | [] => g
  | reg :: rest =>
    saveRegisters ((g.emit (.addi "sp" "sp" (-4))).emit (.sw reg 0 "sp")) rest

/-- The loop of `restoreRegisters` over the registers in the order visited. -/
def restoreLoop (g : RISCVCodeGenerator) : List String → RISCVCodeGenerator
  | [] => g
  | reg :: rest =>
    restoreLoop ((g.emit (.lw reg 0 "sp")).emit (.addi "sp" "sp" 4)) rest

/-- Method `restoreRegisters`: the loop runs from `rbegin()` to `rend()`. -/
def restoreRegisters (g : RISCVCodeGenerator) (regs : List String) : RISCVCodeGenerator :=
  restoreLoop g regs.reverse

mutual
/-- The body of the loop of `collectLocalVariables` for one statement: the generator (its
`symbolTable` is written), the map `locals` and the running `offset`. -/
def collectLocalStmt (g : RISCVCodeGenerator) (locals : List (String × Int)) (offset : Int) :
    Stmt → RISCVCodeGenerator × List (String × Int) × Int
  | .varDecl name _ =>
    let offset := offset - 4
    ({ g with symbolTable := mapSet g.symbolTable name ⟨name, VType.INT, offset, false⟩ },
      mapSet locals name offset, offset)
  | .block statements => collectLocalVariables g locals offset statements
  | _ => (g, locals, offset)
/-- Method `collectLocalVariables`. -/
def collectLocalVariables (g : RISCVCodeGenerator) (locals : List (String × Int))
    (offset : Int) : List Stmt → RISCVCodeGenerator × List (String × Int) × Int
  | [] => (g, locals, offset)
  | stmt :: rest =>
    let r := collectLocalStmt g locals offset stmt
    collectLocalVariables r.1 r.2.1 r.2.2 rest
end

/-- Method `calculateFrameSize`: the frame size and the generator, whose `symbolTable`
has been filled by `collectLocalVariables`. -/
def calculateFrameSize (g : RISCVCodeGenerator) (_params : List Parameter)
    (body : List Stmt) : Int × RISCVCodeGenerator :=
  let r := collectLocalVariables g [] 0 body
  let size := 8 + (-r.2.2)
  (and32 (size + 7) (not32 7), r.1)

/-- The local vector `callerSaved` of `visit(FunctionCall&)`. -/
def callerSaved : List String := ["t0", "t1", "t2", "t3", "t4", "t5", "t6"]

/-- The `switch` of `visit(BinaryExpression&)` on the operator, with `leftReg = "t0"` and
`rightReg = "t1"`. -/
def genBinaryOp (g : RISCVCodeGenerator) (op : BinOp) (resultReg : String) :
    RISCVCodeGenerator :=
  let leftReg := "t0"
  let rightReg := "t1"
  match op with
  | .ADD => g.emit (.op3 .add resultReg leftReg rightReg)
  | .SUB => g.emit (.op3 .sub resultReg leftReg rightReg)
  | .MUL => g.emit (.op3 .mul resultReg leftReg rightReg)
  | .DIV => g.emit (.op3 .div resultReg leftReg rightReg)
  | .MOD => g.emit (.op3 .rem resultReg leftReg rightReg)
  | .LT => g.emit (.op3 .slt resultReg leftReg rightReg)
  | .LE => (g.emit (.op3 .slt resultReg rightReg leftReg)).emit (.xori resultReg resultReg 1)
  | .GT => g.emit (.op3 .slt resultReg rightReg leftReg)
  | .GE => (g.emit (.op3 .slt resultReg leftReg rightReg)).emit (.xori resultReg resultReg 1)
  | .EQ => (g.emit (.op3 .sub resultReg leftReg rightReg)).emit (.seqz resultReg resultReg)
  | .NE => (g.emit (.op3 .sub resultReg leftReg rightReg)).emit (.snez resultReg resultReg)
  | .AND =>
    let falseLabel := g.newLabel "and_false"
    let endLabel := falseLabel.2.newLabel "and_end"
    let g := endLabel.2.emit (.beqz leftReg falseLabel.1)
    let g := g.emit (.beqz rightReg falseLabel.1)
    let g := g.loadImmediate 1 resultReg
    let g := g.emit (.j endLabel.1)
    let g := g.emitLabel falseLabel.1
    let g := g.loadImmediate 0 resultReg
    g.emitLabel endLabel.1
  | .OR =>
    let trueLabel := g.newLabel "or_true"
    let endLabel := trueLabel.2.newLabel "or_end"
    let g := endLabel.2.emit (.bnez leftReg trueLabel.1)
    let g := g.emit (.bnez rightReg trueLabel.1)
    let g := g.loadImmediate 0 resultReg
    let g := g.emit (.j endLabel.1)
    let g := g.emitLabel trueLabel.1
    let g := g.loadImmediate 1 resultReg
    g.emitLabel endLabel.1

/-- The `switch` of `visit(UnaryExpression&)` on the operator, with `operandReg = "t0"`. -/
def genUnaryOp (g : RISCVCodeGenerator) (op : UnOp) (resultReg : String) :
    RISCVCodeGenerator :=
  let operandReg := "t0"
  match op with
  | .PLUS => g.emit (.mv resultReg operandReg)
  | .MINUS => g.emit (.op3 .sub resultReg "zero" operandReg)
  | .NOT => g.emit (.seqz resultReg operandReg)

mutual
/-- The `visit` overloads of the generator for expressions. -/
def genExpr (g : RISCVCodeGenerator) : Expr → RISCVCodeGenerator
  | .number value =>
    let reg := g.allocTemp
    reg.2.loadImmediate value reg.1
  | .ident name =>
    match mapFind g.symbolTable name with
    | some symbol =>
      let reg := g.allocTemp
      reg.2.emit (.lw reg.1 symbol.offset "fp")
    | none => g
  | .binary left op right =>
    let g := genExpr g left
    let g := genExpr g right
    let resultReg := g.allocTemp
    let g := genBinaryOp resultReg.2 op resultReg.1
    (g.release "t0").release "t1"
  | .unary op operand =>
    let g := genExpr g operand
    let resultReg := g.allocTemp
    let g := genUnaryOp resultReg.2 op resultReg.1
    g.release "t0"
  | .call functionName arguments returnType =>
    let g := g.saveRegisters callerSaved
    let g := genArgs g 0 arguments
    let g := g.emit (.call functionName)
    let g := g.restoreRegisters callerSaved
    if returnType = VType.INT then
      let resultReg := g.allocTemp
      resultReg.2.emit (.mv resultReg.1 "a0")
    else g
/-- The argument loop of `visit(FunctionCall&)`, from index `i` on:
`for (i = 0; i < arguments.size() && i < 8; ++i)`. -/
def genArgs (g : RISCVCodeGenerator) (i : Nat) : List Expr → RISCVCodeGenerator
  | [] => g
  | arg :: rest =>
    if i < 8 then
      let g := genExpr g arg
      let g := g.emit (.mv ("a" ++ toString i) "t0")
      genArgs g (i + 1) rest
    else g
end

/-- The part of `visit(ReturnStatement&)` shared by both cases. -/
def genReturnValue (g : RISCVCodeGenerator) : Option Expr → RISCVCodeGenerator
  | none => g
  | some value => (genExpr g value).emit (.mv "a0" "t0")

mutual
/-- The `visit` overloads of the generator for statements. -/
def genStmt (g : RISCVCodeGenerator) : Stmt → RISCVCodeGenerator
  | .assign varName value =>
    let g := genExpr g value
    let valueReg := "t0"
    let g := match mapFind g.symbolTable varName with
      | some symbol => g.emit (.sw valueReg symbol.offset "fp")
      | none => g
    g.release valueReg
  | .varDecl name initializer =>
    match initializer with
    | some init =>
      let g := genExpr g init
      let valueReg := "t0"
      let g := match mapFind g.symbolTable name with
        | some symbol => g.emit (.sw valueReg symbol.offset "fp")
        | none => g
      g.release valueReg
    | none => g
  | .block statements => genStmts g statements
  | .ifS condition thenStatement elseStatement =>
    let elseLabel := g.newLabel "if_else"
    let endLabel := elseLabel.2.newLabel "if_end"
    let g := genExpr endLabel.2 condition
    let condReg := "t0"
    let g := g.emit (.beqz condReg (if elseStatement.isSome then elseLabel.1 else endLabel.1))
    let g := g.release condReg
    let g := genStmt g thenStatement
    let g := match elseStatement with
      | some els =>
        let g := g.emit (.j endLabel.1)
        let g := g.emitLabel elseLabel.1
        genStmt g els
      | none => g
    g.emitLabel endLabel.1
  | .whileS condition body =>
    let loopLabel := g.newLabel "while_loop"
    let endLabel := loopLabel.2.newLabel "while_end"
    let g := { endLabel.2 with
      breakLabels := endLabel.1 :: endLabel.2.breakLabels,
      continueLabels := loopLabel.1 :: endLabel.2.continueLabels }
    let g := g.emitLabel loopLabel.1
    let g := genExpr g condition
    let condReg := "t0"
    let g := g.emit (.beqz condReg endLabel.1)
    let g := g.release condReg
    let g := genStmt g body
    let g := g.emit (.j loopLabel.1)
    let g := g.emitLabel endLabel.1
    { g with breakLabels := g.breakLabels.tail, continueLabels := g.continueLabels.tail }
  | .breakS =>
    match g.breakLabels with
    | [] => g
    | top :: _ => g.emit (.j top)
  | .continueS =>
    match g.continueLabels with
    | [] => g
    | top :: _ => g.emit (.j top)
  | .returnS value => (genReturnValue g value).generateFunctionEpilogue
  | .exprS expression =>
    let g := genExpr g expression
    { g with regManager := g.regManager.releaseAllTemp }
/-- The overload `visit(Block&)` of the generator, as a loop over the statements. -/
def genStmts (g : RISCVCodeGenerator) : List Stmt → RISCVCodeGenerator
  | [] => g
  | stmt :: rest => genStmts (genStmt g stmt) rest
end

/-- The parameter loop of the generator's `visit(FunctionDefinition&)`. -/
def addParameters (g : RISCVCodeGenerator) (paramOffset : Int) :
    List Parameter → RISCVCodeGenerator
  | [] => g
  | param :: rest =>
    addParameters
      { g with symbolTable :=
          mapSet g.symbolTable param.name ⟨param.name, param.type, paramOffset, true⟩ }
      (paramOffset + 4) rest

/-- The overload `visit(FunctionDefinition&)` of the generator. -/
def genFunction (g : RISCVCodeGenerator) (node : FunctionDefinition) : RISCVCodeGenerator :=
  let g := { g with currentFunction := node.name, symbolTable := [] }
  let fs := g.calculateFrameSize node.parameters node.body
  let g := { fs.2 with currentFrameSize := fs.1 }
  let g := g.emitLabel node.name
  let g := g.generateFunctionPrologue node.name g.currentFrameSize
  let g := addParameters g 8 node.parameters
  let g := genStmts g node.body
  let g := if node.returnType = VType.VOID then g.generateFunctionEpilogue else g
  g.emit (.raw "")

/-- The overload `visit(CompilationUnit&)` of the generator. -/
def genFunctions (g : RISCVCodeGenerator) : List FunctionDefinition → RISCVCodeGenerator
  | [] => g
  | func :: rest => genFunctions (genFunction g func) rest

/-- Method `generate`: the generator afterwards; its `output` is the returned text. -/
def generate (g : RISCVCodeGenerator) (unit : CompilationUnit)
    (functions : List (String × FunctionInfo)) : RISCVCodeGenerator :=
  let g := { g with functionTable := functions, output := [] }
  let g := g.emit (.raw ".text")
  let g := g.emit (.raw ".globl main")
  let g := g.emitComment "ToyC Compiler Generated Code"
  genFunctions g unit.functions

end RISCVCodeGenerator

/-- The function table built by the driver (`main.cpp`) from the AST for `generate`. -/
def buildFunctionTable (table : List (String × FunctionInfo)) :
    List FunctionDefinition → List (String × FunctionInfo)
  | [] => table
  | func :: rest =>
    buildFunctionTable
      (mapSet table func.name
        ⟨func.name, func.returnType, func.parameters.map (fun param => param.type), true⟩)
      rest

/-- The pipeline of the driver after parsing: analyze with a fresh analyzer and, when
that succeeds, generate with a fresh generator from the analysed unit. -/
def compile (unit : CompilationUnit) : Option (List Line) :=
  let r := SemanticAnalyzer.fresh.analyze unit
  if r.1 then
    some (RISCVCodeGenerator.fresh.generate r.2.2
      (buildFunctionTable [] r.2.2.functions)).output
  else none

/-! ## Definitions used in the statements

The instruction semantics of the immediate loads, the notions the claims are phrased in
(visible names, call nodes, return statements, frame alignment), and the predicates of the
proofs. -/

/-- RV32I register read: a register file maps register names to signed 32-bit values, and
`zero` always reads 0. -/
def readReg (rf : String → Int) (r : String) : Int :=
  if r = "zero" then 0 else rf r

/-- RV32I register write: the value is truncated to 32 bits; writes to `zero` are dropped. -/
def writeReg (rf : String → Int) (r : String) (v : Int) : String → Int :=
  fun x => if x = r ∧ r ≠ "zero" then wrap32 v else rf x

/-- RV32I semantics of the two instructions that `loadImmediate` emits. `addi rd, rs, imm`
needs a 12-bit signed immediate and sets `rd` to `rs + imm`; `lui rd, imm` needs an
immediate that fits the 20-bit field (read as signed or unsigned) and sets `rd` to
`imm << 12`. The result is `none` for an immediate out of range and for every other
instruction. -/
def execImm : Instr → (String → Int) → Option (String → Int)
  | .addi rd rs imm, rf =>
    if -2048 ≤ imm ∧ imm ≤ 2047 then some (writeReg rf rd (readReg rf rs + imm)) else none
  | .lui rd imm, rf =>
    if -524288 ≤ imm ∧ imm ≤ 1048575 then some (writeReg rf rd (imm * 4096)) else none
  | _, _ => none

/-- Execution of a sequence of such instructions, in order. -/
def execImms : List Instr → (String → Int) → Option (String → Int)
  | [], rf => some rf
  | i :: rest, rf =>
    match execImm i rf with
    | some rf1 => execImms rest rf1
    | none => none

mutual
/-- The number of `VarDecl` statements inside a statement, at any nesting depth: in
nested blocks and in the branches and bodies of `if` and `while`. -/
def countVarDecls : Stmt → Nat
  | .varDecl _ _ => 1
  | .block statements => countVarDeclsList statements
  | .ifS _ thenStatement elseStatement =>
    countVarDecls thenStatement + countVarDeclsOpt elseStatement
  | .whileS _ body => countVarDecls body
  | _ => 0
/-- The sum of `countVarDecls` over a statement list. -/
def countVarDeclsList : List Stmt → Nat
  | [] => 0
  | s :: rest => countVarDecls s + countVarDeclsList rest
/-- The count for an optional statement. -/
def countVarDeclsOpt : Option Stmt → Nat
  | none => 0
  | some s => countVarDecls s
end

mutual
/-- The number of `VarDecl` statements that `collectLocalVariables` reaches: those of the
block itself and of blocks nested directly in blocks. -/
def countBlockDecls : Stmt → Nat
  | .varDecl _ _ => 1
  | .block statements => countBlockDeclsList statements
  | _ => 0
/-- The sum of `countBlockDecls` over a statement list. -/
def countBlockDeclsList : List Stmt → Nat
  | [] => 0
  | s :: rest => countBlockDecls s + countBlockDeclsList rest
end

/-- The smallest multiple of `k` that is at least `x` (for `k > 0`). -/
def alignUp (x k : Int) : Int := (x + k - 1) / k * k

mutual
/-- Every `Ident` of the expression names a member of `vis`. -/
def resolvesExpr (vis : List String) : Expr → Bool
  | .number _ => true
  | .ident name => decide (name ∈ vis)
  | .unary _ operand => resolvesExpr vis operand
  | .binary left _ right => resolvesExpr vis left && resolvesExpr vis right
  | .call _ arguments _ => resolvesExprs vis arguments
/-- The same for a list of expressions. -/
def resolvesExprs (vis : List String) : List Expr → Bool
  | [] => true
  | e :: es => resolvesExpr vis e && resolvesExprs vis es
end

mutual
/-- The `Call` nodes of an expression: callee name, number of arguments, `returnType`. -/
def callsOfExpr : Expr → List (String × Nat × VType)
  | .number _ => []
  | .ident _ => []
  | .unary _ operand => callsOfExpr operand
  | .binary left _ right => callsOfExpr left ++ callsOfExpr right
  | .call functionName arguments returnType =>
    (functionName, arguments.length, returnType) :: callsOfExprs arguments
/-- The `Call` nodes of a list of expressions. -/
def callsOfExprs : List Expr → List (String × Nat × VType)
  | [] => []
  | e :: es => callsOfExpr e ++ callsOfExprs es
end

/-- The callee of a `Call` node is in the table with that arity and return type. -/
def CallOK (fns : List (String × FunctionInfo)) (c : String × Nat × VType) : Prop :=
  ∃ info, mapFind fns c.1 = some info ∧ c.2.1 = info.paramTypes.length ∧
    c.2.2 = info.returnType

/-- The names that `lookupVariable` finds are all in `vis`. -/
def ScopeWithin (s : Scope) (vis : List String) : Prop :=
  ∀ x, (s.lookupVariable x).isSome = true → x ∈ vis

mutual
/-- The names a statement declares into the block that contains it: a `VarDecl` itself, or
one that is (a branch of an `if` or the body of a `while`, nested) without a block of its
own. -/
def declaredBy : Stmt → List String
  | .varDecl name _ => [name]
  | .ifS _ thenStatement elseStatement => declaredByOpt elseStatement ++ declaredBy thenStatement
  | .whileS _ body => declaredBy body
  | _ => []
/-- The same for an optional statement. -/
def declaredByOpt : Option Stmt → List String
  | none => []
  | some s => declaredBy s
end

/-- Every `Ident` of an optional expression names a member of `vis`. -/
def resolvesOptExpr (vis : List String) : Option Expr → Bool
  | none => true
  | some e => resolvesExpr vis e

mutual
/-- Every `Ident` and `Assign` target of the statement names a member of the names visible
at its place: `vis` at the start of the statement, extended by the declarations that
precede the use in the same block or an enclosing one (a declaration is visible in its own
initializer; the declarations of a nested block end with the block). -/
def resolvesStmt (vis : List String) : Stmt → Bool
  | .varDecl name initializer => resolvesOptExpr (name :: vis) initializer
  | .assign varName value => decide (varName ∈ vis) && resolvesExpr vis value
  | .block statements => resolvesStmts vis statements
  | .ifS condition thenStatement elseStatement =>
    resolvesExpr vis condition && resolvesStmt vis thenStatement &&
      resolvesOptStmt (declaredBy thenStatement ++ vis) elseStatement
  | .whileS condition body => resolvesExpr vis condition && resolvesStmt vis body
  | .breakS => true
  | .continueS => true
  | .returnS value => resolvesOptExpr vis value
  | .exprS expression => resolvesExpr vis expression
/-- The statements of a block in order, each seeing the declarations before it. -/
def resolvesStmts (vis : List String) : List Stmt → Bool
  | [] => true
  | s :: rest => resolvesStmt vis s && resolvesStmts (declaredBy s ++ vis) rest
/-- The same for an optional statement. -/
def resolvesOptStmt (vis : List String) : Option Stmt → Bool
  | none => true
  | some s => resolvesStmt vis s
end

/-- The `Call` nodes of an optional expression. -/
def callsOfOptExpr : Option Expr → List (String × Nat × VType)
  | none => []
  | some e => callsOfExpr e

mutual
/-- The `Call` nodes of a statement. -/
def callsOfStmt : Stmt → List (String × Nat × VType)
  | .varDecl _ initializer => callsOfOptExpr initializer
  | .assign _ value => callsOfExpr value
  | .block statements => callsOfStmts statements
  | .ifS condition thenStatement elseStatement =>
    callsOfExpr condition ++ callsOfStmt thenStatement ++ callsOfOptStmt elseStatement
  | .whileS condition body => callsOfExpr condition ++ callsOfStmt body
  | .breakS => []
  | .continueS => []
  | .returnS value => callsOfOptExpr value
  | .exprS expression => callsOfExpr expression
/-- The `Call` nodes of a statement list. -/
def callsOfStmts : List Stmt → List (String × Nat × VType)
  | [] => []
  | s :: rest => callsOfStmt s ++ callsOfStmts rest
/-- The `Call` nodes of an optional statement. -/
def callsOfOptStmt : Option Stmt → List (String × Nat × VType)
  | none => []
  | some s => callsOfStmt s
end

mutual
/-- The `Return` statements inside a statement at any depth, in order: `true` for one that
carries a value. -/
def returnValues : Stmt → List Bool
  | .block statements => returnValuesList statements
  | .ifS _ thenStatement elseStatement =>
    returnValues thenStatement ++ returnValuesOpt elseStatement
  | .whileS _ body => returnValues body
  | .returnS value => [value.isSome]
  | _ => []
/-- The `Return` statements of a statement list. -/
def returnValuesList : List Stmt → List Bool
  | [] => []
  | s :: rest => returnValues s ++ returnValuesList rest
/-- The `Return` statements of an optional statement. -/
def returnValuesOpt : Option Stmt → List Bool
  | none => []
  | some s => returnValues s
end

/-- The conjunction of what a visit leaves unchanged in the analyzer. -/
structure StmtFrame (a b : SemanticAnalyzer) (rets : List Bool) : Prop where
  errors : ∃ l, b.errors = a.errors ++ l
  functions : b.functions = a.functions
  currentFunction : b.currentFunction = a.currentFunction
  loopDepth : b.loopDepth = a.loopDepth
  hasReturn : b.hasReturn = (a.hasReturn || !rets.isEmpty)
  stack : ∀ top rest, a.scope.scopeStack = top :: rest →
    ∃ top1, b.scope.scopeStack = top1 :: rest

/-- Every `Return` of the list agrees with the return type recorded for function `cur`. -/
def ReturnsOK (fns : List (String × FunctionInfo)) (cur : String) (rets : List Bool) : Prop :=
  ∀ info, mapFind fns cur = some info → ∀ b ∈ rets,
    (info.returnType = VType.VOID → b = false) ∧ (info.returnType = VType.INT → b = true)

/-- What acceptance of a statement gives. -/
structure StmtOK (a : SemanticAnalyzer) (vis : List String) (resolved : Bool)
    (calls : List (String × Nat × VType)) (rets : List Bool) : Prop where
  resolves : resolved = true
  calls : ∀ c ∈ calls, CallOK a.functions c
  returns : ReturnsOK a.functions a.currentFunction rets

/-- The `Call` nodes of a list of function definitions. -/
def callsOfFunctions : List FunctionDefinition → List (String × Nat × VType)
  | [] => []
  | f :: rest => callsOfStmts f.body ++ callsOfFunctions rest

/-- The entry that `analyze` stores in the function table for a definition. -/
def infoOf (f : FunctionDefinition) : FunctionInfo :=
  ⟨f.name, f.returnType, f.parameters.map (fun param => param.type), true⟩

/-- What `visit(FunctionDefinition&)` leaves unchanged. -/
structure FunFrame (a b : SemanticAnalyzer) : Prop where
  errors : ∃ l, b.errors = a.errors ++ l
  functions : b.functions = a.functions
  loopDepth : b.loopDepth = a.loopDepth
  stack : ∀ top rest, a.scope.scopeStack = top :: rest → b.scope.scopeStack = top :: rest

/-- What acceptance of a function definition gives. -/
structure FunOK (fns : List (String × FunctionInfo)) (vis : List String)
    (f : FunctionDefinition) : Prop where
  resolves : resolvesStmts (f.parameters.map (fun p => p.name) ++ vis) f.body = true
  returns : ReturnsOK fns f.name (returnValuesList f.body)
  hasReturn : f.returnType = VType.INT → returnValuesList f.body ≠ []

/-- The `Call` nodes of a compilation unit. -/
def callsOfUnit (u : CompilationUnit) : List (String × Nat × VType) :=
  callsOfFunctions u.functions

/-- What `analyze` returning `true` on a fresh analyzer gives. -/
structure Accepted (u : CompilationUnit) : Prop where
  nodup : (u.functions.map (fun f => f.name)).Nodup
  table : ∀ f ∈ u.functions,
    mapFind (SemanticAnalyzer.fresh.analyze u).2.1.functions f.name = some (infoOf f)
  tableOnly : ∀ x info, mapFind (SemanticAnalyzer.fresh.analyze u).2.1.functions x = some info →
    ∃ f ∈ u.functions, f.name = x ∧ info = infoOf f
  main : ∃ f ∈ u.functions, f.name = "main" ∧ f.returnType = VType.INT ∧ f.parameters = []
  funs : ∀ f ∈ u.functions, FunOK (SemanticAnalyzer.fresh.analyze u).2.1.functions [] f
  calls : ∀ c ∈ callsOfUnit (SemanticAnalyzer.fresh.analyze u).2.2,
    CallOK (SemanticAnalyzer.fresh.analyze u).2.1.functions c
  names : (SemanticAnalyzer.fresh.analyze u).2.2.functions.map (fun f => f.name)
    = u.functions.map (fun f => f.name)

/-- A `Call` node without its `returnType` field. -/
def callSite (c : String × Nat × VType) : String × Nat := (c.1, c.2.1)

/-- The prefixes passed to `newLabel` in the source. -/
def labelPrefixes : List String :=
  ["if_else", "if_end", "while_loop", "while_end", "and_false", "and_end", "or_true", "or_end"]

/-- The number written by a list of decimal digits. -/
def digitsValue (cs : List Char) : Nat :=
  cs.foldl (fun acc c => acc * 10 + (c.toNat - 48)) 0

/-- The labels of the label lines written so far. -/
def labelsOut (g : RISCVCodeGenerator) : List String := labelsOf g.output

/-- A label made by `newLabel` while the counter was in `[lo, hi)`. -/
def GenLabel (lo hi : Nat) (l : String) : Prop :=
  ∃ p ∈ labelPrefixes, ∃ n, lo ≤ n ∧ n < hi ∧ l = p ++ toString n

/-- Pairwise distinct labels, all made while the counter was in `[lo, hi)`. -/
def Fresh (lo hi : Nat) (ls : List String) : Prop :=
  ls.Nodup ∧ ∀ l ∈ ls, GenLabel lo hi l

/-- A step of the generator: it writes the label lines `ls`, in this order, and advances
the label counter by `k`. -/
structure Out (g g1 : RISCVCodeGenerator) (ls : List String) (k : Nat) : Prop where
  labels : labelsOut g1 = labelsOut g ++ ls
  counter : g1.labelCounter = g.labelCounter + k

/-- A step of the generator that writes no label line and makes no label. -/
def Silent (g g1 : RISCVCodeGenerator) : Prop := Out g g1 [] 0

/-- A step of the generator: the label lines it writes are pairwise distinct labels made
during the step. -/
def Gen (g g1 : RISCVCodeGenerator) : Prop :=
  ∃ ls k, Out g g1 ls k ∧ Fresh g.labelCounter (g.labelCounter + k) ls

/-- A unit whose function `if_else0` has the name of the label that `newLabel` makes for
the first `if` of `main`. -/
def unitLabelClash : CompilationUnit :=
  ⟨[⟨"if_else0", .INT, [], [.returnS (some (.number 0))]⟩,
    ⟨"main", .INT, [],
      [.ifS (.number 1) (.block []) (some (.block [])), .returnS (some (.number 0))]⟩]⟩

/-- The unit `int main(){ if (1) { int x = 1; x = 2; return x; } return 0; }`. -/
def unitIfLocal : CompilationUnit :=
  ⟨[⟨"main", .INT, [],
      [.ifS (.number 1)
          (.block [.varDecl "x" (some (.number 1)), .assign "x" (.number 2),
            .returnS (some (.ident "x"))]) none,
        .returnS (some (.number 0))]⟩]⟩

/-- The unit `int main(){ int x=1; { int x=2; } return x; }`. -/
def unitShadow : CompilationUnit :=
  ⟨[⟨"main", .INT, [],
      [.varDecl "x" (some (.number 1)), .block [.varDecl "x" (some (.number 2))],
        .returnS (some (.ident "x"))]⟩]⟩

/-- A unit with three functions, parameters, a nested block, a loop, both branches of an
`if`, a `break` and two calls:
`int add(int a, int b){ return a + b; }  void noop(){ return; }
 int main(){ int x = 1; { int x = 2; }
   while (x < 3) { if (x == 2) { break; } else { x = add(x, 1); } }
   noop(); return x; }`.
The `returnType` fields of the two calls are those the parser cannot know yet. -/
def unitSample : CompilationUnit :=
  ⟨[⟨"add", .INT, [⟨"a", .INT⟩, ⟨"b", .INT⟩],
      [.returnS (some (.binary (.ident "a") .ADD (.ident "b")))]⟩,
    ⟨"noop", .VOID, [], [.returnS none]⟩,
    ⟨"main", .INT, [],
      [.varDecl "x" (some (.number 1)),
        .block [.varDecl "x" (some (.number 2))],
        .whileS (.binary (.ident "x") .LT (.number 3))
          (.block [.ifS (.binary (.ident "x") .EQ (.number 2)) (.block [.breakS])
            (some (.block [.assign "x" (.call "add" [.ident "x", .number 1] .VOID)]))]),
        .exprS (.call "noop" [] .INT),
        .returnS (some (.ident "x"))]⟩]⟩

/-! ### The errors of the analyzer -/

/-- The errors of the analyzer: one constructor for each `addError` call of
`sematic/analyzer.cpp`. -/
inductive SemErr
  | duplicate (n : String)
  | missingMain
  | parameter (x : String)
  | redeclared (x : String)
  | undefinedVariable (x : String)
  | undefinedFunction (n : String)
  | arity (n : String) (k m : Nat)
  | breakOutside
  | continueOutside
  | voidValue
  | missingValue
  | mustReturn (n : String)
  deriving DecidableEq, Repr

/-- The message that `addError` receives for each error. -/
def SemErr.text : SemErr → String
  | .duplicate n => "Function '" ++ n ++ "' is already declared"
  | .missingMain => "Missing main function with signature: int main()"
  | .parameter x => "Parameter '" ++ x ++ "' is already declared"
  | .redeclared x => "Variable '" ++ x ++ "' is already declared in this scope"
  | .undefinedVariable x => "Undefined variable '" ++ x ++ "'"
  | .undefinedFunction n => "Undefined function '" ++ n ++ "'"
  | .arity n k m =>
    "Function '" ++ n ++ "' expects " ++ toString k ++ " arguments, got " ++ toString m
  | .breakOutside => "break statement not within a loop"
  | .continueOutside => "continue statement not within a loop"
  | .voidValue => "void function should not return a value"
  | .missingValue => "non-void function must return a value"
  | .mustReturn n => "Function '" ++ n ++ "' must return a value"

/-- The first and the last character of a message, a final digit read as `0`. -/
def msgKey (m : String) : Option Char × Option Char :=
  (m.data.head?, m.data.getLast?.map (fun c => if c.isDigit then '0' else c))

/-- The first and the last character of the message of an error, a final digit read
as `0`. -/
def SemErr.key : SemErr → Char × Char
  | .duplicate _ => ('F', 'd')
  | .missingMain => ('M', ')')
  | .parameter _ => ('P', 'd')
  | .redeclared _ => ('V', 'e')
  | .undefinedVariable _ => ('U', Char.ofNat 39)
  | .undefinedFunction _ => ('U', Char.ofNat 39)
  | .arity _ _ _ => ('F', '0')
  | .breakOutside => ('b', 'p')
  | .continueOutside => ('c', 'p')
  | .voidValue => ('v', 'e')
  | .missingValue => ('n', 'e')
  | .mustReturn _ => ('F', 'e')

/-- The errors that the visit of an expression can add. -/
def SemErr.ofExpr : SemErr → Bool
  | .undefinedVariable _ => true
  | .undefinedFunction _ => true
  | .arity _ _ _ => true
  | _ => false

/-- The errors that the visit of a statement can add. -/
def SemErr.ofStmt : SemErr → Bool
  | .redeclared _ => true
  | .breakOutside => true
  | .continueOutside => true
  | .voidValue => true
  | .missingValue => true
  | x => x.ofExpr

/-- The error of a `Break` (for `true`) or a `Continue` (for `false`) outside a loop. -/
def exitErr (isBreak : Bool) : SemErr :=
  if isBreak then .breakOutside else .continueOutside

mutual
/-- The number of `Break` statements (for `true`; of `Continue` statements for `false`) of
a statement that are not inside the body of a `While` of that statement. -/
def strayExits (isBreak : Bool) : Stmt → Nat
  | .block statements => strayExitsList isBreak statements
  | .ifS _ thenStatement elseStatement =>
    strayExits isBreak thenStatement + strayExitsOpt isBreak elseStatement
  | .breakS => if isBreak then 1 else 0
  | .continueS => if isBreak then 0 else 1
  | _ => 0
/-- The count of `strayExits` over a statement list. -/
def strayExitsList (isBreak : Bool) : List Stmt → Nat
  | [] => 0
  | s :: rest => strayExits isBreak s + strayExitsList isBreak rest
/-- The count of `strayExits` for an optional statement. -/
def strayExitsOpt (isBreak : Bool) : Option Stmt → Nat
  | none => 0
  | some s => strayExits isBreak s
end

/-- The names of the definitions of a list that repeat the name of an earlier definition or
a name of `seen`, in order. -/
def repeatedNames (seen : List String) : List FunctionDefinition → List String
  | [] => []
  | f :: rest =>
    if f.name ∈ seen then f.name :: repeatedNames seen rest
    else repeatedNames (f.name :: seen) rest

/-- The first definition of a list that has the given name. -/
def firstDefinition (fs : List FunctionDefinition) (n : String) : Option FunctionDefinition :=
  fs.find? (fun f => f.name = n)

/-- The condition of the main-function check, read on the definitions: the first definition
named `main` returns `int` and has no parameters. -/
def mainDefined (fs : List FunctionDefinition) : Bool :=
  match firstDefinition fs "main" with
  | none => false
  | some f => decide (f.returnType = VType.INT) && f.parameters.isEmpty

/-- The errors whose message is determined by the message alone. -/
def SemErr.plain : SemErr → Bool
  | .duplicate _ => true
  | .missingMain => true
  | .breakOutside => true
  | .continueOutside => true
  | .mustReturn _ => true
  | _ => false

/-- The errors added between two analyzer states, for the visit of statements: all are
errors of statements, and those of kind `exitErr k` are `n` when the visit starts outside
every loop, none when it starts inside one. -/
def StmtErrs (k : Bool) (a b : SemanticAnalyzer) (n : Nat) : Prop :=
  ∃ l : List SemErr, b.errors = a.errors ++ l.map SemErr.text ∧
    (∀ x ∈ l, x.ofStmt = true) ∧
    (0 ≤ a.loopDepth → l.count (exitErr k) = if a.loopDepth = 0 then n else 0)

/-- The errors that the parameters and the body of a function definition can add. -/
def SemErr.ofBody : SemErr → Bool
  | .parameter _ => true
  | x => x.ofStmt

/-- The errors that the visit of a function definition can add. -/
def SemErr.ofFunction : SemErr → Bool
  | .mustReturn _ => true
  | x => x.ofBody

/-- A function definition that returns `int` and has no `Return` statement at any depth. -/
def missingReturn (f : FunctionDefinition) : Bool :=
  decide (f.returnType = VType.INT) && (returnValuesList f.body).isEmpty

/-- The unit `int f() { return 0; } int f() { return 1; } int main() { return 0; }`. -/
def unitTwiceF : CompilationUnit :=
  ⟨[⟨"f", .INT, [], [.returnS (some (.number 0))]⟩,
    ⟨"f", .INT, [], [.returnS (some (.number 1))]⟩,
    ⟨"main", .INT, [], [.returnS (some (.number 0))]⟩]⟩

/-- The unit `int foo() { return 0; }`. -/
def unitFoo : CompilationUnit :=
  ⟨[⟨"foo", .INT, [], [.returnS (some (.number 0))]⟩]⟩

/-- The unit `int main() { break; return 0; }`. -/
def unitStrayBreak : CompilationUnit :=
  ⟨[⟨"main", .INT, [], [.breakS, .returnS (some (.number 0))]⟩]⟩

/-! ### The stack pointer in the generated code -/

/-- The amount that a line adds to `sp`: the immediate of `addi sp, sp, imm`, and 0 for
every other line. -/
def spAdjust : Line → Int
  | .instr (.addi rd rs imm) => if rd = "sp" ∧ rs = "sp" then imm else 0
  | _ => 0

/-- The sum of the stack-pointer adjustments of a list of lines. -/
def spSum (ls : List Line) : Int := (ls.map spAdjust).sum

/-- The line `jr ra`. -/
def lineReturn : Line := .instr (.jr "ra")

/-- The three lines that `generateFunctionEpilogue` writes before `jr ra` for the frame
size `F`. -/
def epilogueHead (F : Int) : List Line :=
  [.instr (.lw "ra" (F - 4) "sp"), .instr (.lw "fp" (F - 8) "sp"), .instr (.addi "sp" "sp" F)]

/-- The lines that `generateFunctionPrologue` writes for the frame size `F`. -/
def prologueLines (funcName : String) (F : Int) : List Line :=
  [.comment ("Function: " ++ funcName), .instr (.addi "sp" "sp" (-F)),
    .instr (.sw "ra" (F - 4) "sp"), .instr (.sw "fp" (F - 8) "sp"),
    .instr (.addi "fp" "sp" F)]

/-- Lines that move `sp` by `d` and do not return: their stack-pointer adjustments sum to
`d` and `jr ra` is not among them. -/
def Shift (d : Int) (ls : List Line) : Prop :=
  spSum ls = d ∧ lineReturn ∉ ls

/-- Lines that leave `sp` where it was and do not return. -/
def Neutral (ls : List Line) : Prop := Shift 0 ls

/-- Lines whose only unmatched stack-pointer adjustments are those of epilogues for the
frame size `F`: the adjustments sum to `F` for each `jr ra`, and every `jr ra` comes
directly after the three other lines of an epilogue, the lines before which have the same
property. -/
def Balanced (F : Int) (ls : List Line) : Prop :=
  spSum ls = F * (ls.count lineReturn : Nat) ∧
  ∀ pre post, ls = pre ++ lineReturn :: post →
    ∃ pre1, pre = pre1 ++ epilogueHead F ∧ spSum pre1 = F * (pre1.count lineReturn : Nat)

/-- A step of the generator between two states: it appends lines with the property `P` to
the output, and leaves the symbol table, the function table, the frame size, the current
function and the stacks of loop labels as they are. -/
structure Step (P : List Line → Prop) (g g1 : RISCVCodeGenerator) : Prop where
  output : ∃ ls, g1.output = g.output ++ ls ∧ P ls
  symbolTable : g1.symbolTable = g.symbolTable
  functionTable : g1.functionTable = g.functionTable
  currentFrameSize : g1.currentFrameSize = g.currentFrameSize
  currentFunction : g1.currentFunction = g.currentFunction
  breakLabels : g1.breakLabels = g.breakLabels
  continueLabels : g1.continueLabels = g.continueLabels

/-- A step of the generator for a statement: the lines it appends are balanced for the
frame size of the state it starts from. -/
def BStep (g g1 : RISCVCodeGenerator) : Prop := Step (Balanced g.currentFrameSize) g g1

/-- The state in which `visit(FunctionDefinition&)` of the generator reaches
`node.body->accept(*this)`: after the frame size, the label, the prologue and the parameter
loop. -/
def bodyEntry (g : RISCVCodeGenerator) (node : FunctionDefinition) : RISCVCodeGenerator :=
  let g := { g with currentFunction := node.name, symbolTable := [] }
  let fs := g.calculateFrameSize node.parameters node.body
  let g := { fs.2 with currentFrameSize := fs.1 }
  let g := g.emitLabel node.name
  let g := g.generateFunctionPrologue node.name g.currentFrameSize
  RISCVCodeGenerator.addParameters g 8 node.parameters

/-! ### Further example inputs -/

/-- The unit `int f(int a) { return a; } int main() { return f(x, y); }`: the call has
two arguments for one parameter, and neither `x` nor `y` is declared. -/
def unitArity : CompilationUnit :=
  ⟨[⟨"f", .INT, [⟨"a", .INT⟩], [.returnS (some (.ident "a"))]⟩,
    ⟨"main", .INT, [], [.returnS (some (.call "f" [.ident "x", .ident "y"] .INT))]⟩]⟩

/-- An analyzer that knows the function `int f(int)` and no variable. -/
def analyzerWithF : SemanticAnalyzer :=
  { SemanticAnalyzer.fresh with functions := [("f", ⟨"f", .INT, [.INT], true⟩)] }

/-- The unit `int main() { return n; }`. -/
def unitReturn (n : Int) : CompilationUnit :=
  ⟨[⟨"main", .INT, [], [.returnS (some (.number n))]⟩]⟩

mutual
/-- The values of the `Return` statements inside a statement at any depth, in order. -/
def returnsOf : Stmt → List (Option Expr)
  | .block statements => returnsOfList statements
  | .ifS _ thenStatement elseStatement => returnsOf thenStatement ++ returnsOfOpt elseStatement
  | .whileS _ body => returnsOf body
  | .returnS value => [value]
  | _ => []
/-- The values of the `Return` statements of a statement list. -/
def returnsOfList : List Stmt → List (Option Expr)
  | [] => []
  | s :: rest => returnsOf s ++ returnsOfList rest
/-- The values of the `Return` statements of an optional statement. -/
def returnsOfOpt : Option Stmt → List (Option Expr)
  | none => []
  | some s => returnsOf s
end

/-- The unit `int crash() { return 0; } int main() { return 1 || crash(); }`. -/
def unitOrCrash : CompilationUnit :=
  ⟨[⟨"crash", .INT, [], [.returnS (some (.number 0))]⟩,
    ⟨"main", .INT, [],
      [.returnS (some (.binary (.number 1) .OR (.call "crash" [] .INT)))]⟩]⟩

/-- A call of one of the methods of `Scope` that change the scope stack or the offset
counter after `resetOffset`. -/
inductive ScopeOp
  | enterScope
  | exitScope
  | declareVariable (name : String) (type : VType) (isParam : Bool)

/-- The scope after a sequence of calls, together with the offsets found in the symbols of
the successful non-parameter declarations, in the order of the calls; the symbol is read
back with `lookupVariable` right after its declaration. -/
def Scope.runOps (s : Scope) : List ScopeOp → Scope × List Int
  | [] => (s, [])
  | .enterScope :: rest => Scope.runOps s.enterScope rest
  | .exitScope :: rest => Scope.runOps s.exitScope rest
  | .declareVariable name type isParam :: rest =>
    let d := s.declareVariable name type isParam
    let r := Scope.runOps d.2 rest
    if d.1 = true ∧ isParam = false then
      (r.1, ((d.2.lookupVariable name).map (fun sym => sym.offset)).toList ++ r.2)
    else r

/-- A scope with the global scope, which declares `y`, and one inner scope, which declares
`x`. -/
def scopeTwoLevels : Scope :=
  { scopeStack := [[("x", ⟨"x", .INT, -8, false⟩)], [("y", ⟨"y", .INT, -4, false⟩)]],
    currentOffset := -8 }

/-- The state in which `visit(FunctionDefinition&)` of the analyzer reaches
`node.body->accept(*this)`: after `enterScope`, `resetOffset` and the parameter loop. -/
def parametersDeclared (a : SemanticAnalyzer) (node : FunctionDefinition) : SemanticAnalyzer :=
  let a1 := { a with currentFunction := node.name, hasReturn := false }
  let a2 := { a1 with scope := a1.scope.enterScope.resetOffset }
  SemanticAnalyzer.declareParameters a2 node.parameters

/-- The pool after `n` consecutive calls of `allocateTemp`. -/
def allocateTimes : Nat → RegisterManager → RegisterManager
  | 0, rm => rm
  | n + 1, rm => allocateTimes n rm.allocateTemp.2

/-- The names of the registers in the order of their flags in `used`: t0-t6, then
s0-s11. -/
def registerNames : List String := tempRegs ++ savedRegs

/-- The state in which `analyze` reaches `unit.accept(*this)`: after the errors are
cleared, the declarations collected and the main function checked. -/
def analyzeEntry (a : SemanticAnalyzer) (unit : CompilationUnit) : SemanticAnalyzer :=
  let a0 := { a with errors := [] }
  let a1 := SemanticAnalyzer.collectFunctions a0 unit.functions
  if SemanticAnalyzer.checkMainFunction a1 then a1
  else a1.addError "Missing main function with signature: int main()"

/-- The state in which `generate` reaches `unit.accept(*this)`: after the function table
and the output are reset and the header is written. -/
def generateEntry (g : RISCVCodeGenerator) (functions : List (String × FunctionInfo)) :
    RISCVCodeGenerator :=
  let g := { g with functionTable := functions, output := [] }
  let g := g.emit (.raw ".text")
  let g := g.emit (.raw ".globl main")
  g.emitComment "ToyC Compiler Generated Code"

/-- The unit `int main() { return 0; }`. -/
def unitMain : CompilationUnit :=
  ⟨[⟨"main", .INT, [], [.returnS (some (.number 0))]⟩]⟩

/-- The unit `int main() { if (1) {} else {} return 0; }`. -/
def unitIf : CompilationUnit :=
  ⟨[⟨"main", .INT, [],
      [.ifS (.number 1) (.block []) (some (.block [])), .returnS (some (.number 0))]⟩]⟩

/-- The unit `int f() { return 1; } int main() { return 2; }`. -/
def unitTwoReturns : CompilationUnit :=
  ⟨[⟨"f", .INT, [], [.returnS (some (.number 1))]⟩,
    ⟨"main", .INT, [], [.returnS (some (.number 2))]⟩]⟩

/-- The register that an instruction writes, if it writes one. -/
def Instr.dest : Instr → Option String
  | .addi rd _ _ => some rd
  | .lui rd _ => some rd
  | .lw rd _ _ => some rd
  | .op3 _ rd _ _ => some rd
  | .xori rd _ _ => some rd
  | .seqz rd _ => some rd
  | .snez rd _ => some rd
  | .mv rd _ => some rd
  | _ => none

/-- The arithmetic and relational operators of `BinaryExpression`. -/
def arithmeticOps : List BinOp :=
  [.ADD, .SUB, .MUL, .DIV, .MOD, .LT, .LE, .GT, .GE, .EQ, .NE]

/-! ### The generated code on a machine, loops and branch targets -/

/-- The C++ operator `^` on two `int`s, which is the operation of `xori` on 32-bit
values. -/
def xor32 (x y : Int) : Int := ofU32 (toU32 x ^^^ toU32 y)

/-- A machine state: the register file and the memory, which holds one 32-bit word at each
address that is used for a word. -/
structure Machine where
  regs : String → Int
  mem : Int → Int

/-- The machine after a register write. -/
def Machine.setReg (m : Machine) (rd : String) (v : Int) : Machine :=
  { m with regs := writeReg m.regs rd v }

/-- The machine after a word is stored at an address. -/
def Machine.store (m : Machine) (address v : Int) : Machine :=
  { m with mem := fun a => if a = address then v else m.mem a }

/-- RV32 semantics of the instructions without control flow that the generator emits:
registers hold signed 32-bit values, results are truncated to 32 bits by `writeReg`,
`slt` compares signed values, and the address of `lw` and `sw` is the base register plus
the offset modulo `2^32`. The result is `none` for `lui`, for the directives and for the
instructions that change the control flow. -/
def execInstr : Instr → Machine → Option Machine
  | .addi rd rs imm, m => some (m.setReg rd (readReg m.regs rs + imm))
  | .op3 .add rd rs1 rs2, m => some (m.setReg rd (readReg m.regs rs1 + readReg m.regs rs2))
  | .op3 .sub rd rs1 rs2, m => some (m.setReg rd (readReg m.regs rs1 - readReg m.regs rs2))
  | .op3 .slt rd rs1 rs2, m =>
    some (m.setReg rd (if readReg m.regs rs1 < readReg m.regs rs2 then 1 else 0))
  | .xori rd rs imm, m => some (m.setReg rd (xor32 (readReg m.regs rs) imm))
  | .seqz rd rs, m => some (m.setReg rd (if readReg m.regs rs = 0 then 1 else 0))
  | .snez rd rs, m => some (m.setReg rd (if readReg m.regs rs = 0 then 0 else 1))
  | .mv rd rs, m => some (m.setReg rd (readReg m.regs rs))
  | .lw rd offset base, m =>
    some (m.setReg rd (m.mem (wrap32 (readReg m.regs base + offset))))
  | .sw rs offset base, m =>
    some (m.store (wrap32 (readReg m.regs base + offset)) (readReg m.regs rs))
  | _, _ => none

/-- Execution of a sequence of instructions, in order. -/
def execInstrs : List Instr → Machine → Option Machine
  | [], m => some m
  | i :: rest, m =>
    match execInstr i m with
    | some m1 => execInstrs rest m1
    | none => none

/-- The relation that a relational operator stands for. -/
def relationHolds : BinOp → Int → Int → Bool
  | .LT, l, r => decide (l < r)
  | .LE, l, r => decide (l ≤ r)
  | .GT, l, r => decide (l > r)
  | .GE, l, r => decide (l ≥ r)
  | .EQ, l, r => decide (l = r)
  | .NE, l, r => decide (l ≠ r)
  | _, _, _ => false

/-- The relational operators of `BinaryExpression`. -/
def relationalOps : List BinOp := [.LT, .LE, .GT, .GE, .EQ, .NE]

/-- A machine with 5 in `t0`, 5 in `t1` and 0 elsewhere. -/
def machineFiveFive : Machine :=
  { regs := fun r => if r = "t0" ∨ r = "t1" then 5 else 0, mem := fun _ => 0 }

/-- The instructions that `saveRegisters` emits for a list of registers. -/
def saveInstrs : List String → List Instr
  | [] => []
  | reg :: rest => .addi "sp" "sp" (-4) :: .sw reg 0 "sp" :: saveInstrs rest

/-- The instructions that the loop of `restoreRegisters` emits for the registers in the
order visited. -/
def restoreLoopInstrs : List String → List Instr
  | [] => []
  | reg :: rest => .lw reg 0 "sp" :: .addi "sp" "sp" 4 :: restoreLoopInstrs rest

/-- The instructions that `restoreRegisters` emits for a list of registers. -/
def restoreInstrs (regs : List String) : List Instr := restoreLoopInstrs regs.reverse

/-- The address of the `k`-th word pushed below the stack pointer `sp`. -/
def slot (sp : Int) (k : Nat) : Int := wrap32 (sp - 4 * (k : Int))

/-- The code of the arguments of a call from index `i` on, given the code of each
argument: each is followed by the move of `t0` to its argument register. -/
def argMoves (i : Nat) : List (List Line) → List Line
  | [] => []
  | code :: rest => code ++ Line.instr (.mv ("a" ++ toString i) "t0") :: argMoves (i + 1) rest

/-- The source `int main() { int x = 7; int y = 9; return x; }`. -/
def unitTwoLocals : CompilationUnit :=
  ⟨[⟨"main", .INT, [],
    [.varDecl "x" (some (.number 7)), .varDecl "y" (some (.number 9)),
      .returnS (some (.ident "x"))]⟩]⟩

/-- A machine at the entry of a function: `sp` is 1000, the return address in `ra` is 4242
and the frame pointer of the caller is 2000. -/
def machineEntry : Machine :=
  { regs := fun r => if r = "sp" then 1000 else if r = "ra" then 4242
      else if r = "fp" then 2000 else 0,
    mem := fun _ => 0 }

/-- The first `n` instructions after the two directives at the head of an output, run from
`machineEntry`: the values of `sp`, `fp`, `ra` and of the two words below the address 1000
afterwards. -/
def runFromEntry (out : List Line) (n : Nat) : Option (Int × Int × Int × Int × Int) :=
  (execInstrs (((instrsOf out).drop 2).take n) machineEntry).map
    (fun m => (readReg m.regs "sp", readReg m.regs "fp", readReg m.regs "ra",
      m.mem 996, m.mem 992))

/-- The function `void f() { return; }`. -/
def functionVoidReturn : FunctionDefinition := ⟨"f", .VOID, [], [.returnS none]⟩

/-- The source `void f() { return; } int main() { return 0; }`. -/
def unitVoidReturn : CompilationUnit :=
  ⟨[functionVoidReturn, ⟨"main", .INT, [], [.returnS (some (.number 0))]⟩]⟩

/-- The function `int f(int a) { int a = 1; return a; }`. -/
def functionShadowParam : FunctionDefinition :=
  ⟨"f", .INT, [⟨"a", .INT⟩], [.varDecl "a" (some (.number 1)), .returnS (some (.ident "a"))]⟩

/-- The source `int f(int a) { int a = 1; return a; } int main() { return 0; }`. -/
def unitShadowParam : CompilationUnit :=
  ⟨[functionShadowParam, ⟨"main", .INT, [], [.returnS (some (.number 0))]⟩]⟩

/-- The source `int main() { return 0; ... return 0; }` with eight `return 0;`. -/
def unitEightReturns : CompilationUnit :=
  ⟨[⟨"main", .INT, [], List.replicate 8 (.returnS (some (.number 0)))⟩]⟩

/-- The register operands of an instruction. -/
def Instr.operands : Instr → List String
  | .raw _ => []
  | .addi rd rs _ => [rd, rs]
  | .lui rd _ => [rd]
  | .lw rd _ base => [rd, base]
  | .sw rs _ base => [rs, base]
  | .op3 _ rd rs1 rs2 => [rd, rs1, rs2]
  | .xori rd rs _ => [rd, rs]
  | .seqz rd rs => [rd, rs]
  | .snez rd rs => [rd, rs]
  | .mv rd rs => [rd, rs]
  | .beqz rs _ => [rs]
  | .bnez rs _ => [rs]
  | .j _ => []
  | .jr rs => [rs]
  | .call _ => []

/-- Lines among which `jr ra` occurs `n` times. -/
def Returns (n : Nat) (ls : List Line) : Prop := ls.count lineReturn = n

/-- The label that a line branches or jumps to, for `beqz`, `bnez` and `j`. -/
def Line.target : Line → Option String
  | .instr (.beqz _ l) => some l
  | .instr (.bnez _ l) => some l
  | .instr (.j l) => some l
  | _ => none

/-- The targets of the branches and jumps of an output, in order. -/
def targetsOf (ls : List Line) : List String := ls.filterMap Line.target

/-- The function that a line calls, for `call`. -/
def Line.callee : Line → Option String
  | .instr (.call name) => some name
  | _ => none

/-- The names in the `call` lines of an output, in order. -/
def calleesOf (ls : List Line) : List String := ls.filterMap Line.callee

/-- Lines whose branches and jumps go to label lines among them or to one of the labels
`ext`, and whose calls go to functions among `names`. -/
def Linked (names ext : List String) (ls : List Line) : Prop :=
  (∀ t ∈ targetsOf ls, t ∈ labelsOf ls ∨ t ∈ ext) ∧ ∀ n ∈ calleesOf ls, n ∈ names

/-- The label `loopLabel` that `visit(WhileStatement&)` makes when it is reached in the
state `g`. -/
def whileLoopLabel (g : RISCVCodeGenerator) : String := (g.newLabel "while_loop").1

/-- The label `endLabel` that `visit(WhileStatement&)` makes when it is reached in the
state `g`. -/
def whileEndLabel (g : RISCVCodeGenerator) : String :=
  ((g.newLabel "while_loop").2.newLabel "while_end").1

/-- The state in which `visit(WhileStatement&)`, reached in the state `g`, evaluates the
condition: after the two labels are made and pushed and the loop label is written. -/
def whileConditionEntry (g : RISCVCodeGenerator) : RISCVCodeGenerator :=
  let loopLabel := g.newLabel "while_loop"
  let endLabel := loopLabel.2.newLabel "while_end"
  let g := { endLabel.2 with
    breakLabels := endLabel.1 :: endLabel.2.breakLabels,
    continueLabels := loopLabel.1 :: endLabel.2.continueLabels }
  g.emitLabel loopLabel.1

/-- The state in which `visit(WhileStatement&)`, reached in the state `g`, reaches
`node.body->accept(*this)`. -/
def whileBodyEntry (g : RISCVCodeGenerator) (condition : Expr) : RISCVCodeGenerator :=
  let g1 := RISCVCodeGenerator.genExpr (whileConditionEntry g) condition
  let g1 := g1.emit (.beqz "t0" (whileEndLabel g))
  g1.release "t0"

/-- The state in which `visit(IfStatement&)`, reached in the state `g`, reaches
`node.thenStatement->accept(*this)`. -/
def thenEntry (g : RISCVCodeGenerator) (condition : Expr) (hasElse : Bool) :
    RISCVCodeGenerator :=
  let elseLabel := g.newLabel "if_else"
  let endLabel := elseLabel.2.newLabel "if_end"
  let g := RISCVCodeGenerator.genExpr endLabel.2 condition
  let g := g.emit (.beqz "t0" (if hasElse then elseLabel.1 else endLabel.1))
  g.release "t0"

/-- The state in which `visit(IfStatement&)`, reached in the state `g`, reaches
`node.elseStatement->accept(*this)`. -/
def elseEntry (g : RISCVCodeGenerator) (condition : Expr) (thenStatement : Stmt) :
    RISCVCodeGenerator :=
  let g1 := RISCVCodeGenerator.genStmt (thenEntry g condition true) thenStatement
  let g1 := g1.emit (.j ((g.newLabel "if_else").2.newLabel "if_end").1)
  g1.emitLabel (g.newLabel "if_else").1

/-- The visits of the generator below the visit of a statement: `Reaches g s w g1 s1 w1`
says that the visit of `s` in the state `g` leads to a visit of the statement `s1`, inside
`s` or `s` itself, in the state `g1`. The pair `w` holds the loop and end labels of the
innermost `While` around `s`, if there is one, and `w1` those of the innermost `While`
around `s1`. -/
inductive Reaches : RISCVCodeGenerator → Stmt → Option (String × String) →
    RISCVCodeGenerator → Stmt → Option (String × String) → Prop
  | here (g : RISCVCodeGenerator) (s : Stmt) (w : Option (String × String)) :
    Reaches g s w g s w
  | block (g : RISCVCodeGenerator) (pre : List Stmt) (s : Stmt) (post : List Stmt)
      (w : Option (String × String)) (g1 : RISCVCodeGenerator) (s1 : Stmt)
      (w1 : Option (String × String)) :
    Reaches (RISCVCodeGenerator.genStmts g pre) s w g1 s1 w1 →
      Reaches g (.block (pre ++ s :: post)) w g1 s1 w1
  | thenBranch (g : RISCVCodeGenerator) (c : Expr) (t : Stmt) (e : Option Stmt)
      (w : Option (String × String)) (g1 : RISCVCodeGenerator) (s1 : Stmt)
      (w1 : Option (String × String)) :
    Reaches (thenEntry g c e.isSome) t w g1 s1 w1 → Reaches g (.ifS c t e) w g1 s1 w1
  | elseBranch (g : RISCVCodeGenerator) (c : Expr) (t els : Stmt)
      (w : Option (String × String)) (g1 : RISCVCodeGenerator) (s1 : Stmt)
      (w1 : Option (String × String)) :
    Reaches (elseEntry g c t) els w g1 s1 w1 → Reaches g (.ifS c t (some els)) w g1 s1 w1
  | body (g : RISCVCodeGenerator) (c : Expr) (b : Stmt)
      (w : Option (String × String)) (g1 : RISCVCodeGenerator) (s1 : Stmt)
      (w1 : Option (String × String)) :
    Reaches (whileBodyEntry g c) b (some (whileLoopLabel g, whileEndLabel g)) g1 s1 w1 →
      Reaches g (.whileS c b) w g1 s1 w1

/-- The statement `while (2) { break; continue; }`. -/
def innerLoop : Stmt := .whileS (.number 2) (.block [.breakS, .continueS])

/-- The statement `while (1) { while (2) { break; continue; } break; continue; }`. -/
def outerLoop : Stmt := .whileS (.number 1) (.block [innerLoop, .breakS, .continueS])

/-! ### Errors recorded before a visit -/

/-- Two states of the analyzer that differ at most in the errors recorded so far. -/
structure SameButErrors (a b : SemanticAnalyzer) : Prop where
  scope : a.scope = b.scope
  functions : a.functions = b.functions
  currentFunction : a.currentFunction = b.currentFunction
  loopDepth : a.loopDepth = b.loopDepth
  hasReturn : a.hasReturn = b.hasReturn

/-- Two runs of the same visit, from `a` to `a1` and from `b` to `b1`, that stay in step:
they append the same errors and end in states that differ at most in the errors. -/
structure InStep (a b a1 b1 : SemanticAnalyzer) : Prop where
  same : SameButErrors a1 b1
  errors : ∃ l, a1.errors = a.errors ++ l ∧ b1.errors = b.errors ++ l

/-- The errors that a visit adds when it starts in the state `a`: the error list after the
visit started from `a` with no error recorded. -/
def errorsFound (a : SemanticAnalyzer) (visit : SemanticAnalyzer → SemanticAnalyzer) :
    List String :=
  (visit { a with errors := [] }).errors

/-- The source
`int f(int a) { return a; }
 int g() { f(x, y); z = 1; break; return w; }
 int main() { return v; }`:
the first statement of `g` has a call with the wrong number of arguments, and the
statements and the function after it have errors of their own. -/
def unitArityThenMore : CompilationUnit :=
  ⟨[⟨"f", .INT, [⟨"a", .INT⟩], [.returnS (some (.ident "a"))]⟩,
    ⟨"g", .INT, [],
      [.exprS (.call "f" [.ident "x", .ident "y"] .INT), .assign "z" (.number 1), .breakS,
        .returnS (some (.ident "w"))]⟩,
    ⟨"main", .INT, [], [.returnS (some (.ident "v"))]⟩]⟩

/-! ## Lemmas -/

open SemanticAnalyzer RISCVCodeGenerator

/-! ### 32-bit operations and `loadImmediate` -/

theorem toU32_lt (x : Int) : toU32 x < 4294967296 := by
  unfold toU32; omega

theorem and32_0xfff (v : Int) : and32 v 0xfff = v % 4096 := by
  unfold and32
  have h1 : toU32 0xfff = 2 ^ 12 - 1 := by decide
  rw [h1, Nat.and_pow_two_sub_one_eq_mod]
  unfold ofU32 toU32
  split <;> omega

theorem and_mask8 (n : Nat) (h : n < 2 ^ 32) : n &&& 4294967288 = n / 8 * 8 := by
  apply Nat.eq_of_testBit_eq
  intro i
  have h8 : (4294967288 : Nat) = 2 ^ 32 - (7 + 1) := by norm_num
  have h7 : (7 : Nat) = 2 ^ 3 - 1 := by norm_num
  have hd : n / 8 * 8 = (n >>> 3) <<< 3 := by
    rw [Nat.shiftLeft_eq, Nat.shiftRight_eq_div_pow]
  rw [Nat.testBit_and, h8, Nat.testBit_two_pow_sub_succ (by norm_num), hd,
    Nat.testBit_shiftLeft, Nat.testBit_shiftRight]
  rw [h7, Nat.testBit_two_pow_sub_one]
  by_cases h3 : i < 3
  · simp [h3]
  · have : 3 + (i - 3) = i := by omega
    rw [this]
    by_cases h32 : i < 32
    · simp [h3, h32]; omega
    · have hlt : n < 2 ^ i := lt_of_lt_of_le h (Nat.pow_le_pow_right (by norm_num) (by omega))
      simp [Nat.testBit_lt_two_pow hlt]

theorem and32_not32_7 (x : Int) (h0 : 0 ≤ x) (h1 : x ≤ 2147483647) :
    and32 x (not32 7) = x / 8 * 8 := by
  unfold and32
  have hn : toU32 (not32 7) = 4294967288 := by decide
  rw [hn, and_mask8 _ (toU32_lt x)]
  unfold ofU32 toU32
  split <;> omega

theorem shiftRight_12 (x : Int) : x >>> (12 : Nat) = x / 4096 := by
  have h := Int.shiftRight_eq_div_pow x 12
  simpa using h

theorem loadImmediate_output (g : RISCVCodeGenerator) (v : Int) (r : String) :
    (g.loadImmediate v r).output = g.output ++
      (if v ≥ -2048 ∧ v ≤ 2047 then [Line.instr (.addi r "zero" v)]
       else if (if v % 4096 ≥ 2048 then v % 4096 - 4096 else v % 4096) ≠ 0 then
         [Line.instr (.lui r (wrap32 (v + 2048) / 4096)),
          Line.instr (.addi r r (if v % 4096 ≥ 2048 then v % 4096 - 4096 else v % 4096))]
       else [Line.instr (.lui r (wrap32 (v + 2048) / 4096))]) := by
  unfold RISCVCodeGenerator.loadImmediate
  simp only [and32_0xfff, shiftRight_12]
  by_cases h : v ≥ -2048 ∧ v ≤ 2047
  · simp [h, RISCVCodeGenerator.emit]
  · simp only [h, if_false]
    split_ifs <;> simp_all [RISCVCodeGenerator.emit]

/-! ### Frame size -/

mutual
theorem collectLocalStmt_offset : ∀ (s : Stmt) (g : RISCVCodeGenerator)
    (locals : List (String × Int)) (offset : Int),
    (g.collectLocalStmt locals offset s).2.2 = offset - 4 * (countBlockDecls s : Int)
  | .varDecl _ _, g, locals, offset => by
    simp [RISCVCodeGenerator.collectLocalStmt, countBlockDecls]
  | .block ss, g, locals, offset => by
    simp only [RISCVCodeGenerator.collectLocalStmt, countBlockDecls]
    exact collectLocalVariables_offset ss g locals offset
  | .assign _ _, g, locals, offset => by
    simp [RISCVCodeGenerator.collectLocalStmt, countBlockDecls]
  | .ifS _ _ _, g, locals, offset => by
    simp [RISCVCodeGenerator.collectLocalStmt, countBlockDecls]
  | .whileS _ _, g, locals, offset => by
    simp [RISCVCodeGenerator.collectLocalStmt, countBlockDecls]
  | .breakS, g, locals, offset => by
    simp [RISCVCodeGenerator.collectLocalStmt, countBlockDecls]
  | .continueS, g, locals, offset => by
    simp [RISCVCodeGenerator.collectLocalStmt, countBlockDecls]
  | .returnS _, g, locals, offset => by
    simp [RISCVCodeGenerator.collectLocalStmt, countBlockDecls]
  | .exprS _, g, locals, offset => by
    simp [RISCVCodeGenerator.collectLocalStmt, countBlockDecls]
theorem collectLocalVariables_offset : ∀ (ss : List Stmt) (g : RISCVCodeGenerator)
    (locals : List (String × Int)) (offset : Int),
    (g.collectLocalVariables locals offset ss).2.2
      = offset - 4 * (countBlockDeclsList ss : Int)
  | [], g, locals, offset => by
    simp [RISCVCodeGenerator.collectLocalVariables, countBlockDeclsList]
  | s :: rest, g, locals, offset => by
    simp only [RISCVCodeGenerator.collectLocalVariables, countBlockDeclsList]
    rw [collectLocalVariables_offset rest, collectLocalStmt_offset s]
    push_cast
    ring
end

theorem calculateFrameSize_eq (g : RISCVCodeGenerator) (params : List Parameter)
    (body : List Stmt) (h : -2147483632 ≤ (g.collectLocalVariables [] 0 body).2.2) :
    (g.calculateFrameSize params body).1
      = alignUp (8 + 4 * (countBlockDeclsList body : Int)) 8 := by
  unfold RISCVCodeGenerator.calculateFrameSize alignUp
  rw [collectLocalVariables_offset] at h
  simp only [collectLocalVariables_offset]
  rw [and32_not32_7 _ (by omega) (by omega)]
  congr 2
  omega

/-! ### Analyzer: expressions -/

theorem mapFind_mapSet {V : Type} (m : List (String × V)) (k : String) (v : V) (x : String) :
    mapFind (mapSet m k v) x = if k = x then some v else mapFind m x := by
  induction m with
  | nil => simp [mapSet, mapFind]
  | cons p rest ih =>
    obtain ⟨k1, v1⟩ := p
    simp only [mapSet]
    by_cases h1 : k1 = k
    · subst h1
      simp only [if_true, mapFind]
      split <;> rfl
    · simp only [h1, if_false, mapFind, ih]
      by_cases h2 : k1 = x
      · subst h2
        have h3 : ¬ k = k1 := fun h => h1 h.symm
        simp [h3]
      · simp [h2]

mutual
theorem visitExpr_frame : ∀ (e : Expr) (a : SemanticAnalyzer),
    ∃ l, (visitExpr a e).1 = { a with errors := a.errors ++ l }
  | .number _, a => ⟨[], by simp [visitExpr]⟩
  | .ident name, a => by
    unfold visitExpr
    split
    · exact ⟨_, rfl⟩
    · exact ⟨[], by simp⟩
  | .unary _ operand, a => by
    obtain ⟨l, h⟩ := visitExpr_frame operand a
    exact ⟨l, by simp [visitExpr, h]⟩
  | .binary left _ right, a => by
    obtain ⟨l1, h1⟩ := visitExpr_frame left a
    obtain ⟨l2, h2⟩ := visitExpr_frame right (visitExpr a left).1
    refine ⟨l1 ++ l2, ?_⟩
    simp only [visitExpr]
    rw [h2, h1]
    simp
  | .call fn args _, a => by
    unfold visitExpr
    split
    · exact ⟨_, rfl⟩
    · split
      · exact ⟨_, rfl⟩
      · exact visitExprs_frame args a
theorem visitExprs_frame : ∀ (es : List Expr) (a : SemanticAnalyzer),
    ∃ l, (visitExprs a es).1 = { a with errors := a.errors ++ l }
  | [], a => ⟨[], by simp [visitExprs]⟩
  | e :: es, a => by
    obtain ⟨l1, h1⟩ := visitExpr_frame e a
    obtain ⟨l2, h2⟩ := visitExprs_frame es (visitExpr a e).1
    refine ⟨l1 ++ l2, ?_⟩
    simp only [visitExprs]
    rw [h2, h1]
    simp
end

theorem visitExpr_errors (e : Expr) (a : SemanticAnalyzer) :
    ∃ l, (visitExpr a e).1.errors = a.errors ++ l := by
  obtain ⟨l, h⟩ := visitExpr_frame e a
  exact ⟨l, by rw [h]⟩

theorem visitExpr_scope (e : Expr) (a : SemanticAnalyzer) :
    (visitExpr a e).1.scope = a.scope := by
  obtain ⟨l, h⟩ := visitExpr_frame e a
  rw [h]

theorem visitExpr_functions (e : Expr) (a : SemanticAnalyzer) :
    (visitExpr a e).1.functions = a.functions := by
  obtain ⟨l, h⟩ := visitExpr_frame e a
  rw [h]

theorem visitExpr_currentFunction (e : Expr) (a : SemanticAnalyzer) :
    (visitExpr a e).1.currentFunction = a.currentFunction := by
  obtain ⟨l, h⟩ := visitExpr_frame e a
  rw [h]

theorem visitExpr_loopDepth (e : Expr) (a : SemanticAnalyzer) :
    (visitExpr a e).1.loopDepth = a.loopDepth := by
  obtain ⟨l, h⟩ := visitExpr_frame e a
  rw [h]

theorem visitExpr_hasReturn (e : Expr) (a : SemanticAnalyzer) :
    (visitExpr a e).1.hasReturn = a.hasReturn := by
  obtain ⟨l, h⟩ := visitExpr_frame e a
  rw [h]

theorem visitExpr_errors_nil (e : Expr) (a : SemanticAnalyzer)
    (h : (visitExpr a e).1.errors = []) : a.errors = [] := by
  obtain ⟨l, hl⟩ := visitExpr_errors e a
  rw [hl] at h
  exact (List.append_eq_nil.mp h).1

theorem visitExprs_errors_nil (es : List Expr) (a : SemanticAnalyzer)
    (h : (visitExprs a es).1.errors = []) : a.errors = [] := by
  obtain ⟨l, hl⟩ := visitExprs_frame es a
  rw [hl] at h
  exact (List.append_eq_nil.mp h).1

theorem addError_errors_ne_nil (a : SemanticAnalyzer) (m : String) :
    (a.addError m).errors ≠ [] := by
  simp [addError]

mutual
theorem visitExpr_ok : ∀ (e : Expr) (a : SemanticAnalyzer) (vis : List String),
    (visitExpr a e).1.errors = [] → ScopeWithin a.scope vis →
    resolvesExpr vis e = true ∧ ∀ c ∈ callsOfExpr (visitExpr a e).2, CallOK a.functions c
  | .number _, a, vis => by
    intro _ _
    simp [resolvesExpr, visitExpr, callsOfExpr]
  | .ident name, a, vis => by
    intro h hs
    unfold visitExpr at h ⊢
    split at h
    · exact absurd h (addError_errors_ne_nil _ _)
    · rename_i sym hsym
      have := hs name (by simp [hsym])
      simp [resolvesExpr, callsOfExpr, this, hsym]
  | .unary _ operand, a, vis => by
    intro h hs
    simp only [visitExpr] at h ⊢
    have ih := visitExpr_ok operand a vis h hs
    simpa [resolvesExpr, callsOfExpr] using ih
  | .binary left _ right, a, vis => by
    intro h hs
    simp only [visitExpr] at h ⊢
    have h1 := visitExpr_errors_nil right _ h
    have ih1 := visitExpr_ok left a vis h1 hs
    have ih2 := visitExpr_ok right (visitExpr a left).1 vis h
      (by rw [visitExpr_scope]; exact hs)
    rw [visitExpr_functions] at ih2
    simp only [resolvesExpr, callsOfExpr, ih1.1, ih2.1, Bool.and_self, List.mem_append, true_and]
    rintro c (hc | hc)
    · exact ih1.2 c hc
    · exact ih2.2 c hc
  | .call fn args rt, a, vis => by
    intro h hs
    unfold visitExpr at h ⊢
    split at h
    · exact absurd h (addError_errors_ne_nil _ _)
    · rename_i info hinfo
      split at h
      · exact absurd h (addError_errors_ne_nil _ _)
      · rename_i hlen
        have ih := visitExprs_ok args a vis h hs
        simp only [hinfo, hlen, if_false]
        simp only [resolvesExpr, callsOfExpr, ih.1.1, List.mem_cons, true_and]
        rintro c (hc | hc)
        · subst hc
          refine ⟨info, hinfo, ?_, rfl⟩
          simp only [ih.1.2]
          simpa using hlen
        · exact ih.2 c hc
theorem visitExprs_ok : ∀ (es : List Expr) (a : SemanticAnalyzer) (vis : List String),
    (visitExprs a es).1.errors = [] → ScopeWithin a.scope vis →
    (resolvesExprs vis es = true ∧ (visitExprs a es).2.length = es.length) ∧
      ∀ c ∈ callsOfExprs (visitExprs a es).2, CallOK a.functions c
  | [], a, vis => by
    intro _ _
    simp [resolvesExprs, visitExprs, callsOfExprs]
  | e :: es, a, vis => by
    intro h hs
    simp only [visitExprs] at h ⊢
    have h1 := visitExprs_errors_nil es _ h
    have ih1 := visitExpr_ok e a vis h1 hs
    have ih2 := visitExprs_ok es (visitExpr a e).1 vis h
      (by rw [visitExpr_scope]; exact hs)
    rw [visitExpr_functions] at ih2
    simp only [resolvesExprs, callsOfExprs, ih1.1, ih2.1.1, ih2.1.2, Bool.and_self,
      List.mem_append, true_and, List.length_cons]
    rintro c (hc | hc)
    · exact ih1.2 c hc
    · exact ih2.2 c hc
end

/-! ### Analyzer: statements -/

theorem checkReturn_frame (a : SemanticAnalyzer) (b : Bool) :
    ∃ l, checkReturn a b = { a with errors := a.errors ++ l } := by
  unfold checkReturn
  split
  · exact ⟨[], by simp⟩
  · split
    · exact ⟨_, rfl⟩
    · split
      · exact ⟨_, rfl⟩
      · exact ⟨[], by simp⟩

theorem declareVariable_stack (s : Scope) (name : String) (t : VType) (p : Bool)
    (top : List (String × Symbol)) (rest : List (List (String × Symbol)))
    (h : s.scopeStack = top :: rest) :
    ∃ top1, (s.declareVariable name t p).2.scopeStack = top1 :: rest ∧
      ∀ x, (mapFind top1 x).isSome = true → x = name ∨ (mapFind top x).isSome = true := by
  unfold Scope.declareVariable
  rw [h]
  simp only
  split
  · exact ⟨top, h, fun x hx => Or.inr hx⟩
  · refine ⟨_, rfl, ?_⟩
    intro x hx
    rw [mapFind_mapSet] at hx
    by_cases hk : name = x
    · exact Or.inl hk.symm
    · simp only [hk, if_false] at hx
      exact Or.inr hx

theorem StmtFrame.sameF (a : SemanticAnalyzer) : StmtFrame a a [] :=
  ⟨⟨[], by simp⟩, rfl, rfl, rfl, by simp, fun top rest h => ⟨top, h⟩⟩

theorem StmtFrame.thenF {a b c : SemanticAnalyzer} {r1 r2 : List Bool}
    (h1 : StmtFrame a b r1) (h2 : StmtFrame b c r2) : StmtFrame a c (r1 ++ r2) := by
  obtain ⟨l1, e1⟩ := h1.errors
  obtain ⟨l2, e2⟩ := h2.errors
  refine ⟨⟨l1 ++ l2, by rw [e2, e1]; simp⟩, h2.functions.trans h1.functions,
    h2.currentFunction.trans h1.currentFunction, h2.loopDepth.trans h1.loopDepth, ?_, ?_⟩
  · rw [h2.hasReturn, h1.hasReturn]
    cases r1 <;> cases r2 <;> simp
  · intro top rest h
    obtain ⟨t1, ht1⟩ := h1.stack top rest h
    exact h2.stack t1 rest ht1

theorem StmtFrame.exprF (a : SemanticAnalyzer) (e : Expr) :
    StmtFrame a (visitExpr a e).1 [] := by
  obtain ⟨l, h⟩ := visitExpr_frame e a
  rw [h]
  exact ⟨⟨l, rfl⟩, rfl, rfl, rfl, by simp, fun top rest h => ⟨top, h⟩⟩

theorem StmtFrame.errorF (a : SemanticAnalyzer) (m : String) :
    StmtFrame a (a.addError m) [] :=
  ⟨⟨[m], rfl⟩, rfl, rfl, rfl, by simp [SemanticAnalyzer.addError],
    fun top rest h => ⟨top, h⟩⟩

mutual
theorem visitStmt_frame : ∀ (s : Stmt) (a : SemanticAnalyzer),
    StmtFrame a (visitStmt a s).1 (returnValues s)
  | .varDecl name initializer, a => by
    have hd : StmtFrame a { a with scope := (a.scope.declareVariable name VType.INT false).2 } [] :=
      ⟨⟨[], by simp⟩, rfl, rfl, rfl, by simp, fun top rest h => by
        obtain ⟨t1, ht1, _⟩ := declareVariable_stack a.scope name VType.INT false top rest h
        exact ⟨t1, ht1⟩⟩
    unfold visitStmt
    simp only [returnValues]
    split
    · exact hd.thenF (StmtFrame.errorF _ _)
    · split
      · exact hd
      · exact hd.thenF (StmtFrame.exprF _ _)
  | .assign x value, a => by
    unfold visitStmt
    simp only [returnValues]
    split
    · exact StmtFrame.errorF _ _
    · exact StmtFrame.exprF _ _
  | .block ss, a => by
    have ih := visitStmts_frame ss { a with scope := a.scope.enterScope }
    simp only [visitStmt, returnValues]
    obtain ⟨l, hl⟩ := ih.errors
    refine ⟨⟨l, hl⟩, ih.functions, ih.currentFunction, ih.loopDepth, ih.hasReturn, ?_⟩
    intro top rest h
    obtain ⟨t1, ht1⟩ := ih.stack [] (top :: rest) (by simp [Scope.enterScope, h])
    refine ⟨top, ?_⟩
    simp [Scope.exitScope, ht1]
  | .ifS c t e, a => by
    have h1 := StmtFrame.exprF a c
    have h2 := visitStmt_frame t (visitExpr a c).1
    have h3 := visitOptStmt_frame e (visitStmt (visitExpr a c).1 t).1
    simpa [visitStmt, returnValues] using (h1.thenF h2).thenF h3
  | .whileS c b, a => by
    have h1 := StmtFrame.exprF a c
    have h2 := visitStmt_frame b { (visitExpr a c).1 with loopDepth := (visitExpr a c).1.loopDepth + 1 }
    simp only [visitStmt, returnValues]
    obtain ⟨l1, e1⟩ := h1.errors
    obtain ⟨l2, e2⟩ := h2.errors
    refine ⟨⟨l1 ++ l2, ?_⟩, h2.functions.trans h1.functions,
      h2.currentFunction.trans h1.currentFunction, ?_, ?_, ?_⟩
    · show (visitStmt _ b).1.errors = _
      rw [e2]
      show (visitExpr a c).1.errors ++ l2 = _
      rw [e1, List.append_assoc]
    · show (visitStmt _ b).1.loopDepth - 1 = _
      rw [h2.loopDepth]
      show (visitExpr a c).1.loopDepth + 1 - 1 = _
      rw [h1.loopDepth]
      omega
    · show (visitStmt _ b).1.hasReturn = _
      rw [h2.hasReturn]
      show ((visitExpr a c).1.hasReturn || _) = _
      rw [h1.hasReturn]
      simp
    · intro top rest h
      obtain ⟨t1, ht1⟩ := h1.stack top rest h
      exact h2.stack t1 rest ht1
  | .breakS, a => by
    unfold visitStmt
    simp only [returnValues]
    split
    · exact StmtFrame.errorF _ _
    · exact StmtFrame.sameF _
  | .continueS, a => by
    unfold visitStmt
    simp only [returnValues]
    split
    · exact StmtFrame.errorF _ _
    · exact StmtFrame.sameF _
  | .returnS value, a => by
    obtain ⟨l, hl⟩ := checkReturn_frame { a with hasReturn := true } value.isSome
    have h0 : StmtFrame a (checkReturn { a with hasReturn := true } value.isSome)
        [value.isSome] := by
      rw [hl]
      exact ⟨⟨l, rfl⟩, rfl, rfl, rfl, by simp, fun top rest h => ⟨top, h⟩⟩
    unfold visitStmt
    simp only [returnValues]
    split
    · exact h0
    · simpa using h0.thenF (StmtFrame.exprF _ _)
  | .exprS e, a => by
    simpa [visitStmt, returnValues] using StmtFrame.exprF a e
theorem visitStmts_frame : ∀ (ss : List Stmt) (a : SemanticAnalyzer),
    StmtFrame a (visitStmts a ss).1 (returnValuesList ss)
  | [], a => by
    simpa [visitStmts, returnValuesList] using StmtFrame.sameF a
  | s :: rest, a => by
    have h1 := visitStmt_frame s a
    have h2 := visitStmts_frame rest (visitStmt a s).1
    simpa [visitStmts, returnValuesList] using h1.thenF h2
theorem visitOptStmt_frame : ∀ (o : Option Stmt) (a : SemanticAnalyzer),
    StmtFrame a (visitOptStmt a o).1 (returnValuesOpt o)
  | none, a => by
    simpa [visitOptStmt, returnValuesOpt] using StmtFrame.sameF a
  | some s, a => by
    simpa [visitOptStmt, returnValuesOpt] using visitStmt_frame s a
end

theorem ReturnsOK.noReturns (fns : List (String × FunctionInfo)) (cur : String) :
    ReturnsOK fns cur [] := by
  intro info _ b hb
  simp at hb

theorem ReturnsOK.joinR {fns : List (String × FunctionInfo)} {cur : String}
    {r1 r2 : List Bool} (h1 : ReturnsOK fns cur r1) (h2 : ReturnsOK fns cur r2) :
    ReturnsOK fns cur (r1 ++ r2) := by
  intro info hi b hb
  rcases List.mem_append.mp hb with h | h
  · exact h1 info hi b h
  · exact h2 info hi b h

theorem checkReturn_ok (a : SemanticAnalyzer) (b : Bool)
    (h : (checkReturn a b).errors = []) :
    ReturnsOK a.functions a.currentFunction [b] := by
  intro info hi b1 hb1
  simp only [List.mem_singleton] at hb1
  subst hb1
  unfold checkReturn at h
  rw [hi] at h
  simp only at h
  split at h
  · exact absurd h (addError_errors_ne_nil _ _)
  · rename_i h1
    split at h
    · exact absurd h (addError_errors_ne_nil _ _)
    · rename_i h2
      constructor
      · intro hv
        cases b1
        · rfl
        · exact absurd ⟨hv, rfl⟩ h1
      · intro hv
        cases b1
        · exact absurd ⟨hv, rfl⟩ h2
        · rfl

theorem scopeWithin_enter (s : Scope) (vis : List String) (h : ScopeWithin s vis) :
    ScopeWithin s.enterScope vis := by
  intro x hx
  apply h x
  simpa [Scope.lookupVariable, Scope.enterScope, Scope.lookupIn, mapFind] using hx

theorem scopeWithin_of_stack {s t : Scope} {vis : List String}
    (h : ScopeWithin s vis) (e : t.scopeStack = s.scopeStack) : ScopeWithin t vis := by
  intro x hx
  apply h x
  simpa [Scope.lookupVariable, e] using hx

theorem scopeWithin_mono {s : Scope} {vis vis1 : List String}
    (h : ScopeWithin s vis) (hsub : ∀ x, x ∈ vis → x ∈ vis1) : ScopeWithin s vis1 :=
  fun x hx => hsub x (h x hx)

theorem scopeWithin_declare (s : Scope) (name : String) (t : VType) (p : Bool)
    (vis : List String) (top : List (String × Symbol)) (rest : List (List (String × Symbol)))
    (hst : s.scopeStack = top :: rest) (h : ScopeWithin s vis) :
    ScopeWithin (s.declareVariable name t p).2 (name :: vis) := by
  obtain ⟨top1, h1, h2⟩ := declareVariable_stack s name t p top rest hst
  intro x hx
  simp only [Scope.lookupVariable, h1, Scope.lookupIn] at hx
  by_cases hn : x = name
  · simp [hn]
  · apply List.mem_cons_of_mem
    apply h x
    simp only [Scope.lookupVariable, hst, Scope.lookupIn]
    cases hf : mapFind top1 x with
    | some sym =>
      rcases h2 x (by simp [hf]) with h3 | h3
      · exact absurd h3 hn
      · cases hf2 : mapFind top x with
        | some _ => simp
        | none => simp [hf2] at h3
    | none =>
      simp only [hf] at hx
      cases hf2 : mapFind top x with
      | some _ => simp
      | none => simpa using hx

theorem stmtFrame_errors_nil {a b : SemanticAnalyzer} {r : List Bool}
    (h : StmtFrame a b r) (hb : b.errors = []) : a.errors = [] := by
  obtain ⟨l, hl⟩ := h.errors
  rw [hl] at hb
  exact (List.append_eq_nil.mp hb).1

mutual
theorem visitStmt_ok : ∀ (s : Stmt) (a : SemanticAnalyzer) (vis : List String)
    (top : List (String × Symbol)) (rest : List (List (String × Symbol))),
    a.scope.scopeStack = top :: rest → (visitStmt a s).1.errors = [] →
    ScopeWithin a.scope vis →
    StmtOK a vis (resolvesStmt vis s) (callsOfStmt (visitStmt a s).2) (returnValues s) ∧
      ScopeWithin (visitStmt a s).1.scope (declaredBy s ++ vis)
  | .varDecl name initializer, a, vis, top, rest => by
    intro hst h hs
    have hd := scopeWithin_declare a.scope name VType.INT false vis top rest hst hs
    cases initializer with
    | none =>
      simp only [visitStmt] at h ⊢
      simp only [resolvesStmt, returnValues, declaredBy, List.singleton_append]
      split at h
      · exact absurd h (addError_errors_ne_nil _ _)
      · rename_i hd1
        rw [if_neg hd1]
        exact ⟨⟨rfl, by simp [callsOfStmt, callsOfOptExpr], ReturnsOK.noReturns _ _⟩, hd⟩
    | some e =>
      simp only [visitStmt] at h ⊢
      simp only [resolvesStmt, returnValues, declaredBy, List.singleton_append]
      split at h
      · exact absurd h (addError_errors_ne_nil _ _)
      · rename_i hd1
        rw [if_neg hd1]
        simp only at h
        have := visitExpr_ok e { a with scope := (a.scope.declareVariable name VType.INT false).2 }
          (name :: vis) h hd
        refine ⟨⟨this.1, ?_, ReturnsOK.noReturns _ _⟩, ?_⟩
        · simpa [callsOfStmt, callsOfOptExpr] using this.2
        · rw [visitExpr_scope]; exact hd
  | .assign x value, a, vis, top, rest => by
    intro hst h hs
    unfold visitStmt at h ⊢
    simp only [resolvesStmt, returnValues, declaredBy, List.nil_append]
    split at h
    · exact absurd h (addError_errors_ne_nil _ _)
    · rename_i sym hsym
      simp only [hsym]
      have hx : x ∈ vis := hs x (by simp [hsym])
      have := visitExpr_ok value a vis h hs
      refine ⟨⟨by simp [hx, this.1], ?_, ReturnsOK.noReturns _ _⟩, ?_⟩
      · simpa [callsOfStmt] using this.2
      · rw [visitExpr_scope]; exact hs
  | .block ss, a, vis, top, rest => by
    intro hst h hs
    simp only [visitStmt] at h ⊢
    simp only [resolvesStmt, returnValues, declaredBy, List.nil_append, callsOfStmt]
    have hfr := visitStmts_frame ss { a with scope := a.scope.enterScope }
    have ih := visitStmts_ok ss { a with scope := a.scope.enterScope } vis [] (top :: rest)
      (by simp [Scope.enterScope, hst]) h (scopeWithin_enter _ _ hs)
    refine ⟨⟨ih.resolves, ih.calls, ih.returns⟩, ?_⟩
    obtain ⟨t1, ht1⟩ := hfr.stack [] (top :: rest) (by simp [Scope.enterScope, hst])
    apply scopeWithin_of_stack hs
    simp [Scope.exitScope, ht1, hst]
  | .ifS c t e, a, vis, top, rest => by
    intro hst h hs
    simp only [visitStmt] at h ⊢
    simp only [resolvesStmt, returnValues, declaredBy, callsOfStmt]
    have hf1 := StmtFrame.exprF a c
    have hf2 := visitStmt_frame t (visitExpr a c).1
    have hf3 := visitOptStmt_frame e (visitStmt (visitExpr a c).1 t).1
    have e2 := stmtFrame_errors_nil hf3 h
    have e1 := stmtFrame_errors_nil hf2 e2
    have ok1 := visitExpr_ok c a vis e1 hs
    obtain ⟨t1, ht1⟩ := hf1.stack top rest hst
    have ok2 := visitStmt_ok t (visitExpr a c).1 vis t1 rest ht1 e2
      (by rw [visitExpr_scope]; exact hs)
    obtain ⟨t2, ht2⟩ := hf2.stack t1 rest ht1
    have ok3 := visitOptStmt_ok e (visitStmt (visitExpr a c).1 t).1 (declaredBy t ++ vis)
      t2 rest ht2 h ok2.2
    refine ⟨⟨by simp [ok1.1, ok2.1.resolves, ok3.1.resolves], ?_, ?_⟩, ?_⟩
    · intro x hx
      simp only [List.mem_append] at hx
      rcases hx with (hx | hx) | hx
      · exact ok1.2 x hx
      · have := ok2.1.calls x hx
        rwa [hf1.functions] at this
      · have := ok3.1.calls x hx
        rwa [hf2.functions, hf1.functions] at this
    · apply ReturnsOK.joinR
      · have := ok2.1.returns
        rwa [hf1.functions, hf1.currentFunction] at this
      · have := ok3.1.returns
        rwa [hf2.functions, hf1.functions, hf2.currentFunction, hf1.currentFunction] at this
    · rw [List.append_assoc]; exact ok3.2
  | .whileS c b, a, vis, top, rest => by
    intro hst h hs
    simp only [visitStmt] at h ⊢
    simp only [resolvesStmt, returnValues, declaredBy, callsOfStmt]
    have hf1 := StmtFrame.exprF a c
    have hf2 := visitStmt_frame b
      { (visitExpr a c).1 with loopDepth := (visitExpr a c).1.loopDepth + 1 }
    have e1 : (visitExpr a c).1.errors = [] := by
      have := stmtFrame_errors_nil hf2 h
      exact this
    have ok1 := visitExpr_ok c a vis e1 hs
    obtain ⟨t1, ht1⟩ := hf1.stack top rest hst
    have ok2 := visitStmt_ok b
      { (visitExpr a c).1 with loopDepth := (visitExpr a c).1.loopDepth + 1 } vis t1 rest ht1 h
      (by show ScopeWithin (visitExpr a c).1.scope vis; rw [visitExpr_scope]; exact hs)
    refine ⟨⟨by simp [ok1.1, ok2.1.resolves], ?_, ?_⟩, ok2.2⟩
    · intro x hx
      simp only [List.mem_append] at hx
      rcases hx with hx | hx
      · exact ok1.2 x hx
      · have := ok2.1.calls x hx
        exact hf1.functions ▸ this
    · have := ok2.1.returns
      exact hf1.functions ▸ hf1.currentFunction ▸ this
  | .breakS, a, vis, top, rest => by
    intro hst h hs
    unfold visitStmt at h ⊢
    simp only [resolvesStmt, returnValues, declaredBy, List.nil_append]
    split at h
    · exact absurd h (addError_errors_ne_nil _ _)
    · rename_i hl
      simp only [hl, if_false]
      exact ⟨⟨rfl, by simp [callsOfStmt], ReturnsOK.noReturns _ _⟩, hs⟩
  | .continueS, a, vis, top, rest => by
    intro hst h hs
    unfold visitStmt at h ⊢
    simp only [resolvesStmt, returnValues, declaredBy, List.nil_append]
    split at h
    · exact absurd h (addError_errors_ne_nil _ _)
    · rename_i hl
      simp only [hl, if_false]
      exact ⟨⟨rfl, by simp [callsOfStmt], ReturnsOK.noReturns _ _⟩, hs⟩
  | .returnS value, a, vis, top, rest => by
    intro hst h hs
    obtain ⟨l, hl⟩ := checkReturn_frame { a with hasReturn := true } value.isSome
    unfold visitStmt at h ⊢
    simp only [resolvesStmt, returnValues, declaredBy, List.nil_append]
    cases value with
    | none =>
      simp only at h ⊢
      have hr := checkReturn_ok _ _ h
      refine ⟨⟨rfl, by simp [callsOfStmt, callsOfOptExpr], hr⟩, ?_⟩
      rw [hl]; exact hs
    | some e =>
      simp only at h ⊢
      have e1 := visitExpr_errors_nil e _ h
      have hr := checkReturn_ok _ _ e1
      have ok := visitExpr_ok e _ vis h (by rw [hl]; exact hs)
      refine ⟨⟨ok.1, ?_, hr⟩, ?_⟩
      · intro c hc
        have := ok.2 c (by simpa [callsOfStmt, callsOfOptExpr] using hc)
        rw [hl] at this
        exact this
      · rw [visitExpr_scope, hl]; exact hs
  | .exprS e, a, vis, top, rest => by
    intro hst h hs
    simp only [visitStmt] at h ⊢
    simp only [resolvesStmt, returnValues, declaredBy, List.nil_append, callsOfStmt]
    have ok := visitExpr_ok e a vis h hs
    exact ⟨⟨ok.1, ok.2, ReturnsOK.noReturns _ _⟩, by rw [visitExpr_scope]; exact hs⟩
theorem visitStmts_ok : ∀ (ss : List Stmt) (a : SemanticAnalyzer) (vis : List String)
    (top : List (String × Symbol)) (rest : List (List (String × Symbol))),
    a.scope.scopeStack = top :: rest → (visitStmts a ss).1.errors = [] →
    ScopeWithin a.scope vis →
    StmtOK a vis (resolvesStmts vis ss) (callsOfStmts (visitStmts a ss).2)
      (returnValuesList ss)
  | [], a, vis, top, rest => by
    intro _ _ _
    exact ⟨rfl, by simp [visitStmts, callsOfStmts], ReturnsOK.noReturns _ _⟩
  | s :: ss, a, vis, top, rest => by
    intro hst h hs
    simp only [visitStmts] at h ⊢
    simp only [resolvesStmts, returnValuesList, callsOfStmts]
    have hf1 := visitStmt_frame s a
    have hf2 := visitStmts_frame ss (visitStmt a s).1
    have e1 := stmtFrame_errors_nil hf2 h
    have ok1 := visitStmt_ok s a vis top rest hst e1 hs
    obtain ⟨t1, ht1⟩ := hf1.stack top rest hst
    have ok2 := visitStmts_ok ss (visitStmt a s).1 (declaredBy s ++ vis) t1 rest ht1 h ok1.2
    refine ⟨by simp [ok1.1.resolves, ok2.resolves], ?_, ?_⟩
    · intro x hx
      simp only [List.mem_append] at hx
      rcases hx with hx | hx
      · exact ok1.1.calls x hx
      · have := ok2.calls x hx
        rwa [hf1.functions] at this
    · apply ReturnsOK.joinR ok1.1.returns
      have := ok2.returns
      rwa [hf1.functions, hf1.currentFunction] at this
theorem visitOptStmt_ok : ∀ (o : Option Stmt) (a : SemanticAnalyzer) (vis : List String)
    (top : List (String × Symbol)) (rest : List (List (String × Symbol))),
    a.scope.scopeStack = top :: rest → (visitOptStmt a o).1.errors = [] →
    ScopeWithin a.scope vis →
    StmtOK a vis (resolvesOptStmt vis o) (callsOfOptStmt (visitOptStmt a o).2)
      (returnValuesOpt o) ∧
      ScopeWithin (visitOptStmt a o).1.scope (declaredByOpt o ++ vis)
  | none, a, vis, top, rest => by
    intro _ _ hs
    exact ⟨⟨rfl, by simp [visitOptStmt, callsOfOptStmt], ReturnsOK.noReturns _ _⟩,
      by simpa [visitOptStmt, declaredByOpt] using hs⟩
  | some s, a, vis, top, rest => by
    intro hst h hs
    simp only [visitOptStmt] at h ⊢
    simpa [resolvesOptStmt, callsOfOptStmt, returnValuesOpt, declaredByOpt] using
      visitStmt_ok s a vis top rest hst h hs
end

/-! ### Analyzer: functions and compilation units -/

theorem declareParameters_frame : ∀ (ps : List Parameter) (a : SemanticAnalyzer),
    StmtFrame a (declareParameters a ps) []
  | [], a => by simpa [declareParameters] using StmtFrame.sameF a
  | p :: ps, a => by
    have hd : StmtFrame a { a with scope := (a.scope.declareVariable p.name p.type true).2 } [] :=
      ⟨⟨[], by simp⟩, rfl, rfl, rfl, by simp, fun top rest h => by
        obtain ⟨t1, ht1, _⟩ := declareVariable_stack a.scope p.name p.type true top rest h
        exact ⟨t1, ht1⟩⟩
    unfold declareParameters
    simp only
    split
    · simpa using (hd.thenF (StmtFrame.errorF _ _)).thenF (declareParameters_frame ps _)
    · simpa using hd.thenF (declareParameters_frame ps _)

theorem declareParameters_within : ∀ (ps : List Parameter) (a : SemanticAnalyzer)
    (vis : List String) (top : List (String × Symbol)) (rest : List (List (String × Symbol))),
    a.scope.scopeStack = top :: rest → ScopeWithin a.scope vis →
    ScopeWithin (declareParameters a ps).scope (ps.map (fun p => p.name) ++ vis)
  | [], a, vis, top, rest => by
    intro _ hs
    simpa [declareParameters] using hs
  | p :: ps, a, vis, top, rest => by
    intro hst hs
    have hd := scopeWithin_declare a.scope p.name p.type true vis top rest hst hs
    obtain ⟨t1, ht1, _⟩ := declareVariable_stack a.scope p.name p.type true top rest hst
    unfold declareParameters
    simp only
    have hsub : ∀ x, x ∈ ps.map (fun p => p.name) ++ (p.name :: vis) →
        x ∈ (p :: ps).map (fun p => p.name) ++ vis := by
      intro x hx
      simp only [List.map_cons]
      rcases List.mem_append.mp hx with h | h
      · exact List.mem_append_left _ (List.mem_cons_of_mem _ h)
      · rcases List.mem_cons.mp h with h | h
        · subst h; exact List.mem_append_left _ (List.mem_cons_self _ _)
        · exact List.mem_append_right _ h
    split
    · exact scopeWithin_mono (declareParameters_within ps _ (p.name :: vis) t1 rest ht1 hd) hsub
    · exact scopeWithin_mono (declareParameters_within ps _ (p.name :: vis) t1 rest ht1 hd) hsub

theorem visitBlock_frame (ss : List Stmt) (a : SemanticAnalyzer) :
    StmtFrame a (visitBlock a ss).1 (returnValuesList ss) ∧
      ∀ top rest, a.scope.scopeStack = top :: rest →
        (visitBlock a ss).1.scope.scopeStack = top :: rest := by
  have ih := visitStmts_frame ss { a with scope := a.scope.enterScope }
  have hst : ∀ top rest, a.scope.scopeStack = top :: rest →
      (visitBlock a ss).1.scope.scopeStack = top :: rest := by
    intro top rest h
    obtain ⟨t1, ht1⟩ := ih.stack [] (top :: rest) (by simp [Scope.enterScope, h])
    simp [visitBlock, Scope.exitScope, ht1]
  refine ⟨⟨ih.errors, ih.functions, ih.currentFunction, ih.loopDepth, ih.hasReturn, ?_⟩, hst⟩
  intro top rest h
  exact ⟨top, hst top rest h⟩

theorem visitBlock_ok (ss : List Stmt) (a : SemanticAnalyzer) (vis : List String)
    (top : List (String × Symbol)) (rest : List (List (String × Symbol)))
    (hst : a.scope.scopeStack = top :: rest) (h : (visitBlock a ss).1.errors = [])
    (hs : ScopeWithin a.scope vis) :
    StmtOK a vis (resolvesStmts vis ss) (callsOfStmts (visitBlock a ss).2)
      (returnValuesList ss) := by
  have ih := visitStmts_ok ss { a with scope := a.scope.enterScope } vis [] (top :: rest)
    (by simp [Scope.enterScope, hst]) h (scopeWithin_enter _ _ hs)
  exact ⟨ih.resolves, ih.calls, ih.returns⟩

theorem visitFunction_frame (f : FunctionDefinition) (a : SemanticAnalyzer) :
    FunFrame a (visitFunction a f).1 ∧ (visitFunction a f).2.name = f.name ∧
      (visitFunction a f).2.returnType = f.returnType ∧
      (visitFunction a f).2.parameters = f.parameters := by
  have h1 := declareParameters_frame f.parameters
    { a with currentFunction := f.name, hasReturn := false,
             scope := a.scope.enterScope.resetOffset }
  have h2 := visitBlock_frame f.body (declareParameters
    { a with currentFunction := f.name, hasReturn := false,
             scope := a.scope.enterScope.resetOffset } f.parameters)
  obtain ⟨l1, e1⟩ := h1.errors
  obtain ⟨l2, e2⟩ := h2.1.errors
  refine ⟨?_, rfl, rfl, rfl⟩
  unfold visitFunction
  simp only
  split
  · refine ⟨⟨l1 ++ l2 ++ ["Function '" ++ f.name ++ "' must return a value"], ?_⟩, ?_, ?_, ?_⟩
    · simp only [SemanticAnalyzer.addError]
      rw [e2, e1]
      simp only [List.append_assoc]
    · exact h2.1.functions.trans h1.functions
    · exact h2.1.loopDepth.trans h1.loopDepth
    · intro top rest h
      obtain ⟨t1, ht1⟩ := h1.stack [] (top :: rest) (by simp [Scope.enterScope, Scope.resetOffset, h])
      have := h2.2 t1 (top :: rest) ht1
      simp [Scope.exitScope, SemanticAnalyzer.addError, this]
  · refine ⟨⟨l1 ++ l2, ?_⟩, ?_, ?_, ?_⟩
    · show (visitBlock _ f.body).1.errors = _
      rw [e2, e1]
      simp only [List.append_assoc]
    · exact h2.1.functions.trans h1.functions
    · exact h2.1.loopDepth.trans h1.loopDepth
    · intro top rest h
      obtain ⟨t1, ht1⟩ := h1.stack [] (top :: rest) (by simp [Scope.enterScope, Scope.resetOffset, h])
      have := h2.2 t1 (top :: rest) ht1
      simp [Scope.exitScope, this]

theorem visitFunction_ok (f : FunctionDefinition) (a : SemanticAnalyzer) (vis : List String)
    (top : List (String × Symbol)) (rest : List (List (String × Symbol)))
    (hst : a.scope.scopeStack = top :: rest) (h : (visitFunction a f).1.errors = [])
    (hs : ScopeWithin a.scope vis) :
    FunOK a.functions vis f ∧
      ∀ c ∈ callsOfStmts (visitFunction a f).2.body, CallOK a.functions c := by
  have h1 := declareParameters_frame f.parameters
    { a with currentFunction := f.name, hasReturn := false,
             scope := a.scope.enterScope.resetOffset }
  have h2 := visitBlock_frame f.body (declareParameters
    { a with currentFunction := f.name, hasReturn := false,
             scope := a.scope.enterScope.resetOffset } f.parameters)
  have hw := declareParameters_within f.parameters
    { a with currentFunction := f.name, hasReturn := false,
             scope := a.scope.enterScope.resetOffset } vis [] (top :: rest)
    (by simp [Scope.enterScope, Scope.resetOffset, hst])
    (scopeWithin_of_stack (scopeWithin_enter _ _ hs) (by simp [Scope.resetOffset]))
  obtain ⟨t1, ht1⟩ := h1.stack [] (top :: rest)
    (by simp [Scope.enterScope, Scope.resetOffset, hst])
  unfold visitFunction at h
  simp only at h
  split at h
  · exact absurd h (by simp [SemanticAnalyzer.addError])
  · rename_i hret
    have hb : (visitBlock (declareParameters
      { a with currentFunction := f.name, hasReturn := false,
               scope := a.scope.enterScope.resetOffset } f.parameters) f.body).1.errors = [] := h
    have ok := visitBlock_ok f.body _ _ t1 (top :: rest) ht1 hb hw
    have hfn := h1.functions
    have hcf := h1.currentFunction
    simp only at hfn hcf
    refine ⟨⟨ok.resolves, ?_, ?_⟩, ?_⟩
    · have := ok.returns
      rwa [hfn, hcf] at this
    · intro hint
      have hr := h2.1.hasReturn
      rw [h1.hasReturn] at hr
      simp only [Bool.false_or, List.isEmpty_nil, Bool.not_true] at hr
      intro hnil
      rw [hnil] at hr
      simp only [List.isEmpty_nil, Bool.not_true, Bool.or_false] at hr
      exact hret ⟨hint, hr⟩
    · intro c hc
      have := ok.calls c hc
      rwa [hfn] at this

theorem visitFunctions_frame : ∀ (fs : List FunctionDefinition) (a : SemanticAnalyzer),
    FunFrame a (visitFunctions a fs).1 ∧
      (visitFunctions a fs).2.map (fun f => f.name) = fs.map (fun f => f.name)
  | [], a => ⟨⟨⟨[], by simp [visitFunctions]⟩, rfl, rfl, fun _ _ h => h⟩, rfl⟩
  | f :: fs, a => by
    have h1 := visitFunction_frame f a
    have h2 := visitFunctions_frame fs (visitFunction a f).1
    obtain ⟨l1, e1⟩ := h1.1.errors
    obtain ⟨l2, e2⟩ := h2.1.errors
    simp only [visitFunctions]
    refine ⟨⟨⟨l1 ++ l2, by rw [e2, e1, List.append_assoc]⟩, h2.1.functions.trans h1.1.functions,
      h2.1.loopDepth.trans h1.1.loopDepth, fun top rest h => h2.1.stack top rest (h1.1.stack top rest h)⟩, ?_⟩
    simp [h1.2.1, h2.2]

theorem visitFunctions_ok : ∀ (fs : List FunctionDefinition) (a : SemanticAnalyzer)
    (vis : List String) (top : List (String × Symbol)) (rest : List (List (String × Symbol))),
    a.scope.scopeStack = top :: rest → (visitFunctions a fs).1.errors = [] →
    ScopeWithin a.scope vis →
    (∀ f ∈ fs, FunOK a.functions vis f) ∧
      ∀ c ∈ callsOfFunctions (visitFunctions a fs).2, CallOK a.functions c
  | [], a, vis, top, rest => by
    intro _ _ _
    simp [visitFunctions, callsOfFunctions]
  | f :: fs, a, vis, top, rest => by
    intro hst h hs
    simp only [visitFunctions] at h ⊢
    have hf1 := visitFunction_frame f a
    have hf2 := visitFunctions_frame fs (visitFunction a f).1
    have e1 : (visitFunction a f).1.errors = [] := by
      obtain ⟨l, hl⟩ := hf2.1.errors
      rw [hl] at h
      exact (List.append_eq_nil.mp h).1
    have ok1 := visitFunction_ok f a vis top rest hst e1 hs
    have ok2 := visitFunctions_ok fs (visitFunction a f).1 vis top rest
      (hf1.1.stack top rest hst) h
      (scopeWithin_of_stack hs ((hf1.1.stack top rest hst).trans hst.symm))
    rw [hf1.1.functions] at ok2
    constructor
    · intro g hg
      rcases List.mem_cons.mp hg with hg | hg
      · subst hg; exact ok1.1
      · exact ok2.1 g hg
    · intro c hc
      simp only [callsOfFunctions, List.mem_append] at hc
      rcases hc with hc | hc
      · exact ok1.2 c hc
      · exact ok2.2 c hc

theorem collectFunctions_frame : ∀ (fs : List FunctionDefinition) (a : SemanticAnalyzer),
    (∃ l, (collectFunctions a fs).errors = a.errors ++ l) ∧
      (collectFunctions a fs).scope = a.scope
  | [], a => ⟨⟨[], by simp [collectFunctions]⟩, rfl⟩
  | f :: fs, a => by
    unfold collectFunctions
    simp only
    split
    · obtain ⟨⟨l, hl⟩, hs⟩ := collectFunctions_frame fs
        (a.addError ("Function '" ++ f.name ++ "' is already declared"))
      exact ⟨⟨("Function '" ++ f.name ++ "' is already declared") :: l,
        by rw [hl]; simp [SemanticAnalyzer.addError]⟩, hs⟩
    · obtain ⟨⟨l, hl⟩, hs⟩ := collectFunctions_frame fs
        { a with functions :=
            mapSet a.functions f.name ⟨f.name, f.returnType,
              f.parameters.map (fun param => param.type), true⟩ }
      exact ⟨⟨l, hl⟩, hs⟩

theorem collectFunctions_ok : ∀ (fs : List FunctionDefinition) (a : SemanticAnalyzer),
    (collectFunctions a fs).errors = [] →
    (∀ f ∈ fs, mapFind a.functions f.name = none) ∧
      (fs.map (fun f => f.name)).Nodup ∧
      (∀ f ∈ fs, mapFind (collectFunctions a fs).functions f.name = some (infoOf f)) ∧
      (∀ x, (∀ f ∈ fs, f.name ≠ x) →
        mapFind (collectFunctions a fs).functions x = mapFind a.functions x)
  | [], a => by
    intro _
    simp [collectFunctions]
  | f :: fs, a => by
    intro h
    unfold collectFunctions at h ⊢
    simp only at h ⊢
    split at h
    · obtain ⟨⟨l, hl⟩, _⟩ := collectFunctions_frame fs
        (a.addError ("Function '" ++ f.name ++ "' is already declared"))
      rw [hl] at h
      simp [SemanticAnalyzer.addError] at h
    · rename_i hnone
      have ih := collectFunctions_ok fs _ h
      obtain ⟨ih1, ih2, ih3, ih4⟩ := ih
      have hne : ∀ g ∈ fs, f.name ≠ g.name := by
        intro g hg heq
        have := ih1 g hg
        simp only [mapFind_mapSet, heq, if_true] at this
        exact absurd this (by simp)
      refine ⟨?_, ?_, ?_, ?_⟩
      · intro g hg
        rcases List.mem_cons.mp hg with hg | hg
        · subst hg; exact hnone
        · have := ih1 g hg
          simp only [mapFind_mapSet, hne g hg, if_false] at this
          exact this
      · simp only [List.map_cons, List.nodup_cons, ih2, and_true, List.mem_map, not_exists,
          not_and]
        intro g hg heq
        exact hne g hg heq.symm
      · intro g hg
        rcases List.mem_cons.mp hg with hg | hg
        · subst hg
          by_cases hex : ∃ g1 ∈ fs, g1.name = g.name
          · obtain ⟨g1, hg1, hn⟩ := hex
            exact absurd hn.symm (hne g1 hg1)
          · rw [ih4 g.name (fun g1 hg1 hn => hex ⟨g1, hg1, hn⟩)]
            simp [mapFind_mapSet, infoOf]
        · exact ih3 g hg
      · intro x hx
        rw [ih4 x (fun g hg => hx g (List.mem_cons_of_mem _ hg))]
        have := hx f (List.mem_cons_self _ _)
        simp [mapFind_mapSet, this]

theorem analyze_fresh (u : CompilationUnit) :
    SemanticAnalyzer.fresh.analyze u =
      ((visitFunctions
          (if checkMainFunction (collectFunctions SemanticAnalyzer.fresh u.functions) then
            collectFunctions SemanticAnalyzer.fresh u.functions
          else (collectFunctions SemanticAnalyzer.fresh u.functions).addError
            "Missing main function with signature: int main()") u.functions).1.errors.isEmpty,
        (visitFunctions
          (if checkMainFunction (collectFunctions SemanticAnalyzer.fresh u.functions) then
            collectFunctions SemanticAnalyzer.fresh u.functions
          else (collectFunctions SemanticAnalyzer.fresh u.functions).addError
            "Missing main function with signature: int main()") u.functions).1,
        { functions := (visitFunctions
          (if checkMainFunction (collectFunctions SemanticAnalyzer.fresh u.functions) then
            collectFunctions SemanticAnalyzer.fresh u.functions
          else (collectFunctions SemanticAnalyzer.fresh u.functions).addError
            "Missing main function with signature: int main()") u.functions).2 }) := rfl

theorem analyze_accepted (u : CompilationUnit)
    (h : (SemanticAnalyzer.fresh.analyze u).1 = true) : Accepted u := by
  have hA := analyze_fresh u
  obtain ⟨a1, ha1⟩ : ∃ a1, a1 = collectFunctions SemanticAnalyzer.fresh u.functions := ⟨_, rfl⟩
  rw [← ha1] at hA
  rw [hA] at h
  simp only [List.isEmpty_iff] at h
  have hfr := visitFunctions_frame u.functions
    (if checkMainFunction a1 then a1
      else a1.addError "Missing main function with signature: int main()")
  have e2 : (if checkMainFunction a1 then a1
      else a1.addError "Missing main function with signature: int main()").errors = [] := by
    obtain ⟨l, hl⟩ := hfr.1.errors
    rw [hl] at h
    exact (List.append_eq_nil.mp h).1
  have hmain : checkMainFunction a1 = true := by
    by_contra hm
    rw [if_neg hm] at e2
    simp [SemanticAnalyzer.addError] at e2
  rw [if_pos hmain] at h e2 hfr hA
  rw [ha1] at e2
  obtain ⟨c1, c2, c3, c4⟩ := collectFunctions_ok u.functions _ e2
  rw [← ha1] at c3 c4
  have hscope := (collectFunctions_frame u.functions SemanticAnalyzer.fresh).2
  rw [← ha1] at hscope
  have hstack : a1.scope.scopeStack = [] :: [] := by
    rw [hscope]; rfl
  have hwithin : ScopeWithin a1.scope [] := by
    intro x hx
    simp [Scope.lookupVariable, hstack, Scope.lookupIn, mapFind] at hx
  have ok := visitFunctions_ok u.functions _ [] [] [] hstack h hwithin
  have hfns : (SemanticAnalyzer.fresh.analyze u).2.1.functions = a1.functions := by
    rw [hA]
    exact hfr.1.functions
  have hunit : (SemanticAnalyzer.fresh.analyze u).2.2.functions
      = (visitFunctions a1 u.functions).2 := by
    rw [hA]
  have honly : ∀ x info, mapFind a1.functions x = some info →
      ∃ f ∈ u.functions, f.name = x ∧ info = infoOf f := by
    intro x info hx
    by_cases hex : ∃ f ∈ u.functions, f.name = x
    · obtain ⟨f, hf, hn⟩ := hex
      refine ⟨f, hf, hn, ?_⟩
      have := c3 f hf
      rw [hn, hx] at this
      exact (Option.some.inj this)
    · rw [c4 x (fun f hf hn => hex ⟨f, hf, hn⟩)] at hx
      simp [SemanticAnalyzer.fresh, mapFind] at hx
  refine ⟨c2, ?_, ?_, ?_, ?_, ?_, ?_⟩
  · rw [hfns]; exact c3
  · rw [hfns]; exact honly
  · unfold checkMainFunction at hmain
    split at hmain
    · exact absurd hmain (by simp)
    · rename_i info hinfo
      obtain ⟨f, hf, hn, hi⟩ := honly "main" info hinfo
      subst hi
      simp only [infoOf, Bool.and_eq_true, decide_eq_true_eq, List.isEmpty_iff,
        List.map_eq_nil_iff] at hmain
      exact ⟨f, hf, hn, hmain.1, hmain.2⟩
  · rw [hfns]; exact ok.1
  · rw [hfns]
    unfold callsOfUnit
    rw [hunit]
    exact ok.2
  · rw [hunit]; exact hfr.2

/-! ### The analyzer rewrites only `returnType` -/

mutual
theorem visitExpr_sites : ∀ (e : Expr) (a : SemanticAnalyzer),
    (callsOfExpr (visitExpr a e).2).map callSite = (callsOfExpr e).map callSite
  | .number _, a => by simp [visitExpr]
  | .ident name, a => by
    unfold visitExpr
    split <;> rfl
  | .unary _ operand, a => by
    simpa [visitExpr, callsOfExpr] using visitExpr_sites operand a
  | .binary left _ right, a => by
    simp only [visitExpr, callsOfExpr, List.map_append]
    rw [visitExpr_sites left a, visitExpr_sites right _]
  | .call fn args rt, a => by
    unfold visitExpr
    split
    · rfl
    · split
      · rfl
      · have ih := visitExprs_sites args a
        simp only [callsOfExpr, List.map_cons, ih.1, ih.2]
        rfl
theorem visitExprs_sites : ∀ (es : List Expr) (a : SemanticAnalyzer),
    (callsOfExprs (visitExprs a es).2).map callSite = (callsOfExprs es).map callSite ∧
      (visitExprs a es).2.length = es.length
  | [], a => by simp [visitExprs]
  | e :: es, a => by
    have ih := visitExprs_sites es (visitExpr a e).1
    simp only [visitExprs, callsOfExprs, List.map_append, List.length_cons]
    rw [visitExpr_sites e a, ih.1, ih.2]
    exact ⟨rfl, rfl⟩
end

mutual
theorem visitStmt_sites : ∀ (s : Stmt) (a : SemanticAnalyzer),
    (callsOfStmt (visitStmt a s).2).map callSite = (callsOfStmt s).map callSite
  | .varDecl name initializer, a => by
    cases initializer with
    | none =>
      simp only [visitStmt]
      split <;> rfl
    | some e =>
      simp only [visitStmt]
      split
      · rfl
      · simpa [callsOfStmt, callsOfOptExpr] using visitExpr_sites e _
  | .assign x value, a => by
    unfold visitStmt
    split
    · rfl
    · simpa [callsOfStmt] using visitExpr_sites value a
  | .block ss, a => by
    simpa [visitStmt, callsOfStmt] using visitStmts_sites ss _
  | .ifS c t e, a => by
    simp only [visitStmt, callsOfStmt, List.map_append]
    rw [visitExpr_sites c a, visitStmt_sites t _, visitOptStmt_sites e _]
  | .whileS c b, a => by
    simp only [visitStmt, callsOfStmt, List.map_append]
    rw [visitExpr_sites c a, visitStmt_sites b _]
  | .breakS, a => by
    unfold visitStmt
    split <;> rfl
  | .continueS, a => by
    unfold visitStmt
    split <;> rfl
  | .returnS value, a => by
    cases value with
    | none => simp [visitStmt]
    | some e => simpa [visitStmt, callsOfStmt, callsOfOptExpr] using visitExpr_sites e _
  | .exprS e, a => by
    simpa [visitStmt, callsOfStmt] using visitExpr_sites e a
theorem visitStmts_sites : ∀ (ss : List Stmt) (a : SemanticAnalyzer),
    (callsOfStmts (visitStmts a ss).2).map callSite = (callsOfStmts ss).map callSite
  | [], a => by simp [visitStmts]
  | s :: ss, a => by
    simp only [visitStmts, callsOfStmts, List.map_append]
    rw [visitStmt_sites s a, visitStmts_sites ss _]
theorem visitOptStmt_sites : ∀ (o : Option Stmt) (a : SemanticAnalyzer),
    (callsOfOptStmt (visitOptStmt a o).2).map callSite = (callsOfOptStmt o).map callSite
  | none, a => by simp [visitOptStmt]
  | some s, a => by
    simpa [visitOptStmt, callsOfOptStmt] using visitStmt_sites s a
end

theorem visitFunctions_sites : ∀ (fs : List FunctionDefinition) (a : SemanticAnalyzer),
    (callsOfFunctions (visitFunctions a fs).2).map callSite
      = (callsOfFunctions fs).map callSite
  | [], a => by simp [visitFunctions]
  | f :: fs, a => by
    simp only [visitFunctions, callsOfFunctions, List.map_append]
    rw [visitFunctions_sites fs _]
    congr 1
    exact visitStmts_sites f.body _

theorem analyze_sites (a : SemanticAnalyzer) (u : CompilationUnit) :
    (callsOfUnit (a.analyze u).2.2).map callSite = (callsOfUnit u).map callSite := by
  unfold callsOfUnit analyze
  exact visitFunctions_sites u.functions _

/-! ### Labels: a prefix followed by a decimal counter -/

theorem digitChar_value (d : Nat) (h : d < 10) : (Nat.digitChar d).toNat - 48 = d := by
  interval_cases d <;> rfl

theorem digitChar_isDigit (d : Nat) (h : d < 10) : (Nat.digitChar d).isDigit = true := by
  interval_cases d <;> rfl

theorem toDigitsCore_append : ∀ (fuel n : Nat) (ds : List Char),
    Nat.toDigitsCore 10 fuel n ds = Nat.toDigitsCore 10 fuel n [] ++ ds
  | 0, n, ds => by simp [Nat.toDigitsCore]
  | fuel + 1, n, ds => by
    simp only [Nat.toDigitsCore]
    split
    · simp
    · rw [toDigitsCore_append fuel (n / 10) (Nat.digitChar (n % 10) :: ds),
        toDigitsCore_append fuel (n / 10) [Nat.digitChar (n % 10)]]
      simp

theorem toDigitsCore_value : ∀ (fuel n : Nat), n < fuel →
    digitsValue (Nat.toDigitsCore 10 fuel n []) = n ∧
      ∀ c ∈ Nat.toDigitsCore 10 fuel n [], c.isDigit = true
  | 0, n, h => by omega
  | fuel + 1, n, h => by
    simp only [Nat.toDigitsCore]
    have hmod : n % 10 < 10 := Nat.mod_lt _ (by norm_num)
    split
    · rename_i hz
      have hn : n % 10 = n := by omega
      constructor
      · have hv := digitChar_value _ hmod
        simp only [digitsValue, List.foldl_cons, List.foldl_nil]
        omega
      · intro c hc
        simp only [List.mem_singleton] at hc
        rw [hc]
        exact digitChar_isDigit _ hmod
    · rename_i hz
      rw [toDigitsCore_append]
      have ih := toDigitsCore_value fuel (n / 10) (by omega)
      constructor
      · have h1 := ih.1
        unfold digitsValue at h1 ⊢
        rw [List.foldl_append, h1]
        simp only [List.foldl_cons, List.foldl_nil, digitChar_value _ hmod]
        omega
      · intro c hc
        rcases List.mem_append.mp hc with hc | hc
        · exact ih.2 c hc
        · simp only [List.mem_singleton] at hc
          rw [hc]
          exact digitChar_isDigit _ hmod

theorem toString_data (n : Nat) : (toString n).data = Nat.toDigits 10 n := rfl

theorem toString_value (n : Nat) : digitsValue (toString n).data = n :=
  (toDigitsCore_value (n + 1) n (Nat.lt_succ_self n)).1

theorem toString_isDigit (n : Nat) : ∀ c ∈ (toString n).data, c.isDigit = true :=
  (toDigitsCore_value (n + 1) n (Nat.lt_succ_self n)).2

theorem dropWhile_nondigit (p d : List Char) (hp : ∀ c ∈ p, c.isDigit = false)
    (hd : ∀ c ∈ d, c.isDigit = true) :
    (p ++ d).dropWhile (fun c => !c.isDigit) = d := by
  induction p with
  | nil =>
    cases d with
    | nil => rfl
    | cons c cs => simp [List.dropWhile, hd c (List.mem_cons_self _ _)]
  | cons c cs ih =>
    have hc := hp c (List.mem_cons_self _ _)
    simp only [List.cons_append, List.dropWhile, hc, Bool.not_false]
    exact ih (fun x hx => hp x (List.mem_cons_of_mem _ hx))

theorem labelPrefix_nondigit (p : String) (hp : p ∈ labelPrefixes) :
    ∀ c ∈ p.data, c.isDigit = false := by
  simp only [labelPrefixes, List.mem_cons, List.mem_singleton, List.not_mem_nil, or_false] at hp
  rcases hp with rfl | rfl | rfl | rfl | rfl | rfl | rfl | rfl <;> decide

theorem label_counter_inj (p q : String) (n m : Nat) (hp : p ∈ labelPrefixes)
    (hq : q ∈ labelPrefixes) (h : p ++ toString n = q ++ toString m) : n = m := by
  have hd : (p ++ toString n).data = (q ++ toString m).data := by rw [h]
  simp only [String.data_append] at hd
  have h1 := dropWhile_nondigit p.data (toString n).data (labelPrefix_nondigit p hp)
    (toString_isDigit n)
  have h2 := dropWhile_nondigit q.data (toString m).data (labelPrefix_nondigit q hq)
    (toString_isDigit m)
  rw [hd, h2] at h1
  have := congrArg digitsValue h1
  rw [toString_value, toString_value] at this
  exact this.symm

/-! ### Generator: the label lines it writes -/

theorem labelsOf_append (xs ys : List Line) :
    labelsOf (xs ++ ys) = labelsOf xs ++ labelsOf ys := by
  induction xs with
  | nil => rfl
  | cons x xs ih =>
    cases x <;> simp [labelsOf, ih]

theorem GenLabel.widenL {a b a1 b1 : Nat} {l : String} (h : GenLabel a b l)
    (ha : a1 ≤ a) (hb : b ≤ b1) : GenLabel a1 b1 l := by
  obtain ⟨p, hp, n, h1, h2, h3⟩ := h
  exact ⟨p, hp, n, by omega, by omega, h3⟩

theorem GenLabel.disjoint {a b c d : Nat} {l : String} (h1 : GenLabel a b l)
    (h2 : GenLabel c d l) (hbc : b ≤ c) : False := by
  obtain ⟨p, hp, n, _, hn, e1⟩ := h1
  obtain ⟨q, hq, m, hm, _, e2⟩ := h2
  have := label_counter_inj p q n m hp hq (e1.symm.trans e2)
  omega

theorem Fresh.none (lo hi : Nat) : Fresh lo hi [] :=
  ⟨List.nodup_nil, fun l hl => absurd hl (List.not_mem_nil l)⟩

theorem Fresh.widen {a b a1 b1 : Nat} {ls : List String} (h : Fresh a b ls)
    (ha : a1 ≤ a) (hb : b ≤ b1) : Fresh a1 b1 ls :=
  ⟨h.1, fun l hl => (h.2 l hl).widenL ha hb⟩

theorem Fresh.single (p : String) (hp : p ∈ labelPrefixes) (n : Nat) :
    Fresh n (n + 1) [p ++ toString n] :=
  ⟨List.nodup_singleton _, fun l hl => by
    rw [List.mem_singleton.mp hl]
    exact ⟨p, hp, n, le_refl n, Nat.lt_succ_self n, rfl⟩⟩

theorem Fresh.join {a b c : Nat} {l1 l2 : List String} (h1 : Fresh a b l1)
    (h2 : Fresh b c l2) (hab : a ≤ b) (hbc : b ≤ c) : Fresh a c (l1 ++ l2) := by
  constructor
  · rw [List.nodup_append]
    refine ⟨h1.1, h2.1, ?_⟩
    intro x hx1 hx2
    exact (h1.2 x hx1).disjoint (h2.2 x hx2) (le_refl b)
  · intro l hl
    rcases List.mem_append.mp hl with h | h
    · exact (h1.2 l h).widenL (le_refl a) hbc
    · exact (h2.2 l h).widenL hab (le_refl c)

theorem Fresh.middle {a b c : Nat} {x : String} {l1 l2 : List String}
    (hx : Fresh a b [x]) (h : Fresh b c (l1 ++ l2)) (hab : a ≤ b) (hbc : b ≤ c) :
    Fresh a c (l1 ++ x :: l2) := by
  have := Fresh.join hx h hab hbc
  constructor
  · rw [List.nodup_middle]
    exact this.1
  · intro l hl
    apply this.2
    simp only [List.mem_append, List.mem_cons, List.singleton_append] at hl ⊢
    tauto

theorem Out.sameO (g : RISCVCodeGenerator) : Out g g [] 0 := ⟨by simp, rfl⟩

theorem Out.thenO {g g1 g2 : RISCVCodeGenerator} {l1 l2 : List String} {k1 k2 : Nat}
    (h1 : Out g g1 l1 k1) (h2 : Out g1 g2 l2 k2) : Out g g2 (l1 ++ l2) (k1 + k2) :=
  ⟨by rw [h2.labels, h1.labels, List.append_assoc], by rw [h2.counter, h1.counter]; omega⟩

theorem Silent.sameS (g : RISCVCodeGenerator) : Silent g g := Out.sameO g

theorem Silent.thenS {g g1 g2 : RISCVCodeGenerator} (h1 : Silent g g1) (h2 : Silent g1 g2) :
    Silent g g2 := by
  simpa using Out.thenO h1 h2

theorem Out.afterSilent {g g1 g2 : RISCVCodeGenerator} {ls : List String} {k : Nat}
    (h1 : Silent g g1) (h2 : Out g1 g2 ls k) : Out g g2 ls k := by
  simpa using Out.thenO h1 h2

theorem Out.thenSilent {g g1 g2 : RISCVCodeGenerator} {ls : List String} {k : Nat}
    (h1 : Out g g1 ls k) (h2 : Silent g1 g2) : Out g g2 ls k := by
  simpa using Out.thenO h1 h2

theorem Silent.toGen {g g1 : RISCVCodeGenerator} (h : Silent g g1) : Gen g g1 :=
  ⟨[], 0, h, Fresh.none _ _⟩

theorem Gen.thenG {g g1 g2 : RISCVCodeGenerator} (h1 : Gen g g1) (h2 : Gen g1 g2) :
    Gen g g2 := by
  obtain ⟨l1, k1, o1, f1⟩ := h1
  obtain ⟨l2, k2, o2, f2⟩ := h2
  refine ⟨l1 ++ l2, k1 + k2, o1.thenO o2, ?_⟩
  rw [o1.counter] at f2
  have := f1.join f2 (by omega) (by omega)
  rwa [Nat.add_assoc] at this

theorem Gen.afterSilentG {g g1 g2 : RISCVCodeGenerator} (h1 : Silent g g1) (h2 : Gen g1 g2) :
    Gen g g2 := h1.toGen.thenG h2

theorem Gen.thenSilentG {g g1 g2 : RISCVCodeGenerator} (h1 : Gen g g1) (h2 : Silent g1 g2) :
    Gen g g2 := h1.thenG h2.toGen

theorem Silent.emit (g : RISCVCodeGenerator) (i : Instr) : Silent g (g.emit i) :=
  ⟨by simp [labelsOut, RISCVCodeGenerator.emit, labelsOf_append, labelsOf], rfl⟩

theorem Silent.emitComment (g : RISCVCodeGenerator) (c : String) :
    Silent g (g.emitComment c) :=
  ⟨by simp [labelsOut, RISCVCodeGenerator.emitComment, labelsOf_append, labelsOf], rfl⟩

theorem Out.emitLabel (g : RISCVCodeGenerator) (l : String) : Out g (g.emitLabel l) [l] 0 :=
  ⟨by simp [labelsOut, RISCVCodeGenerator.emitLabel, labelsOf_append, labelsOf], rfl⟩

theorem Out.newLabel (g : RISCVCodeGenerator) (p : String) : Out g (g.newLabel p).2 [] 1 :=
  ⟨by simp [labelsOut, RISCVCodeGenerator.newLabel], rfl⟩

theorem Silent.allocTemp (g : RISCVCodeGenerator) : Silent g g.allocTemp.2 :=
  ⟨by simp [labelsOut, RISCVCodeGenerator.allocTemp], rfl⟩

theorem Silent.release (g : RISCVCodeGenerator) (r : String) : Silent g (g.release r) :=
  ⟨by simp [labelsOut, RISCVCodeGenerator.release], rfl⟩

theorem Silent.loadImmediate (g : RISCVCodeGenerator) (v : Int) (r : String) :
    Silent g (g.loadImmediate v r) := by
  unfold RISCVCodeGenerator.loadImmediate
  simp only []
  split_ifs <;> first
    | exact Silent.emit _ _
    | exact (Silent.emit _ _).thenS (Silent.emit _ _)

theorem Silent.epilogue (g : RISCVCodeGenerator) : Silent g g.generateFunctionEpilogue :=
  (((Silent.emit _ _).thenS (Silent.emit _ _)).thenS (Silent.emit _ _)).thenS (Silent.emit _ _)

theorem Silent.prologue (g : RISCVCodeGenerator) (n : String) (f : Int) :
    Silent g (g.generateFunctionPrologue n f) :=
  ((((Silent.emitComment _ _).thenS (Silent.emit _ _)).thenS (Silent.emit _ _)).thenS
    (Silent.emit _ _)).thenS (Silent.emit _ _)

theorem Silent.saveRegisters : ∀ (regs : List String) (g : RISCVCodeGenerator),
    Silent g (g.saveRegisters regs)
  | [], g => Silent.sameS g
  | _ :: rest, _ =>
    ((Silent.emit _ _).thenS (Silent.emit _ _)).thenS (Silent.saveRegisters rest _)

theorem Silent.restoreLoop : ∀ (regs : List String) (g : RISCVCodeGenerator),
    Silent g (g.restoreLoop regs)
  | [], g => Silent.sameS g
  | _ :: rest, _ =>
    ((Silent.emit _ _).thenS (Silent.emit _ _)).thenS (Silent.restoreLoop rest _)

theorem Silent.restoreRegisters (regs : List String) (g : RISCVCodeGenerator) :
    Silent g (g.restoreRegisters regs) := Silent.restoreLoop _ _

theorem Silent.genUnaryOp (g : RISCVCodeGenerator) (op : UnOp) (r : String) :
    Silent g (g.genUnaryOp op r) := by
  cases op <;> exact Silent.emit _ _

/-- Two labels are made one after the other and each is written once. -/
theorem Gen.twoLabels {g g1 : RISCVCodeGenerator} {p q : String} (hp : p ∈ labelPrefixes)
    (hq : q ∈ labelPrefixes)
    (h : Out g g1 [p ++ toString g.labelCounter, q ++ toString (g.labelCounter + 1)] 2) :
    Gen g g1 :=
  ⟨_, 2, h, (Fresh.single p hp g.labelCounter).join
    (Fresh.single q hq (g.labelCounter + 1)) (by omega) (by omega)⟩

theorem Gen.genBinaryOp (g : RISCVCodeGenerator) (op : BinOp) (r : String) :
    Gen g (g.genBinaryOp op r) := by
  cases op
  case AND =>
    apply Gen.twoLabels (p := "and_false") (q := "and_end") (by decide) (by decide)
    have h := ((((((((Out.newLabel g "and_false").thenO
      (Out.newLabel (g.newLabel "and_false").2 "and_end")).thenSilent
      (Silent.emit _ (.beqz "t0" (g.newLabel "and_false").1))).thenSilent
      (Silent.emit _ (.beqz "t1" (g.newLabel "and_false").1))).thenSilent
      (Silent.loadImmediate _ 1 r)).thenSilent
      (Silent.emit _ (.j ((g.newLabel "and_false").2.newLabel "and_end").1))).thenO
      (Out.emitLabel _ (g.newLabel "and_false").1)).thenSilent
      (Silent.loadImmediate _ 0 r)).thenO
      (Out.emitLabel _ ((g.newLabel "and_false").2.newLabel "and_end").1)
    exact h
  case OR =>
    apply Gen.twoLabels (p := "or_true") (q := "or_end") (by decide) (by decide)
    have h := ((((((((Out.newLabel g "or_true").thenO
      (Out.newLabel (g.newLabel "or_true").2 "or_end")).thenSilent
      (Silent.emit _ (.bnez "t0" (g.newLabel "or_true").1))).thenSilent
      (Silent.emit _ (.bnez "t1" (g.newLabel "or_true").1))).thenSilent
      (Silent.loadImmediate _ 0 r)).thenSilent
      (Silent.emit _ (.j ((g.newLabel "or_true").2.newLabel "or_end").1))).thenO
      (Out.emitLabel _ (g.newLabel "or_true").1)).thenSilent
      (Silent.loadImmediate _ 1 r)).thenO
      (Out.emitLabel _ ((g.newLabel "or_true").2.newLabel "or_end").1)
    exact h
  all_goals first
    | exact (Silent.emit _ _).toGen
    | exact ((Silent.emit _ _).thenS (Silent.emit _ _)).toGen

theorem Fresh.perm {a b : Nat} {l1 l2 : List String} (hp : l1.Perm l2) (h : Fresh a b l1) :
    Fresh a b l2 :=
  ⟨hp.nodup_iff.mp h.1, fun l hl => h.2 l (hp.mem_iff.mpr hl)⟩

/-- The shape shared by the lowering of `if` and `while`: two labels are made first, and
written (the lists `la`, `lb`, `lc`) around two inner steps. -/
theorem Gen.around {g gA gB gC gD gE : RISCVCodeGenerator} {la lb lc : List String}
    (h1 : Out g gA la 2) (h2 : Gen gA gB) (h3 : Out gB gC lb 0) (h4 : Gen gC gD)
    (h5 : Out gD gE lc 0)
    (hf : Fresh g.labelCounter (g.labelCounter + 2) (la ++ lb ++ lc)) : Gen g gE := by
  obtain ⟨l1, k1, o1, f1⟩ := h2
  obtain ⟨l2, k2, o2, f2⟩ := h4
  refine ⟨la ++ l1 ++ lb ++ l2 ++ lc, 2 + k1 + 0 + k2 + 0,
    (((h1.thenO o1).thenO h3).thenO o2).thenO h5, ?_⟩
  have hc : gC.labelCounter = gA.labelCounter + k1 := by
    rw [h3.counter, o1.counter]; rfl
  rw [hc] at f2
  rw [h1.counter] at f1 f2
  have hin := f1.join f2 (by omega) (by omega)
  have hall := hf.join hin (by omega) (by omega)
  have hperm : (la ++ lb ++ lc ++ (l1 ++ l2)).Perm (la ++ l1 ++ lb ++ l2 ++ lc) := by
    rw [List.perm_iff_count]
    intro x
    simp only [List.count_append]
    omega
  have := hall.perm hperm
  have he : g.labelCounter + 2 + k1 + k2 = g.labelCounter + (2 + k1 + 0 + k2 + 0) := by omega
  rwa [he] at this

mutual
theorem genExpr_gen : ∀ (e : Expr) (g : RISCVCodeGenerator), Gen g (genExpr g e)
  | .number v, g => by
    simp only [genExpr]
    exact ((Silent.allocTemp g).thenS (Silent.loadImmediate _ _ _)).toGen
  | .ident name, g => by
    unfold genExpr
    split
    · exact ((Silent.allocTemp g).thenS (Silent.emit _ _)).toGen
    · exact (Silent.sameS g).toGen
  | .binary left op right, g => by
    simp only [genExpr]
    have h1 := genExpr_gen left g
    have h2 := genExpr_gen right (genExpr g left)
    exact ((((h1.thenG h2).thenSilentG (Silent.allocTemp _)).thenG
      (Gen.genBinaryOp _ _ _)).thenSilentG (Silent.release _ _)).thenSilentG
      (Silent.release _ _)
  | .unary op operand, g => by
    simp only [genExpr]
    have h1 := genExpr_gen operand g
    exact ((h1.thenSilentG (Silent.allocTemp _)).thenSilentG
      (Silent.genUnaryOp _ _ _)).thenSilentG (Silent.release _ _)
  | .call fn args rt, g => by
    simp only [genExpr]
    have h1 := genArgs_gen args (g.saveRegisters callerSaved) 0
    have h2 := ((Gen.afterSilentG (Silent.saveRegisters _ _) h1).thenSilentG
      (Silent.emit _ (.call fn))).thenSilentG (Silent.restoreRegisters callerSaved _)
    split
    · exact (h2.thenSilentG (Silent.allocTemp _)).thenSilentG (Silent.emit _ _)
    · exact h2
theorem genArgs_gen : ∀ (es : List Expr) (g : RISCVCodeGenerator) (i : Nat),
    Gen g (genArgs g i es)
  | [], g, i => by
    simp only [genArgs]
    exact (Silent.sameS g).toGen
  | e :: es, g, i => by
    simp only [genArgs]
    split
    · exact ((genExpr_gen e g).thenSilentG (Silent.emit _ _)).thenG (genArgs_gen es _ _)
    · exact (Silent.sameS g).toGen
end

theorem genReturnValue_gen (o : Option Expr) (g : RISCVCodeGenerator) :
    Gen g (genReturnValue g o) := by
  cases o with
  | none => exact (Silent.sameS g).toGen
  | some e => exact (genExpr_gen e g).thenSilentG (Silent.emit _ _)

theorem Silent.storeTo (g : RISCVCodeGenerator) (name : String) :
    Silent g (match mapFind g.symbolTable name with
      | some symbol => g.emit (.sw "t0" symbol.offset "fp")
      | none => g) := by
  split
  · exact Silent.emit _ _
  · exact Silent.sameS g

mutual
theorem genStmt_gen : ∀ (s : Stmt) (g : RISCVCodeGenerator), Gen g (genStmt g s)
  | .assign x value, g => by
    simp only [genStmt]
    exact ((genExpr_gen value g).thenSilentG (Silent.storeTo _ x)).thenSilentG
      (Silent.release _ _)
  | .varDecl name initializer, g => by
    cases initializer with
    | none =>
      simp only [genStmt]
      exact (Silent.sameS g).toGen
    | some e =>
      simp only [genStmt]
      exact ((genExpr_gen e g).thenSilentG (Silent.storeTo _ name)).thenSilentG
        (Silent.release _ _)
  | .block ss, g => by
    simp only [genStmt]
    exact genStmts_gen ss g
  | .ifS c t e, g => by
    have hA : Out g ((g.newLabel "if_else").2.newLabel "if_end").2 [] 2 :=
      (Out.newLabel g "if_else").thenO (Out.newLabel _ "if_end")
    have hc := genExpr_gen c ((g.newLabel "if_else").2.newLabel "if_end").2
    cases e with
    | none =>
      simp only [genStmt]
      have hB := ((hc.thenSilentG (Silent.emit _
        (.beqz "t0" ((g.newLabel "if_else").2.newLabel "if_end").1))).thenSilentG
        (Silent.release _ "t0")).thenG (genStmt_gen t _)
      exact Gen.around hA hB (Out.sameO _) (Silent.sameS _).toGen (Out.emitLabel _ _)
        ((Fresh.single "if_end" (by decide) (g.labelCounter + 1)).widen (by omega) (by omega))
    | some els =>
      simp only [genStmt]
      have hB := ((hc.thenSilentG (Silent.emit _
        (.beqz "t0" (g.newLabel "if_else").1))).thenSilentG
        (Silent.release _ "t0")).thenG (genStmt_gen t _)
      have hC : ∀ gB : RISCVCodeGenerator, Out gB
          ((gB.emit (.j ((g.newLabel "if_else").2.newLabel "if_end").1)).emitLabel
            (g.newLabel "if_else").1) [(g.newLabel "if_else").1] 0 :=
        fun gB => Out.afterSilent (Silent.emit gB _) (Out.emitLabel _ _)
      exact Gen.around hA hB (hC _) (genStmt_gen els _) (Out.emitLabel _ _)
        ((Fresh.single "if_else" (by decide) g.labelCounter).join
          (Fresh.single "if_end" (by decide) (g.labelCounter + 1)) (by omega) (by omega))
  | .whileS c b, g => by
    simp only [genStmt]
    have hU : ∀ (g1 : RISCVCodeGenerator) (bl cl : List String),
        Silent g1 { g1 with breakLabels := bl, continueLabels := cl } :=
      fun g1 bl cl => ⟨by simp [labelsOut], rfl⟩
    have hA := (((Out.newLabel g "while_loop").thenO
      (Out.newLabel (g.newLabel "while_loop").2 "while_end")).thenSilent
      (hU _ (((g.newLabel "while_loop").2.newLabel "while_end").1 ::
          ((g.newLabel "while_loop").2.newLabel "while_end").2.breakLabels)
        ((g.newLabel "while_loop").1 ::
          ((g.newLabel "while_loop").2.newLabel "while_end").2.continueLabels))).thenO
      (Out.emitLabel _ (g.newLabel "while_loop").1)
    have hB : ∀ gA : RISCVCodeGenerator, Gen gA (genStmt (((genExpr gA c).emit
        (.beqz "t0" ((g.newLabel "while_loop").2.newLabel "while_end").1)).release "t0") b) :=
      fun gA => (((genExpr_gen c gA).thenSilentG (Silent.emit _ _)).thenSilentG
        (Silent.release _ "t0")).thenG (genStmt_gen b _)
    have hE : ∀ gD : RISCVCodeGenerator, Out gD
        { (gD.emit (.j (g.newLabel "while_loop").1)).emitLabel
            ((g.newLabel "while_loop").2.newLabel "while_end").1 with
          breakLabels := ((gD.emit (.j (g.newLabel "while_loop").1)).emitLabel
            ((g.newLabel "while_loop").2.newLabel "while_end").1).breakLabels.tail,
          continueLabels := ((gD.emit (.j (g.newLabel "while_loop").1)).emitLabel
            ((g.newLabel "while_loop").2.newLabel "while_end").1).continueLabels.tail }
        [((g.newLabel "while_loop").2.newLabel "while_end").1] 0 :=
      fun gD => (Out.afterSilent (Silent.emit gD _) (Out.emitLabel _ _)).thenSilent (hU _ _ _)
    exact Gen.around hA (hB _) (Out.sameO _) (Silent.sameS _).toGen (hE _)
      ((Fresh.single "while_loop" (by decide) g.labelCounter).join
        (Fresh.single "while_end" (by decide) (g.labelCounter + 1)) (by omega) (by omega))
  | .breakS, g => by
    unfold genStmt
    split
    · exact (Silent.sameS g).toGen
    · exact (Silent.emit _ _).toGen
  | .continueS, g => by
    unfold genStmt
    split
    · exact (Silent.sameS g).toGen
    · exact (Silent.emit _ _).toGen
  | .returnS value, g => by
    simp only [genStmt]
    exact (genReturnValue_gen value g).thenSilentG (Silent.epilogue _)
  | .exprS e, g => by
    simp only [genStmt]
    exact (genExpr_gen e g).thenSilentG ⟨by simp [labelsOut], rfl⟩
theorem genStmts_gen : ∀ (ss : List Stmt) (g : RISCVCodeGenerator), Gen g (genStmts g ss)
  | [], g => by
    simp only [genStmts]
    exact (Silent.sameS g).toGen
  | s :: ss, g => by
    simp only [genStmts]
    exact (genStmt_gen s g).thenG (genStmts_gen ss _)
end

mutual
theorem collectLocalStmt_silent : ∀ (s : Stmt) (g : RISCVCodeGenerator)
    (locals : List (String × Int)) (offset : Int),
    Silent g (g.collectLocalStmt locals offset s).1
  | .varDecl _ _, g, locals, offset => by
    simp only [RISCVCodeGenerator.collectLocalStmt]
    exact ⟨by simp [labelsOut], rfl⟩
  | .block ss, g, locals, offset => by
    simp only [RISCVCodeGenerator.collectLocalStmt]
    exact collectLocalVariables_silent ss g locals offset
  | .assign _ _, g, locals, offset => by
    simp only [RISCVCodeGenerator.collectLocalStmt]; exact Silent.sameS g
  | .ifS _ _ _, g, locals, offset => by
    simp only [RISCVCodeGenerator.collectLocalStmt]; exact Silent.sameS g
  | .whileS _ _, g, locals, offset => by
    simp only [RISCVCodeGenerator.collectLocalStmt]; exact Silent.sameS g
  | .breakS, g, locals, offset => by
    simp only [RISCVCodeGenerator.collectLocalStmt]; exact Silent.sameS g
  | .continueS, g, locals, offset => by
    simp only [RISCVCodeGenerator.collectLocalStmt]; exact Silent.sameS g
  | .returnS _, g, locals, offset => by
    simp only [RISCVCodeGenerator.collectLocalStmt]; exact Silent.sameS g
  | .exprS _, g, locals, offset => by
    simp only [RISCVCodeGenerator.collectLocalStmt]; exact Silent.sameS g
theorem collectLocalVariables_silent : ∀ (ss : List Stmt) (g : RISCVCodeGenerator)
    (locals : List (String × Int)) (offset : Int),
    Silent g (g.collectLocalVariables locals offset ss).1
  | [], g, locals, offset => by
    simp only [RISCVCodeGenerator.collectLocalVariables]; exact Silent.sameS g
  | s :: rest, g, locals, offset => by
    simp only [RISCVCodeGenerator.collectLocalVariables]
    exact (collectLocalStmt_silent s g locals offset).thenS
      (collectLocalVariables_silent rest _ _ _)
end

theorem Silent.setSymbolTable (g : RISCVCodeGenerator) (t : List (String × Symbol)) :
    Silent g { g with symbolTable := t } := ⟨by simp [labelsOut], rfl⟩

theorem Silent.addParameters : ∀ (ps : List Parameter) (g : RISCVCodeGenerator) (o : Int),
    Silent g (g.addParameters o ps)
  | [], g, o => Silent.sameS g
  | p :: ps, g, o => by
    simp only [RISCVCodeGenerator.addParameters]
    exact (Silent.setSymbolTable g _).thenS (Silent.addParameters ps _ _)

/-- The label lines of a function: its name, then distinct generated labels. -/
theorem genFunction_out (f : FunctionDefinition) (g : RISCVCodeGenerator) :
    ∃ ls k, Out g (g.genFunction f) (f.name :: ls) k ∧
      Fresh g.labelCounter (g.labelCounter + k) ls := by
  obtain ⟨g0, hg0⟩ : ∃ g0 : RISCVCodeGenerator,
      g0 = { g with currentFunction := f.name, symbolTable := [] } := ⟨_, rfl⟩
  have h0 : Silent g g0 := by
    rw [hg0]; exact ⟨by simp [labelsOut], rfl⟩
  have h1 : Silent g0 (g0.calculateFrameSize f.parameters f.body).2 :=
    collectLocalVariables_silent f.body g0 [] 0
  obtain ⟨g1, hg1⟩ : ∃ g1 : RISCVCodeGenerator,
      g1 = { (g0.calculateFrameSize f.parameters f.body).2 with
        currentFrameSize := (g0.calculateFrameSize f.parameters f.body).1 } := ⟨_, rfl⟩
  have h2 : Silent (g0.calculateFrameSize f.parameters f.body).2 g1 := by
    rw [hg1]; exact ⟨by simp [labelsOut], rfl⟩
  have hlab : Out g (g1.emitLabel f.name) [f.name] 0 :=
    Out.afterSilent ((h0.thenS h1).thenS h2) (Out.emitLabel g1 f.name)
  have hmid : Out g (((g1.emitLabel f.name).generateFunctionPrologue f.name
      (g1.emitLabel f.name).currentFrameSize).addParameters 8 f.parameters) [f.name] 0 :=
    (hlab.thenSilent (Silent.prologue _ f.name _)).thenSilent
      (Silent.addParameters f.parameters _ 8)
  obtain ⟨ls, k, o, fr⟩ := genStmts_gen f.body (((g1.emitLabel f.name).generateFunctionPrologue
    f.name (g1.emitLabel f.name).currentFrameSize).addParameters 8 f.parameters)
  have hc := hmid.counter
  rw [hc, Nat.add_zero] at fr
  refine ⟨ls, k, ?_, fr⟩
  have hbody := hmid.thenO o
  unfold RISCVCodeGenerator.genFunction
  simp only
  rw [← hg0, ← hg1]
  split
  · have := (hbody.thenSilent (Silent.epilogue _)).thenSilent (Silent.emit _ (.raw ""))
    simpa using this
  · have := hbody.thenSilent (Silent.emit _ (.raw ""))
    simpa using this

theorem genFunctions_out : ∀ (fs : List FunctionDefinition) (g : RISCVCodeGenerator),
    ∃ all ls k, Out g (g.genFunctions fs) all k ∧
      all.Perm (fs.map (fun f => f.name) ++ ls) ∧
      Fresh g.labelCounter (g.labelCounter + k) ls
  | [], g => ⟨[], [], 0, Out.sameO g, by simp, Fresh.none _ _⟩
  | f :: fs, g => by
    obtain ⟨l1, k1, o1, f1⟩ := genFunction_out f g
    obtain ⟨all, l2, k2, o2, p2, f2⟩ := genFunctions_out fs (g.genFunction f)
    rw [o1.counter] at f2
    refine ⟨(f.name :: l1) ++ all, l1 ++ l2, k1 + k2, ?_, ?_, ?_⟩
    · simp only [RISCVCodeGenerator.genFunctions]
      exact o1.thenO o2
    · rw [List.perm_iff_count] at p2 ⊢
      intro x
      have := p2 x
      simp only [List.count_append, List.map_cons, List.count_cons, List.cons_append] at this ⊢
      omega
    · have := f1.join f2 (by omega) (by omega)
      rwa [Nat.add_assoc] at this

theorem generate_labels (g : RISCVCodeGenerator) (u : CompilationUnit)
    (fns : List (String × FunctionInfo)) :
    ∃ ls k, (labelsOf (g.generate u fns).output).Perm
        (u.functions.map (fun f => f.name) ++ ls) ∧
      Fresh g.labelCounter (g.labelCounter + k) ls := by
  obtain ⟨g0, hg0⟩ : ∃ g0 : RISCVCodeGenerator,
      g0 = { g with functionTable := fns, output := [] } := ⟨_, rfl⟩
  have h0 : labelsOut g0 = [] ∧ g0.labelCounter = g.labelCounter := by
    rw [hg0]; exact ⟨rfl, rfl⟩
  have h1 : Silent g0 (((g0.emit (.raw ".text")).emit (.raw ".globl main")).emitComment
      "ToyC Compiler Generated Code") :=
    ((Silent.emit _ _).thenS (Silent.emit _ _)).thenS (Silent.emitComment _ _)
  obtain ⟨all, ls, k, o, p, f⟩ := genFunctions_out u.functions
    (((g0.emit (.raw ".text")).emit (.raw ".globl main")).emitComment
      "ToyC Compiler Generated Code")
  have o1 := Out.afterSilent h1 o
  rw [h1.counter, Nat.add_zero, h0.2] at f
  refine ⟨ls, k, ?_, f⟩
  have := o1.labels
  rw [h0.1, List.nil_append] at this
  unfold RISCVCodeGenerator.generate
  simp only
  rw [← hg0]
  unfold labelsOut at this
  rw [this]
  exact p

theorem toString_ne_nil (n : Nat) : (toString n).data ≠ [] := by
  rw [toString_data]
  unfold Nat.toDigits
  simp only [Nat.toDigitsCore]
  split
  · simp
  · rw [toDigitsCore_append]
    simp

theorem not_generated_of_no_digit (s : String) (h : ∀ c ∈ s.data, c.isDigit = false) :
    ∀ p ∈ labelPrefixes, ∀ n : Nat, s ≠ p ++ toString n := by
  intro p _ n e
  have hd : s.data = p.data ++ (toString n).data := by rw [e, String.data_append]
  cases hds : (toString n).data with
  | nil => exact toString_ne_nil n hds
  | cons c cs =>
    have hc : c ∈ (toString n).data := by rw [hds]; exact List.mem_cons_self _ _
    have h1 := toString_isDigit n c hc
    have h2 := h c (by rw [hd]; exact List.mem_append_right _ hc)
    rw [h1] at h2
    exact absurd h2 (by simp)

/-! ### The notions of the statements on small inputs -/

theorem resolvesStmts_rejects_undeclared :
    resolvesStmts [] [.assign "x" (.number 1)] = false ∧
      resolvesStmts [] [.block [.varDecl "x" none], .exprS (.ident "x")] = false ∧
      resolvesStmts ["p"] [.varDecl "x" (some (.ident "x")), .assign "p" (.ident "x")] = true := by
  decide

theorem analyze_rejects_undeclared :
    (SemanticAnalyzer.fresh.analyze
      ⟨[⟨"main", .INT, [], [.block [.varDecl "x" none], .returnS (some (.ident "x"))]⟩]⟩).2.1.errors
      = ["Undefined variable 'x'"] := by
  decide

/-! ### Analyzer: the errors by kind -/

theorem head_append_lit (a b : String) (h : a.data ≠ []) :
    (a ++ b).data.head? = a.data.head? := by
  rw [String.data_append]
  cases h1 : a.data with
  | nil => exact absurd h1 h
  | cons c cs => rfl

theorem last_append_lit (a b : String) (h : b.data ≠ []) :
    (a ++ b).data.getLast? = b.data.getLast? := by
  rw [String.data_append]
  exact List.getLast?_append_of_ne_nil _ h

theorem toString_last (n : Nat) :
    ∃ c, (toString n).data.getLast? = some c ∧ c.isDigit = true := by
  have hne := toString_ne_nil n
  refine ⟨(toString n).data.getLast hne, List.getLast?_eq_getLast _ hne, ?_⟩
  exact toString_isDigit n _ (List.getLast_mem hne)

/-- The key of the message of an error. -/
theorem text_key (e : SemErr) : msgKey e.text = (some e.key.1, some e.key.2) := by
  cases e with
  | arity n k m =>
    obtain ⟨c, hc, hd⟩ := toString_last m
    simp only [SemErr.text, SemErr.key, msgKey]
    rw [last_append_lit _ _ (toString_ne_nil m), hc]
    simp only [String.append_assoc]
    rw [head_append_lit _ _ (by decide)]
    simp [hd]
  | missingMain => decide
  | breakOutside => decide
  | continueOutside => decide
  | voidValue => decide
  | missingValue => decide
  | _ =>
    simp only [SemErr.text, SemErr.key, msgKey]
    rw [last_append_lit _ _ (by decide)]
    simp only [String.append_assoc]
    rw [head_append_lit _ _ (by decide)]
    decide

theorem text_duplicate_inj (n n1 : String)
    (h : (SemErr.duplicate n1).text = (SemErr.duplicate n).text) : n1 = n := by
  have hd := congrArg String.data h
  simp only [SemErr.text, String.data_append] at hd
  have h1 := List.append_cancel_right hd
  have h2 := List.append_cancel_left h1
  exact String.ext h2

theorem text_mustReturn_inj (n n1 : String)
    (h : (SemErr.mustReturn n1).text = (SemErr.mustReturn n).text) : n1 = n := by
  have hd := congrArg String.data h
  simp only [SemErr.text, String.data_append] at hd
  have h1 := List.append_cancel_right hd
  have h2 := List.append_cancel_left h1
  exact String.ext h2

theorem text_inj_of_plain (k e : SemErr) (hk : k.plain = true) (h : e.text = k.text) :
    e = k := by
  have hkey : e.key = k.key := by
    have h1 := text_key e
    rw [h, text_key k] at h1
    have h2 := Prod.mk.inj h1
    exact Prod.ext (Option.some.inj h2.1).symm (Option.some.inj h2.2).symm
  cases k <;> simp [SemErr.plain] at hk <;> cases e <;> simp [SemErr.key] at hkey <;>
    first
      | rfl
      | (rw [text_duplicate_inj _ _ h])
      | (rw [text_mustReturn_inj _ _ h])

theorem count_text (k : SemErr) (hk : k.plain = true) (l : List SemErr) :
    (l.map SemErr.text).count k.text = l.count k := by
  induction l with
  | nil => rfl
  | cons e l ih =>
    simp only [List.map_cons, List.count_cons, ih]
    congr 1
    by_cases he : e = k
    · simp [he]
    · have : e.text ≠ k.text := fun h => he (text_inj_of_plain k e hk h)
      simp [he, this]

mutual
theorem visitExpr_errs : ∀ (e : Expr) (a : SemanticAnalyzer),
    ∃ l : List SemErr, (visitExpr a e).1 = { a with errors := a.errors ++ l.map SemErr.text } ∧
      ∀ x ∈ l, x.ofExpr = true
  | .number _, a => ⟨[], by simp [visitExpr], by simp⟩
  | .ident name, a => by
    unfold visitExpr
    split
    · exact ⟨[.undefinedVariable name], rfl, by simp [SemErr.ofExpr]⟩
    · exact ⟨[], by simp, by simp⟩
  | .unary _ operand, a => by
    obtain ⟨l, h, hl⟩ := visitExpr_errs operand a
    exact ⟨l, by simp [visitExpr, h], hl⟩
  | .binary left _ right, a => by
    obtain ⟨l1, h1, hl1⟩ := visitExpr_errs left a
    obtain ⟨l2, h2, hl2⟩ := visitExpr_errs right (visitExpr a left).1
    refine ⟨l1 ++ l2, ?_, ?_⟩
    · simp only [visitExpr]
      rw [h2, h1]
      simp
    · intro x hx
      rcases List.mem_append.mp hx with h | h
      · exact hl1 x h
      · exact hl2 x h
  | .call fn args _, a => by
    unfold visitExpr
    split
    · exact ⟨[.undefinedFunction fn], rfl, by simp [SemErr.ofExpr]⟩
    · split
      · exact ⟨[.arity fn _ _], rfl, by simp [SemErr.ofExpr]⟩
      · exact visitExprs_errs args a
theorem visitExprs_errs : ∀ (es : List Expr) (a : SemanticAnalyzer),
    ∃ l : List SemErr, (visitExprs a es).1 = { a with errors := a.errors ++ l.map SemErr.text } ∧
      ∀ x ∈ l, x.ofExpr = true
  | [], a => ⟨[], by simp [visitExprs], by simp⟩
  | e :: es, a => by
    obtain ⟨l1, h1, hl1⟩ := visitExpr_errs e a
    obtain ⟨l2, h2, hl2⟩ := visitExprs_errs es (visitExpr a e).1
    refine ⟨l1 ++ l2, ?_, ?_⟩
    · simp only [visitExprs]
      rw [h2, h1]
      simp
    · intro x hx
      rcases List.mem_append.mp hx with h | h
      · exact hl1 x h
      · exact hl2 x h
end

theorem ofStmt_of_ofExpr (x : SemErr) (h : x.ofExpr = true) : x.ofStmt = true := by
  cases x <;> simp_all [SemErr.ofExpr, SemErr.ofStmt]

theorem StmtErrs.sameE (k : Bool) (a : SemanticAnalyzer) : StmtErrs k a a 0 :=
  ⟨[], by simp, by simp, fun _ => by simp⟩

theorem StmtErrs.thenE {k : Bool} {a b c : SemanticAnalyzer} {n m : Nat}
    (h1 : StmtErrs k a b n) (h2 : StmtErrs k b c m) (hd : b.loopDepth = a.loopDepth) :
    StmtErrs k a c (n + m) := by
  obtain ⟨l1, e1, p1, c1⟩ := h1
  obtain ⟨l2, e2, p2, c2⟩ := h2
  refine ⟨l1 ++ l2, by rw [e2, e1]; simp, ?_, ?_⟩
  · intro x hx
    rcases List.mem_append.mp hx with h | h
    · exact p1 x h
    · exact p2 x h
  · intro h0
    rw [List.count_append, c1 h0, c2 (by rw [hd]; exact h0), hd]
    split <;> rfl

/-- A list of errors none of which is `exitErr k`. -/
theorem StmtErrs.ofList (k : Bool) (a b : SemanticAnalyzer) (l : List SemErr)
    (he : b.errors = a.errors ++ l.map SemErr.text) (hl : ∀ x ∈ l, x.ofStmt = true)
    (hk : exitErr k ∉ l) : StmtErrs k a b 0 :=
  ⟨l, he, hl, fun _ => by rw [List.count_eq_zero_of_not_mem hk]; simp⟩

theorem StmtErrs.exprE (k : Bool) (a : SemanticAnalyzer) (e : Expr) :
    StmtErrs k a (visitExpr a e).1 0 := by
  obtain ⟨l, h, hl⟩ := visitExpr_errs e a
  refine StmtErrs.ofList k a _ l (by rw [h]) (fun x hx => ofStmt_of_ofExpr x (hl x hx)) ?_
  intro hk
  have := hl _ hk
  cases k <;> simp [exitErr, SemErr.ofExpr] at this

theorem StmtErrs.errorE (k : Bool) (a : SemanticAnalyzer) (x : SemErr)
    (hx : x.ofStmt = true) (hk : x ≠ exitErr k) : StmtErrs k a (a.addError x.text) 0 :=
  StmtErrs.ofList k a _ [x] rfl (by simpa using hx) (by simpa using fun h => hk h.symm)

theorem checkReturn_errs (k : Bool) (a : SemanticAnalyzer) (b : Bool) :
    StmtErrs k a (checkReturn a b) 0 := by
  unfold checkReturn
  split
  · exact StmtErrs.sameE k a
  · split
    · exact StmtErrs.errorE k a .voidValue rfl (by cases k <;> simp [exitErr])
    · split
      · exact StmtErrs.errorE k a .missingValue rfl (by cases k <;> simp [exitErr])
      · exact StmtErrs.sameE k a

theorem StmtErrs.congrE {k : Bool} {a b a1 b1 : SemanticAnalyzer} {n : Nat}
    (h : StmtErrs k a b n) (ha : a1.errors = a.errors) (hd : a1.loopDepth = a.loopDepth)
    (hb : b1.errors = b.errors) : StmtErrs k a1 b1 n := by
  obtain ⟨l, e, p, c⟩ := h
  exact ⟨l, by rw [hb, ha, e], p, by rw [hd]; exact c⟩

theorem StmtErrs.inLoop {k : Bool} {a b : SemanticAnalyzer} {n : Nat}
    (h : StmtErrs k a b n) (hd : a.loopDepth ≠ 0) (m : Nat) : StmtErrs k a b m := by
  obtain ⟨l, e, p, c⟩ := h
  exact ⟨l, e, p, fun h0 => by rw [c h0]; simp [hd]⟩

mutual
theorem visitStmt_errs (k : Bool) : ∀ (s : Stmt) (a : SemanticAnalyzer),
    StmtErrs k a (visitStmt a s).1 (strayExits k s)
  | .varDecl name initializer, a => by
    have hd : StmtErrs k a { a with scope := (a.scope.declareVariable name VType.INT false).2 } 0 :=
      (StmtErrs.sameE k a).congrE rfl rfl rfl
    unfold visitStmt
    simp only [strayExits]
    split
    · exact hd.thenE (StmtErrs.errorE k _ (.redeclared name) rfl (by cases k <;> simp [exitErr])) rfl
    · split
      · exact hd
      · exact hd.thenE (StmtErrs.exprE k _ _) rfl
  | .assign x value, a => by
    unfold visitStmt
    simp only [strayExits]
    split
    · exact StmtErrs.errorE k a (.undefinedVariable x) rfl (by cases k <;> simp [exitErr])
    · exact StmtErrs.exprE k _ _
  | .block ss, a => by
    have ih := visitStmts_errs k ss { a with scope := a.scope.enterScope }
    simp only [visitStmt, strayExits]
    exact ih.congrE rfl rfl rfl
  | .ifS c t e, a => by
    have f1 := StmtFrame.exprF a c
    have f2 := visitStmt_frame t (visitExpr a c).1
    have h1 := StmtErrs.exprE k a c
    have h2 := visitStmt_errs k t (visitExpr a c).1
    have h3 := visitOptStmt_errs k e (visitStmt (visitExpr a c).1 t).1
    have := (h1.thenE h2 f1.loopDepth).thenE h3 (f2.loopDepth.trans f1.loopDepth)
    simpa [visitStmt, strayExits] using this
  | .whileS c b, a => by
    have f1 := StmtFrame.exprF a c
    have h1 := StmtErrs.exprE k a c
    have h2 := visitStmt_errs k b
      { (visitExpr a c).1 with loopDepth := (visitExpr a c).1.loopDepth + 1 }
    have h3 : StmtErrs k (visitExpr a c).1
        (visitStmt { (visitExpr a c).1 with loopDepth := (visitExpr a c).1.loopDepth + 1 } b).1 0 := by
      obtain ⟨l, e, p, cnt⟩ := h2
      refine ⟨l, e, p, fun h0 => ?_⟩
      have hc := cnt (by show 0 ≤ (visitExpr a c).1.loopDepth + 1; omega)
      have hd : (visitExpr a c).1.loopDepth + 1 ≠ 0 := by omega
      rw [hc]
      show (if (visitExpr a c).1.loopDepth + 1 = 0 then _ else 0) = _
      simp [hd]
    have := h1.thenE h3 f1.loopDepth
    simp only [visitStmt, strayExits]
    exact this.congrE rfl rfl rfl
  | .breakS, a => by
    unfold visitStmt
    simp only [strayExits]
    split
    · rename_i hz
      exact ⟨[.breakOutside], rfl, by simp [SemErr.ofStmt],
        fun _ => by cases k <;> simp [exitErr, hz]⟩
    · rename_i hz
      exact (StmtErrs.sameE k a).inLoop hz _
  | .continueS, a => by
    unfold visitStmt
    simp only [strayExits]
    split
    · rename_i hz
      exact ⟨[.continueOutside], rfl, by simp [SemErr.ofStmt],
        fun _ => by cases k <;> simp [exitErr, hz]⟩
    · rename_i hz
      exact (StmtErrs.sameE k a).inLoop hz _
  | .returnS value, a => by
    have h1 : StmtErrs k a (checkReturn { a with hasReturn := true } value.isSome) 0 :=
      (checkReturn_errs k { a with hasReturn := true } value.isSome).congrE rfl rfl rfl
    obtain ⟨l, hl⟩ := checkReturn_frame { a with hasReturn := true } value.isSome
    unfold visitStmt
    simp only [strayExits]
    split
    · exact h1
    · exact h1.thenE (StmtErrs.exprE k _ _) (by rw [hl])
  | .exprS e, a => by
    simpa [visitStmt, strayExits] using StmtErrs.exprE k a e
theorem visitStmts_errs (k : Bool) : ∀ (ss : List Stmt) (a : SemanticAnalyzer),
    StmtErrs k a (visitStmts a ss).1 (strayExitsList k ss)
  | [], a => by
    simpa [visitStmts, strayExitsList] using StmtErrs.sameE k a
  | s :: rest, a => by
    have f1 := visitStmt_frame s a
    have h1 := visitStmt_errs k s a
    have h2 := visitStmts_errs k rest (visitStmt a s).1
    simpa [visitStmts, strayExitsList] using h1.thenE h2 f1.loopDepth
theorem visitOptStmt_errs (k : Bool) : ∀ (o : Option Stmt) (a : SemanticAnalyzer),
    StmtErrs k a (visitOptStmt a o).1 (strayExitsOpt k o)
  | none, a => by
    simpa [visitOptStmt, strayExitsOpt] using StmtErrs.sameE k a
  | some s, a => by
    simpa [visitOptStmt, strayExitsOpt] using visitStmt_errs k s a
end

theorem ofBody_of_ofStmt (x : SemErr) (h : x.ofStmt = true) : x.ofBody = true := by
  cases x <;> simp_all [SemErr.ofBody, SemErr.ofStmt, SemErr.ofExpr]

theorem ofFunction_of_ofBody (x : SemErr) (h : x.ofBody = true) : x.ofFunction = true := by
  cases x <;> simp_all [SemErr.ofFunction, SemErr.ofBody, SemErr.ofStmt, SemErr.ofExpr]

theorem declareParameters_errs : ∀ (ps : List Parameter) (a : SemanticAnalyzer),
    ∃ l : List SemErr, (declareParameters a ps).errors = a.errors ++ l.map SemErr.text ∧
      ∀ x ∈ l, ∃ p, x = SemErr.parameter p
  | [], a => ⟨[], by simp [declareParameters], by simp⟩
  | p :: ps, a => by
    unfold declareParameters
    simp only
    split
    · obtain ⟨l, hl, hp⟩ := declareParameters_errs ps
        (({ a with scope := (a.scope.declareVariable p.name p.type true).2 }).addError
          ("Parameter '" ++ p.name ++ "' is already declared"))
      refine ⟨.parameter p.name :: l, ?_, ?_⟩
      · rw [hl]
        simp [SemanticAnalyzer.addError, SemErr.text]
      · intro x hx
        rcases List.mem_cons.mp hx with h | h
        · exact ⟨_, h⟩
        · exact hp x h
    · exact declareParameters_errs ps _

theorem visitFunction_errs (k : Bool) (f : FunctionDefinition) (a : SemanticAnalyzer) :
    ∃ l : List SemErr,
      (visitFunction a f).1.errors = a.errors ++
        (l ++ if missingReturn f = true then [SemErr.mustReturn f.name] else []).map SemErr.text ∧
      (∀ x ∈ l, x.ofBody = true) ∧
      (0 ≤ a.loopDepth →
        l.count (exitErr k) = if a.loopDepth = 0 then strayExitsList k f.body else 0) := by
  obtain ⟨a2, ha2⟩ : ∃ a2, a2 =
      { a with currentFunction := f.name, hasReturn := false, scope := a.scope.enterScope.resetOffset } :=
    ⟨_, rfl⟩
  have f1 := declareParameters_frame f.parameters a2
  obtain ⟨l1, e1, p1⟩ := declareParameters_errs f.parameters a2
  obtain ⟨a3, ha3⟩ : ∃ a3, a3 = declareParameters a2 f.parameters := ⟨_, rfl⟩
  rw [← ha3] at f1 e1
  have f2 := (visitBlock_frame f.body a3).1
  have h2 : StmtErrs k a3 (visitBlock a3 f.body).1 (strayExitsList k f.body) :=
    (visitStmts_errs k f.body { a3 with scope := a3.scope.enterScope }).congrE rfl rfl rfl
  obtain ⟨l2, e2, p2, c2⟩ := h2
  have hd3 : a3.loopDepth = a.loopDepth := by rw [f1.loopDepth, ha2]
  have he2 : a2.errors = a.errors := by rw [ha2]
  have hret : (visitBlock a3 f.body).1.hasReturn = !(returnValuesList f.body).isEmpty := by
    rw [f2.hasReturn, f1.hasReturn, ha2]
    simp
  have hcount1 : l1.count (exitErr k) = 0 := by
    apply List.count_eq_zero_of_not_mem
    intro hx
    obtain ⟨p, hp⟩ := p1 _ hx
    cases k <;> simp [exitErr] at hp
  have herr : (visitFunction a f).1.errors = (visitBlock a3 f.body).1.errors ++
      (if missingReturn f = true then [SemErr.mustReturn f.name] else []).map SemErr.text := by
    unfold visitFunction
    simp only
    rw [← ha2, ← ha3]
    by_cases hm : missingReturn f = true
    · have hm1 := hm
      simp only [missingReturn, Bool.and_eq_true, decide_eq_true_eq, List.isEmpty_iff] at hm1
      have hc : f.returnType = VType.INT ∧ (visitBlock a3 f.body).1.hasReturn = false := by
        refine ⟨hm1.1, ?_⟩
        rw [hret, hm1.2]
        rfl
      rw [if_pos hc, if_pos hm]
      rfl
    · have hc : ¬ (f.returnType = VType.INT ∧ (visitBlock a3 f.body).1.hasReturn = false) := by
        intro hc
        apply hm
        rw [hret] at hc
        simp only [missingReturn, Bool.and_eq_true, decide_eq_true_eq]
        refine ⟨hc.1, ?_⟩
        simpa using hc.2
      rw [if_neg hc, if_neg hm]
      simp
  refine ⟨l1 ++ l2, ?_, ?_, ?_⟩
  · rw [herr, e2, e1, he2]
    simp only [List.map_append, List.append_assoc]
  · intro x hx
    rcases List.mem_append.mp hx with h | h
    · obtain ⟨p, hp⟩ := p1 x h
      rw [hp]
      rfl
    · exact ofBody_of_ofStmt x (p2 x h)
  · intro h0
    rw [List.count_append, hcount1, c2 (by rw [hd3]; exact h0), hd3]
    simp

theorem visitFunctions_errs (k : Bool) : ∀ (fs : List FunctionDefinition) (a : SemanticAnalyzer),
    a.loopDepth = 0 →
    ∃ l : List SemErr, (visitFunctions a fs).1.errors = a.errors ++ l.map SemErr.text ∧
      (∀ x ∈ l, x.ofFunction = true) ∧
      l.count (exitErr k) = (fs.map (fun f => strayExitsList k f.body)).sum ∧
      ∀ n, l.count (SemErr.mustReturn n) =
        fs.countP (fun f => decide (f.name = n) && missingReturn f)
  | [], a, _ => ⟨[], by simp [visitFunctions], by simp, by simp, by simp⟩
  | f :: fs, a, h0 => by
    obtain ⟨l1, e1, p1, c1⟩ := visitFunction_errs k f a
    have f1 := (visitFunction_frame f a).1
    obtain ⟨l2, e2, p2, c2, m2⟩ := visitFunctions_errs k fs (visitFunction a f).1
      (by rw [f1.loopDepth]; exact h0)
    have hc1 := c1 (by rw [h0])
    rw [if_pos h0] at hc1
    have hb : ∀ n, l1.count (SemErr.mustReturn n) = 0 := by
      intro n
      apply List.count_eq_zero_of_not_mem
      intro hx
      have := p1 _ hx
      simp [SemErr.ofBody, SemErr.ofStmt, SemErr.ofExpr] at this
    have hk : (if missingReturn f = true then [SemErr.mustReturn f.name] else []).count
        (exitErr k) = 0 := by
      split <;> cases k <;> simp [exitErr]
    refine ⟨(l1 ++ if missingReturn f = true then [SemErr.mustReturn f.name] else []) ++ l2,
      ?_, ?_, ?_, ?_⟩
    · simp only [visitFunctions]
      rw [e2, e1]
      simp only [List.map_append, List.append_assoc]
    · intro x hx
      rcases List.mem_append.mp hx with h | h
      · rcases List.mem_append.mp h with h | h
        · exact ofFunction_of_ofBody x (p1 x h)
        · split at h
          · rw [List.mem_singleton.mp h]
            rfl
          · exact absurd h (List.not_mem_nil _)
      · exact p2 x h
    · rw [List.count_append, List.count_append, hc1, hk, c2]
      simp
    · intro n
      rw [List.count_append, List.count_append, hb n, m2 n, List.countP_cons]
      by_cases hm : missingReturn f = true
      · by_cases hn : f.name = n
        · simp [hm, hn]
          omega
        · have hne : SemErr.mustReturn f.name ≠ SemErr.mustReturn n := fun h => hn (by injection h)
          simp [hm, hn, List.count_cons, hne]
      · simp [hm]

theorem collectFunctions_errs : ∀ (fs : List FunctionDefinition) (a : SemanticAnalyzer)
    (seen : List String), (∀ n, n ∈ seen ↔ (mapFind a.functions n).isSome = true) →
    (collectFunctions a fs).errors =
        a.errors ++ ((repeatedNames seen fs).map SemErr.duplicate).map SemErr.text ∧
      (collectFunctions a fs).loopDepth = a.loopDepth ∧
      ∀ n, mapFind (collectFunctions a fs).functions n =
        match mapFind a.functions n with
        | some info => some info
        | none => (firstDefinition fs n).map infoOf
  | [], a, seen, _ => by
    refine ⟨by simp [collectFunctions, repeatedNames], rfl, fun n => ?_⟩
    simp only [collectFunctions, firstDefinition, List.find?_nil, Option.map_none']
    split <;> simp_all
  | f :: fs, a, seen, hs => by
    unfold collectFunctions
    simp only
    split
    · rename_i info hf
      have hin : f.name ∈ seen := (hs f.name).mpr (by rw [hf]; rfl)
      obtain ⟨e, d, t⟩ := collectFunctions_errs fs
        (a.addError ("Function '" ++ f.name ++ "' is already declared")) seen hs
      refine ⟨?_, d, fun n => ?_⟩
      · rw [e]
        simp [repeatedNames, hin, SemanticAnalyzer.addError, SemErr.text]
      · rw [t n]
        show (match mapFind a.functions n with
          | some info => some info
          | none => (firstDefinition fs n).map infoOf) = _
        cases hn : mapFind a.functions n with
        | some i => rfl
        | none =>
          have hne : f.name ≠ n := by
            intro h
            rw [h, hn] at hf
            exact Option.noConfusion hf
          simp [firstDefinition, List.find?_cons, hne]
    · rename_i hf
      have hnin : f.name ∉ seen := fun h => by
        have := (hs f.name).mp h
        rw [hf] at this
        exact Bool.noConfusion this
      obtain ⟨e, d, t⟩ := collectFunctions_errs fs
        { a with functions := mapSet a.functions f.name (infoOf f) }
        (f.name :: seen) (by
          intro n
          show _ ↔ (mapFind (mapSet a.functions f.name _) n).isSome = true
          rw [mapFind_mapSet, List.mem_cons]
          by_cases h : f.name = n
          · simp [h]
          · simp only [h, if_false]
            rw [← hs n]
            constructor
            · rintro (h1 | h1)
              · exact absurd h1.symm h
              · exact h1
            · exact Or.inr)
      refine ⟨?_, d, fun n => ?_⟩
      · refine e.trans ?_
        simp [repeatedNames, hnin]
      · refine (t n).trans ?_
        show (match mapFind (mapSet a.functions f.name _) n with
          | some info => some info
          | none => (firstDefinition fs n).map infoOf) = _
        rw [mapFind_mapSet]
        by_cases h : f.name = n
        · subst h
          simp [hf, firstDefinition, List.find?_cons, infoOf]
        · simp only [h, if_false]
          cases hn : mapFind a.functions n with
          | some i => rfl
          | none => simp [firstDefinition, List.find?_cons, h]

theorem checkMainFunction_eq (a : SemanticAnalyzer) (fs : List FunctionDefinition)
    (h : mapFind a.functions "main" = (firstDefinition fs "main").map infoOf) :
    checkMainFunction a = mainDefined fs := by
  unfold checkMainFunction mainDefined
  rw [h]
  cases firstDefinition fs "main" with
  | none => rfl
  | some f => cases hp : f.parameters <;> simp [infoOf, hp]

theorem analyze_errs (k : Bool) (u : CompilationUnit) :
    ∃ l : List SemErr,
      (SemanticAnalyzer.fresh.analyze u).2.1.errors =
        ((repeatedNames [] u.functions).map SemErr.duplicate ++
          (if mainDefined u.functions = true then [] else [SemErr.missingMain]) ++ l).map
          SemErr.text ∧
      (∀ x ∈ l, x.ofFunction = true) ∧
      l.count (exitErr k) = (u.functions.map (fun f => strayExitsList k f.body)).sum ∧
      (∀ n, l.count (SemErr.mustReturn n) =
        u.functions.countP (fun f => decide (f.name = n) && missingReturn f)) ∧
      ∀ n, mapFind (SemanticAnalyzer.fresh.analyze u).2.1.functions n =
        (firstDefinition u.functions n).map infoOf := by
  obtain ⟨e1, d1, t1⟩ := collectFunctions_errs u.functions SemanticAnalyzer.fresh []
    (by intro n; simp [SemanticAnalyzer.fresh, mapFind])
  obtain ⟨a1, ha1⟩ : ∃ a1, a1 = collectFunctions SemanticAnalyzer.fresh u.functions := ⟨_, rfl⟩
  rw [← ha1] at e1 d1 t1
  have ht : ∀ n, mapFind a1.functions n = (firstDefinition u.functions n).map infoOf := by
    intro n
    rw [t1 n]
    rfl
  have hm := checkMainFunction_eq a1 u.functions (ht "main")
  obtain ⟨a2, ha2⟩ : ∃ a2, a2 = (if checkMainFunction a1 = true then a1 else
      a1.addError "Missing main function with signature: int main()") := ⟨_, rfl⟩
  have e2 : a2.errors = a1.errors ++
      (if mainDefined u.functions = true then [] else [SemErr.missingMain]).map SemErr.text := by
    rw [ha2, hm]
    split
    · simp
    · rfl
  have d2 : a2.loopDepth = 0 := by
    rw [ha2]
    split
    · rw [d1]; rfl
    · show a1.loopDepth = 0
      rw [d1]; rfl
  have f2 : a2.functions = a1.functions := by
    rw [ha2]
    split <;> rfl
  obtain ⟨l, e3, p3, c3, m3⟩ := visitFunctions_errs k u.functions a2 d2
  have f3 := (visitFunctions_frame u.functions a2).1
  have hA : (SemanticAnalyzer.fresh.analyze u).2.1 = (visitFunctions a2 u.functions).1 := by
    rw [analyze_fresh, ha2, ha1]
  refine ⟨l, ?_, p3, c3, m3, ?_⟩
  · rw [hA, e3, e2, e1]
    simp [SemanticAnalyzer.fresh]
  · intro n
    rw [hA, f3.functions, f2]
    exact ht n

theorem mem_map_text {x : SemErr} {l : List SemErr} (hx : x.plain = true)
    (h : x.text ∈ l.map SemErr.text) : x ∈ l := by
  obtain ⟨y, hy, e⟩ := List.mem_map.mp h
  rw [← text_inj_of_plain x y hx e]
  exact hy

/-! ### Generator: the lines it writes and the stack pointer -/

theorem spSum_append (a b : List Line) : spSum (a ++ b) = spSum a + spSum b := by
  simp [spSum]

theorem Neutral.nilN : Neutral [] := ⟨rfl, List.not_mem_nil _⟩

theorem Neutral.appendN {a b : List Line} (ha : Neutral a) (hb : Neutral b) :
    Neutral (a ++ b) := by
  refine ⟨by rw [spSum_append, ha.1, hb.1]; rfl, fun h => ?_⟩
  rcases List.mem_append.mp h with h | h
  · exact ha.2 h
  · exact hb.2 h

theorem Neutral.lineN (l : Line) (h1 : spAdjust l = 0) (h2 : l ≠ lineReturn) :
    Neutral [l] :=
  ⟨by simp [spSum, h1], by simpa using fun h => h2 h.symm⟩

theorem Balanced.ofNeutral {ls : List Line} (F : Int) (h : Neutral ls) : Balanced F ls := by
  refine ⟨by rw [h.1, List.count_eq_zero_of_not_mem h.2]; simp, fun pre post e => ?_⟩
  exact absurd (by rw [e]; simp) h.2

theorem Balanced.appendB {F : Int} {a b : List Line} (ha : Balanced F a)
    (hb : Balanced F b) : Balanced F (a ++ b) := by
  refine ⟨?_, fun pre post e => ?_⟩
  · rw [spSum_append, ha.1, hb.1, List.count_append]
    push_cast
    ring
  · rcases List.append_eq_append_iff.mp e with ⟨a1, h1, h2⟩ | ⟨c1, h1, h2⟩
    · -- `pre = a ++ a1`, `b = a1 ++ jr :: post`
      obtain ⟨p1, hp1, hs⟩ := hb.2 a1 post h2
      refine ⟨a ++ p1, by rw [h1, hp1, List.append_assoc], ?_⟩
      rw [spSum_append, ha.1, hs, List.count_append]
      push_cast
      ring
    · -- `a = pre ++ c1`, `jr :: post = c1 ++ b`
      cases c1 with
      | nil =>
        simp only [List.nil_append, List.append_nil] at h1 h2
        obtain ⟨p1, hp1, hs⟩ := hb.2 [] post (by rw [← h2]; rfl)
        have hnil : epilogueHead F = [] := by
          have := congrArg List.length hp1
          simp [epilogueHead] at this
        simp [epilogueHead] at hnil
      | cons c c2 =>
        simp only [List.cons_append, List.cons.injEq] at h2
        obtain ⟨rfl, _⟩ := h2
        exact ha.2 pre c2 h1

theorem Balanced.epilogueB (F : Int) : Balanced F (epilogueHead F ++ [lineReturn]) := by
  refine ⟨?_, fun pre post e => ?_⟩
  · simp [spSum, spAdjust, epilogueHead, lineReturn, List.count_cons]
  · have hlen := congrArg List.length e
    simp [epilogueHead] at hlen
    have hpre : pre.length ≤ 3 := by omega
    simp only [epilogueHead, lineReturn, List.cons_append, List.nil_append] at e
    match pre, hpre with
    | [], _ => simp at e
    | [_], _ => simp at e
    | [_, _], _ => simp [Line.instr.injEq] at e
    | [a, b, c], _ =>
      simp only [List.cons_append, List.nil_append, List.cons.injEq] at e
      obtain ⟨rfl, rfl, rfl, _⟩ := e
      exact ⟨[], rfl, by simp [spSum]⟩
    | _ :: _ :: _ :: _ :: _, h => simp at h

theorem Step.sameP {P : List Line → Prop} (g : RISCVCodeGenerator) (h : P []) : Step P g g :=
  ⟨⟨[], by simp, h⟩, rfl, rfl, rfl, rfl, rfl, rfl⟩

theorem Step.seq {P Q R : List Line → Prop} {g g1 g2 : RISCVCodeGenerator}
    (h1 : Step P g g1) (h2 : Step Q g1 g2) (hR : ∀ a b, P a → Q b → R (a ++ b)) :
    Step R g g2 := by
  obtain ⟨l1, e1, p1⟩ := h1.output
  obtain ⟨l2, e2, p2⟩ := h2.output
  exact ⟨⟨l1 ++ l2, by rw [e2, e1, List.append_assoc], hR l1 l2 p1 p2⟩,
    h2.symbolTable.trans h1.symbolTable, h2.functionTable.trans h1.functionTable,
    h2.currentFrameSize.trans h1.currentFrameSize, h2.currentFunction.trans h1.currentFunction,
    h2.breakLabels.trans h1.breakLabels, h2.continueLabels.trans h1.continueLabels⟩

theorem Step.weaken {P Q : List Line → Prop} {g g1 : RISCVCodeGenerator}
    (h : Step P g g1) (hQ : ∀ a, P a → Q a) : Step Q g g1 := by
  obtain ⟨l, e, p⟩ := h.output
  exact ⟨⟨l, e, hQ l p⟩, h.symbolTable, h.functionTable, h.currentFrameSize,
    h.currentFunction, h.breakLabels, h.continueLabels⟩

theorem Step.thenN {g g1 g2 : RISCVCodeGenerator}
    (h1 : Step Neutral g g1) (h2 : Step Neutral g1 g2) : Step Neutral g g2 :=
  h1.seq h2 (fun _ _ => Neutral.appendN)

theorem Step.thenB {F : Int} {g g1 g2 : RISCVCodeGenerator}
    (h1 : Step (Balanced F) g g1) (h2 : Step (Balanced F) g1 g2) : Step (Balanced F) g g2 :=
  h1.seq h2 (fun _ _ => Balanced.appendB)

theorem Step.toB {g g1 : RISCVCodeGenerator} (F : Int) (h : Step Neutral g g1) :
    Step (Balanced F) g g1 :=
  h.weaken (fun _ => Balanced.ofNeutral F)

theorem Step.lineP {P : List Line → Prop} (g : RISCVCodeGenerator) (l : Line) (h : P [l]) :
    Step P g { g with output := g.output ++ [l] } :=
  ⟨⟨[l], rfl, h⟩, rfl, rfl, rfl, rfl, rfl, rfl⟩

theorem Step.emitN (g : RISCVCodeGenerator) (i : Instr) (h1 : spAdjust (.instr i) = 0)
    (h2 : i ≠ .jr "ra") : Step Neutral g (g.emit i) :=
  Step.lineP g _ (Neutral.lineN _ h1 (by simpa [lineReturn] using h2))

theorem Step.emitLabelN (g : RISCVCodeGenerator) (l : String) :
    Step Neutral g (g.emitLabel l) :=
  Step.lineP g _ (Neutral.lineN _ rfl (by simp [lineReturn]))

theorem Step.emitCommentN (g : RISCVCodeGenerator) (c : String) :
    Step Neutral g (g.emitComment c) :=
  Step.lineP g _ (Neutral.lineN _ rfl (by simp [lineReturn]))

theorem Step.allocTempN (g : RISCVCodeGenerator) : Step Neutral g g.allocTemp.2 :=
  ⟨⟨[], by simp [allocTemp], Neutral.nilN⟩, rfl, rfl, rfl, rfl, rfl, rfl⟩

theorem Step.releaseN (g : RISCVCodeGenerator) (r : String) : Step Neutral g (g.release r) :=
  ⟨⟨[], by simp [release], Neutral.nilN⟩, rfl, rfl, rfl, rfl, rfl, rfl⟩

theorem Step.newLabelN (g : RISCVCodeGenerator) (p : String) :
    Step Neutral g (g.newLabel p).2 :=
  ⟨⟨[], by simp [newLabel], Neutral.nilN⟩, rfl, rfl, rfl, rfl, rfl, rfl⟩

theorem allocateTempLoop_reg (rm : RegisterManager) : ∀ l : List Nat,
    (rm.allocateTempLoop l).1 = "" ∨ (rm.allocateTempLoop l).1 ∈ tempRegs
  | [] => Or.inl rfl
  | i :: rest => by
    unfold RegisterManager.allocateTempLoop
    split
    · by_cases hi : i < tempRegs.length
      · right
        simp only [List.getD_eq_getElem?_getD, List.getElem?_eq_getElem hi, Option.getD_some]
        exact List.getElem_mem _
      · left
        simp only [List.getD_eq_getElem?_getD]
        rw [List.getElem?_eq_none (by omega)]
        rfl
    · exact allocateTempLoop_reg rm rest

theorem allocTemp_ne_sp (g : RISCVCodeGenerator) : g.allocTemp.1 ≠ "sp" := by
  intro h
  have := allocateTempLoop_reg g.regManager (List.range tempRegs.length)
  simp only [allocTemp, RegisterManager.allocateTemp] at h
  rw [h] at this
  revert this
  decide

theorem Step.loadImmediateN (g : RISCVCodeGenerator) (v : Int) (r : String) (hr : r ≠ "sp") :
    Step Neutral g (g.loadImmediate v r) := by
  unfold loadImmediate
  have ha : ∀ (rs : String) (x : Int) (g1 : RISCVCodeGenerator),
      Step Neutral g1 (g1.emit (.addi r rs x)) :=
    fun rs x g1 => Step.emitN g1 _ (by simp [spAdjust, hr]) (by simp)
  simp only []
  split_ifs <;> first
    | exact ha _ _ g
    | exact (Step.emitN g (.lui r _) rfl (by simp)).thenN (ha _ _ _)
    | exact Step.emitN g (.lui r _) rfl (by simp)

theorem Shift.appendS {a b : Int} {la lb : List Line} (ha : Shift a la) (hb : Shift b lb) :
    Shift (a + b) (la ++ lb) := by
  refine ⟨by rw [spSum_append, ha.1, hb.1], fun h => ?_⟩
  rcases List.mem_append.mp h with h | h
  · exact ha.2 h
  · exact hb.2 h

theorem Step.thenShift {a b : Int} {g g1 g2 : RISCVCodeGenerator}
    (h1 : Step (Shift a) g g1) (h2 : Step (Shift b) g1 g2) : Step (Shift (a + b)) g g2 :=
  h1.seq h2 (fun _ _ => Shift.appendS)

theorem Step.emitShift (g : RISCVCodeGenerator) (d : Int) :
    Step (Shift d) g (g.emit (.addi "sp" "sp" d)) :=
  Step.lineP g _ ⟨by simp [spSum, spAdjust], by simp [lineReturn]⟩

theorem Step.saveRegistersS : ∀ (regs : List String) (g : RISCVCodeGenerator),
    Step (Shift (-(4 * (regs.length : Int)))) g (g.saveRegisters regs)
  | [], g => Step.sameP g Neutral.nilN
  | r :: rest, g => by
    have h1 : Step (Shift (-4)) g ((g.emit (.addi "sp" "sp" (-4))).emit (.sw r 0 "sp")) := by
      simpa using (Step.emitShift g (-4)).thenShift
        (Step.emitN _ (.sw r 0 "sp") (by rfl) (by simp))
    have h2 := h1.thenShift (Step.saveRegistersS rest _)
    simp only [saveRegisters]
    refine h2.weaken (fun a ha => ?_)
    have e : -4 + -(4 * (rest.length : Int)) = -(4 * ((r :: rest).length : Int)) := by
      simp only [List.length_cons]
      push_cast
      ring
    rw [← e]
    exact ha

theorem Step.restoreLoopS : ∀ (regs : List String) (g : RISCVCodeGenerator),
    Step (Shift (4 * (regs.length : Int))) g (g.restoreLoop regs)
  | [], g => Step.sameP g Neutral.nilN
  | r :: rest, g => by
    have h1 : Step (Shift 4) g ((g.emit (.lw r 0 "sp")).emit (.addi "sp" "sp" 4)) := by
      simpa using (Step.emitN g (.lw r 0 "sp") (by rfl) (by simp)).thenShift
        (Step.emitShift _ 4)
    have h2 := h1.thenShift (Step.restoreLoopS rest _)
    simp only [restoreLoop]
    refine h2.weaken (fun a ha => ?_)
    have e : 4 + 4 * (rest.length : Int) = 4 * ((r :: rest).length : Int) := by
      simp only [List.length_cons]
      push_cast
      ring
    rw [← e]
    exact ha

theorem Step.genUnaryOpN (g : RISCVCodeGenerator) (op : UnOp) (r : String) :
    Step Neutral g (g.genUnaryOp op r) := by
  cases op <;> exact Step.emitN _ _ (by rfl) (by simp)

theorem Step.genBinaryOpN (g : RISCVCodeGenerator) (op : BinOp) (r : String)
    (hr : r ≠ "sp") : Step Neutral g (g.genBinaryOp op r) := by
  have e : ∀ (g1 : RISCVCodeGenerator) (i : Instr), spAdjust (.instr i) = 0 → i ≠ .jr "ra" →
      Step Neutral g1 (g1.emit i) := fun g1 i h1 h2 => Step.emitN g1 i h1 h2
  cases op
  case AND =>
    simp only [genBinaryOp]
    exact (((((((((Step.newLabelN g _).thenN (Step.newLabelN _ _)).thenN
      (e _ _ (by rfl) (by simp))).thenN (e _ _ (by rfl) (by simp))).thenN
      (Step.loadImmediateN _ _ _ hr)).thenN (e _ _ (by rfl) (by simp))).thenN
      (Step.emitLabelN _ _)).thenN (Step.loadImmediateN _ _ _ hr)).thenN
      (Step.emitLabelN _ _))
  case OR =>
    simp only [genBinaryOp]
    exact (((((((((Step.newLabelN g _).thenN (Step.newLabelN _ _)).thenN
      (e _ _ (by rfl) (by simp))).thenN (e _ _ (by rfl) (by simp))).thenN
      (Step.loadImmediateN _ _ _ hr)).thenN (e _ _ (by rfl) (by simp))).thenN
      (Step.emitLabelN _ _)).thenN (Step.loadImmediateN _ _ _ hr)).thenN
      (Step.emitLabelN _ _))
  all_goals
    simp only [genBinaryOp]
    first
      | exact e _ _ (by rfl) (by simp)
      | exact (e _ _ (by rfl) (by simp)).thenN (e _ _ (by rfl) (by simp))

mutual
theorem genExpr_step : ∀ (e : Expr) (g : RISCVCodeGenerator), Step Neutral g (genExpr g e)
  | .number v, g => by
    simp only [genExpr]
    exact (Step.allocTempN g).thenN (Step.loadImmediateN _ _ _ (allocTemp_ne_sp g))
  | .ident name, g => by
    unfold genExpr
    split
    · exact (Step.allocTempN g).thenN (Step.emitN _ _ (by rfl) (by simp))
    · exact Step.sameP g Neutral.nilN
  | .binary left op right, g => by
    simp only [genExpr]
    have h1 := genExpr_step left g
    have h2 := genExpr_step right (genExpr g left)
    exact ((((h1.thenN h2).thenN (Step.allocTempN _)).thenN
      (Step.genBinaryOpN _ _ _ (allocTemp_ne_sp _))).thenN (Step.releaseN _ _)).thenN
      (Step.releaseN _ _)
  | .unary op operand, g => by
    simp only [genExpr]
    have h1 := genExpr_step operand g
    exact ((h1.thenN (Step.allocTempN _)).thenN (Step.genUnaryOpN _ _ _)).thenN
      (Step.releaseN _ _)
  | .call fn args rt, g => by
    simp only [genExpr]
    have h0 := Step.saveRegistersS callerSaved g
    have h1 : Step (Shift 0) _ _ := genArgs_step args (g.saveRegisters callerSaved) 0
    have hc : Step (Shift 0) _ _ := Step.emitN (genArgs (g.saveRegisters callerSaved) 0 args)
      (.call fn) (by rfl) (by simp)
    have h3 := Step.restoreLoopS callerSaved.reverse
      ((genArgs (g.saveRegisters callerSaved) 0 args).emit (.call fn))
    have h4 : Step Neutral g (((genArgs (g.saveRegisters callerSaved) 0 args).emit
        (.call fn)).restoreRegisters callerSaved) :=
      (((h0.thenShift h1).thenShift hc).thenShift h3).weaken (fun a ha => by
        have e : -(4 * (callerSaved.length : Int)) + 0 + 0 +
            4 * (callerSaved.reverse.length : Int) = 0 := by decide
        rw [e] at ha
        exact ha)
    split
    · exact (h4.thenN (Step.allocTempN _)).thenN (Step.emitN _ _ (by rfl) (by simp))
    · exact h4
theorem genArgs_step : ∀ (es : List Expr) (g : RISCVCodeGenerator) (i : Nat),
    Step Neutral g (genArgs g i es)
  | [], g, i => by
    simp only [genArgs]
    exact Step.sameP g Neutral.nilN
  | e :: es, g, i => by
    simp only [genArgs]
    split
    · exact ((genExpr_step e g).thenN (Step.emitN _ _ (by rfl) (by simp))).thenN
        (genArgs_step es _ _)
    · exact Step.sameP g Neutral.nilN
end

theorem BStep.ofN {g g1 : RISCVCodeGenerator} (h : Step Neutral g g1) : BStep g g1 :=
  h.toB _

theorem BStep.thenBS {g g1 g2 : RISCVCodeGenerator} (h1 : BStep g g1) (h2 : BStep g1 g2) :
    BStep g g2 := by
  unfold BStep at h1 h2 ⊢
  rw [h1.currentFrameSize] at h2
  exact h1.thenB h2

theorem BStep.thenNB {g g1 g2 : RISCVCodeGenerator} (h1 : Step Neutral g g1)
    (h2 : BStep g1 g2) : BStep g g2 := (BStep.ofN h1).thenBS h2

theorem BStep.thenBN {g g1 g2 : RISCVCodeGenerator} (h1 : BStep g g1)
    (h2 : Step Neutral g1 g2) : BStep g g2 := h1.thenBS (BStep.ofN h2)

theorem BStep.epilogueS (g : RISCVCodeGenerator) : BStep g g.generateFunctionEpilogue :=
  ⟨⟨epilogueHead g.currentFrameSize ++ [lineReturn],
      by simp [generateFunctionEpilogue, emit, epilogueHead, lineReturn],
      Balanced.epilogueB _⟩, rfl, rfl, rfl, rfl, rfl, rfl⟩

theorem Step.storeToN (g : RISCVCodeGenerator) (name : String) :
    Step Neutral g (match mapFind g.symbolTable name with
      | some symbol => g.emit (.sw "t0" symbol.offset "fp")
      | none => g) := by
  split
  · exact Step.emitN _ _ (by rfl) (by simp)
  · exact Step.sameP g Neutral.nilN

theorem genReturnValue_step (o : Option Expr) (g : RISCVCodeGenerator) :
    Step Neutral g (genReturnValue g o) := by
  cases o with
  | none => exact Step.sameP g Neutral.nilN
  | some e => exact (genExpr_step e g).thenN (Step.emitN _ _ (by rfl) (by simp))

/-- Pushing loop labels before a step and popping them after it gives a step. -/
theorem BStep.loop {g gA gB : RISCVCodeGenerator} (bl cl : String)
    (hA : Step Neutral g gA)
    (hB : BStep
      { gA with breakLabels := bl :: gA.breakLabels, continueLabels := cl :: gA.continueLabels }
      gB) :
    BStep g
      { gB with breakLabels := gB.breakLabels.tail, continueLabels := gB.continueLabels.tail } := by
  obtain ⟨l1, e1, p1⟩ := hA.output
  obtain ⟨l2, e2, p2⟩ := hB.output
  refine ⟨⟨l1 ++ l2, ?_, ?_⟩, ?_, ?_, ?_, ?_, ?_, ?_⟩
  · show gB.output = _
    rw [e2]
    show gA.output ++ l2 = _
    rw [e1, List.append_assoc]
  · have : gA.currentFrameSize = g.currentFrameSize := hA.currentFrameSize
    have p2' : Balanced g.currentFrameSize l2 := by
      rw [← this]
      exact p2
    exact (Balanced.ofNeutral _ p1).appendB p2'
  · exact hB.symbolTable.trans hA.symbolTable
  · exact hB.functionTable.trans hA.functionTable
  · exact hB.currentFrameSize.trans hA.currentFrameSize
  · exact hB.currentFunction.trans hA.currentFunction
  · show gB.breakLabels.tail = _
    rw [hB.breakLabels]
    exact hA.breakLabels
  · show gB.continueLabels.tail = _
    rw [hB.continueLabels]
    exact hA.continueLabels

mutual
theorem genStmt_step : ∀ (s : Stmt) (g : RISCVCodeGenerator), BStep g (genStmt g s)
  | .assign x value, g => by
    simp only [genStmt]
    exact BStep.ofN (((genExpr_step value g).thenN (Step.storeToN _ x)).thenN
      (Step.releaseN _ _))
  | .varDecl name initializer, g => by
    cases initializer with
    | none =>
      simp only [genStmt]
      exact BStep.ofN (Step.sameP g Neutral.nilN)
    | some e =>
      simp only [genStmt]
      exact BStep.ofN (((genExpr_step e g).thenN (Step.storeToN _ name)).thenN
        (Step.releaseN _ _))
  | .block ss, g => by
    simp only [genStmt]
    exact genStmts_step ss g
  | .ifS c t e, g => by
    have hA : Step Neutral g ((g.newLabel "if_else").2.newLabel "if_end").2 :=
      (Step.newLabelN g "if_else").thenN (Step.newLabelN _ "if_end")
    have hc := genExpr_step c ((g.newLabel "if_else").2.newLabel "if_end").2
    cases e with
    | none =>
      simp only [genStmt]
      exact (BStep.thenNB (((hA.thenN hc).thenN (Step.emitN _ _ (by rfl) (by simp))).thenN
        (Step.releaseN _ "t0")) (genStmt_step t _)).thenBN (Step.emitLabelN _ _)
    | some els =>
      simp only [genStmt]
      exact ((((BStep.thenNB (((hA.thenN hc).thenN
        (Step.emitN _ _ (by rfl) (by simp))).thenN
        (Step.releaseN _ "t0")) (genStmt_step t _)).thenBN
        (Step.emitN _ _ (by rfl) (by simp))).thenBN (Step.emitLabelN _ _)).thenBS
        (genStmt_step els _)).thenBN (Step.emitLabelN _ _)
  | .whileS c b, g => by
    simp only [genStmt]
    have hA : Step Neutral g ((g.newLabel "while_loop").2.newLabel "while_end").2 :=
      (Step.newLabelN g "while_loop").thenN (Step.newLabelN _ "while_end")
    have hB : ∀ gA : RISCVCodeGenerator, BStep gA
        (((genStmt (((genExpr (gA.emitLabel (g.newLabel "while_loop").1) c).emit
          (.beqz "t0" ((g.newLabel "while_loop").2.newLabel "while_end").1)).release "t0")
          b).emit (.j (g.newLabel "while_loop").1)).emitLabel
          ((g.newLabel "while_loop").2.newLabel "while_end").1) :=
      fun gA => ((BStep.thenNB ((((Step.emitLabelN gA _).thenN (genExpr_step c _)).thenN
        (Step.emitN _ _ (by rfl) (by simp))).thenN (Step.releaseN _ "t0"))
        (genStmt_step b _)).thenBN (Step.emitN _ _ (by rfl) (by simp))).thenBN
        (Step.emitLabelN _ _)
    exact BStep.loop _ _ hA (hB _)
  | .breakS, g => by
    unfold genStmt
    split
    · exact BStep.ofN (Step.sameP g Neutral.nilN)
    · exact BStep.ofN (Step.emitN _ _ (by rfl) (by simp))
  | .continueS, g => by
    unfold genStmt
    split
    · exact BStep.ofN (Step.sameP g Neutral.nilN)
    · exact BStep.ofN (Step.emitN _ _ (by rfl) (by simp))
  | .returnS value, g => by
    simp only [genStmt]
    exact BStep.thenNB (genReturnValue_step value g) (BStep.epilogueS _)
  | .exprS e, g => by
    simp only [genStmt]
    exact BStep.ofN ((genExpr_step e g).thenN
      ⟨⟨[], by simp, Neutral.nilN⟩, rfl, rfl, rfl, rfl, rfl, rfl⟩)
theorem genStmts_step : ∀ (ss : List Stmt) (g : RISCVCodeGenerator), BStep g (genStmts g ss)
  | [], g => by
    simp only [genStmts]
    exact BStep.ofN (Step.sameP g Neutral.nilN)
  | s :: ss, g => by
    simp only [genStmts]
    exact (genStmt_step s g).thenBS (genStmts_step ss _)
end

mutual
theorem collectLocalStmt_fields : ∀ (s : Stmt) (g : RISCVCodeGenerator)
    (locals : List (String × Int)) (offset : Int),
    (g.collectLocalStmt locals offset s).1 =
      { g with symbolTable := (g.collectLocalStmt locals offset s).1.symbolTable }
  | .varDecl _ _, g, locals, offset => by simp only [collectLocalStmt]
  | .block ss, g, locals, offset => by
    simp only [collectLocalStmt]
    exact collectLocalVariables_fields ss g locals offset
  | .assign _ _, g, locals, offset => by simp only [collectLocalStmt]
  | .ifS _ _ _, g, locals, offset => by simp only [collectLocalStmt]
  | .whileS _ _, g, locals, offset => by simp only [collectLocalStmt]
  | .breakS, g, locals, offset => by simp only [collectLocalStmt]
  | .continueS, g, locals, offset => by simp only [collectLocalStmt]
  | .returnS _, g, locals, offset => by simp only [collectLocalStmt]
  | .exprS _, g, locals, offset => by simp only [collectLocalStmt]
theorem collectLocalVariables_fields : ∀ (ss : List Stmt) (g : RISCVCodeGenerator)
    (locals : List (String × Int)) (offset : Int),
    (g.collectLocalVariables locals offset ss).1 =
      { g with symbolTable := (g.collectLocalVariables locals offset ss).1.symbolTable }
  | [], g, locals, offset => by simp only [collectLocalVariables]
  | s :: rest, g, locals, offset => by
    simp only [collectLocalVariables]
    have h1 := collectLocalStmt_fields s g locals offset
    have h2 := collectLocalVariables_fields rest (g.collectLocalStmt locals offset s).1
      (g.collectLocalStmt locals offset s).2.1 (g.collectLocalStmt locals offset s).2.2
    rw [h2]
    rw [h1]
end

theorem addParameters_fields : ∀ (ps : List Parameter) (g : RISCVCodeGenerator) (o : Int),
    g.addParameters o ps = { g with symbolTable := (g.addParameters o ps).symbolTable }
  | [], g, o => by simp only [addParameters]
  | p :: ps, g, o => by
    simp only [addParameters]
    rw [addParameters_fields ps]

theorem genFunction_eq (g : RISCVCodeGenerator) (f : FunctionDefinition) :
    g.genFunction f =
      (if f.returnType = VType.VOID then
        (genStmts (bodyEntry g f) f.body).generateFunctionEpilogue
      else genStmts (bodyEntry g f) f.body).emit (.raw "") := rfl

theorem bodyEntry_output (g : RISCVCodeGenerator) (f : FunctionDefinition) :
    (bodyEntry g f).output = g.output ++
      Line.label f.name :: prologueLines f.name (bodyEntry g f).currentFrameSize := by
  unfold bodyEntry
  simp only
  rw [addParameters_fields]
  simp only [generateFunctionPrologue, emit, emitComment, emitLabel, calculateFrameSize,
    prologueLines]
  rw [collectLocalVariables_fields]
  simp

theorem genFunction_frameSize (g : RISCVCodeGenerator) (f : FunctionDefinition) :
    (g.genFunction f).currentFrameSize = (bodyEntry g f).currentFrameSize := by
  rw [genFunction_eq]
  have h := genStmts_step f.body (bodyEntry g f)
  split
  · exact (BStep.epilogueS _).currentFrameSize.trans h.currentFrameSize
  · exact h.currentFrameSize

theorem genFunction_body (g : RISCVCodeGenerator) (f : FunctionDefinition) :
    ∃ body, (g.genFunction f).output = (bodyEntry g f).output ++ body ∧
      Balanced (bodyEntry g f).currentFrameSize body := by
  have h := genStmts_step f.body (bodyEntry g f)
  have hr : ∀ g1 : RISCVCodeGenerator, Step Neutral g1 (g1.emit (.raw "")) :=
    fun g1 => Step.emitN g1 _ rfl (by simp)
  have hall : BStep (bodyEntry g f) (g.genFunction f) := by
    rw [genFunction_eq]
    split
    · exact (h.thenBS (BStep.epilogueS _)).thenBN (hr _)
    · exact h.thenBN (hr _)
  exact hall.output

mutual
theorem returnValues_eq : ∀ s : Stmt, returnValues s = (returnsOf s).map Option.isSome
  | .block ss => by simpa [returnValues, returnsOf] using returnValuesList_eq ss
  | .ifS _ t e => by
    simp only [returnValues, returnsOf, List.map_append]
    rw [returnValues_eq t, returnValuesOpt_eq e]
  | .whileS _ b => by simpa [returnValues, returnsOf] using returnValues_eq b
  | .returnS _ => by simp [returnValues, returnsOf]
  | .assign _ _ => by simp [returnValues, returnsOf]
  | .varDecl _ _ => by simp [returnValues, returnsOf]
  | .breakS => by simp [returnValues, returnsOf]
  | .continueS => by simp [returnValues, returnsOf]
  | .exprS _ => by simp [returnValues, returnsOf]
theorem returnValuesList_eq : ∀ ss : List Stmt,
    returnValuesList ss = (returnsOfList ss).map Option.isSome
  | [] => by simp [returnValuesList, returnsOfList]
  | s :: rest => by
    simp only [returnValuesList, returnsOfList, List.map_append]
    rw [returnValues_eq s, returnValuesList_eq rest]
theorem returnValuesOpt_eq : ∀ o : Option Stmt,
    returnValuesOpt o = (returnsOfOpt o).map Option.isSome
  | none => by simp [returnValuesOpt, returnsOfOpt]
  | some s => by simpa [returnValuesOpt, returnsOfOpt] using returnValues_eq s
end

mutual
theorem visitStmt_returns : ∀ (s : Stmt) (a : SemanticAnalyzer),
    returnValues (visitStmt a s).2 = returnValues s
  | .varDecl name initializer, a => by
    cases initializer with
    | none =>
      simp only [visitStmt]
      split <;> rfl
    | some e =>
      simp only [visitStmt]
      split <;> rfl
  | .assign x value, a => by
    unfold visitStmt
    split <;> rfl
  | .block ss, a => by
    simpa [visitStmt, returnValues] using visitStmts_returns ss _
  | .ifS c t e, a => by
    simp only [visitStmt, returnValues]
    rw [visitStmt_returns t _, visitOptStmt_returns e _]
  | .whileS c b, a => by
    simp only [visitStmt, returnValues]
    rw [visitStmt_returns b _]
  | .breakS, a => by
    unfold visitStmt
    split <;> rfl
  | .continueS, a => by
    unfold visitStmt
    split <;> rfl
  | .returnS value, a => by
    cases value with
    | none => simp [visitStmt, returnValues]
    | some e => simp [visitStmt, returnValues]
  | .exprS e, a => by
    simp [visitStmt, returnValues]
theorem visitStmts_returns : ∀ (ss : List Stmt) (a : SemanticAnalyzer),
    returnValuesList (visitStmts a ss).2 = returnValuesList ss
  | [], a => by simp [visitStmts]
  | s :: ss, a => by
    simp only [visitStmts, returnValuesList]
    rw [visitStmt_returns s a, visitStmts_returns ss _]
theorem visitOptStmt_returns : ∀ (o : Option Stmt) (a : SemanticAnalyzer),
    returnValuesOpt (visitOptStmt a o).2 = returnValuesOpt o
  | none, a => by simp [visitOptStmt]
  | some s, a => by
    simpa [visitOptStmt, returnValuesOpt] using visitStmt_returns s a
end

/-- A definition of the analysed unit has the return type and the `Return` statements,
with or without value, of a definition of the unit. -/
theorem visitFunctions_returns : ∀ (fs : List FunctionDefinition) (a : SemanticAnalyzer),
    ∀ f1 ∈ (visitFunctions a fs).2, ∃ f ∈ fs, f1.returnType = f.returnType ∧
      returnValuesList f1.body = returnValuesList f.body
  | [], a => by simp [visitFunctions]
  | f :: fs, a => by
    intro f1 h1
    simp only [visitFunctions, List.mem_cons] at h1
    rcases h1 with h | h
    · refine ⟨f, List.mem_cons_self _ _, by rw [h]; rfl, ?_⟩
      rw [h]
      exact visitStmts_returns f.body _
    · obtain ⟨f0, hf0, e1, e2⟩ := visitFunctions_returns fs _ f1 h
      exact ⟨f0, List.mem_cons_of_mem _ hf0, e1, e2⟩

theorem genReturn_output (g : RISCVCodeGenerator) (e : Expr) :
    ∃ code, (genExpr g e).output = g.output ++ code ∧
      (genStmt g (.returnS (some e))).output = g.output ++ code ++
        (Line.instr (.mv "a0" "t0") :: (epilogueHead g.currentFrameSize ++ [lineReturn])) := by
  have h := genExpr_step e g
  obtain ⟨code, hc, _⟩ := h.output
  refine ⟨code, hc, ?_⟩
  simp only [genStmt, genReturnValue, generateFunctionEpilogue, emit, epilogueHead, lineReturn]
  rw [hc, h.currentFrameSize]
  simp

theorem genBinaryOp_and (g : RISCVCodeGenerator) (r : String) :
    (g.genBinaryOp .AND r).output = g.output ++
      [.instr (.beqz "t0" ("and_false" ++ toString g.labelCounter)),
        .instr (.beqz "t1" ("and_false" ++ toString g.labelCounter)),
        .instr (.addi r "zero" 1),
        .instr (.j ("and_end" ++ toString (g.labelCounter + 1))),
        .label ("and_false" ++ toString g.labelCounter),
        .instr (.addi r "zero" 0),
        .label ("and_end" ++ toString (g.labelCounter + 1))] := by
  simp [genBinaryOp, loadImmediate, emit, emitLabel, newLabel]

theorem genBinaryOp_or (g : RISCVCodeGenerator) (r : String) :
    (g.genBinaryOp .OR r).output = g.output ++
      [.instr (.bnez "t0" ("or_true" ++ toString g.labelCounter)),
        .instr (.bnez "t1" ("or_true" ++ toString g.labelCounter)),
        .instr (.addi r "zero" 0),
        .instr (.j ("or_end" ++ toString (g.labelCounter + 1))),
        .label ("or_true" ++ toString g.labelCounter),
        .instr (.addi r "zero" 1),
        .label ("or_end" ++ toString (g.labelCounter + 1))] := by
  simp [genBinaryOp, loadImmediate, emit, emitLabel, newLabel]

theorem genBinary_output (g : RISCVCodeGenerator) (l r : Expr) (op : BinOp) :
    ∃ cl cr, (genExpr g l).output = g.output ++ cl ∧
      (genExpr (genExpr g l) r).output = (genExpr g l).output ++ cr ∧
      (genExpr g (.binary l op r)).output =
        ((genExpr (genExpr g l) r).allocTemp.2.genBinaryOp op
          (genExpr (genExpr g l) r).allocTemp.1).output := by
  obtain ⟨cl, hl, _⟩ := (genExpr_step l g).output
  obtain ⟨cr, hr, _⟩ := (genExpr_step r (genExpr g l)).output
  exact ⟨cl, cr, hl, hr, by simp only [genExpr, release]⟩

theorem addParameters_other : ∀ (ps : List Parameter) (g : RISCVCodeGenerator) (o : Int)
    (x : String), x ∉ ps.map (fun p => p.name) →
    mapFind (g.addParameters o ps).symbolTable x = mapFind g.symbolTable x
  | [], g, o, x, _ => rfl
  | p :: ps, g, o, x, hx => by
    simp only [List.map_cons, List.mem_cons, not_or] at hx
    simp only [addParameters]
    rw [addParameters_other ps _ _ x hx.2]
    show mapFind (mapSet g.symbolTable p.name _) x = _
    rw [mapFind_mapSet, if_neg (fun h => hx.1 h.symm)]

theorem addParameters_find : ∀ (ps : List Parameter) (g : RISCVCodeGenerator) (o : Int),
    (ps.map (fun p => p.name)).Nodup → ∀ (i : Nat) (p : Parameter), ps[i]? = some p →
    mapFind (g.addParameters o ps).symbolTable p.name = some ⟨p.name, p.type, o + 4 * i, true⟩
  | [], g, o, _, i, p, hp => by simp at hp
  | q :: ps, g, o, hd, i, p, hp => by
    simp only [List.map_cons, List.nodup_cons] at hd
    simp only [addParameters]
    cases i with
    | zero =>
      simp only [List.getElem?_cons_zero, Option.some.injEq] at hp
      subst hp
      rw [addParameters_other ps _ _ q.name hd.1]
      show mapFind (mapSet g.symbolTable q.name _) q.name = _
      rw [mapFind_mapSet, if_pos rfl]
      simp
    | succ j =>
      simp only [List.getElem?_cons_succ] at hp
      rw [addParameters_find ps _ (o + 4) hd.2 j p hp]
      simp only [Option.some.injEq, Symbol.mk.injEq, true_and, and_true]
      push_cast
      ring

/-! ### Scopes -/

theorem lookupIn_none : ∀ (st : List (List (String × Symbol))) (name : String),
    Scope.lookupIn st name = none ↔ ∀ sc ∈ st, mapFind sc name = none
  | [], name => by simp [Scope.lookupIn]
  | sc :: outer, name => by
    unfold Scope.lookupIn
    cases h : mapFind sc name with
    | some sym => simp [h]
    | none =>
      simp only [List.mem_cons, forall_eq_or_imp, h, true_and]
      exact lookupIn_none outer name

theorem lookupIn_some : ∀ (st : List (List (String × Symbol))) (name : String) (sym : Symbol),
    Scope.lookupIn st name = some sym ↔
      ∃ pre sc post, st = pre ++ sc :: post ∧ (∀ x ∈ pre, mapFind x name = none) ∧
        mapFind sc name = some sym
  | [], name, sym => by simp [Scope.lookupIn]
  | sc :: outer, name, sym => by
    unfold Scope.lookupIn
    cases h : mapFind sc name with
    | some s1 =>
      simp only [Option.some.injEq]
      constructor
      · rintro rfl
        exact ⟨[], sc, outer, rfl, by simp, h⟩
      · rintro ⟨pre, sc1, post, e, hp, hs⟩
        cases pre with
        | nil =>
          simp only [List.nil_append, List.cons.injEq] at e
          rw [← e.1, h] at hs
          exact Option.some.inj hs
        | cons p pre1 =>
          simp only [List.cons_append, List.cons.injEq] at e
          have := hp p (List.mem_cons_self _ _)
          rw [← e.1, h] at this
          exact Option.noConfusion this
    | none =>
      simp only
      rw [lookupIn_some outer name sym]
      constructor
      · rintro ⟨pre, sc1, post, e, hp, hs⟩
        refine ⟨sc :: pre, sc1, post, by rw [e]; rfl, ?_, hs⟩
        intro x hx
        rcases List.mem_cons.mp hx with rfl | hx
        · exact h
        · exact hp x hx
      · rintro ⟨pre, sc1, post, e, hp, hs⟩
        cases pre with
        | nil =>
          simp only [List.nil_append, List.cons.injEq] at e
          rw [← e.1, h] at hs
          exact Option.noConfusion hs
        | cons p pre1 =>
          simp only [List.cons_append, List.cons.injEq] at e
          exact ⟨pre1, sc1, post, e.2, fun x hx => hp x (List.mem_cons_of_mem _ hx), hs⟩

theorem declareVariable_fail (s : Scope) (name : String) (t : VType) (p : Bool)
    (h : (s.declareVariable name t p).1 = false) : (s.declareVariable name t p).2 = s := by
  unfold Scope.declareVariable at h ⊢
  split
  · rfl
  · rename_i top outer hs
    simp only [hs] at h
    split
    · rfl
    · rename_i hf
      simp [hf] at h

theorem declareVariable_success (s : Scope) (name : String) (t : VType) (p : Bool)
    (h : (s.declareVariable name t p).1 = true) :
    ∃ top outer, s.scopeStack = top :: outer ∧ mapFind top name = none ∧
      (s.declareVariable name t p).2 =
        { scopeStack := mapSet top name
            ⟨name, t, if p = true then s.currentOffset else s.currentOffset - 4, p⟩ :: outer,
          currentOffset := if p = true then s.currentOffset else s.currentOffset - 4 } := by
  unfold Scope.declareVariable at h ⊢
  cases hs : s.scopeStack with
  | nil => simp [hs] at h
  | cons top outer =>
    simp only [hs] at h ⊢
    cases hf : mapFind top name with
    | some sym => simp [hf] at h
    | none =>
      refine ⟨top, outer, rfl, hf, ?_⟩
      cases p <;> simp

/-- The result of `declareVariable` read on the innermost scope. -/
theorem declareVariable_top (s : Scope) (top : List (String × Symbol))
    (outer : List (List (String × Symbol))) (h : s.scopeStack = top :: outer)
    (name : String) (t : VType) (p : Bool) :
    ((s.declareVariable name t p).1 = false ↔ (mapFind top name).isSome = true) ∧
    ((s.declareVariable name t p).1 = false → (s.declareVariable name t p).2 = s) ∧
    (mapFind top name = none →
      (s.declareVariable name t p).1 = true ∧
      (s.declareVariable name t p).2.scopeStack =
        mapSet top name
          ⟨name, t, if p = true then s.currentOffset else s.currentOffset - 4, p⟩ :: outer) := by
  refine ⟨?_, declareVariable_fail s name t p, ?_⟩
  · unfold Scope.declareVariable
    rw [h]
    simp only
    cases hf : mapFind top name <;> simp
  · intro hf
    unfold Scope.declareVariable
    rw [h]
    simp only [hf]
    cases p <;> simp

theorem allocateTempLoop_used (rm : RegisterManager) : ∀ l : List Nat,
    (∀ i ∈ l, rm.used.getD i false = true) → rm.allocateTempLoop l = ("", rm)
  | [], _ => rfl
  | i :: rest, h => by
    unfold RegisterManager.allocateTempLoop
    have hi := h i (List.mem_cons_self _ _)
    rw [if_neg (by rw [hi]; decide)]
    exact allocateTempLoop_used rm rest (fun j hj => h j (List.mem_cons_of_mem _ hj))

theorem allocateTempLoop_free (rm : RegisterManager) (i : Nat) (l2 : List Nat)
    (hi : rm.used.getD i false = false) : ∀ l1 : List Nat,
    (∀ j ∈ l1, rm.used.getD j false = true) →
    rm.allocateTempLoop (l1 ++ i :: l2) = (tempRegs.getD i "", { used := rm.used.set i true })
  | [], _ => by
    simp only [List.nil_append]
    unfold RegisterManager.allocateTempLoop
    rw [if_pos hi]
  | j :: rest, h => by
    simp only [List.cons_append]
    unfold RegisterManager.allocateTempLoop
    have hj := h j (List.mem_cons_self _ _)
    rw [if_neg (by rw [hj]; decide)]
    exact allocateTempLoop_free rm i l2 hi rest (fun k hk => h k (List.mem_cons_of_mem _ hk))

theorem range_split (i : Nat) (hi : i < 7) :
    ∃ l2, List.range tempRegs.length = List.range i ++ i :: l2 := by
  interval_cases i
  · exact ⟨_, rfl⟩
  · exact ⟨[2, 3, 4, 5, 6], rfl⟩
  · exact ⟨[3, 4, 5, 6], rfl⟩
  · exact ⟨[4, 5, 6], rfl⟩
  · exact ⟨[5, 6], rfl⟩
  · exact ⟨[6], rfl⟩
  · exact ⟨[], rfl⟩

theorem allocateTemp_free (rm : RegisterManager) (i : Nat) (hi : i < 7)
    (hf : rm.used.getD i false = false) (hu : ∀ j, j < i → rm.used.getD j false = true) :
    rm.allocateTemp = (tempRegs.getD i "", { used := rm.used.set i true }) := by
  obtain ⟨l2, e⟩ := range_split i hi
  unfold RegisterManager.allocateTemp
  rw [e]
  exact allocateTempLoop_free rm i l2 hf _ (fun j hj => hu j (List.mem_range.mp hj))

theorem allocateTemp_full (rm : RegisterManager)
    (hu : ∀ i, i < 7 → rm.used.getD i false = true) : rm.allocateTemp = ("", rm) :=
  allocateTempLoop_used rm _ (fun i hi => hu i (List.mem_range.mp hi))

theorem tempRegs_ne_empty (i : Nat) (hi : i < 7) : tempRegs.getD i "" ≠ "" := by
  interval_cases i <;> decide

/-- Either all seven flags of the temporaries are set and nothing happens, or the lowest
clear one is set and its register returned. -/
theorem allocateTemp_cases (rm : RegisterManager) :
    ((∀ i, i < 7 → rm.used.getD i false = true) ∧ rm.allocateTemp = ("", rm)) ∨
    ∃ i, i < 7 ∧ rm.used.getD i false = false ∧ (∀ j, j < i → rm.used.getD j false = true) ∧
      rm.allocateTemp = (tempRegs.getD i "", { used := rm.used.set i true }) := by
  by_cases h : ∀ i, i < 7 → rm.used.getD i false = true
  · exact Or.inl ⟨h, allocateTemp_full rm h⟩
  · right
    have hex : ∃ i, i < 7 ∧ rm.used.getD i false = false := by
      push_neg at h
      obtain ⟨i, hi, hn⟩ := h
      exact ⟨i, hi, by simpa using hn⟩
    refine ⟨Nat.find hex, (Nat.find_spec hex).1, (Nat.find_spec hex).2, ?_, ?_⟩
    · intro j hj
      have := Nat.find_min hex hj
      have hj7 : j < 7 := lt_trans hj (Nat.find_spec hex).1
      simpa [hj7] using this
    · apply allocateTemp_free rm _ (Nat.find_spec hex).1 (Nat.find_spec hex).2
      intro j hj
      have := Nat.find_min hex hj
      have hj7 : j < 7 := lt_trans hj (Nat.find_spec hex).1
      simpa [hj7] using this

theorem getD_set (l : List Bool) (i j : Nat) (v : Bool) (hi : i < l.length) :
    (l.set i v).getD j false = if i = j then v else l.getD j false := by
  simp only [List.getD_eq_getElem?_getD, List.getElem?_set]
  by_cases h : i = j
  · subst h
    simp [hi]
  · simp [h]

theorem getD_take (l : List Bool) (i : Nat) (hi : i < 7) :
    (l.take 7).getD i false = l.getD i false := by
  simp only [List.getD_eq_getElem?_getD, List.getElem?_take, hi, if_true]

theorem allocateTemp_length (rm : RegisterManager) :
    rm.allocateTemp.2.used.length = rm.used.length := by
  rcases allocateTemp_cases rm with ⟨_, e⟩ | ⟨i, _, _, _, e⟩
  · rw [e]
  · rw [e]
    simp

theorem allocateTemp_prefix (rm : RegisterManager) (hl : rm.used.length = 19) (k : Nat)
    (hk : k < 7) (h : ∀ j, j < k → rm.used.getD j false = true) :
    ∀ j, j < k + 1 → rm.allocateTemp.2.used.getD j false = true := by
  intro j hj
  rcases allocateTemp_cases rm with ⟨hu, e⟩ | ⟨i, hi, hf, hu, e⟩
  · rw [e]
    exact hu j (by omega)
  · rw [e]
    show (rm.used.set i true).getD j false = true
    rw [getD_set _ _ _ _ (by omega)]
    by_cases hij : i = j
    · rw [if_pos hij]
    · rw [if_neg hij]
      by_cases hjk : j < k
      · exact h j hjk
      · have hjk2 : j = k := by omega
        have hik : k ≤ i := by
          by_contra hc
          have := h i (by omega)
          rw [hf] at this
          exact Bool.noConfusion this
        exact hu j (by omega)

theorem allocateTimes_prefix : ∀ (k : Nat) (rm : RegisterManager), rm.used.length = 19 →
    k ≤ 7 → ∀ (m : Nat), m + k ≤ 7 → (∀ j, j < m → rm.used.getD j false = true) →
    ∀ j, j < m + k → (allocateTimes k rm).used.getD j false = true
  | 0, rm, _, _, m, _, h => by simpa [allocateTimes] using h
  | k + 1, rm, hl, hk, m, hm, h => by
    intro j hj
    simp only [allocateTimes]
    have h1 := allocateTemp_prefix rm hl m (by omega) h
    have := allocateTimes_prefix k rm.allocateTemp.2 (by rw [allocateTemp_length, hl])
      (by omega) (m + 1) (by omega) h1 j (by omega)
    exact this

theorem getRegisterIndex_names (i : Nat) (hi : i < 19) :
    RegisterManager.getRegisterIndex (registerNames.getD i "") = (i : Int) := by
  interval_cases i <;> decide

theorem getRegisterIndex_other (name : String) (h : name ∉ registerNames) :
    RegisterManager.getRegisterIndex name = -1 := by
  simp only [registerNames, List.mem_append, not_or] at h
  unfold RegisterManager.getRegisterIndex
  rw [if_neg h.1, if_neg h.2]

theorem releaseAllTemp_used (l : List Bool) (hl : 7 ≤ l.length) :
    (RegisterManager.releaseAllTemp { used := l }).used = List.replicate 7 false ++ l.drop 7 := by
  match l, hl with
  | a0 :: a1 :: a2 :: a3 :: a4 :: a5 :: a6 :: rest, _ => rfl
  | [], h => simp at h
  | [_], h => simp at h
  | [_, _], h => simp at h
  | [_, _, _], h => simp at h
  | [_, _, _, _], h => simp at h
  | [_, _, _, _, _], h => simp at h
  | [_, _, _, _, _, _], h => simp at h

/-! ### Function by function, run after run -/

theorem mem_keys_iff (m : List (String × FunctionInfo)) (n : String) :
    n ∈ m.map (fun p => p.1) ↔ (mapFind m n).isSome = true := by
  induction m with
  | nil => simp [mapFind]
  | cons p rest ih =>
    obtain ⟨k, v⟩ := p
    simp only [List.map_cons, List.mem_cons, mapFind]
    by_cases hk : k = n
    · simp [hk]
    · rw [if_neg hk, ← ih]
      constructor
      · rintro (h | h)
        · exact absurd h.symm hk
        · exact h
      · exact Or.inr

theorem visitFunction_body (a : SemanticAnalyzer) (node : FunctionDefinition) :
    (visitFunction a node).2.body = (visitBlock (parametersDeclared a node) node.body).2 := rfl

theorem visitFunctions_append : ∀ (pre : List FunctionDefinition) (a : SemanticAnalyzer)
    (f : FunctionDefinition) (post : List FunctionDefinition),
    (visitFunctions a (pre ++ f :: post)).1 =
      (visitFunctions (visitFunction (visitFunctions a pre).1 f).1 post).1
  | [], a, f, post => by simp [visitFunctions]
  | p :: pre, a, f, post => by
    simp only [List.cons_append, visitFunctions]
    exact visitFunctions_append pre _ f post

theorem genFunctions_append : ∀ (pre : List FunctionDefinition) (g : RISCVCodeGenerator)
    (f : FunctionDefinition) (post : List FunctionDefinition),
    genFunctions g (pre ++ f :: post) = genFunctions (genFunction (genFunctions g pre) f) post
  | [], g, f, post => by simp [genFunctions]
  | p :: pre, g, f, post => by
    simp only [List.cons_append, genFunctions]
    exact genFunctions_append pre _ f post

theorem analyze_entry (a : SemanticAnalyzer) (u : CompilationUnit) :
    (a.analyze u).2.1 = (visitFunctions (analyzeEntry a u) u.functions).1 := rfl

theorem generate_entry (g : RISCVCodeGenerator) (u : CompilationUnit)
    (fns : List (String × FunctionInfo)) :
    g.generate u fns = genFunctions (generateEntry g fns) u.functions := rfl

theorem analyzeEntry_loopDepth (a : SemanticAnalyzer) (u : CompilationUnit) :
    (analyzeEntry a u).loopDepth = a.loopDepth := by
  obtain ⟨_, d, _⟩ := collectFunctions_errs u.functions { a with errors := [] }
    (a.functions.map (fun p => p.1)) (fun n => mem_keys_iff a.functions n)
  unfold analyzeEntry
  simp only
  split
  · exact d
  · exact d

theorem genFunction_stacks (g : RISCVCodeGenerator) (f : FunctionDefinition) :
    (genFunction g f).breakLabels = g.breakLabels ∧
      (genFunction g f).continueLabels = g.continueLabels := by
  have hb : (bodyEntry g f).breakLabels = g.breakLabels ∧
      (bodyEntry g f).continueLabels = g.continueLabels := by
    unfold bodyEntry
    simp only
    rw [addParameters_fields]
    simp only [generateFunctionPrologue, emit, emitComment, emitLabel, calculateFrameSize]
    rw [collectLocalVariables_fields]
    exact ⟨rfl, rfl⟩
  have h := genStmts_step f.body (bodyEntry g f)
  rw [genFunction_eq]
  split
  · exact ⟨((BStep.epilogueS _).breakLabels.trans h.breakLabels).trans hb.1,
      ((BStep.epilogueS _).continueLabels.trans h.continueLabels).trans hb.2⟩
  · exact ⟨h.breakLabels.trans hb.1, h.continueLabels.trans hb.2⟩

theorem genFunctions_stacks : ∀ (fs : List FunctionDefinition) (g : RISCVCodeGenerator),
    (genFunctions g fs).breakLabels = g.breakLabels ∧
      (genFunctions g fs).continueLabels = g.continueLabels
  | [], g => ⟨rfl, rfl⟩
  | f :: fs, g => by
    simp only [genFunctions]
    have h1 := genFunction_stacks g f
    have h2 := genFunctions_stacks fs (genFunction g f)
    exact ⟨h2.1.trans h1.1, h2.2.trans h1.2⟩

theorem repeatedNames_all : ∀ (fs : List FunctionDefinition) (seen : List String),
    (∀ f ∈ fs, f.name ∈ seen) → repeatedNames seen fs = fs.map (fun f => f.name)
  | [], _, _ => rfl
  | f :: fs, seen, h => by
    simp only [repeatedNames, List.map_cons]
    rw [if_pos (h f (List.mem_cons_self _ _))]
    rw [repeatedNames_all fs seen (fun g hg => h g (List.mem_cons_of_mem _ hg))]

/-- A second analysis on the analyzer of an accepted unit reports every function. -/
theorem analyze_again (u v : CompilationUnit)
    (h : (SemanticAnalyzer.fresh.analyze u).1 = true)
    (hn : v.functions.map (fun f => f.name) = u.functions.map (fun f => f.name)) :
    (∃ others, ((SemanticAnalyzer.fresh.analyze u).2.1.analyze v).2.1.errors =
        v.functions.map (fun f => "Function '" ++ f.name ++ "' is already declared") ++
          others) ∧
      ((SemanticAnalyzer.fresh.analyze u).2.1.analyze v).1 = false := by
  have acc := analyze_accepted u h
  obtain ⟨a, ha⟩ : ∃ a, a = (SemanticAnalyzer.fresh.analyze u).2.1 := ⟨_, rfl⟩
  rw [← ha]
  have htab : ∀ f ∈ v.functions, f.name ∈ a.functions.map (fun p => p.1) := by
    intro f hf
    have hmem : f.name ∈ u.functions.map (fun f => f.name) := by
      rw [← hn]
      exact List.mem_map_of_mem _ hf
    obtain ⟨f0, hf0, e0⟩ := List.mem_map.mp hmem
    rw [mem_keys_iff, ha, ← e0, acc.table f0 hf0]
    rfl
  obtain ⟨e1, _, _⟩ := collectFunctions_errs v.functions { a with errors := [] }
    (a.functions.map (fun p => p.1)) (fun n => mem_keys_iff a.functions n)
  rw [repeatedNames_all v.functions _ htab] at e1
  obtain ⟨a1, ha1⟩ : ∃ a1, a1 = collectFunctions { a with errors := [] } v.functions :=
    ⟨_, rfl⟩
  rw [← ha1] at e1
  have e2 : ∃ l2, (analyzeEntry a v).errors = a1.errors ++ l2 := by
    unfold analyzeEntry
    simp only
    rw [← ha1]
    split
    · exact ⟨[], by simp⟩
    · exact ⟨_, rfl⟩
  obtain ⟨l2, e2⟩ := e2
  obtain ⟨l3, e3⟩ := (visitFunctions_frame v.functions (analyzeEntry a v)).1.errors
  have hall : (a.analyze v).2.1.errors =
      v.functions.map (fun f => "Function '" ++ f.name ++ "' is already declared") ++
        (l2 ++ l3) := by
    rw [analyze_entry, e3, e2, e1]
    simp only [List.nil_append, List.map_map, List.append_assoc]
    rfl
  refine ⟨⟨_, hall⟩, ?_⟩
  show (a.analyze v).2.1.errors.isEmpty = false
  rw [hall]
  obtain ⟨m, hm, _⟩ := acc.main
  have hne : v.functions ≠ [] := by
    intro hv
    rw [hv] at hn
    have : m.name ∈ u.functions.map (fun f => f.name) := List.mem_map_of_mem _ hm
    rw [← hn] at this
    simp at this
  cases hv : v.functions with
  | nil => exact absurd hv hne
  | cons f fs => simp

/-! ### Comparisons, calls, loops and branch targets -/

theorem readReg_setReg (m : Machine) (r : String) (v : Int) (hr : r ≠ "zero") :
    readReg (m.setReg r v).regs r = wrap32 v := by
  simp [Machine.setReg, readReg, writeReg, hr]

theorem xor32_one : xor32 (wrap32 1) 1 = 0 ∧ xor32 (wrap32 0) 1 = 1 := by decide

theorem wrap32_sub_zero (l r : Int) (hl1 : -2147483648 ≤ l) (hl2 : l ≤ 2147483647)
    (hr1 : -2147483648 ≤ r) (hr2 : r ≤ 2147483647) : wrap32 (l - r) = 0 ↔ l = r := by
  unfold wrap32; omega

theorem execInstrs_append : ∀ (a b : List Instr) (m : Machine),
    execInstrs (a ++ b) m = (execInstrs a m).bind (execInstrs b)
  | [], b, m => rfl
  | i :: a, b, m => by
    simp only [List.cons_append, execInstrs]
    cases execInstr i m with
    | none => rfl
    | some m1 => exact execInstrs_append a b m1

theorem readReg_setReg_ne (m : Machine) (r x : String) (v : Int) (h : x ≠ r) :
    readReg (m.setReg r v).regs x = readReg m.regs x := by
  simp [Machine.setReg, readReg, writeReg, h]

theorem readReg_range (m : Machine) (r : String) (v : Int) :
    -2147483648 ≤ readReg (m.setReg r v).regs r ∧ readReg (m.setReg r v).regs r ≤ 2147483647 := by
  by_cases h : r = "zero"
  · simp [Machine.setReg, readReg, h]
  · rw [readReg_setReg m r v h]
    unfold wrap32
    omega

theorem restoreLoopInstrs_append (l : List String) (r : String) :
    restoreLoopInstrs (l ++ [r]) =
      restoreLoopInstrs l ++ [.lw r 0 "sp", .addi "sp" "sp" 4] := by
  induction l with
  | nil => rfl
  | cons x l ih => simp [restoreLoopInstrs, ih]

theorem slot_succ (sp : Int) (k : Nat) : slot (wrap32 (sp - 4)) k = slot sp (k + 1) := by
  unfold slot wrap32
  push_cast
  omega

theorem slot_ne (sp : Int) (j k : Nat) (hj : j < 1000000) (hk : k < 1000000) (h : j ≠ k) :
    slot sp j ≠ slot sp k := by
  unfold slot wrap32
  omega

/-- Saving registers and restoring them later, with `sp` and the saved words as they were
after the save, gives back the registers and `sp`. -/
theorem save_restore : ∀ (regs : List String) (m : Machine),
    regs.Nodup → "sp" ∉ regs → "zero" ∉ regs → regs.length < 1000000 →
    -2147483648 ≤ readReg m.regs "sp" → readReg m.regs "sp" ≤ 2147483647 →
    ∃ m1, execInstrs (saveInstrs regs) m = some m1 ∧
      readReg m1.regs "sp" = slot (readReg m.regs "sp") regs.length ∧
      (∀ x, x ≠ "sp" → readReg m1.regs x = readReg m.regs x) ∧
      (∀ a, (∀ k, 1 ≤ k → k ≤ regs.length → a ≠ slot (readReg m.regs "sp") k) →
        m1.mem a = m.mem a) ∧
      ∀ m2 : Machine, readReg m2.regs "sp" = readReg m1.regs "sp" →
        (∀ k, 1 ≤ k → k ≤ regs.length →
          m2.mem (slot (readReg m.regs "sp") k) = m1.mem (slot (readReg m.regs "sp") k)) →
        ∃ m3, execInstrs (restoreInstrs regs) m2 = some m3 ∧
          readReg m3.regs "sp" = readReg m.regs "sp" ∧ m3.mem = m2.mem ∧
          (∀ r ∈ regs, readReg m3.regs r = wrap32 (readReg m.regs r)) ∧
          ∀ x, x ∉ regs → x ≠ "sp" → readReg m3.regs x = readReg m2.regs x
  | [], m, _, _, _, _, h1, h2 => by
    refine ⟨m, rfl, ?_, fun _ _ => rfl, fun _ _ => rfl, ?_⟩
    · simp [slot, wrap32]; omega
    · intro m2 hs _
      refine ⟨m2, rfl, ?_, rfl, by simp, fun _ _ _ => rfl⟩
      rw [hs]
  | r :: rest, m, hnd, hsp, hz, hlen, h1, h2 => by
    simp only [List.nodup_cons] at hnd
    simp only [List.mem_cons, not_or] at hsp hz
    simp only [List.length_cons] at hlen
    have hr_sp : r ≠ "sp" := fun h => hsp.1 h.symm
    have hr_z : r ≠ "zero" := fun h => hz.1 h.symm
    generalize hspv : readReg m.regs "sp" = sp at h1 h2 ⊢
    -- the push of `r`
    obtain ⟨ma, hma⟩ : ∃ ma : Machine, ma = (m.setReg "sp" (sp + -4)).store
        (wrap32 (readReg (m.setReg "sp" (sp + -4)).regs "sp" + 0))
        (readReg (m.setReg "sp" (sp + -4)).regs r) := ⟨_, rfl⟩
    have ha_sp : readReg ma.regs "sp" = wrap32 (sp - 4) := by
      rw [hma]
      show readReg (m.setReg "sp" (sp + -4)).regs "sp" = _
      rw [readReg_setReg _ _ _ (by decide)]
      rfl
    have ha_reg : ∀ x, x ≠ "sp" → readReg ma.regs x = readReg m.regs x := by
      intro x hx
      rw [hma]
      show readReg (m.setReg "sp" (sp + -4)).regs x = _
      exact readReg_setReg_ne _ _ _ _ hx
    have haddr : wrap32 (readReg (m.setReg "sp" (sp + -4)).regs "sp" + 0) = slot sp 1 := by
      rw [readReg_setReg _ _ _ (by decide)]
      unfold slot wrap32
      omega
    have ha_mem : ∀ a, ma.mem a = if a = slot sp 1 then readReg m.regs r else m.mem a := by
      intro a
      rw [hma]
      show (if a = wrap32 (readReg (m.setReg "sp" (sp + -4)).regs "sp" + 0) then
        readReg (m.setReg "sp" (sp + -4)).regs r else (m.setReg "sp" (sp + -4)).mem a) = _
      rw [haddr, readReg_setReg_ne _ _ _ _ hr_sp]
      rfl
    have hexec : execInstrs (saveInstrs (r :: rest)) m = execInstrs (saveInstrs rest) ma := by
      rw [hma, ← hspv]
      rfl
    have hsa1 : -2147483648 ≤ readReg ma.regs "sp" := by rw [ha_sp]; unfold wrap32; omega
    have hsa2 : readReg ma.regs "sp" ≤ 2147483647 := by rw [ha_sp]; unfold wrap32; omega
    obtain ⟨m1, e1, s1, r1, mem1, back⟩ := save_restore rest ma hnd.2 hsp.2 hz.2 (by omega)
      hsa1 hsa2
    rw [ha_sp] at s1 mem1 back
    have hslot1 : m1.mem (slot sp 1) = readReg m.regs r := by
      rw [mem1 (slot sp 1) (fun k hk1 hk2 => by
        rw [slot_succ]
        exact slot_ne sp 1 (k + 1) (by omega) (by omega) (by omega))]
      rw [ha_mem, if_pos rfl]
    refine ⟨m1, hexec.trans e1, ?_, ?_, ?_, ?_⟩
    · rw [s1, slot_succ]
      rfl
    · intro x hx
      rw [r1 x hx, ha_reg x hx]
    · intro a ha
      rw [mem1 a (fun k hk1 hk2 => by
        rw [slot_succ]
        exact ha (k + 1) (by omega) (by simp only [List.length_cons]; omega))]
      rw [ha_mem, if_neg (ha 1 (le_refl _) (by simp only [List.length_cons]; omega))]
    · intro m2 hs2 hm2
      obtain ⟨m3, e3, s3, mem3, reg3, oth3⟩ := back m2 hs2 (fun k hk1 hk2 => by
        rw [slot_succ]
        exact hm2 (k + 1) (by omega) (by simp only [List.length_cons]; omega))
      have hrest : restoreInstrs (r :: rest) =
          restoreInstrs rest ++ [.lw r 0 "sp", .addi "sp" "sp" 4] := by
        unfold restoreInstrs
        rw [List.reverse_cons, restoreLoopInstrs_append]
      have hload : m3.mem (wrap32 (readReg m3.regs "sp" + 0)) = readReg m.regs r := by
        rw [s3, mem3]
        have : wrap32 (wrap32 (sp - 4) + 0) = slot sp 1 := by unfold slot wrap32; omega
        rw [this, hm2 1 (le_refl _) (by simp only [List.length_cons]; omega), hslot1]
      refine ⟨(m3.setReg r (m3.mem (wrap32 (readReg m3.regs "sp" + 0)))).setReg "sp"
        (readReg (m3.setReg r (m3.mem (wrap32 (readReg m3.regs "sp" + 0)))).regs "sp" + 4),
        ?_, ?_, ?_, ?_, ?_⟩
      · rw [hrest, execInstrs_append, e3]
        rfl
      · rw [readReg_setReg _ _ _ (by decide), readReg_setReg_ne _ _ _ _ (Ne.symm hr_sp), s3]
        unfold wrap32
        omega
      · exact mem3
      · intro x hx
        rcases List.mem_cons.mp hx with rfl | hx
        · rw [readReg_setReg_ne _ _ _ _ hr_sp, readReg_setReg _ _ _ hr_z, hload]
        · have hxsp : x ≠ "sp" := fun h => hsp.2 (h ▸ hx)
          have hxr : x ≠ r := fun h => hnd.1 (h ▸ hx)
          rw [readReg_setReg_ne _ _ _ _ hxsp, readReg_setReg_ne _ _ _ _ hxr, reg3 x hx,
            ha_reg x hxsp]
      · intro x hx hxsp
        simp only [List.mem_cons, not_or] at hx
        rw [readReg_setReg_ne _ _ _ _ hxsp, readReg_setReg_ne _ _ _ _ hx.1, oth3 x hx.2 hxsp]

theorem saveRegisters_output : ∀ (regs : List String) (g : RISCVCodeGenerator),
    (g.saveRegisters regs).output = g.output ++ (saveInstrs regs).map Line.instr
  | [], g => by simp [saveRegisters, saveInstrs]
  | r :: rest, g => by
    simp only [saveRegisters, saveInstrs, List.map_cons]
    rw [saveRegisters_output rest]
    simp [emit]

theorem restoreLoop_output : ∀ (regs : List String) (g : RISCVCodeGenerator),
    (g.restoreLoop regs).output = g.output ++ (restoreLoopInstrs regs).map Line.instr
  | [], g => by simp [restoreLoop, restoreLoopInstrs]
  | r :: rest, g => by
    simp only [restoreLoop, restoreLoopInstrs, List.map_cons]
    rw [restoreLoop_output rest]
    simp [emit]

theorem restoreRegisters_output (regs : List String) (g : RISCVCodeGenerator) :
    (g.restoreRegisters regs).output = g.output ++ (restoreInstrs regs).map Line.instr :=
  restoreLoop_output regs.reverse g

theorem genArgs_output : ∀ (args : List Expr) (g : RISCVCodeGenerator) (i : Nat),
    ∃ codes : List (List Line), codes.length = min args.length (8 - i) ∧
      List.Forall₂ (fun e c => ∃ g1 : RISCVCodeGenerator, (genExpr g1 e).output = g1.output ++ c)
        (args.take (8 - i)) codes ∧
      (genArgs g i args).output = g.output ++ argMoves i codes
  | [], g, i => ⟨[], by simp, by simp, by simp [genArgs, argMoves]⟩
  | e :: rest, g, i => by
    simp only [genArgs]
    split
    · rename_i hi
      obtain ⟨c, hc, _⟩ := (genExpr_step e g).output
      obtain ⟨codes, hl, hf, ho⟩ := genArgs_output rest
        ((genExpr g e).emit (.mv ("a" ++ toString i) "t0")) (i + 1)
      refine ⟨c :: codes, ?_, ?_, ?_⟩
      · simp only [List.length_cons, hl]
        omega
      · have h8 : 8 - i = (8 - (i + 1)) + 1 := by omega
        rw [h8, List.take_succ_cons]
        exact List.Forall₂.cons ⟨g, hc⟩ hf
      · rw [ho]
        show (genExpr g e).output ++ [Line.instr (.mv ("a" ++ toString i) "t0")] ++ _ = _
        rw [hc]
        simp [argMoves]
    · rename_i hi
      have h8 : 8 - i = 0 := by omega
      exact ⟨[], by simp [h8], by simp [h8], by simp [argMoves]⟩

theorem genCall_output (g : RISCVCodeGenerator) (fn : String) (args : List Expr)
    (rt : VType) :
    ∃ (codes : List (List Line)) (res : String), codes.length = min args.length 8 ∧
      List.Forall₂ (fun e c => ∃ g1 : RISCVCodeGenerator, (genExpr g1 e).output = g1.output ++ c)
        (args.take 8) codes ∧
      (genExpr g (.call fn args rt)).output = g.output ++
        (saveInstrs callerSaved).map Line.instr ++ argMoves 0 codes ++
        [Line.instr (.call fn)] ++ (restoreInstrs callerSaved).map Line.instr ++
        (if rt = VType.INT then [Line.instr (.mv res "a0")] else []) := by
  obtain ⟨codes, hl, hf, ho⟩ := genArgs_output args (g.saveRegisters callerSaved) 0
  have hbase : (((genArgs (g.saveRegisters callerSaved) 0 args).emit (.call fn)).restoreRegisters
      callerSaved).output = g.output ++ (saveInstrs callerSaved).map Line.instr ++
        argMoves 0 codes ++ [Line.instr (.call fn)] ++
        (restoreInstrs callerSaved).map Line.instr := by
    rw [restoreRegisters_output]
    show (genArgs (g.saveRegisters callerSaved) 0 args).output ++ [Line.instr (.call fn)] ++ _ = _
    rw [ho, saveRegisters_output]
  refine ⟨codes, (((genArgs (g.saveRegisters callerSaved) 0 args).emit
    (.call fn)).restoreRegisters callerSaved).allocTemp.1, hl, hf, ?_⟩
  simp only [genExpr]
  split
  · rename_i h
    show (((genArgs (g.saveRegisters callerSaved) 0 args).emit (.call fn)).restoreRegisters
      callerSaved).output ++ [_] = _
    rw [hbase]
  · rename_i h
    rw [hbase]
    simp

theorem runOps_stack : ∀ (ops : List ScopeOp) (s : Scope), s.scopeStack ≠ [] →
    (s.runOps ops).1.scopeStack ≠ []
  | [], s, h => h
  | .enterScope :: rest, s, _ => by
    simp only [Scope.runOps]
    exact runOps_stack rest _ (by simp [Scope.enterScope])
  | .exitScope :: rest, s, h => by
    simp only [Scope.runOps]
    refine runOps_stack rest _ ?_
    unfold Scope.exitScope
    split
    · rename_i hl
      show s.scopeStack.tail ≠ []
      intro ht
      cases hs : s.scopeStack with
      | nil => exact h hs
      | cons a t =>
        rw [hs] at hl ht
        simp only [List.tail_cons] at ht
        rw [ht] at hl
        simp at hl
    · exact h
  | .declareVariable name type isParam :: rest, s, h => by
    simp only [Scope.runOps]
    have hd : (s.declareVariable name type isParam).2.scopeStack ≠ [] := by
      unfold Scope.declareVariable
      split
      · exact h
      · split
        · exact h
        · simp
    split
    · exact runOps_stack rest _ hd
    · exact runOps_stack rest _ hd

theorem exitScope_single (s : Scope) (h : s.scopeStack.length = 1) : s.exitScope = s := by
  unfold Scope.exitScope
  rw [if_neg (by omega)]

theorem analyze_stack (a : SemanticAnalyzer) (u : CompilationUnit)
    (h : a.scope.scopeStack ≠ []) :
    (a.analyze u).2.1.scope.scopeStack = a.scope.scopeStack := by
  rw [analyze_entry]
  have he : (analyzeEntry a u).scope = a.scope := by
    unfold analyzeEntry
    simp only
    split
    · exact (collectFunctions_frame u.functions _).2
    · exact (collectFunctions_frame u.functions _).2
  cases hs : a.scope.scopeStack with
  | nil => exact absurd hs h
  | cons top rest =>
    exact (visitFunctions_frame u.functions (analyzeEntry a u)).1.stack top rest
      (by rw [he, hs])

/-- Pushing loop labels before a step and popping them after it gives a step, for any
properties of the lines. -/
theorem Step.loopP {P Q R : List Line → Prop} {g gA gB : RISCVCodeGenerator} (bl cl : String)
    (hA : Step P g gA)
    (hB : Step Q
      { gA with breakLabels := bl :: gA.breakLabels, continueLabels := cl :: gA.continueLabels }
      gB)
    (hR : ∀ a b, P a → Q b → R (a ++ b)) :
    Step R g
      { gB with breakLabels := gB.breakLabels.tail, continueLabels := gB.continueLabels.tail } := by
  obtain ⟨l1, e1, p1⟩ := hA.output
  obtain ⟨l2, e2, p2⟩ := hB.output
  refine ⟨⟨l1 ++ l2, ?_, hR l1 l2 p1 p2⟩, ?_, ?_, ?_, ?_, ?_, ?_⟩
  · show gB.output = _
    rw [e2]
    show gA.output ++ l2 = _
    rw [e1, List.append_assoc]
  · exact hB.symbolTable.trans hA.symbolTable
  · exact hB.functionTable.trans hA.functionTable
  · exact hB.currentFrameSize.trans hA.currentFrameSize
  · exact hB.currentFunction.trans hA.currentFunction
  · show gB.breakLabels.tail = _
    rw [hB.breakLabels]
    exact hA.breakLabels
  · show gB.continueLabels.tail = _
    rw [hB.continueLabels]
    exact hA.continueLabels

theorem genStmt_while (g : RISCVCodeGenerator) (c : Expr) (b : Stmt) :
    genStmt g (.whileS c b) =
      { (((genStmt (whileBodyEntry g c) b).emit (.j (whileLoopLabel g))).emitLabel
          (whileEndLabel g)) with
        breakLabels := (genStmt (whileBodyEntry g c) b).breakLabels.tail,
        continueLabels := (genStmt (whileBodyEntry g c) b).continueLabels.tail } := by
  simp only [genStmt]
  rfl

theorem genStmt_if_none (g : RISCVCodeGenerator) (c : Expr) (t : Stmt) :
    genStmt g (.ifS c t none) =
      (genStmt (thenEntry g c false) t).emitLabel
        ((g.newLabel "if_else").2.newLabel "if_end").1 := by
  simp only [genStmt]
  rfl

theorem genStmt_if_some (g : RISCVCodeGenerator) (c : Expr) (t els : Stmt) :
    genStmt g (.ifS c t (some els)) =
      (genStmt (elseEntry g c t) els).emitLabel
        ((g.newLabel "if_else").2.newLabel "if_end").1 := by
  simp only [genStmt]
  rfl

theorem Returns.ofNeutralR {ls : List Line} (h : Neutral ls) : Returns 0 ls :=
  List.count_eq_zero.mpr h.2

theorem Returns.appendR {m n : Nat} {a b : List Line} (ha : Returns m a) (hb : Returns n b) :
    Returns (m + n) (a ++ b) := by
  unfold Returns at *
  rw [List.count_append, ha, hb]

theorem Step.toR {g g1 : RISCVCodeGenerator} (h : Step Neutral g g1) :
    Step (Returns 0) g g1 :=
  h.weaken (fun _ => Returns.ofNeutralR)

theorem Step.thenR {m n : Nat} {g g1 g2 : RISCVCodeGenerator}
    (h1 : Step (Returns m) g g1) (h2 : Step (Returns n) g1 g2) :
    Step (Returns (m + n)) g g2 :=
  h1.seq h2 (fun _ _ => Returns.appendR)

theorem Step.eqR {m n : Nat} {g g1 : RISCVCodeGenerator}
    (h : Step (Returns m) g g1) (e : m = n) : Step (Returns n) g g1 := e ▸ h

theorem Step.epilogueR (g : RISCVCodeGenerator) :
    Step (Returns 1) g g.generateFunctionEpilogue :=
  ⟨⟨epilogueHead g.currentFrameSize ++ [lineReturn],
      by simp [generateFunctionEpilogue, emit, epilogueHead, lineReturn],
      by simp [Returns, epilogueHead, lineReturn]⟩, rfl, rfl, rfl, rfl, rfl, rfl⟩

theorem thenEntry_step (g : RISCVCodeGenerator) (c : Expr) (hasElse : Bool) :
    Step Neutral g (thenEntry g c hasElse) :=
  ((((Step.newLabelN g "if_else").thenN (Step.newLabelN _ "if_end")).thenN
    (genExpr_step c _)).thenN (Step.emitN _ _ (by rfl) (by simp))).thenN (Step.releaseN _ "t0")

mutual
theorem genStmt_returns : ∀ (s : Stmt) (g : RISCVCodeGenerator),
    Step (Returns (returnsOf s).length) g (genStmt g s)
  | .assign x value, g => by
    simp only [genStmt, returnsOf, List.length_nil]
    exact Step.toR (((genExpr_step value g).thenN (Step.storeToN _ x)).thenN
      (Step.releaseN _ _))
  | .varDecl name initializer, g => by
    simp only [returnsOf, List.length_nil]
    cases initializer with
    | none =>
      simp only [genStmt]
      exact Step.toR (Step.sameP g Neutral.nilN)
    | some e =>
      simp only [genStmt]
      exact Step.toR (((genExpr_step e g).thenN (Step.storeToN _ name)).thenN
        (Step.releaseN _ _))
  | .block ss, g => by
    simp only [genStmt, returnsOf]
    exact genStmts_returns ss g
  | .ifS c t e, g => by
    cases e with
    | none =>
      rw [genStmt_if_none]
      simp only [returnsOf, returnsOfOpt, List.append_nil]
      exact (((thenEntry_step g c false).toR.thenR (genStmt_returns t _)).thenR
        (Step.emitLabelN _ _).toR).eqR (by omega)
    | some els =>
      rw [genStmt_if_some]
      simp only [returnsOf, returnsOfOpt, List.length_append]
      have h1 : Step (Returns (returnsOf t).length) g (elseEntry g c t) :=
        ((((thenEntry_step g c true).toR.thenR (genStmt_returns t _)).thenR
          (Step.emitN _ _ (by rfl) (by simp)).toR).thenR (Step.emitLabelN _ _).toR).eqR
          (by omega)
      exact ((h1.thenR (genStmt_returns els _)).thenR (Step.emitLabelN _ _).toR).eqR
        (by omega)
  | .whileS c b, g => by
    simp only [genStmt, returnsOf]
    have hA : Step (Returns 0) g ((g.newLabel "while_loop").2.newLabel "while_end").2 :=
      ((Step.newLabelN g "while_loop").thenN (Step.newLabelN _ "while_end")).toR
    have hB : ∀ gA : RISCVCodeGenerator, Step (Returns (returnsOf b).length) gA
        (((genStmt (((genExpr (gA.emitLabel (g.newLabel "while_loop").1) c).emit
          (.beqz "t0" ((g.newLabel "while_loop").2.newLabel "while_end").1)).release "t0")
          b).emit (.j (g.newLabel "while_loop").1)).emitLabel
          ((g.newLabel "while_loop").2.newLabel "while_end").1) := by
      intro gA
      have h1 : Step Neutral gA (((genExpr (gA.emitLabel (g.newLabel "while_loop").1) c).emit
          (.beqz "t0" ((g.newLabel "while_loop").2.newLabel "while_end").1)).release "t0") :=
        (((Step.emitLabelN gA _).thenN (genExpr_step c _)).thenN
          (Step.emitN _ _ (by rfl) (by simp))).thenN (Step.releaseN _ "t0")
      have h2 := h1.toR.thenR (genStmt_returns b _)
      have h3 := h2.thenR (Step.emitN _ (.j (g.newLabel "while_loop").1) (by rfl) (by simp)).toR
      have h4 := h3.thenR
        (Step.emitLabelN _ ((g.newLabel "while_loop").2.newLabel "while_end").1).toR
      exact h4.eqR (by omega)
    exact Step.loopP _ _ hA (hB _) (fun a b ha hb => (Returns.appendR ha hb).trans (by omega))
  | .breakS, g => by
    simp only [returnsOf, List.length_nil]
    unfold genStmt
    split
    · exact Step.toR (Step.sameP g Neutral.nilN)
    · exact Step.toR (Step.emitN _ _ (by rfl) (by simp))
  | .continueS, g => by
    simp only [returnsOf, List.length_nil]
    unfold genStmt
    split
    · exact Step.toR (Step.sameP g Neutral.nilN)
    · exact Step.toR (Step.emitN _ _ (by rfl) (by simp))
  | .returnS value, g => by
    simp only [genStmt, returnsOf, List.length_singleton]
    exact ((genReturnValue_step value g).toR.thenR (Step.epilogueR _)).eqR (by omega)
  | .exprS e, g => by
    simp only [genStmt, returnsOf, List.length_nil]
    exact Step.toR ((genExpr_step e g).thenN
      ⟨⟨[], by simp, Neutral.nilN⟩, rfl, rfl, rfl, rfl, rfl, rfl⟩)
theorem genStmts_returns : ∀ (ss : List Stmt) (g : RISCVCodeGenerator),
    Step (Returns (returnsOfList ss).length) g (genStmts g ss)
  | [], g => by
    simp only [genStmts, returnsOfList, List.length_nil]
    exact Step.toR (Step.sameP g Neutral.nilN)
  | s :: ss, g => by
    simp only [genStmts, returnsOfList, List.length_append]
    exact (genStmt_returns s g).thenR (genStmts_returns ss _)
end

/-- The lines of a function have one `jr ra` for each `Return` statement of the body, and
one more when the function is `VOID`. -/
theorem genFunction_returns (g : RISCVCodeGenerator) (f : FunctionDefinition) :
    ∃ code, (g.genFunction f).output = g.output ++ code ∧
      code.count lineReturn =
        (returnsOfList f.body).length + (if f.returnType = VType.VOID then 1 else 0) := by
  have hb := genStmts_returns f.body (bodyEntry g f)
  have hr : ∀ g1 : RISCVCodeGenerator, Step (Returns 0) g1 (g1.emit (.raw "")) :=
    fun g1 => (Step.emitN g1 (.raw "") (by rfl) (by simp)).toR
  have hall : Step (Returns ((returnsOfList f.body).length +
      (if f.returnType = VType.VOID then 1 else 0))) (bodyEntry g f) (g.genFunction f) := by
    rw [genFunction_eq]
    split
    · exact (hb.thenR (Step.epilogueR _)).thenR (hr _)
    · exact (hb.thenR (hr _)).eqR (by omega)
  obtain ⟨body, e, c⟩ := hall.output
  refine ⟨Line.label f.name :: prologueLines f.name (bodyEntry g f).currentFrameSize ++ body,
    ?_, ?_⟩
  · rw [e, bodyEntry_output]
    simp
  · have : (Line.label f.name :: prologueLines f.name
        (bodyEntry g f).currentFrameSize).count lineReturn = 0 := by
      simp [prologueLines, lineReturn]
    rw [List.count_append, this, c]
    omega

theorem visitStmt_selfInit (a : SemanticAnalyzer) (x : String)
    (top : List (String × Symbol)) (outer : List (List (String × Symbol)))
    (hst : a.scope.scopeStack = top :: outer) (hx : mapFind top x = none) :
    (visitStmt a (.varDecl x (some (.ident x)))).1.errors = a.errors ∧
      (visitStmt a (.varDecl x (some (.ident x)))).1.scope.lookupVariable x =
        some ⟨x, VType.INT, a.scope.currentOffset - 4, false⟩ ∧
      (visitStmt a (.varDecl x (some (.ident x)))).2 = .varDecl x (some (.ident x)) := by
  have hd : a.scope.declareVariable x VType.INT false =
      (true, Scope.mk
        (mapSet top x ⟨x, VType.INT, a.scope.currentOffset - 4, false⟩ :: outer)
        (a.scope.currentOffset - 4)) := by
    unfold Scope.declareVariable
    rw [hst]
    simp only [hx]
    simp
  have hl : Scope.lookupVariable (Scope.mk
      (mapSet top x ⟨x, VType.INT, a.scope.currentOffset - 4, false⟩ :: outer)
      (a.scope.currentOffset - 4)) x =
      some ⟨x, VType.INT, a.scope.currentOffset - 4, false⟩ := by
    unfold Scope.lookupVariable
    simp only [Scope.lookupIn, mapFind_mapSet, if_true]
  simp only [visitStmt, hd, visitExpr, hl]
  simp [hl]

theorem whileConditionEntry_fields (g : RISCVCodeGenerator) :
    (whileConditionEntry g).output = g.output ++ [Line.label (whileLoopLabel g)] ∧
      (whileConditionEntry g).breakLabels = whileEndLabel g :: g.breakLabels ∧
      (whileConditionEntry g).continueLabels = whileLoopLabel g :: g.continueLabels :=
  ⟨rfl, rfl, rfl⟩

theorem whileBodyEntry_step (g : RISCVCodeGenerator) (c : Expr) :
    Step Neutral (whileConditionEntry g) (whileBodyEntry g c) :=
  ((genExpr_step c _).thenN (Step.emitN _ _ (by rfl) (by simp))).thenN (Step.releaseN _ "t0")

theorem whileBodyEntry_stacks (g : RISCVCodeGenerator) (c : Expr) :
    (whileBodyEntry g c).breakLabels = whileEndLabel g :: g.breakLabels ∧
      (whileBodyEntry g c).continueLabels = whileLoopLabel g :: g.continueLabels :=
  ⟨(whileBodyEntry_step g c).breakLabels.trans (whileConditionEntry_fields g).2.1,
    (whileBodyEntry_step g c).continueLabels.trans (whileConditionEntry_fields g).2.2⟩

theorem elseEntry_step (g : RISCVCodeGenerator) (c : Expr) (t : Stmt) :
    BStep g (elseEntry g c t) := by
  have h1 := BStep.thenNB (thenEntry_step g c true) (genStmt_step t _)
  exact (h1.thenBN (Step.emitN _ _ (by rfl) (by simp))).thenBN (Step.emitLabelN _ _)

/-- The labels on top of the two stacks, in the visit of a statement inside a loop, are
those of the innermost loop around it. -/
theorem reaches_stacks {g : RISCVCodeGenerator} {s : Stmt} {w : Option (String × String)}
    {g1 : RISCVCodeGenerator} {s1 : Stmt} {w1 : Option (String × String)}
    (h : Reaches g s w g1 s1 w1)
    (hw : ∀ p, w = some p →
      g.breakLabels.head? = some p.2 ∧ g.continueLabels.head? = some p.1) :
    ∀ p, w1 = some p →
      g1.breakLabels.head? = some p.2 ∧ g1.continueLabels.head? = some p.1 := by
  induction h with
  | here g s w => exact hw
  | block g pre s post w g1 s1 w1 _ ih =>
    refine ih (fun p hp => ?_)
    have hs := genStmts_step pre g
    rw [hs.breakLabels, hs.continueLabels]
    exact hw p hp
  | thenBranch g c t e w g1 s1 w1 _ ih =>
    refine ih (fun p hp => ?_)
    have hs := thenEntry_step g c e.isSome
    rw [hs.breakLabels, hs.continueLabels]
    exact hw p hp
  | elseBranch g c t els w g1 s1 w1 _ ih =>
    refine ih (fun p hp => ?_)
    have hs := elseEntry_step g c t
    rw [hs.breakLabels, hs.continueLabels]
    exact hw p hp
  | body g c b w g1 s1 w1 _ ih =>
    refine ih (fun p hp => ?_)
    have hs := whileBodyEntry_stacks g c
    rw [hs.1, hs.2]
    simp only [Option.some.injEq] at hp
    subst hp
    exact ⟨rfl, rfl⟩

theorem genStmt_break (g : RISCVCodeGenerator) (top : String)
    (h : g.breakLabels.head? = some top) :
    (genStmt g .breakS).output = g.output ++ [Line.instr (.j top)] := by
  unfold genStmt
  cases hb : g.breakLabels with
  | nil => rw [hb] at h; simp at h
  | cons t rest =>
    rw [hb] at h
    simp only [List.head?_cons, Option.some.injEq] at h
    subst h
    rfl

theorem genStmt_continue (g : RISCVCodeGenerator) (top : String)
    (h : g.continueLabels.head? = some top) :
    (genStmt g .continueS).output = g.output ++ [Line.instr (.j top)] := by
  unfold genStmt
  cases hb : g.continueLabels with
  | nil => rw [hb] at h; simp at h
  | cons t rest =>
    rw [hb] at h
    simp only [List.head?_cons, Option.some.injEq] at h
    subst h
    rfl

/-- The lines of a `While` statement. -/
theorem genStmt_while_output (g : RISCVCodeGenerator) (c : Expr) (b : Stmt) :
    ∃ cc bc,
      (genExpr (whileConditionEntry g) c).output = (whileConditionEntry g).output ++ cc ∧
      (genStmt (whileBodyEntry g c) b).output = (whileBodyEntry g c).output ++ bc ∧
      (genStmt g (.whileS c b)).output = g.output ++
        (Line.label (whileLoopLabel g) :: cc ++
          Line.instr (.beqz "t0" (whileEndLabel g)) :: bc ++
          [Line.instr (.j (whileLoopLabel g)), Line.label (whileEndLabel g)]) ∧
      (labelsOf (Line.label (whileLoopLabel g) :: cc ++
          Line.instr (.beqz "t0" (whileEndLabel g)) :: bc ++
          [Line.instr (.j (whileLoopLabel g)), Line.label (whileEndLabel g)])).Nodup := by
  obtain ⟨cc, hc, _⟩ := (genExpr_step c (whileConditionEntry g)).output
  obtain ⟨bc, hb, _⟩ := (genStmt_step b (whileBodyEntry g c)).output
  have hbody : (whileBodyEntry g c).output =
      (genExpr (whileConditionEntry g) c).output ++
        [Line.instr (.beqz "t0" (whileEndLabel g))] := rfl
  have hout : (genStmt g (.whileS c b)).output = g.output ++
        (Line.label (whileLoopLabel g) :: cc ++
          Line.instr (.beqz "t0" (whileEndLabel g)) :: bc ++
          [Line.instr (.j (whileLoopLabel g)), Line.label (whileEndLabel g)]) := by
    rw [genStmt_while]
    show ((genStmt (whileBodyEntry g c) b).output ++ [Line.instr (.j (whileLoopLabel g))]) ++
      [Line.label (whileEndLabel g)] = _
    rw [hb, hbody, hc, (whileConditionEntry_fields g).1]
    simp
  refine ⟨cc, bc, hc, hb, hout, ?_⟩
  obtain ⟨ls, k, o, fr⟩ := genStmt_gen (.whileS c b) g
  have hl := o.labels
  unfold labelsOut at hl
  rw [hout, labelsOf_append] at hl
  have := List.append_cancel_left hl
  rw [this]
  exact fr.1

theorem targetsOf_append (a b : List Line) : targetsOf (a ++ b) = targetsOf a ++ targetsOf b :=
  List.filterMap_append _ _ _

theorem calleesOf_append (a b : List Line) : calleesOf (a ++ b) = calleesOf a ++ calleesOf b :=
  List.filterMap_append _ _ _

theorem Linked.nilL (names ext : List String) : Linked names ext [] :=
  ⟨fun _ h => by simp [targetsOf] at h, fun _ h => by simp [calleesOf] at h⟩

theorem Linked.appendL {names ext : List String} {a b : List Line}
    (ha : Linked names ext a) (hb : Linked names ext b) : Linked names ext (a ++ b) := by
  constructor
  · intro t ht
    rw [targetsOf_append, List.mem_append] at ht
    rw [labelsOf_append, List.mem_append]
    rcases ht with ht | ht
    · rcases ha.1 t ht with h | h
      · exact Or.inl (Or.inl h)
      · exact Or.inr h
    · rcases hb.1 t ht with h | h
      · exact Or.inl (Or.inr h)
      · exact Or.inr h
  · intro n hn
    rw [calleesOf_append, List.mem_append] at hn
    rcases hn with hn | hn
    · exact ha.2 n hn
    · exact hb.2 n hn

theorem Linked.singleL (names ext : List String) (l : Line)
    (ht : ∀ t, l.target = some t → t ∈ ext) (hc : ∀ n, l.callee = some n → n ∈ names) :
    Linked names ext [l] := by
  constructor
  · intro t h
    simp only [targetsOf, List.filterMap_cons, List.filterMap_nil] at h
    cases hl : l.target with
    | none => rw [hl] at h; simp at h
    | some t1 =>
      rw [hl] at h
      simp only [List.mem_singleton] at h
      subst h
      exact Or.inr (ht _ hl)
  · intro n h
    simp only [calleesOf, List.filterMap_cons, List.filterMap_nil] at h
    cases hl : l.callee with
    | none => rw [hl] at h; simp at h
    | some n1 =>
      rw [hl] at h
      simp only [List.mem_singleton] at h
      subst h
      exact hc _ hl

theorem Linked.discharge {names ext : List String} {l : String} {ls : List Line}
    (h : Linked names (l :: ext) ls) (hl : l ∈ labelsOf ls) : Linked names ext ls := by
  refine ⟨fun t ht => ?_, h.2⟩
  rcases h.1 t ht with h1 | h1
  · exact Or.inl h1
  · rcases List.mem_cons.mp h1 with h2 | h2
    · subst h2
      exact Or.inl hl
    · exact Or.inr h2

/-- A step whose lines are known has every property of these lines. -/
theorem Step.withOutput {P Q : List Line → Prop} {g g1 : RISCVCodeGenerator}
    (h : Step Q g g1) (ls : List Line) (ho : g1.output = g.output ++ ls) (hp : P ls) :
    Step P g g1 :=
  ⟨⟨ls, ho, hp⟩, h.symbolTable, h.functionTable, h.currentFrameSize, h.currentFunction,
    h.breakLabels, h.continueLabels⟩

theorem Step.thenL {names ext : List String} {g g1 g2 : RISCVCodeGenerator}
    (h1 : Step (Linked names ext) g g1) (h2 : Step (Linked names ext) g1 g2) :
    Step (Linked names ext) g g2 :=
  h1.seq h2 (fun _ _ => Linked.appendL)

theorem Step.emitL (names ext : List String) (g : RISCVCodeGenerator) (i : Instr)
    (ht : ∀ t, (Line.instr i).target = some t → t ∈ ext)
    (hc : ∀ n, (Line.instr i).callee = some n → n ∈ names) :
    Step (Linked names ext) g (g.emit i) :=
  Step.lineP g _ (Linked.singleL names ext _ ht hc)

theorem Step.allocTempL (names ext : List String) (g : RISCVCodeGenerator) :
    Step (Linked names ext) g g.allocTemp.2 :=
  (Step.allocTempN g).withOutput [] (by simp [allocTemp]) (Linked.nilL _ _)

theorem Step.releaseL (names ext : List String) (g : RISCVCodeGenerator) (r : String) :
    Step (Linked names ext) g (g.release r) :=
  (Step.releaseN g r).withOutput [] (by simp [release]) (Linked.nilL _ _)

theorem Step.newLabelL (names ext : List String) (g : RISCVCodeGenerator) (p : String) :
    Step (Linked names ext) g (g.newLabel p).2 :=
  (Step.newLabelN g p).withOutput [] (by simp [newLabel]) (Linked.nilL _ _)

theorem Step.loadImmediateL (names ext : List String) (g : RISCVCodeGenerator) (v : Int)
    (r : String) : Step (Linked names ext) g (g.loadImmediate v r) := by
  unfold loadImmediate
  have e : ∀ (g1 : RISCVCodeGenerator) (i : Instr), (Line.instr i).target = none →
      (Line.instr i).callee = none → Step (Linked names ext) g1 (g1.emit i) :=
    fun g1 i h1 h2 => Step.emitL names ext g1 i (by simp [h1]) (by simp [h2])
  simp only []
  split_ifs <;> first
    | exact e _ _ (by rfl) (by rfl)
    | exact (e _ _ (by rfl) (by rfl)).thenL (e _ _ (by rfl) (by rfl))

theorem Step.saveRegistersL (names ext : List String) : ∀ (regs : List String)
    (g : RISCVCodeGenerator), Step (Linked names ext) g (g.saveRegisters regs)
  | [], g => Step.sameP g (Linked.nilL _ _)
  | r :: rest, g => by
    simp only [saveRegisters]
    exact ((Step.emitL names ext g _ (by simp [Line.target]) (by simp [Line.callee])).thenL
      (Step.emitL names ext _ _ (by simp [Line.target]) (by simp [Line.callee]))).thenL
      (Step.saveRegistersL names ext rest _)

theorem Step.restoreLoopL (names ext : List String) : ∀ (regs : List String)
    (g : RISCVCodeGenerator), Step (Linked names ext) g (g.restoreLoop regs)
  | [], g => Step.sameP g (Linked.nilL _ _)
  | r :: rest, g => by
    simp only [restoreLoop]
    exact ((Step.emitL names ext g _ (by simp [Line.target]) (by simp [Line.callee])).thenL
      (Step.emitL names ext _ _ (by simp [Line.target]) (by simp [Line.callee]))).thenL
      (Step.restoreLoopL names ext rest _)

theorem Step.genUnaryOpL (names ext : List String) (g : RISCVCodeGenerator) (op : UnOp)
    (r : String) : Step (Linked names ext) g (g.genUnaryOp op r) := by
  cases op <;>
    exact Step.emitL names ext _ _ (by simp [Line.target]) (by simp [Line.callee])

theorem Step.genBinaryOpL (names ext : List String) (g : RISCVCodeGenerator) (op : BinOp)
    (r : String) (hr : r ≠ "sp") : Step (Linked names ext) g (g.genBinaryOp op r) := by
  have e : ∀ (g1 : RISCVCodeGenerator) (i : Instr), (Line.instr i).target = none →
      (Line.instr i).callee = none → Step (Linked names ext) g1 (g1.emit i) :=
    fun g1 i h1 h2 => Step.emitL names ext g1 i (by simp [h1]) (by simp [h2])
  cases op
  case AND =>
    refine (Step.genBinaryOpN g .AND r hr).withOutput _ (genBinaryOp_and g r) ?_
    constructor
    · intro t ht
      simp only [targetsOf, List.filterMap_cons, List.filterMap_nil, Line.target,
        List.mem_cons, List.mem_singleton, List.not_mem_nil, or_false] at ht
      left
      simp only [labelsOf, List.mem_cons, List.mem_singleton, List.not_mem_nil, or_false]
      tauto
    · intro n hn
      simp [calleesOf, Line.callee] at hn
  case OR =>
    refine (Step.genBinaryOpN g .OR r hr).withOutput _ (genBinaryOp_or g r) ?_
    constructor
    · intro t ht
      simp only [targetsOf, List.filterMap_cons, List.filterMap_nil, Line.target,
        List.mem_cons, List.mem_singleton, List.not_mem_nil, or_false] at ht
      left
      simp only [labelsOf, List.mem_cons, List.mem_singleton, List.not_mem_nil, or_false]
      tauto
    · intro n hn
      simp [calleesOf, Line.callee] at hn
  all_goals
    simp only [genBinaryOp]
    first
      | exact e _ _ (by rfl) (by rfl)
      | exact (e _ _ (by rfl) (by rfl)).thenL (e _ _ (by rfl) (by rfl))

mutual
theorem genExpr_linked : ∀ (e : Expr) (g : RISCVCodeGenerator) (names ext : List String),
    (∀ c ∈ callsOfExpr e, c.1 ∈ names) → Step (Linked names ext) g (genExpr g e)
  | .number v, g, names, ext, _ => by
    simp only [genExpr]
    exact (Step.allocTempL names ext g).thenL (Step.loadImmediateL names ext _ _ _)
  | .ident name, g, names, ext, _ => by
    unfold genExpr
    split
    · exact (Step.allocTempL names ext g).thenL
        (Step.emitL names ext _ _ (by simp [Line.target]) (by simp [Line.callee]))
    · exact Step.sameP g (Linked.nilL _ _)
  | .binary left op right, g, names, ext, h => by
    simp only [genExpr]
    have hl : ∀ c ∈ callsOfExpr left, c.1 ∈ names := fun c hc =>
      h c (by simp only [callsOfExpr, List.mem_append]; exact Or.inl hc)
    have hr : ∀ c ∈ callsOfExpr right, c.1 ∈ names := fun c hc =>
      h c (by simp only [callsOfExpr, List.mem_append]; exact Or.inr hc)
    have h1 := genExpr_linked left g names ext hl
    have h2 := genExpr_linked right (genExpr g left) names ext hr
    exact ((((h1.thenL h2).thenL (Step.allocTempL names ext _)).thenL
      (Step.genBinaryOpL names ext _ _ _ (allocTemp_ne_sp _))).thenL
      (Step.releaseL names ext _ _)).thenL (Step.releaseL names ext _ _)
  | .unary op operand, g, names, ext, h => by
    simp only [genExpr]
    have h1 := genExpr_linked operand g names ext
      (fun c hc => h c (by simpa only [callsOfExpr] using hc))
    exact ((h1.thenL (Step.allocTempL names ext _)).thenL
      (Step.genUnaryOpL names ext _ _ _)).thenL (Step.releaseL names ext _ _)
  | .call fn args rt, g, names, ext, h => by
    simp only [genExpr]
    have hfn : fn ∈ names := h (fn, args.length, rt) (by simp [callsOfExpr])
    have ha : ∀ c ∈ callsOfExprs args, c.1 ∈ names := fun c hc =>
      h c (by simp only [callsOfExpr, List.mem_cons]; exact Or.inr hc)
    have h0 := Step.saveRegistersL names ext callerSaved g
    have h1 := genArgs_linked args (g.saveRegisters callerSaved) 0 names ext ha
    have hc : Step (Linked names ext) _ _ :=
      Step.emitL names ext (genArgs (g.saveRegisters callerSaved) 0 args) (.call fn)
        (by simp [Line.target]) (by simp [Line.callee, hfn])
    have h3 : Step (Linked names ext) _ (((genArgs (g.saveRegisters callerSaved) 0 args).emit
        (.call fn)).restoreRegisters callerSaved) :=
      Step.restoreLoopL names ext callerSaved.reverse
        ((genArgs (g.saveRegisters callerSaved) 0 args).emit (.call fn))
    have h4 := ((h0.thenL h1).thenL hc).thenL h3
    split
    · exact (h4.thenL (Step.allocTempL names ext _)).thenL
        (Step.emitL names ext _ _ (by simp [Line.target]) (by simp [Line.callee]))
    · exact h4
theorem genArgs_linked : ∀ (es : List Expr) (g : RISCVCodeGenerator) (i : Nat)
    (names ext : List String), (∀ c ∈ callsOfExprs es, c.1 ∈ names) →
    Step (Linked names ext) g (genArgs g i es)
  | [], g, i, names, ext, _ => by
    simp only [genArgs]
    exact Step.sameP g (Linked.nilL _ _)
  | e :: es, g, i, names, ext, h => by
    simp only [genArgs]
    have he : ∀ c ∈ callsOfExpr e, c.1 ∈ names := fun c hc =>
      h c (by simp only [callsOfExprs, List.mem_append]; exact Or.inl hc)
    have hes : ∀ c ∈ callsOfExprs es, c.1 ∈ names := fun c hc =>
      h c (by simp only [callsOfExprs, List.mem_append]; exact Or.inr hc)
    split
    · exact ((genExpr_linked e g names ext he).thenL
        (Step.emitL names ext _ _ (by simp [Line.target]) (by simp [Line.callee]))).thenL
        (genArgs_linked es _ _ names ext hes)
    · exact Step.sameP g (Linked.nilL _ _)
end

/-- Writing the label `l` after lines that may jump to it. -/
theorem Step.labelHere {names ext : List String} {l : String} {g g1 : RISCVCodeGenerator}
    (h : Step (Linked names (l :: ext)) g g1) :
    Step (fun ls => Linked names (l :: ext) ls ∧ l ∈ labelsOf ls) g (g1.emitLabel l) :=
  h.seq (Step.lineP g1 (.label l) (rfl : [Line.label l] = [Line.label l]))
    (fun a b ha hb => by
      subst hb
      refine ⟨ha.appendL (Linked.singleL _ _ _ (by simp [Line.target])
        (by simp [Line.callee])), ?_⟩
      rw [labelsOf_append]
      simp [labelsOf])

theorem Step.thenHas {names ext : List String} {l : String} {g g1 g2 : RISCVCodeGenerator}
    (h1 : Step (fun ls => Linked names (l :: ext) ls ∧ l ∈ labelsOf ls) g g1)
    (h2 : Step (Linked names (l :: ext)) g1 g2) :
    Step (fun ls => Linked names (l :: ext) ls ∧ l ∈ labelsOf ls) g g2 :=
  h1.seq h2 (fun a b ha hb => by
    refine ⟨ha.1.appendL hb, ?_⟩
    rw [labelsOf_append]
    exact List.mem_append_left _ ha.2)

theorem Step.closeHas {names ext : List String} {l : String} {g g1 : RISCVCodeGenerator}
    (h : Step (fun ls => Linked names (l :: ext) ls ∧ l ∈ labelsOf ls) g g1) :
    Step (Linked names ext) g g1 :=
  h.weaken (fun _ ha => ha.1.discharge ha.2)

theorem Step.closeL {names ext : List String} {l : String} {g g1 : RISCVCodeGenerator}
    (h : Step (Linked names (l :: ext)) g g1) :
    Step (Linked names ext) g (g1.emitLabel l) :=
  h.labelHere.closeHas

theorem Step.storeToL (names ext : List String) (g : RISCVCodeGenerator) (name : String) :
    Step (Linked names ext) g (match mapFind g.symbolTable name with
      | some symbol => g.emit (.sw "t0" symbol.offset "fp")
      | none => g) := by
  split
  · exact Step.emitL names ext _ _ (by simp [Line.target]) (by simp [Line.callee])
  · exact Step.sameP g (Linked.nilL _ _)

theorem Step.epilogueL (names ext : List String) (g : RISCVCodeGenerator) :
    Step (Linked names ext) g g.generateFunctionEpilogue :=
  (((Step.emitL names ext g _ (by simp [Line.target]) (by simp [Line.callee])).thenL
    (Step.emitL names ext _ _ (by simp [Line.target]) (by simp [Line.callee]))).thenL
    (Step.emitL names ext _ _ (by simp [Line.target]) (by simp [Line.callee]))).thenL
    (Step.emitL names ext _ _ (by simp [Line.target]) (by simp [Line.callee]))

theorem thenEntry_linked (names ext : List String) (g : RISCVCodeGenerator) (c : Expr)
    (hasElse : Bool) (hc : ∀ x ∈ callsOfExpr c, x.1 ∈ names)
    (ht : (if hasElse then (g.newLabel "if_else").1
      else ((g.newLabel "if_else").2.newLabel "if_end").1) ∈ ext) :
    Step (Linked names ext) g (thenEntry g c hasElse) :=
  ((((Step.newLabelL names ext g "if_else").thenL (Step.newLabelL names ext _ "if_end")).thenL
    (genExpr_linked c _ names ext hc)).thenL
    (Step.emitL names ext _ _ (by
      intro t h
      simp only [Line.target, Option.some.injEq] at h
      rw [← h]
      cases hasElse <;> simpa using ht) (by simp [Line.callee]))).thenL
    (Step.releaseL names ext _ "t0")

mutual
theorem genStmt_linked : ∀ (s : Stmt) (g : RISCVCodeGenerator) (names ext : List String),
    (∀ c ∈ callsOfStmt s, c.1 ∈ names) →
    (∀ t, g.breakLabels.head? = some t → t ∈ ext) →
    (∀ t, g.continueLabels.head? = some t → t ∈ ext) →
    Step (Linked names ext) g (genStmt g s)
  | .assign x value, g, names, ext, h, _, _ => by
    simp only [genStmt]
    exact ((genExpr_linked value g names ext h).thenL (Step.storeToL names ext _ x)).thenL
      (Step.releaseL names ext _ _)
  | .varDecl name initializer, g, names, ext, h, _, _ => by
    cases initializer with
    | none =>
      simp only [genStmt]
      exact Step.sameP g (Linked.nilL _ _)
    | some e =>
      simp only [genStmt]
      exact ((genExpr_linked e g names ext h).thenL (Step.storeToL names ext _ name)).thenL
        (Step.releaseL names ext _ _)
  | .block ss, g, names, ext, h, hb, hc => by
    simp only [genStmt]
    exact genStmts_linked ss g names ext h hb hc
  | .ifS c t e, g, names, ext, h, hb, hc => by
    have hcc : ∀ x ∈ callsOfExpr c, x.1 ∈ names := fun x hx =>
      h x (by simp only [callsOfStmt, List.mem_append]; exact Or.inl (Or.inl hx))
    have hct : ∀ x ∈ callsOfStmt t, x.1 ∈ names := fun x hx =>
      h x (by simp only [callsOfStmt, List.mem_append]; exact Or.inl (Or.inr hx))
    cases e with
    | none =>
      rw [genStmt_if_none]
      have h1 := thenEntry_linked names (((g.newLabel "if_else").2.newLabel "if_end").1 :: ext)
        g c false hcc (by simp)
      have h2 := genStmt_linked t (thenEntry g c false) names
        (((g.newLabel "if_else").2.newLabel "if_end").1 :: ext) hct
        (fun x hx => List.mem_cons_of_mem _ (hb x (by rw [← h1.breakLabels]; exact hx)))
        (fun x hx => List.mem_cons_of_mem _ (hc x (by rw [← h1.continueLabels]; exact hx)))
      exact (h1.thenL h2).closeL
    | some els =>
      rw [genStmt_if_some]
      have hce : ∀ x ∈ callsOfStmt els, x.1 ∈ names := fun x hx =>
        h x (by simp only [callsOfStmt, callsOfOptStmt, List.mem_append]; exact Or.inr hx)
      have h1 := thenEntry_linked names ((g.newLabel "if_else").1 ::
        ((g.newLabel "if_else").2.newLabel "if_end").1 :: ext) g c true hcc (by simp)
      have h2 := genStmt_linked t (thenEntry g c true) names ((g.newLabel "if_else").1 ::
        ((g.newLabel "if_else").2.newLabel "if_end").1 :: ext) hct
        (fun x hx => List.mem_cons_of_mem _ (List.mem_cons_of_mem _
          (hb x (by rw [← h1.breakLabels]; exact hx))))
        (fun x hx => List.mem_cons_of_mem _ (List.mem_cons_of_mem _
          (hc x (by rw [← h1.continueLabels]; exact hx))))
      have h3 : Step (Linked names ((g.newLabel "if_else").1 ::
          ((g.newLabel "if_else").2.newLabel "if_end").1 :: ext)) g
          ((genStmt (thenEntry g c true) t).emit
            (.j ((g.newLabel "if_else").2.newLabel "if_end").1)) :=
        (h1.thenL h2).thenL (Step.emitL names _ _ _ (by
          intro x hx
          simp only [Line.target, Option.some.injEq] at hx
          rw [← hx]
          simp) (by simp [Line.callee]))
      have h4 : Step _ g (elseEntry g c t) := h3.labelHere
      have hs := elseEntry_step g c t
      have h5 := genStmt_linked els (elseEntry g c t) names ((g.newLabel "if_else").1 ::
        ((g.newLabel "if_else").2.newLabel "if_end").1 :: ext) hce
        (fun x hx => List.mem_cons_of_mem _ (List.mem_cons_of_mem _
          (hb x (by rw [← hs.breakLabels]; exact hx))))
        (fun x hx => List.mem_cons_of_mem _ (List.mem_cons_of_mem _
          (hc x (by rw [← hs.continueLabels]; exact hx))))
      exact (h4.thenHas h5).closeHas.closeL
  | .whileS c b, g, names, ext, h, hb, hc => by
    have hcc : ∀ x ∈ callsOfExpr c, x.1 ∈ names := fun x hx =>
      h x (by simp only [callsOfStmt, List.mem_append]; exact Or.inl hx)
    have hcb : ∀ x ∈ callsOfStmt b, x.1 ∈ names := fun x hx =>
      h x (by simp only [callsOfStmt, List.mem_append]; exact Or.inr hx)
    simp only [genStmt]
    have hA : Step (Linked names ext) g ((g.newLabel "while_loop").2.newLabel "while_end").2 :=
      (Step.newLabelL names ext g "while_loop").thenL (Step.newLabelL names ext _ "while_end")
    have hB : ∀ gA : RISCVCodeGenerator,
        gA.breakLabels.head? = some ((g.newLabel "while_loop").2.newLabel "while_end").1 →
        gA.continueLabels.head? = some (g.newLabel "while_loop").1 →
        Step (Linked names ext) gA
        (((genStmt (((genExpr (gA.emitLabel (g.newLabel "while_loop").1) c).emit
          (.beqz "t0" ((g.newLabel "while_loop").2.newLabel "while_end").1)).release "t0")
          b).emit (.j (g.newLabel "while_loop").1)).emitLabel
          ((g.newLabel "while_loop").2.newLabel "while_end").1) := by
      intro gA hbA hcA
      have h0 : Step (fun ls => Linked names ((g.newLabel "while_loop").1 ::
          ((g.newLabel "while_loop").2.newLabel "while_end").1 :: ext) ls ∧
          (g.newLabel "while_loop").1 ∈ labelsOf ls) gA
          (gA.emitLabel (g.newLabel "while_loop").1) :=
        (Step.sameP gA (Linked.nilL _ _)).labelHere
      have h1 : Step (Linked names ((g.newLabel "while_loop").1 ::
          ((g.newLabel "while_loop").2.newLabel "while_end").1 :: ext))
          (gA.emitLabel (g.newLabel "while_loop").1)
          (((genExpr (gA.emitLabel (g.newLabel "while_loop").1) c).emit
          (.beqz "t0" ((g.newLabel "while_loop").2.newLabel "while_end").1)).release "t0") :=
        ((genExpr_linked c _ names _ hcc).thenL (Step.emitL names _ _ _ (by
          intro x hx
          simp only [Line.target, Option.some.injEq] at hx
          rw [← hx]
          simp) (by simp [Line.callee]))).thenL (Step.releaseL names _ _ "t0")
      have h2 := genStmt_linked b (((genExpr (gA.emitLabel (g.newLabel "while_loop").1) c).emit
          (.beqz "t0" ((g.newLabel "while_loop").2.newLabel "while_end").1)).release "t0")
        names ((g.newLabel "while_loop").1 ::
          ((g.newLabel "while_loop").2.newLabel "while_end").1 :: ext) hcb
        (fun x hx => by
          rw [h1.breakLabels] at hx
          have hx1 : gA.breakLabels.head? = some x := hx
          rw [hbA] at hx1
          simp only [Option.some.injEq] at hx1
          rw [← hx1]
          simp)
        (fun x hx => by
          rw [h1.continueLabels] at hx
          have hx1 : gA.continueLabels.head? = some x := hx
          rw [hcA] at hx1
          simp only [Option.some.injEq] at hx1
          rw [← hx1]
          simp)
      have h3 := (h1.thenL h2).thenL (Step.emitL names ((g.newLabel "while_loop").1 ::
          ((g.newLabel "while_loop").2.newLabel "while_end").1 :: ext) _
        (.j (g.newLabel "while_loop").1) (by
          intro x hx
          simp only [Line.target, Option.some.injEq] at hx
          rw [← hx]
          simp) (by simp [Line.callee]))
      exact (h0.thenHas h3).closeHas.closeL
    exact Step.loopP _ _ hA (hB _ rfl rfl) (fun _ _ => Linked.appendL)
  | .breakS, g, names, ext, _, hb, _ => by
    unfold genStmt
    split
    · exact Step.sameP g (Linked.nilL _ _)
    · rename_i top rest heq
      exact Step.emitL names ext _ _ (by
        intro x hx
        simp only [Line.target, Option.some.injEq] at hx
        rw [← hx]
        exact hb top (by rw [heq]; rfl)) (by simp [Line.callee])
  | .continueS, g, names, ext, _, _, hc => by
    unfold genStmt
    split
    · exact Step.sameP g (Linked.nilL _ _)
    · rename_i top rest heq
      exact Step.emitL names ext _ _ (by
        intro x hx
        simp only [Line.target, Option.some.injEq] at hx
        rw [← hx]
        exact hc top (by rw [heq]; rfl)) (by simp [Line.callee])
  | .returnS value, g, names, ext, h, _, _ => by
    simp only [genStmt]
    cases value with
    | none =>
      simp only [genReturnValue]
      exact Step.epilogueL names ext g
    | some e =>
      simp only [genReturnValue]
      exact ((genExpr_linked e g names ext h).thenL
        (Step.emitL names ext _ _ (by simp [Line.target]) (by simp [Line.callee]))).thenL
        (Step.epilogueL names ext _)
  | .exprS e, g, names, ext, h, _, _ => by
    simp only [genStmt]
    exact (genExpr_linked e g names ext h).thenL
      ⟨⟨[], by simp, Linked.nilL _ _⟩, rfl, rfl, rfl, rfl, rfl, rfl⟩
theorem genStmts_linked : ∀ (ss : List Stmt) (g : RISCVCodeGenerator)
    (names ext : List String), (∀ c ∈ callsOfStmts ss, c.1 ∈ names) →
    (∀ t, g.breakLabels.head? = some t → t ∈ ext) →
    (∀ t, g.continueLabels.head? = some t → t ∈ ext) →
    Step (Linked names ext) g (genStmts g ss)
  | [], g, names, ext, _, _, _ => by
    simp only [genStmts]
    exact Step.sameP g (Linked.nilL _ _)
  | s :: ss, g, names, ext, h, hb, hc => by
    simp only [genStmts]
    have h1 := genStmt_linked s g names ext
      (fun c hx => h c (by simp only [callsOfStmts, List.mem_append]; exact Or.inl hx)) hb hc
    have h2 := genStmts_linked ss (genStmt g s) names ext
      (fun c hx => h c (by simp only [callsOfStmts, List.mem_append]; exact Or.inr hx))
      (fun x hx => hb x (by rw [← h1.breakLabels]; exact hx))
      (fun x hx => hc x (by rw [← h1.continueLabels]; exact hx))
    exact h1.thenL h2
end

theorem bodyEntry_stacks (g : RISCVCodeGenerator) (f : FunctionDefinition) :
    (bodyEntry g f).breakLabels = g.breakLabels ∧
      (bodyEntry g f).continueLabels = g.continueLabels := by
  unfold bodyEntry
  simp only
  rw [addParameters_fields]
  simp only [generateFunctionPrologue, emit, emitComment, emitLabel, calculateFrameSize]
  rw [collectLocalVariables_fields]
  exact ⟨rfl, rfl⟩

/-- The lines of a function visited with empty label stacks: every branch or jump goes to
a label line among them. -/
theorem genFunction_linked (g : RISCVCodeGenerator) (f : FunctionDefinition)
    (names : List String) (hb : g.breakLabels = []) (hc : g.continueLabels = [])
    (h : ∀ c ∈ callsOfStmts f.body, c.1 ∈ names) :
    ∃ code, (g.genFunction f).output = g.output ++ code ∧
      code.head? = some (Line.label f.name) ∧ Linked names [] code := by
  have hs := bodyEntry_stacks g f
  have h1 := genStmts_linked f.body (bodyEntry g f) names [] h
    (fun t ht => by rw [hs.1, hb] at ht; simp at ht)
    (fun t ht => by rw [hs.2, hc] at ht; simp at ht)
  have hr : ∀ g1 : RISCVCodeGenerator, Step (Linked names []) g1 (g1.emit (.raw "")) :=
    fun g1 => Step.emitL names [] g1 _ (by simp [Line.target]) (by simp [Line.callee])
  have hall : Step (Linked names []) (bodyEntry g f) (g.genFunction f) := by
    rw [genFunction_eq]
    split
    · exact (h1.thenL (Step.epilogueL names [] _)).thenL (hr _)
    · exact h1.thenL (hr _)
  obtain ⟨body, e, l⟩ := hall.output
  refine ⟨(Line.label f.name :: prologueLines f.name (bodyEntry g f).currentFrameSize) ++ body,
    ?_, rfl, ?_⟩
  · rw [e, bodyEntry_output]
    simp
  · refine Linked.appendL ⟨fun t ht => ?_, fun n hn => ?_⟩ l
    · simp [targetsOf, prologueLines, Line.target] at ht
    · simp [calleesOf, prologueLines, Line.callee] at hn

theorem genFunctions_callees : ∀ (fs : List FunctionDefinition) (g : RISCVCodeGenerator)
    (names : List String), g.breakLabels = [] → g.continueLabels = [] →
    (∀ c ∈ callsOfFunctions fs, c.1 ∈ names) →
    ∃ code, (genFunctions g fs).output = g.output ++ code ∧ ∀ n ∈ calleesOf code, n ∈ names
  | [], g, names, _, _, _ => ⟨[], by simp [genFunctions], fun n hn => by simp [calleesOf] at hn⟩
  | f :: fs, g, names, hb, hc, h => by
    obtain ⟨c1, e1, _, l1⟩ := genFunction_linked g f names hb hc
      (fun c hx => h c (by simp only [callsOfFunctions, List.mem_append]; exact Or.inl hx))
    have hst := genFunction_stacks g f
    obtain ⟨c2, e2, l2⟩ := genFunctions_callees fs (genFunction g f) names
      (hst.1.trans hb) (hst.2.trans hc)
      (fun c hx => h c (by simp only [callsOfFunctions, List.mem_append]; exact Or.inr hx))
    refine ⟨c1 ++ c2, ?_, ?_⟩
    · simp only [genFunctions]
      rw [e2, e1, List.append_assoc]
    · intro n hn
      rw [calleesOf_append, List.mem_append] at hn
      rcases hn with hn | hn
      · exact l1.2 n hn
      · exact l2 n hn

/-! ### Analyzer: the errors recorded before a visit have no influence -/

theorem SameButErrors.reflS (a : SemanticAnalyzer) : SameButErrors a a :=
  ⟨rfl, rfl, rfl, rfl, rfl⟩

theorem InStep.startS {a b : SemanticAnalyzer} (h : SameButErrors a b) : InStep a b a b :=
  ⟨h, [], by simp, by simp⟩

theorem InStep.thenI {a b a1 b1 a2 b2 : SemanticAnalyzer} (h1 : InStep a b a1 b1)
    (h2 : InStep a1 b1 a2 b2) : InStep a b a2 b2 := by
  obtain ⟨l1, e1, f1⟩ := h1.errors
  obtain ⟨l2, e2, f2⟩ := h2.errors
  exact ⟨h2.same, l1 ++ l2, by rw [e2, e1, List.append_assoc],
    by rw [f2, f1, List.append_assoc]⟩

theorem InStep.addErrorI {a b : SemanticAnalyzer} (h : SameButErrors a b) (msg : String) :
    InStep a b (a.addError msg) (b.addError msg) :=
  ⟨⟨h.scope, h.functions, h.currentFunction, h.loopDepth, h.hasReturn⟩, [msg], rfl, rfl⟩

/-- Two visits in step, started from states that have the errors of `a` and `b`. -/
theorem InStep.fromI {a b a0 b0 a1 b1 : SemanticAnalyzer} (h : InStep a0 b0 a1 b1)
    (ha : a0.errors = a.errors) (hb : b0.errors = b.errors) : InStep a b a1 b1 := by
  obtain ⟨l, e, f⟩ := h.errors
  exact ⟨h.same, l, by rw [e, ha], by rw [f, hb]⟩

/-- Two visits in step, followed by the same change of the fields other than the errors. -/
theorem InStep.toI {a b a1 b1 a2 b2 : SemanticAnalyzer} (h : InStep a b a1 b1)
    (hs : SameButErrors a2 b2) (ha : a2.errors = a1.errors) (hb : b2.errors = b1.errors) :
    InStep a b a2 b2 := by
  obtain ⟨l, e, f⟩ := h.errors
  exact ⟨hs, l, by rw [ha, e], by rw [hb, f]⟩

mutual
theorem visitExpr_inStep : ∀ (e : Expr) (a b : SemanticAnalyzer), SameButErrors a b →
    InStep a b (visitExpr a e).1 (visitExpr b e).1 ∧ (visitExpr a e).2 = (visitExpr b e).2
  | .number v, a, b, h => by
    unfold visitExpr
    exact ⟨InStep.startS h, rfl⟩
  | .ident name, a, b, h => by
    unfold visitExpr
    rw [h.scope]
    split
    · exact ⟨InStep.addErrorI h _, rfl⟩
    · exact ⟨InStep.startS h, rfl⟩
  | .unary op operand, a, b, h => by
    simp only [visitExpr]
    have h1 := visitExpr_inStep operand a b h
    exact ⟨h1.1, by rw [h1.2]⟩
  | .binary left op right, a, b, h => by
    simp only [visitExpr]
    have h1 := visitExpr_inStep left a b h
    have h2 := visitExpr_inStep right (visitExpr a left).1 (visitExpr b left).1 h1.1.same
    exact ⟨h1.1.thenI h2.1, by rw [h1.2, h2.2]⟩
  | .call fn args rt, a, b, h => by
    unfold visitExpr
    rw [h.functions]
    split
    · exact ⟨InStep.addErrorI h _, rfl⟩
    · split
      · exact ⟨InStep.addErrorI h _, rfl⟩
      · have h1 := visitExprs_inStep args a b h
        exact ⟨h1.1, by simp only []; rw [h1.2]⟩
theorem visitExprs_inStep : ∀ (es : List Expr) (a b : SemanticAnalyzer), SameButErrors a b →
    InStep a b (visitExprs a es).1 (visitExprs b es).1 ∧ (visitExprs a es).2 = (visitExprs b es).2
  | [], a, b, h => by
    unfold visitExprs
    exact ⟨InStep.startS h, rfl⟩
  | e :: es, a, b, h => by
    simp only [visitExprs]
    have h1 := visitExpr_inStep e a b h
    have h2 := visitExprs_inStep es (visitExpr a e).1 (visitExpr b e).1 h1.1.same
    exact ⟨h1.1.thenI h2.1, by rw [h1.2, h2.2]⟩
end

theorem checkReturn_inStep (a b : SemanticAnalyzer) (h : SameButErrors a b) (v : Bool) :
    InStep a b (checkReturn a v) (checkReturn b v) := by
  unfold checkReturn
  rw [h.functions, h.currentFunction]
  split
  · exact InStep.startS h
  · split
    · exact InStep.addErrorI h _
    · split
      · exact InStep.addErrorI h _
      · exact InStep.startS h

mutual
theorem visitStmt_inStep : ∀ (s : Stmt) (a b : SemanticAnalyzer), SameButErrors a b →
    InStep a b (visitStmt a s).1 (visitStmt b s).1 ∧ (visitStmt a s).2 = (visitStmt b s).2
  | .varDecl name initializer, a, b, h => by
    have hd : SameButErrors
        { a with scope := (b.scope.declareVariable name VType.INT false).2 }
        { b with scope := (b.scope.declareVariable name VType.INT false).2 } :=
      ⟨rfl, h.functions, h.currentFunction, h.loopDepth, h.hasReturn⟩
    cases initializer with
    | none =>
      unfold visitStmt
      simp only []
      rw [h.scope]
      split
      · exact ⟨(InStep.addErrorI hd _).fromI (a := a) (b := b) rfl rfl, rfl⟩
      · exact ⟨(InStep.startS hd).fromI (a := a) (b := b) rfl rfl, rfl⟩
    | some e =>
      unfold visitStmt
      simp only []
      rw [h.scope]
      split
      · exact ⟨(InStep.addErrorI hd _).fromI (a := a) (b := b) rfl rfl, rfl⟩
      · have h1 := visitExpr_inStep e _ _ hd
        exact ⟨h1.1.fromI (a := a) (b := b) rfl rfl, by simp only []; rw [h1.2]⟩
  | .assign x value, a, b, h => by
    unfold visitStmt
    rw [h.scope]
    split
    · exact ⟨InStep.addErrorI h _, rfl⟩
    · have h1 := visitExpr_inStep value a b h
      exact ⟨h1.1, by simp only []; rw [h1.2]⟩
  | .block ss, a, b, h => by
    simp only [visitStmt]
    have hd : SameButErrors { a with scope := a.scope.enterScope }
        { b with scope := b.scope.enterScope } :=
      ⟨by rw [h.scope], h.functions, h.currentFunction, h.loopDepth, h.hasReturn⟩
    have h1 := visitStmts_inStep ss _ _ hd
    refine ⟨(h1.1.fromI (a := a) (b := b) rfl rfl).toI ?_ rfl rfl, by rw [h1.2]⟩
    exact ⟨by show Scope.exitScope _ = Scope.exitScope _; rw [h1.1.same.scope],
      h1.1.same.functions, h1.1.same.currentFunction, h1.1.same.loopDepth,
      h1.1.same.hasReturn⟩
  | .ifS c t e, a, b, h => by
    simp only [visitStmt]
    have h1 := visitExpr_inStep c a b h
    have h2 := visitStmt_inStep t _ _ h1.1.same
    have h3 := visitOptStmt_inStep e _ _ h2.1.same
    exact ⟨(h1.1.thenI h2.1).thenI h3.1, by rw [h1.2, h2.2, h3.2]⟩
  | .whileS c body, a, b, h => by
    simp only [visitStmt]
    have h1 := visitExpr_inStep c a b h
    have hd : SameButErrors
        { (visitExpr a c).1 with loopDepth := (visitExpr a c).1.loopDepth + 1 }
        { (visitExpr b c).1 with loopDepth := (visitExpr b c).1.loopDepth + 1 } :=
      ⟨h1.1.same.scope, h1.1.same.functions, h1.1.same.currentFunction,
        by show _ + 1 = _ + 1; rw [h1.1.same.loopDepth], h1.1.same.hasReturn⟩
    have h2 := visitStmt_inStep body _ _ hd
    refine ⟨(h1.1.thenI (h2.1.fromI rfl rfl)).toI ?_ rfl rfl, by rw [h1.2, h2.2]⟩
    exact ⟨h2.1.same.scope, h2.1.same.functions, h2.1.same.currentFunction,
      by show _ - 1 = _ - 1; rw [h2.1.same.loopDepth], h2.1.same.hasReturn⟩
  | .breakS, a, b, h => by
    unfold visitStmt
    rw [h.loopDepth]
    split
    · exact ⟨InStep.addErrorI h _, rfl⟩
    · exact ⟨InStep.startS h, rfl⟩
  | .continueS, a, b, h => by
    unfold visitStmt
    rw [h.loopDepth]
    split
    · exact ⟨InStep.addErrorI h _, rfl⟩
    · exact ⟨InStep.startS h, rfl⟩
  | .returnS value, a, b, h => by
    have hd : SameButErrors { a with hasReturn := true } { b with hasReturn := true } :=
      ⟨h.scope, h.functions, h.currentFunction, h.loopDepth, rfl⟩
    have h0 := (checkReturn_inStep _ _ hd value.isSome).fromI (a := a) (b := b) rfl rfl
    cases value with
    | none =>
      simp only [visitStmt]
      exact ⟨h0, trivial⟩
    | some e =>
      simp only [visitStmt]
      have h1 := visitExpr_inStep e _ _ h0.same
      exact ⟨h0.thenI h1.1, by rw [h1.2]⟩
  | .exprS e, a, b, h => by
    simp only [visitStmt]
    have h1 := visitExpr_inStep e a b h
    exact ⟨h1.1, by rw [h1.2]⟩
theorem visitStmts_inStep : ∀ (ss : List Stmt) (a b : SemanticAnalyzer), SameButErrors a b →
    InStep a b (visitStmts a ss).1 (visitStmts b ss).1 ∧ (visitStmts a ss).2 = (visitStmts b ss).2
  | [], a, b, h => by
    unfold visitStmts
    exact ⟨InStep.startS h, rfl⟩
  | s :: ss, a, b, h => by
    simp only [visitStmts]
    have h1 := visitStmt_inStep s a b h
    have h2 := visitStmts_inStep ss _ _ h1.1.same
    exact ⟨h1.1.thenI h2.1, by rw [h1.2, h2.2]⟩
theorem visitOptStmt_inStep : ∀ (o : Option Stmt) (a b : SemanticAnalyzer),
    SameButErrors a b →
    InStep a b (visitOptStmt a o).1 (visitOptStmt b o).1 ∧
      (visitOptStmt a o).2 = (visitOptStmt b o).2
  | none, a, b, h => by
    unfold visitOptStmt
    exact ⟨InStep.startS h, rfl⟩
  | some s, a, b, h => by
    simp only [visitOptStmt]
    have h1 := visitStmt_inStep s a b h
    exact ⟨h1.1, by rw [h1.2]⟩
end

theorem declareParameters_inStep : ∀ (ps : List Parameter) (a b : SemanticAnalyzer),
    SameButErrors a b → InStep a b (declareParameters a ps) (declareParameters b ps)
  | [], a, b, h => by
    unfold declareParameters
    exact InStep.startS h
  | p :: ps, a, b, h => by
    have hd : SameButErrors
        { a with scope := (b.scope.declareVariable p.name p.type true).2 }
        { b with scope := (b.scope.declareVariable p.name p.type true).2 } :=
      ⟨rfl, h.functions, h.currentFunction, h.loopDepth, h.hasReturn⟩
    unfold declareParameters
    simp only []
    rw [h.scope]
    split
    · have h1 := InStep.addErrorI hd ("Parameter '" ++ p.name ++ "' is already declared")
      exact (h1.thenI (declareParameters_inStep ps _ _ h1.same)).fromI (a := a) (b := b)
        rfl rfl
    · exact (declareParameters_inStep ps _ _ hd).fromI (a := a) (b := b) rfl rfl

theorem visitBlock_inStep (ss : List Stmt) (a b : SemanticAnalyzer) (h : SameButErrors a b) :
    InStep a b (visitBlock a ss).1 (visitBlock b ss).1 ∧
      (visitBlock a ss).2 = (visitBlock b ss).2 := by
  have hd : SameButErrors { a with scope := a.scope.enterScope }
      { b with scope := b.scope.enterScope } :=
    ⟨by rw [h.scope], h.functions, h.currentFunction, h.loopDepth, h.hasReturn⟩
  have h1 := visitStmts_inStep ss _ _ hd
  unfold visitBlock
  refine ⟨(h1.1.fromI (a := a) (b := b) rfl rfl).toI ?_ rfl rfl, h1.2⟩
  exact ⟨by show Scope.exitScope _ = Scope.exitScope _; rw [h1.1.same.scope],
    h1.1.same.functions, h1.1.same.currentFunction, h1.1.same.loopDepth,
    h1.1.same.hasReturn⟩

theorem visitFunction_inStep (f : FunctionDefinition) (a b : SemanticAnalyzer)
    (h : SameButErrors a b) :
    InStep a b (visitFunction a f).1 (visitFunction b f).1 ∧
      (visitFunction a f).2 = (visitFunction b f).2 := by
  have hd : SameButErrors
      { a with currentFunction := f.name, hasReturn := false,
               scope := a.scope.enterScope.resetOffset }
      { b with currentFunction := f.name, hasReturn := false,
               scope := b.scope.enterScope.resetOffset } :=
    ⟨by rw [h.scope], h.functions, rfl, h.loopDepth, rfl⟩
  have h1 := declareParameters_inStep f.parameters _ _ hd
  have h2 := visitBlock_inStep f.body _ _ h1.same
  have h12 := (h1.thenI h2.1).fromI (a := a) (b := b) rfl rfl
  have hx : ∀ x y : SemanticAnalyzer, SameButErrors x y →
      SameButErrors { x with scope := x.scope.exitScope } { y with scope := y.scope.exitScope } :=
    fun x y hs => ⟨by show Scope.exitScope _ = Scope.exitScope _; rw [hs.scope], hs.functions,
      hs.currentFunction, hs.loopDepth, hs.hasReturn⟩
  unfold visitFunction
  simp only []
  refine ⟨?_, by rw [h2.2]⟩
  rw [h2.1.same.hasReturn]
  split
  · have h3 := h12.thenI
      (InStep.addErrorI h12.same ("Function '" ++ f.name ++ "' must return a value"))
    exact h3.toI (hx _ _ h3.same) rfl rfl
  · exact h12.toI (hx _ _ h12.same) rfl rfl

theorem visitFunctions_inStep : ∀ (fs : List FunctionDefinition) (a b : SemanticAnalyzer),
    SameButErrors a b →
    InStep a b (visitFunctions a fs).1 (visitFunctions b fs).1 ∧
      (visitFunctions a fs).2 = (visitFunctions b fs).2
  | [], a, b, h => by
    unfold visitFunctions
    exact ⟨InStep.startS h, rfl⟩
  | f :: fs, a, b, h => by
    simp only [visitFunctions]
    have h1 := visitFunction_inStep f a b h
    have h2 := visitFunctions_inStep fs _ _ h1.1.same
    exact ⟨h1.1.thenI h2.1, by rw [h1.2, h2.2]⟩

/-- What a visit that stays in step gives: the errors after it are those before it followed
by what it finds with no error recorded, and the state it leaves does not depend on the
errors recorded before. -/
theorem errorsFound_spec (visit : SemanticAnalyzer → SemanticAnalyzer)
    (hv : ∀ a b, SameButErrors a b → InStep a b (visit a) (visit b))
    (a b : SemanticAnalyzer) (h : SameButErrors a b) :
    (visit a).errors = a.errors ++ errorsFound a visit ∧
      SameButErrors (visit a) (visit b) := by
  have ha : SameButErrors a { a with errors := [] } := ⟨rfl, rfl, rfl, rfl, rfl⟩
  obtain ⟨l1, e1, f1⟩ := (hv _ _ ha).errors
  simp only [List.nil_append] at f1
  refine ⟨?_, (hv a b h).same⟩
  unfold errorsFound
  rw [f1, e1]

theorem analyze_exit_count (k : Bool) (u : CompilationUnit) :
    (SemanticAnalyzer.fresh.analyze u).2.1.errors.count (exitErr k).text =
      (u.functions.map (fun f => strayExitsList k f.body)).sum := by
  obtain ⟨l, e, _, c, _, _⟩ := analyze_errs k u
  have hp : (exitErr k).plain = true := by cases k <;> rfl
  rw [e, count_text _ hp, List.count_append, List.count_append, c]
  have h1 : ((repeatedNames [] u.functions).map SemErr.duplicate).count (exitErr k) = 0 := by
    apply List.count_eq_zero_of_not_mem
    cases k <;> simp [exitErr]
  have h2 : (if mainDefined u.functions = true then [] else [SemErr.missingMain]).count
      (exitErr k) = 0 := by
    split <;> cases k <;> simp [exitErr]
  rw [h1, h2]
  simp

/-! ## Theorems for the specification's claims -/

/-- C1 (evaluation at a failing input): for `int main(){ if (1) { int x = 1; x = 2;
return x; } return 0; }` the analyzer returns `true`, yet the generator's symbol table for
`main` has no entry for `x`, because `collectLocalVariables` does not descend into the
body of the `if`: the emitted code has no `sw` for the initialised declaration of `x`,
none for the assignment to `x`, and no `lw` for the use of `x` before the first
`mv a0, t0`. -/
theorem unresolved_local_in_if_body :
    (SemanticAnalyzer.fresh.analyze unitIfLocal).1 = true ∧
      mapFind (RISCVCodeGenerator.fresh.generate (SemanticAnalyzer.fresh.analyze unitIfLocal).2.2
        (buildFunctionTable [] (SemanticAnalyzer.fresh.analyze unitIfLocal).2.2.functions)
        ).symbolTable "x" = none ∧
      (compile unitIfLocal).map instrsOf = some
        [.raw ".text", .raw ".globl main",
          .addi "sp" "sp" (-8), .sw "ra" 4 "sp", .sw "fp" 0 "sp", .addi "fp" "sp" 8,
          .addi "t0" "zero" 1, .beqz "t0" "if_end1",
          .addi "t0" "zero" 1,
          .addi "t0" "zero" 2,
          .mv "a0" "t0", .lw "ra" 4 "sp", .lw "fp" 0 "sp", .addi "sp" "sp" 8, .jr "ra",
          .addi "t0" "zero" 0,
          .mv "a0" "t0", .lw "ra" 4 "sp", .lw "fp" 0 "sp", .addi "sp" "sp" 8, .jr "ra",
          .raw ""] := by
  decide

/-- C2 (evaluation at the failing input): for `int main(){ int x=1; { int x=2; } return x; }`
the analyzer returns `true` and the frame has room for two locals (`F = 16`), but the
generator's symbol table is keyed by name only, so the inner declaration overwrites the
entry of the outer one: the values 1 and 2 are both stored to `-8(fp)` and the `return`
loads `-8(fp)`, the slot that holds 2. -/
theorem shadowed_local_shares_slot :
    (SemanticAnalyzer.fresh.analyze unitShadow).1 = true ∧
      (compile unitShadow).map instrsOf = some
        [.raw ".text", .raw ".globl main",
          .addi "sp" "sp" (-16), .sw "ra" 12 "sp", .sw "fp" 8 "sp", .addi "fp" "sp" 16,
          .addi "t0" "zero" 1, .sw "t0" (-8) "fp",
          .addi "t0" "zero" 2, .sw "t0" (-8) "fp",
          .lw "t0" (-8) "fp", .mv "a0" "t0",
          .lw "ra" 12 "sp", .lw "fp" 8 "sp", .addi "sp" "sp" 16, .jr "ra",
          .raw ""] := by
  decide

/-- C3: for every 32-bit signed `v` and every register `r` other than the hard-wired
`zero`, `loadImmediate(v, r)` appends a sequence `code` of instructions that the RV32
semantics of `addi` and `lui` can execute (every immediate fits its field) and that leaves
`v` in `r` and every other register as it was; `code` is the single `addi r, zero, v` when
`-2048 <= v <= 2047`, and otherwise `lui r, upper` followed by `addi r, r, lower`, the
`addi` being omitted exactly when `lower = 0`, with `lower` in `[-2048, 2047]`,
`upper = (v + 0x800) >> 12` computed with 32-bit wrap-around, and `upper * 4096 + lower`
congruent to `v` modulo `2^32`. -/
theorem loadImmediate_computes_value (g : RISCVCodeGenerator) (v : Int) (r : String)
    (hlo : -2147483648 ≤ v) (hhi : v ≤ 2147483647) (hr : r ≠ "zero") :
    ∃ code : List Instr,
      (g.loadImmediate v r).output = g.output ++ code.map Line.instr ∧
      (∀ rf : String → Int, ∃ rf1, execImms code rf = some rf1 ∧ rf1 r = v ∧
        ∀ x, x ≠ r → rf1 x = rf x) ∧
      ((-2048 ≤ v ∧ v ≤ 2047) → code = [Instr.addi r "zero" v]) ∧
      (¬ (-2048 ≤ v ∧ v ≤ 2047) → ∃ upper lower : Int,
        -2048 ≤ lower ∧ lower ≤ 2047 ∧
        (upper * 4096 + lower - v) % 4294967296 = 0 ∧
        upper = wrap32 (v + 0x800) >>> (12 : Nat) ∧
        code = if lower = 0 then [Instr.lui r upper]
          else [Instr.lui r upper, Instr.addi r r lower]) := by
  rw [loadImmediate_output]
  by_cases h : v ≥ -2048 ∧ v ≤ 2047
  · refine ⟨[Instr.addi r "zero" v], by simp [h], ?_, fun _ => rfl, fun hn => absurd ⟨h.1, h.2⟩ hn⟩
    intro rf
    refine ⟨writeReg rf r (readReg rf "zero" + v), ?_, ?_, ?_⟩
    · have h1 : -2048 ≤ v := h.1
      simp [execImms, execImm, h1, h.2]
    · simp [writeReg, readReg, hr, wrap32]; omega
    · intro x hx; simp [writeReg, hx]
  · have hup : wrap32 (v + 2048) >>> (12 : Nat) = wrap32 (v + 2048) / 4096 := shiftRight_12 _
    have hU1 : -524288 ≤ wrap32 (v + 2048) / 4096 := by unfold wrap32; omega
    have hU2 : wrap32 (v + 2048) / 4096 ≤ 1048575 := by unfold wrap32; omega
    simp only [h, if_false]
    by_cases hge : v % 4096 ≥ 2048
    · have hne : v % 4096 - 4096 ≠ 0 := by omega
      simp only [hge, if_true, hne, ne_eq, not_false_eq_true]
      refine ⟨[Instr.lui r (wrap32 (v + 2048) / 4096), Instr.addi r r (v % 4096 - 4096)],
        by simp, ?_, fun hn => hn.elim, fun _ => ⟨wrap32 (v + 2048) / 4096, v % 4096 - 4096,
          by omega, by omega, by unfold wrap32; omega, hup.symm, by simp [hne]⟩⟩
      intro rf
      have hl1 : -2048 ≤ v % 4096 - 4096 := by omega
      have hl2 : v % 4096 - 4096 ≤ 2047 := by omega
      refine ⟨_, by simp only [execImms, execImm, hU1, hU2, hl1, hl2, and_self, if_true]; rfl, ?_, ?_⟩
      · simp only [writeReg, readReg, hr, ne_eq, not_false_eq_true, and_self, if_true, if_false]
        unfold wrap32; omega
      · intro x hx; simp [writeReg, hx]
    · simp only [hge, if_false]
      by_cases hz : v % 4096 = 0
      · simp only [hz, ne_eq, not_true_eq_false, if_false]
        refine ⟨[Instr.lui r (wrap32 (v + 2048) / 4096)],
          by simp, ?_, fun hn => hn.elim, fun _ => ⟨wrap32 (v + 2048) / 4096, 0,
            by omega, by omega, by unfold wrap32; omega, hup.symm, by simp⟩⟩
        intro rf
        refine ⟨_, by simp only [execImms, execImm, hU1, hU2, and_self, if_true]; rfl, ?_, ?_⟩
        · simp only [writeReg, hr, ne_eq, not_false_eq_true, and_self, if_true]
          unfold wrap32; omega
        · intro x hx; simp [writeReg, hx]
      · simp only [hz, ne_eq, not_false_eq_true, if_true]
        refine ⟨[Instr.lui r (wrap32 (v + 2048) / 4096), Instr.addi r r (v % 4096)],
          by simp, ?_, fun hn => hn.elim, fun _ => ⟨wrap32 (v + 2048) / 4096, v % 4096,
            by omega, by omega, by unfold wrap32; omega, hup.symm, by simp [hz]⟩⟩
        intro rf
        have hl1 : -2048 ≤ v % 4096 := by omega
        have hl2 : v % 4096 ≤ 2047 := by omega
        refine ⟨_, by simp only [execImms, execImm, hU1, hU2, hl1, hl2, and_self, if_true]; rfl, ?_, ?_⟩
        · simp only [writeReg, readReg, hr, ne_eq, not_false_eq_true, and_self, if_true, if_false]
          unfold wrap32; omega
        · intro x hx; simp [writeReg, hx]

/-- C3 at `v = -2049` and `r = t0` (the sequence is `lui t0, -1; addi t0, t0, 2047`). -/
theorem loadImmediate_computes_value_witness :
    (-2147483648 ≤ (-2049 : Int) ∧ (-2049 : Int) ≤ 2147483647 ∧ "t0" ≠ "zero") ∧
    ∃ code : List Instr,
      ((RISCVCodeGenerator.fresh).loadImmediate (-2049) "t0").output
        = (RISCVCodeGenerator.fresh).output ++ code.map Line.instr ∧
      (∀ rf : String → Int, ∃ rf1, execImms code rf = some rf1 ∧ rf1 "t0" = -2049 ∧
        ∀ x, x ≠ "t0" → rf1 x = rf x) ∧
      ((-2048 ≤ (-2049 : Int) ∧ (-2049 : Int) ≤ 2047) →
        code = [Instr.addi "t0" "zero" (-2049)]) ∧
      (¬ (-2048 ≤ (-2049 : Int) ∧ (-2049 : Int) ≤ 2047) → ∃ upper lower : Int,
        -2048 ≤ lower ∧ lower ≤ 2047 ∧
        (upper * 4096 + lower - (-2049)) % 4294967296 = 0 ∧
        upper = wrap32 (-2049 + 0x800) >>> (12 : Nat) ∧
        code = if lower = 0 then [Instr.lui "t0" upper]
          else [Instr.lui "t0" upper, Instr.addi "t0" "t0" lower]) :=
  ⟨by decide, loadImmediate_computes_value RISCVCodeGenerator.fresh (-2049) "t0"
    (by decide) (by decide) (by decide)⟩

/-- C4 (evaluation at a failing input): the body of
`int main(){ if (1) { int x = 1; x = 2; return x; } return 0; }`, which the analyzer
accepts, has one `VarDecl`, so the claimed frame size is `align_up(8 + 4*1, 8) = 16`;
`calculateFrameSize` returns 8, because `collectLocalVariables` only descends into blocks
that are statements of a block, not into the bodies of `if` and `while`. -/
theorem frameSize_misses_if_local :
    (SemanticAnalyzer.fresh.analyze unitIfLocal).1 = true ∧
      (unitIfLocal.functions.map (fun f => countVarDeclsList f.body)) = [1] ∧
      alignUp (8 + 4 * 1) 8 = 16 ∧
      (unitIfLocal.functions.map
        (fun f => (RISCVCodeGenerator.fresh.calculateFrameSize f.parameters f.body).1)) = [8] := by
  decide

/-- C5: for every generator state, parameter list and function body, the frame size
returned by `calculateFrameSize` is a multiple of 8 and at least 8, as long as the offset
counter of `collectLocalVariables` stays in the range where `8 - offset + 7` fits a 32-bit
`int` (fewer than about `2^29` locals; beyond it the C++ arithmetic overflows). -/
theorem frameSize_aligned (g : RISCVCodeGenerator) (params : List Parameter)
    (body : List Stmt)
    (h : -2147483632 ≤ (g.collectLocalVariables [] 0 body).2.2) :
    (g.calculateFrameSize params body).1 % 8 = 0 ∧
      8 ≤ (g.calculateFrameSize params body).1 := by
  rw [calculateFrameSize_eq g params body h]
  unfold alignUp
  omega

/-- C5 at a body with three locals, one of them in a nested block, and one parameter. -/
theorem frameSize_aligned_witness :
    -2147483632 ≤ (RISCVCodeGenerator.fresh.collectLocalVariables [] 0
        [.varDecl "x" none, .block [.varDecl "y" none, .varDecl "z" none]]).2.2 ∧
      (RISCVCodeGenerator.fresh.calculateFrameSize [⟨"a", .INT⟩]
        [.varDecl "x" none, .block [.varDecl "y" none, .varDecl "z" none]]).1 % 8 = 0 ∧
      8 ≤ (RISCVCodeGenerator.fresh.calculateFrameSize [⟨"a", .INT⟩]
        [.varDecl "x" none, .block [.varDecl "y" none, .varDecl "z" none]]).1 :=
  ⟨by decide, frameSize_aligned RISCVCodeGenerator.fresh [⟨"a", .INT⟩]
    [.varDecl "x" none, .block [.varDecl "y" none, .varDecl "z" none]] (by decide)⟩

/-- C6 fails as stated: the unit
`int if_else0(){ return 0; }  int main(){ if (1) {} else {} return 0; }` is accepted by the
analyzer, and the output of `generate` has the label line `if_else0:` twice, once for the
function and once for the else-branch of the `if`. -/
theorem label_clash_with_function_name :
    (SemanticAnalyzer.fresh.analyze unitLabelClash).1 = true ∧
      ¬ (labelsOf (RISCVCodeGenerator.fresh.generate
          (SemanticAnalyzer.fresh.analyze unitLabelClash).2.2
          (buildFunctionTable [] (SemanticAnalyzer.fresh.analyze unitLabelClash).2.2.functions)
        ).output).Nodup := by
  decide

/-- C6 amended: for every compilation unit accepted by the analyzer in which no function
is named like a generated label (one of the eight prefixes followed by a decimal number),
the label lines in the output of `generate`, function-name labels and generated labels
taken together, are pairwise distinct; this holds whatever function table is passed. -/
theorem labels_distinct (u : CompilationUnit) (fns : List (String × FunctionInfo))
    (h : (SemanticAnalyzer.fresh.analyze u).1 = true)
    (hn : ∀ f ∈ u.functions, ∀ p ∈ labelPrefixes, ∀ n : Nat, f.name ≠ p ++ toString n) :
    (labelsOf (RISCVCodeGenerator.fresh.generate
      (SemanticAnalyzer.fresh.analyze u).2.2 fns).output).Nodup := by
  have acc := analyze_accepted u h
  obtain ⟨ls, k, p, f⟩ := generate_labels RISCVCodeGenerator.fresh
    (SemanticAnalyzer.fresh.analyze u).2.2 fns
  rw [p.nodup_iff, acc.names, List.nodup_append]
  refine ⟨acc.nodup, f.1, ?_⟩
  intro x hx1 hx2
  obtain ⟨fd, hfd, hname⟩ := List.mem_map.mp hx1
  obtain ⟨q, hq, n, _, _, e⟩ := f.2 x hx2
  exact hn fd hfd q hq n (hname.trans e)

/-- C6 amended, at `unitSample` (functions `add`, `noop`, `main`; a `while` and an `if`
with `else`, so four generated labels are written). -/
theorem labels_distinct_witness :
    (SemanticAnalyzer.fresh.analyze unitSample).1 = true ∧
      (labelsOf (RISCVCodeGenerator.fresh.generate
        (SemanticAnalyzer.fresh.analyze unitSample).2.2 []).output).Nodup :=
  ⟨by decide, labels_distinct unitSample [] (by decide) (by
    intro f hf
    apply not_generated_of_no_digit
    simp only [unitSample, List.mem_cons, List.mem_singleton, List.not_mem_nil, or_false] at hf
    rcases hf with rfl | rfl | rfl <;> decide)⟩

/-- C7: if `analyze` returns `true` on a unit (fresh analyzer), then in every function
every `Ident` and every `Assign` target names a variable visible at its place: a parameter
of the function or a `VarDecl` that precedes the use (or whose initializer contains it) in
the same block or an enclosing block. -/
theorem accepted_names_resolve (u : CompilationUnit)
    (h : (SemanticAnalyzer.fresh.analyze u).1 = true) :
    ∀ f ∈ u.functions,
      resolvesStmts (f.parameters.map (fun p => p.name)) f.body = true := by
  intro f hf
  have := ((analyze_accepted u h).funs f hf).resolves
  simpa using this

/-- C7 at `unitSample`. -/
theorem accepted_names_resolve_witness :
    (SemanticAnalyzer.fresh.analyze unitSample).1 = true ∧
      ∀ f ∈ unitSample.functions,
        resolvesStmts (f.parameters.map (fun p => p.name)) f.body = true :=
  ⟨by decide, accepted_names_resolve unitSample (by decide)⟩

/-- C8: if `analyze` returns `true` on a unit (fresh analyzer), then the analysed unit has
the same `Call` nodes as the given one (same callee names and argument counts, in the same
order), and for every one of them the callee name is in the function table, the number of
arguments equals the number of parameter types recorded there, and `returnType` has been
set to the recorded return type; the table entry is that of a function definition of the
unit with this name, this number of parameters and this return type. -/
theorem accepted_calls_checked (u : CompilationUnit)
    (h : (SemanticAnalyzer.fresh.analyze u).1 = true) :
    (callsOfUnit (SemanticAnalyzer.fresh.analyze u).2.2).map callSite
        = (callsOfUnit u).map callSite ∧
      ∀ c ∈ callsOfUnit (SemanticAnalyzer.fresh.analyze u).2.2,
        ∃ info, mapFind (SemanticAnalyzer.fresh.analyze u).2.1.functions c.1 = some info ∧
          c.2.1 = info.paramTypes.length ∧ c.2.2 = info.returnType ∧
          ∃ f ∈ u.functions, f.name = c.1 ∧ c.2.1 = f.parameters.length ∧
            c.2.2 = f.returnType := by
  refine ⟨analyze_sites _ u, ?_⟩
  intro c hc
  have acc := analyze_accepted u h
  obtain ⟨info, h1, h2, h3⟩ := acc.calls c hc
  obtain ⟨f, hf, hn, hi⟩ := acc.tableOnly c.1 info h1
  refine ⟨info, h1, h2, h3, f, hf, hn, ?_, ?_⟩
  · rw [h2, hi]; simp [infoOf]
  · rw [h3, hi]; rfl

/-- C8 at `unitSample`, whose two calls come from the parser with the wrong `returnType`. -/
theorem accepted_calls_checked_witness :
    (SemanticAnalyzer.fresh.analyze unitSample).1 = true ∧
    (callsOfUnit (SemanticAnalyzer.fresh.analyze unitSample).2.2).map callSite
        = (callsOfUnit unitSample).map callSite ∧
      ∀ c ∈ callsOfUnit (SemanticAnalyzer.fresh.analyze unitSample).2.2,
        ∃ info, mapFind (SemanticAnalyzer.fresh.analyze unitSample).2.1.functions c.1
            = some info ∧
          c.2.1 = info.paramTypes.length ∧ c.2.2 = info.returnType ∧
          ∃ f ∈ unitSample.functions, f.name = c.1 ∧ c.2.1 = f.parameters.length ∧
            c.2.2 = f.returnType :=
  ⟨by decide, accepted_calls_checked unitSample (by decide)⟩

/-- C9: if `analyze` returns `true` on a unit (fresh analyzer), then the function names of
the unit are pairwise distinct, exactly one function is named `main`, and it has return
type `INT` and no parameters. -/
theorem accepted_unique_main (u : CompilationUnit)
    (h : (SemanticAnalyzer.fresh.analyze u).1 = true) :
    (u.functions.map (fun f => f.name)).Nodup ∧
      (u.functions.map (fun f => f.name)).count "main" = 1 ∧
      ∀ f ∈ u.functions, f.name = "main" →
        f.returnType = VType.INT ∧ f.parameters = [] := by
  have acc := analyze_accepted u h
  obtain ⟨m, hm, hn, hr, hp⟩ := acc.main
  refine ⟨acc.nodup, ?_, ?_⟩
  · apply List.count_eq_one_of_mem acc.nodup
    exact List.mem_map.mpr ⟨m, hm, hn⟩
  · intro f hf hfn
    have h1 := acc.table f hf
    have h2 := acc.table m hm
    rw [hfn] at h1
    rw [hn, h1] at h2
    have h3 := Option.some.inj h2
    simp only [infoOf, FunctionInfo.mk.injEq] at h3
    refine ⟨h3.2.1.trans hr, ?_⟩
    have := h3.2.2.1
    rw [hp] at this
    simpa using this

/-- C9 at `unitSample`. -/
theorem accepted_unique_main_witness :
    (SemanticAnalyzer.fresh.analyze unitSample).1 = true ∧
      (unitSample.functions.map (fun f => f.name)).Nodup ∧
      (unitSample.functions.map (fun f => f.name)).count "main" = 1 ∧
      ∀ f ∈ unitSample.functions, f.name = "main" →
        f.returnType = VType.INT ∧ f.parameters = [] :=
  ⟨by decide, accepted_unique_main unitSample (by decide)⟩

/-- C10: if `analyze` returns `true` on a unit (fresh analyzer), then no `Return` inside a
`VOID` function carries a value, every `Return` inside an `INT` function carries a value,
and every `INT` function contains at least one `Return` statement (at any depth). -/
theorem accepted_return_discipline (u : CompilationUnit)
    (h : (SemanticAnalyzer.fresh.analyze u).1 = true) :
    ∀ f ∈ u.functions,
      (f.returnType = VType.VOID → ∀ b ∈ returnValuesList f.body, b = false) ∧
      (f.returnType = VType.INT →
        (∀ b ∈ returnValuesList f.body, b = true) ∧ returnValuesList f.body ≠ []) := by
  intro f hf
  have acc := analyze_accepted u h
  have ok := acc.funs f hf
  have ht := acc.table f hf
  constructor
  · intro hv b hb
    exact (ok.returns (infoOf f) ht b hb).1 hv
  · intro hi
    exact ⟨fun b hb => (ok.returns (infoOf f) ht b hb).2 hi, ok.hasReturn hi⟩

/-- C10 at `unitSample` (`noop` is `VOID` with a bare `return`, `add` and `main` are
`INT`). -/
theorem accepted_return_discipline_witness :
    (SemanticAnalyzer.fresh.analyze unitSample).1 = true ∧
      ∀ f ∈ unitSample.functions,
        (f.returnType = VType.VOID → ∀ b ∈ returnValuesList f.body, b = false) ∧
        (f.returnType = VType.INT →
          (∀ b ∈ returnValuesList f.body, b = true) ∧ returnValuesList f.body ≠ []) :=
  ⟨by decide, accepted_return_discipline unitSample (by decide)⟩

/-- C11: analysed by a fresh analyzer, a unit gets one error `Function '<n>' is already
declared` for each definition whose name repeats that of an earlier definition, in the
order of the definitions and before every other error, no other error has this form, and
the function table holds for each name the signature of its first definition; the unit
`int f(){return 0;} int f(){return 1;} int main(){return 0;}` gets exactly one error. -/
theorem duplicate_function_errors :
    (∀ u : CompilationUnit, ∃ others : List String,
      (SemanticAnalyzer.fresh.analyze u).2.1.errors =
        (repeatedNames [] u.functions).map
          (fun n => "Function '" ++ n ++ "' is already declared") ++ others ∧
      (∀ n, "Function '" ++ n ++ "' is already declared" ∉ others) ∧
      ∀ n, mapFind (SemanticAnalyzer.fresh.analyze u).2.1.functions n =
        (firstDefinition u.functions n).map infoOf) ∧
    (SemanticAnalyzer.fresh.analyze unitTwiceF).2.1.errors =
      ["Function 'f' is already declared"] := by
  refine ⟨fun u => ?_, by decide⟩
  obtain ⟨l, e, p, _, _, t⟩ := analyze_errs true u
  refine ⟨((if mainDefined u.functions = true then [] else [SemErr.missingMain]) ++ l).map
    SemErr.text, ?_, ?_, t⟩
  · rw [e]
    simp only [List.map_append, List.map_map, List.append_assoc]
    rfl
  · intro n hn
    have hmem := mem_map_text (x := SemErr.duplicate n) rfl hn
    rcases List.mem_append.mp hmem with h | h
    · split at h
      · exact absurd h (List.not_mem_nil _)
      · simp at h
    · have := p _ h
      simp [SemErr.ofFunction, SemErr.ofBody, SemErr.ofStmt, SemErr.ofExpr] at this

/-- C12: analysed by a fresh analyzer, a unit has the error `Missing main function with
signature: int main()` exactly when it has no definition named `main` or the first one does
not return `int` without parameters, and the error occurs at most once; the unit
`int foo(){return 0;}` gets exactly this error. -/
theorem missing_main_error :
    (∀ u : CompilationUnit,
      ("Missing main function with signature: int main()" ∈
          (SemanticAnalyzer.fresh.analyze u).2.1.errors ↔ mainDefined u.functions = false) ∧
      (SemanticAnalyzer.fresh.analyze u).2.1.errors.count
        "Missing main function with signature: int main()" ≤ 1) ∧
    (SemanticAnalyzer.fresh.analyze unitFoo).2.1.errors =
      ["Missing main function with signature: int main()"] := by
  refine ⟨fun u => ?_, by decide⟩
  obtain ⟨l, e, p, _, _, _⟩ := analyze_errs true u
  have hl : SemErr.missingMain ∉ l := fun h => by
    have := p _ h
    simp [SemErr.ofFunction, SemErr.ofBody, SemErr.ofStmt, SemErr.ofExpr] at this
  have hd : SemErr.missingMain ∉ (repeatedNames [] u.functions).map SemErr.duplicate := by
    simp
  have hc : (SemanticAnalyzer.fresh.analyze u).2.1.errors.count
      "Missing main function with signature: int main()" =
      if mainDefined u.functions = true then 0 else 1 := by
    rw [e]
    have := count_text SemErr.missingMain rfl
      ((repeatedNames [] u.functions).map SemErr.duplicate ++
        (if mainDefined u.functions = true then [] else [SemErr.missingMain]) ++ l)
    rw [show SemErr.missingMain.text = "Missing main function with signature: int main()"
      from rfl] at this
    rw [this, List.count_append, List.count_append, List.count_eq_zero_of_not_mem hl,
      List.count_eq_zero_of_not_mem hd]
    split <;> simp
  constructor
  · rw [← List.count_pos_iff, hc]
    cases mainDefined u.functions <;> simp
  · rw [hc]
    split <;> simp

/-- C13: analysed by a fresh analyzer, a unit gets as many errors `break statement not
within a loop` as it has `Break` statements outside the body of every `While` of their
function, and as many errors `continue statement not within a loop` as it has such
`Continue` statements; the unit `int main(){ break; return 0; }` gets exactly the error
of the `Break`. -/
theorem stray_exit_errors :
    (∀ u : CompilationUnit,
      (SemanticAnalyzer.fresh.analyze u).2.1.errors.count "break statement not within a loop" =
        (u.functions.map (fun f => strayExitsList true f.body)).sum ∧
      (SemanticAnalyzer.fresh.analyze u).2.1.errors.count
          "continue statement not within a loop" =
        (u.functions.map (fun f => strayExitsList false f.body)).sum) ∧
    (SemanticAnalyzer.fresh.analyze unitStrayBreak).2.1.errors =
      ["break statement not within a loop"] := by
  have key : ∀ (k : Bool) (u : CompilationUnit),
      (SemanticAnalyzer.fresh.analyze u).2.1.errors.count (exitErr k).text =
        (u.functions.map (fun f => strayExitsList k f.body)).sum := by
    intro k u
    obtain ⟨l, e, _, c, _, _⟩ := analyze_errs k u
    have hp : (exitErr k).plain = true := by cases k <;> rfl
    rw [e, count_text _ hp, List.count_append, List.count_append, c]
    have h1 : ((repeatedNames [] u.functions).map SemErr.duplicate).count (exitErr k) = 0 := by
      apply List.count_eq_zero_of_not_mem
      cases k <;> simp [exitErr]
    have h2 : (if mainDefined u.functions = true then [] else [SemErr.missingMain]).count
        (exitErr k) = 0 := by
      split <;> cases k <;> simp [exitErr]
    rw [h1, h2]
    simp
  exact ⟨fun u => ⟨key true u, key false u⟩, by decide⟩

/-- C14: the visit of a function definition adds the error `Function '<n>' must return a
value`, after the errors of its parameters and body and once, exactly when the function
returns `int` and its body has no `Return` statement at any depth; no other error of the
visit has this form, so a unit has this error for the name `n` as often as it has such
definitions named `n`. -/
theorem must_return_error :
    (∀ (a : SemanticAnalyzer) (f : FunctionDefinition), ∃ l : List String,
      (visitFunction a f).1.errors = a.errors ++ l ++
        (if f.returnType = VType.INT ∧ returnValuesList f.body = [] then
          ["Function '" ++ f.name ++ "' must return a value"] else []) ∧
      ∀ n, "Function '" ++ n ++ "' must return a value" ∉ l) ∧
    ∀ (u : CompilationUnit) (n : String),
      (SemanticAnalyzer.fresh.analyze u).2.1.errors.count
          ("Function '" ++ n ++ "' must return a value") =
        u.functions.countP (fun f => decide (f.name = n) && missingReturn f) := by
  constructor
  · intro a f
    obtain ⟨l, e, p, _⟩ := visitFunction_errs true f a
    refine ⟨l.map SemErr.text, ?_, ?_⟩
    · rw [e, List.map_append, ← List.append_assoc]
      congr 1
      by_cases hm : missingReturn f = true
      · have hm1 := hm
        simp only [missingReturn, Bool.and_eq_true, decide_eq_true_eq, List.isEmpty_iff] at hm1
        rw [if_pos hm, if_pos hm1]
        rfl
      · have hm1 : ¬ (f.returnType = VType.INT ∧ returnValuesList f.body = []) := by
          intro h
          apply hm
          simp [missingReturn, h.1, h.2]
        rw [if_neg hm, if_neg hm1]
        rfl
    · intro n hn
      have := p _ (mem_map_text (x := SemErr.mustReturn n) rfl hn)
      simp [SemErr.ofBody, SemErr.ofStmt, SemErr.ofExpr] at this
  · intro u n
    obtain ⟨l, e, _, _, m, _⟩ := analyze_errs true u
    have := count_text (SemErr.mustReturn n) rfl
      ((repeatedNames [] u.functions).map SemErr.duplicate ++
        (if mainDefined u.functions = true then [] else [SemErr.missingMain]) ++ l)
    rw [show (SemErr.mustReturn n).text = "Function '" ++ n ++ "' must return a value"
      from rfl] at this
    rw [e, this, List.count_append, List.count_append, m n]
    have h1 : ((repeatedNames [] u.functions).map SemErr.duplicate).count
        (SemErr.mustReturn n) = 0 := by
      apply List.count_eq_zero_of_not_mem
      simp
    have h2 : (if mainDefined u.functions = true then [] else [SemErr.missingMain]).count
        (SemErr.mustReturn n) = 0 := by
      split <;> simp
    rw [h1, h2]
    simp

/-- C15, counterexample: in `int f(int a) { return a; } int main() { return f(x, y); }` the
call has the wrong number of arguments and both arguments are undeclared names, and the
only error is that of the argument count: the arguments are not visited. -/
theorem arity_error_skips_arguments :
    (SemanticAnalyzer.fresh.analyze unitArity).2.1.errors =
        ["Function 'f' expects 1 arguments, got 2"] ∧
      "Undefined variable 'x'" ∉ (SemanticAnalyzer.fresh.analyze unitArity).2.1.errors := by
  decide

/-- C15, amended: a `Call` whose argument count differs from the parameter count of the
callee adds exactly the error of the count, is left as it is, and its arguments are not
visited. No error stops the visits of the statements and functions that follow: the visit
of a statement or of a function definition appends to the errors recorded before what it
finds with no error recorded, and the state it leaves and the node it returns do not depend
on these errors; the errors after a statement list or a list of function definitions are
the earlier ones, what the first visit finds, and what the visits of the others find from
the state that the first leaves; every `Break` and `Continue` outside a loop is reported
whatever other errors the unit has; and in `int f(int a) { return a; } int g() { f(x, y); z = 1; break; return w; }
int main() { return v; }` the error of the count is followed by those of the later
statements of `g` and of `main`. -/
theorem arity_error_only (a : SemanticAnalyzer) (fn : String) (args : List Expr)
    (rt : VType) (info : FunctionInfo) (hf : mapFind a.functions fn = some info)
    (hn : args.length ≠ info.paramTypes.length) :
    visitExpr a (.call fn args rt) =
        (a.addError ("Function '" ++ fn ++ "' expects " ++ toString info.paramTypes.length ++
          " arguments, got " ++ toString args.length), .call fn args rt) ∧
    (∀ (s : Stmt) (b c : SemanticAnalyzer), SameButErrors b c →
      (visitStmt b s).1.errors = b.errors ++ errorsFound b (fun x => (visitStmt x s).1) ∧
      SameButErrors (visitStmt b s).1 (visitStmt c s).1 ∧
      (visitStmt b s).2 = (visitStmt c s).2) ∧
    (∀ (f : FunctionDefinition) (b c : SemanticAnalyzer), SameButErrors b c →
      (visitFunction b f).1.errors =
        b.errors ++ errorsFound b (fun x => (visitFunction x f).1) ∧
      SameButErrors (visitFunction b f).1 (visitFunction c f).1 ∧
      (visitFunction b f).2 = (visitFunction c f).2) ∧
    (∀ (s : Stmt) (ss : List Stmt) (b : SemanticAnalyzer),
      (visitStmts b (s :: ss)).1.errors =
        b.errors ++ errorsFound b (fun x => (visitStmt x s).1) ++
          errorsFound (visitStmt b s).1 (fun x => (visitStmts x ss).1)) ∧
    (∀ (f : FunctionDefinition) (fs : List FunctionDefinition) (b : SemanticAnalyzer),
      (visitFunctions b (f :: fs)).1.errors =
        b.errors ++ errorsFound b (fun x => (visitFunction x f).1) ++
          errorsFound (visitFunction b f).1 (fun x => (visitFunctions x fs).1)) ∧
    (∀ u : CompilationUnit,
      (SemanticAnalyzer.fresh.analyze u).2.1.errors.count "break statement not within a loop" =
        (u.functions.map (fun f => strayExitsList true f.body)).sum ∧
      (SemanticAnalyzer.fresh.analyze u).2.1.errors.count
          "continue statement not within a loop" =
        (u.functions.map (fun f => strayExitsList false f.body)).sum) ∧
    (SemanticAnalyzer.fresh.analyze unitArityThenMore).2.1.errors =
      ["Function 'f' expects 1 arguments, got 2", "Undefined variable 'z'",
        "break statement not within a loop", "Undefined variable 'w'",
        "Undefined variable 'v'"] := by
  refine ⟨?_, ?_, ?_, ?_, ?_, fun u => ⟨analyze_exit_count true u, analyze_exit_count false u⟩,
    by decide⟩
  · unfold visitExpr
    simp only [hf]
    rw [if_pos hn]
  · intro s b c h
    have h1 := errorsFound_spec (fun x => (visitStmt x s).1)
      (fun x y hxy => (visitStmt_inStep s x y hxy).1) b c h
    exact ⟨h1.1, h1.2, (visitStmt_inStep s b c h).2⟩
  · intro f b c h
    have h1 := errorsFound_spec (fun x => (visitFunction x f).1)
      (fun x y hxy => (visitFunction_inStep f x y hxy).1) b c h
    exact ⟨h1.1, h1.2, (visitFunction_inStep f b c h).2⟩
  · intro s ss b
    have h1 := errorsFound_spec (fun x => (visitStmt x s).1)
      (fun x y hxy => (visitStmt_inStep s x y hxy).1) b b (SameButErrors.reflS b)
    have h2 := errorsFound_spec (fun x => (visitStmts x ss).1)
      (fun x y hxy => (visitStmts_inStep ss x y hxy).1) (visitStmt b s).1 (visitStmt b s).1
      (SameButErrors.reflS _)
    show (visitStmts (visitStmt b s).1 ss).1.errors = _
    rw [h2.1, h1.1]
  · intro f fs b
    have h1 := errorsFound_spec (fun x => (visitFunction x f).1)
      (fun x y hxy => (visitFunction_inStep f x y hxy).1) b b (SameButErrors.reflS b)
    have h2 := errorsFound_spec (fun x => (visitFunctions x fs).1)
      (fun x y hxy => (visitFunctions_inStep fs x y hxy).1) (visitFunction b f).1
      (visitFunction b f).1 (SameButErrors.reflS _)
    show (visitFunctions (visitFunction b f).1 fs).1.errors = _
    rw [h2.1, h1.1]

/-- C15 amended, at the call `f(x, y)` for a function `f` with one parameter. -/
theorem arity_error_only_witness :
    mapFind analyzerWithF.functions "f" = some ⟨"f", .INT, [.INT], true⟩ ∧
    visitExpr analyzerWithF (.call "f" [.ident "x", .ident "y"] .INT) =
        (analyzerWithF.addError "Function 'f' expects 1 arguments, got 2",
          .call "f" [.ident "x", .ident "y"] .INT) :=
  ⟨rfl, (arity_error_only analyzerWithF "f" [.ident "x", .ident "y"] .INT
    ⟨"f", .INT, [.INT], true⟩ rfl (by decide)).1⟩

/-- C16: for `-2048 ≤ n ≤ 2047` a fresh generator writes for `int main() { return n; }`
the lines `.text`, `.globl main`, the comment, the label `main`, the prologue for the
frame size 8, `addi t0, zero, n`, `mv a0, t0`, the epilogue and the empty separator line,
and nothing else. -/
theorem return_constant_code (n : Int) (h1 : -2048 ≤ n) (h2 : n ≤ 2047)
    (fns : List (String × FunctionInfo)) :
    (RISCVCodeGenerator.fresh.generate (unitReturn n) fns).output =
      [.instr (.raw ".text"), .instr (.raw ".globl main"),
        .comment "ToyC Compiler Generated Code", .label "main", .comment "Function: main",
        .instr (.addi "sp" "sp" (-8)), .instr (.sw "ra" 4 "sp"), .instr (.sw "fp" 0 "sp"),
        .instr (.addi "fp" "sp" 8), .instr (.addi "t0" "zero" n), .instr (.mv "a0" "t0"),
        .instr (.lw "ra" 4 "sp"), .instr (.lw "fp" 0 "sp"), .instr (.addi "sp" "sp" 8),
        .instr (.jr "ra"), .instr (.raw "")] ∧
    (RISCVCodeGenerator.fresh.generate (unitReturn n) fns).output.map Line.render =
      ["    .text", "    .globl main", "    # ToyC Compiler Generated Code", "main:",
        "    # Function: main", "    addi sp, sp, -8", "    sw ra, 4(sp)", "    sw fp, 0(sp)",
        "    addi fp, sp, 8", "    addi t0, zero, " ++ toString n, "    mv a0, t0",
        "    lw ra, 4(sp)", "    lw fp, 0(sp)", "    addi sp, sp, 8", "    jr ra", "    "] := by
  have hF : and32 15 (not32 7) = 8 := by decide
  have hout : (RISCVCodeGenerator.fresh.generate (unitReturn n) fns).output =
      [.instr (.raw ".text"), .instr (.raw ".globl main"),
        .comment "ToyC Compiler Generated Code", .label "main", .comment "Function: main",
        .instr (.addi "sp" "sp" (-8)), .instr (.sw "ra" 4 "sp"), .instr (.sw "fp" 0 "sp"),
        .instr (.addi "fp" "sp" 8), .instr (.addi "t0" "zero" n), .instr (.mv "a0" "t0"),
        .instr (.lw "ra" 4 "sp"), .instr (.lw "fp" 0 "sp"), .instr (.addi "sp" "sp" 8),
        .instr (.jr "ra"), .instr (.raw "")] := by
    simp [generate, genFunctions, genFunction, unitReturn, calculateFrameSize,
      collectLocalVariables, collectLocalStmt, generateFunctionPrologue, addParameters,
      genStmts, genStmt, genReturnValue, genExpr, loadImmediate, generateFunctionEpilogue,
      emit, emitLabel, emitComment, allocTemp, RISCVCodeGenerator.fresh, h1, h2, hF,
      RegisterManager.allocateTemp, RegisterManager.allocateTempLoop, RegisterManager.fresh,
      tempRegs, savedRegs, List.range, List.range.loop]
  refine ⟨hout, ?_⟩
  rw [hout]
  simp only [List.map_cons, List.map_nil, Line.render, Instr.text]
  rfl

/-- C16 at `n = 42`. -/
theorem return_constant_code_witness :
    (RISCVCodeGenerator.fresh.generate (unitReturn 42) []).output.map Line.render =
      ["    .text", "    .globl main", "    # ToyC Compiler Generated Code", "main:",
        "    # Function: main", "    addi sp, sp, -8", "    sw ra, 4(sp)", "    sw fp, 0(sp)",
        "    addi fp, sp, 8", "    addi t0, zero, 42", "    mv a0, t0",
        "    lw ra, 4(sp)", "    lw fp, 0(sp)", "    addi sp, sp, 8", "    jr ra", "    "] :=
  (return_constant_code 42 (by decide) (by decide) []).2

/-- C17: the code of an expression, where calls are lowered, moves `sp` by a total of zero
and has no `jr ra`; the code of a function definition is its label, the prologue for its
frame size `F` and a body in which every `jr ra` comes directly after `lw ra, F-4(sp)`,
`lw fp, F-8(sp)`, `addi sp, sp, F`, while the stack-pointer adjustments before these three
lines sum to `F` for each earlier `jr ra`: they are those of the earlier epilogues, and the
others cancel. -/
theorem frame_balance :
    (∀ (e : Expr) (g : RISCVCodeGenerator), ∃ code,
      (genExpr g e).output = g.output ++ code ∧ spSum code = 0 ∧ lineReturn ∉ code) ∧
    ∀ (f : FunctionDefinition) (g : RISCVCodeGenerator), ∃ body,
      (g.genFunction f).output = g.output ++
        (Line.label f.name :: prologueLines f.name (g.genFunction f).currentFrameSize) ++
        body ∧
      ∀ pre post, body = pre ++ lineReturn :: post →
        ∃ pre1, pre = pre1 ++ epilogueHead (g.genFunction f).currentFrameSize ∧
          spSum pre1 = (g.genFunction f).currentFrameSize * (pre1.count lineReturn : Nat) := by
  constructor
  · intro e g
    exact (genExpr_step e g).output
  · intro f g
    obtain ⟨body, hb, bal⟩ := genFunction_body g f
    rw [genFunction_frameSize]
    refine ⟨body, ?_, bal.2⟩
    rw [hb, bodyEntry_output]

/-- C18: in the analysed form of an accepted unit every `Return` statement of an `INT`
function carries a value, and the code of such a statement is the code of the value,
then `mv a0, t0`, then the four lines of the epilogue, in whatever state of the generator
it is visited. -/
theorem return_moves_value (u : CompilationUnit)
    (h : (SemanticAnalyzer.fresh.analyze u).1 = true) :
    ∀ f ∈ (SemanticAnalyzer.fresh.analyze u).2.2.functions, f.returnType = VType.INT →
      ∀ v ∈ returnsOfList f.body, ∃ e, v = some e ∧
        ∀ g : RISCVCodeGenerator, ∃ code,
          (genExpr g e).output = g.output ++ code ∧
          (genStmt g (.returnS v)).output = g.output ++ code ++
            (Line.instr (.mv "a0" "t0") ::
              (epilogueHead g.currentFrameSize ++ [lineReturn])) := by
  intro f1 hf1 hi v hv
  have acc := analyze_accepted u h
  obtain ⟨f, hf, e1, e2⟩ := visitFunctions_returns u.functions _ f1 hf1
  have ok := acc.funs f hf
  have ht := acc.table f hf
  have hb : v.isSome = true := by
    have hm : v.isSome ∈ returnValuesList f.body := by
      rw [← e2, returnValuesList_eq]
      exact List.mem_map_of_mem _ hv
    exact (ok.returns (infoOf f) ht _ hm).2 (e1.symm.trans hi)
  cases v with
  | none => exact absurd hb (by simp)
  | some e => exact ⟨e, rfl, fun g => genReturn_output g e⟩

/-- C18 at `unitSample`. -/
theorem return_moves_value_witness :
    (SemanticAnalyzer.fresh.analyze unitSample).1 = true ∧
    ∀ f ∈ (SemanticAnalyzer.fresh.analyze unitSample).2.2.functions,
      f.returnType = VType.INT →
      ∀ v ∈ returnsOfList f.body, ∃ e, v = some e ∧
        ∀ g : RISCVCodeGenerator, ∃ code,
          (genExpr g e).output = g.output ++ code ∧
          (genStmt g (.returnS v)).output = g.output ++ code ++
            (Line.instr (.mv "a0" "t0") ::
              (epilogueHead g.currentFrameSize ++ [lineReturn])) :=
  ⟨by decide, return_moves_value unitSample (by decide)⟩

/-- C19: the code of `l && r` is the complete code of `l`, then the complete code of `r`,
then the branch `beqz t0, and_false<k>` and the rest of the operator; the code of `l || r`
is the code of `l`, then the code of `r`, then `bnez t0, or_true<k>` and the rest; the
unit `int crash() { return 0; } int main() { return 1 || crash(); }` is accepted and its
output has the line `call crash`. -/
theorem logical_operands_both_evaluated :
    (∀ (g : RISCVCodeGenerator) (l r : Expr), ∃ cl cr,
      (genExpr g l).output = g.output ++ cl ∧
      (genExpr (genExpr g l) r).output = (genExpr g l).output ++ cr ∧
      (genExpr g (.binary l .AND r)).output = g.output ++ cl ++ cr ++
        [.instr (.beqz "t0" ("and_false" ++ toString (genExpr (genExpr g l) r).labelCounter)),
          .instr (.beqz "t1" ("and_false" ++ toString (genExpr (genExpr g l) r).labelCounter)),
          .instr (.addi (genExpr (genExpr g l) r).allocTemp.1 "zero" 1),
          .instr (.j ("and_end" ++ toString ((genExpr (genExpr g l) r).labelCounter + 1))),
          .label ("and_false" ++ toString (genExpr (genExpr g l) r).labelCounter),
          .instr (.addi (genExpr (genExpr g l) r).allocTemp.1 "zero" 0),
          .label ("and_end" ++ toString ((genExpr (genExpr g l) r).labelCounter + 1))]) ∧
    (∀ (g : RISCVCodeGenerator) (l r : Expr), ∃ cl cr,
      (genExpr g l).output = g.output ++ cl ∧
      (genExpr (genExpr g l) r).output = (genExpr g l).output ++ cr ∧
      (genExpr g (.binary l .OR r)).output = g.output ++ cl ++ cr ++
        [.instr (.bnez "t0" ("or_true" ++ toString (genExpr (genExpr g l) r).labelCounter)),
          .instr (.bnez "t1" ("or_true" ++ toString (genExpr (genExpr g l) r).labelCounter)),
          .instr (.addi (genExpr (genExpr g l) r).allocTemp.1 "zero" 0),
          .instr (.j ("or_end" ++ toString ((genExpr (genExpr g l) r).labelCounter + 1))),
          .label ("or_true" ++ toString (genExpr (genExpr g l) r).labelCounter),
          .instr (.addi (genExpr (genExpr g l) r).allocTemp.1 "zero" 1),
          .label ("or_end" ++ toString ((genExpr (genExpr g l) r).labelCounter + 1))]) ∧
    (SemanticAnalyzer.fresh.analyze unitOrCrash).1 = true ∧
    ∃ out, compile unitOrCrash = some out ∧ Line.instr (.call "crash") ∈ out := by
  refine ⟨fun g l r => ?_, fun g l r => ?_, by decide, _, rfl, by decide⟩
  · obtain ⟨cl, cr, hl, hr, hall⟩ := genBinary_output g l r .AND
    refine ⟨cl, cr, hl, hr, ?_⟩
    rw [hall, genBinaryOp_and]
    show (genExpr (genExpr g l) r).output ++ _ = _
    rw [hr, hl]
    rfl
  · obtain ⟨cl, cr, hl, hr, hall⟩ := genBinary_output g l r .OR
    refine ⟨cl, cr, hl, hr, ?_⟩
    rw [hall, genBinaryOp_or]
    show (genExpr (genExpr g l) r).output ++ _ = _
    rw [hr, hl]
    rfl

/-- C21: on a scope whose stack is not empty, `declareVariable` returns `false` exactly
when the name is in the innermost scope, whatever the outer scopes hold; then the scope is
unchanged; otherwise the new symbol is put into the innermost scope and the outer scopes
stay as they are. -/
theorem declareVariable_innermost (s : Scope) (top : List (String × Symbol))
    (outer : List (List (String × Symbol))) (h : s.scopeStack = top :: outer)
    (name : String) (t : VType) (p : Bool) :
    ((s.declareVariable name t p).1 = false ↔ (mapFind top name).isSome = true) ∧
    ((s.declareVariable name t p).1 = false → (s.declareVariable name t p).2 = s) ∧
    (mapFind top name = none →
      (s.declareVariable name t p).1 = true ∧
      (s.declareVariable name t p).2.scopeStack =
        mapSet top name
          ⟨name, t, if p = true then s.currentOffset else s.currentOffset - 4, p⟩ :: outer) :=
  declareVariable_top s top outer h name t p

/-- C21 at a scope whose inner scope declares `x` and whose global scope declares `y`:
declaring `x` fails and changes nothing, declaring `y` succeeds and adds `y` to the inner
scope. -/
theorem declareVariable_innermost_witness :
    (scopeTwoLevels.declareVariable "x" .INT false).1 = false ∧
    (scopeTwoLevels.declareVariable "x" .INT false).2 = scopeTwoLevels ∧
    (scopeTwoLevels.declareVariable "y" .INT false).1 = true ∧
    (scopeTwoLevels.declareVariable "y" .INT false).2.scopeStack =
      [[("x", ⟨"x", .INT, -8, false⟩), ("y", ⟨"y", .INT, -12, false⟩)],
        [("y", ⟨"y", .INT, -4, false⟩)]] :=
  ⟨(declareVariable_innermost scopeTwoLevels _ _ rfl "x" .INT false).1.mpr rfl,
    (declareVariable_innermost scopeTwoLevels _ _ rfl "x" .INT false).2.1
      ((declareVariable_innermost scopeTwoLevels _ _ rfl "x" .INT false).1.mpr rfl),
    (declareVariable_innermost scopeTwoLevels _ _ rfl "y" .INT false).2.2 rfl⟩

/-- C22: `lookupVariable` returns null exactly when no scope of the stack has the name,
it returns the symbol of the innermost scope that has the name, and right after a
successful `declareVariable` it returns the symbol just declared. -/
theorem lookupVariable_innermost (s : Scope) (name : String) :
    (s.lookupVariable name = none ↔ ∀ sc ∈ s.scopeStack, mapFind sc name = none) ∧
    (∀ sym, s.lookupVariable name = some sym ↔
      ∃ inner sc outer, s.scopeStack = inner ++ sc :: outer ∧
        (∀ x ∈ inner, mapFind x name = none) ∧ mapFind sc name = some sym) ∧
    ∀ (t : VType) (p : Bool), (s.declareVariable name t p).1 = true →
      (s.declareVariable name t p).2.lookupVariable name =
        some ⟨name, t, if p = true then s.currentOffset else s.currentOffset - 4, p⟩ := by
  refine ⟨lookupIn_none _ _, lookupIn_some _ _, fun t p h => ?_⟩
  obtain ⟨top, outer, _, _, e⟩ := declareVariable_success s name t p h
  rw [e]
  simp [Scope.lookupVariable, Scope.lookupIn, mapFind_mapSet]

/-- C24: in a pool with its 19 flags, `allocateTemp` returns the register of the lowest
clear flag among t0..t6 and sets exactly that flag; it returns the empty string exactly
when the seven flags are set, and then changes nothing; the flags of s0..s11 are not
changed and do not influence the result; after seven calls the eighth returns the empty
string. -/
theorem allocateTemp_lowest_free (rm : RegisterManager) (h : rm.used.length = 19) :
    (∀ i, i < 7 → rm.used.getD i false = false →
      (∀ j, j < i → rm.used.getD j false = true) →
      rm.allocateTemp = (tempRegs.getD i "", { used := rm.used.set i true })) ∧
    (rm.allocateTemp.1 = "" ↔ ∀ i, i < 7 → rm.used.getD i false = true) ∧
    (rm.allocateTemp.1 = "" → rm.allocateTemp.2 = rm) ∧
    rm.allocateTemp.2.used.drop 7 = rm.used.drop 7 ∧
    (∀ rm1 : RegisterManager, rm1.used.take 7 = rm.used.take 7 →
      rm1.allocateTemp.1 = rm.allocateTemp.1 ∧
      rm1.allocateTemp.2.used.take 7 = rm.allocateTemp.2.used.take 7) ∧
    (allocateTimes 7 rm).allocateTemp.1 = "" := by
  have hiff : rm.allocateTemp.1 = "" ↔ ∀ i, i < 7 → rm.used.getD i false = true := by
    constructor
    · intro he
      rcases allocateTemp_cases rm with ⟨hu, _⟩ | ⟨i, hi, _, _, e⟩
      · exact hu
      · rw [e] at he
        exact absurd he (tempRegs_ne_empty i hi)
    · intro hu
      rw [allocateTemp_full rm hu]
  refine ⟨fun i hi hf hu => allocateTemp_free rm i hi hf hu, hiff, ?_, ?_, ?_, ?_⟩
  · intro he
    rw [allocateTemp_full rm (hiff.mp he)]
  · rcases allocateTemp_cases rm with ⟨_, e⟩ | ⟨i, hi, _, _, e⟩
    · rw [e]
    · rw [e]
      show (rm.used.set i true).drop 7 = _
      exact List.drop_set_of_lt _ _ hi
  · intro rm1 h1
    have hg : ∀ i, i < 7 → rm1.used.getD i false = rm.used.getD i false := by
      intro i hi
      rw [← getD_take rm1.used i hi, ← getD_take rm.used i hi, h1]
    rcases allocateTemp_cases rm with ⟨hu, e⟩ | ⟨i, hi, hf, hu, e⟩
    · rw [e, allocateTemp_full rm1 (fun i hi => (hg i hi).trans (hu i hi))]
      exact ⟨rfl, h1⟩
    · rw [e, allocateTemp_free rm1 i hi ((hg i hi).trans hf)
        (fun j hj => (hg j (by omega)).trans (hu j hj))]
      refine ⟨rfl, ?_⟩
      show (rm1.used.set i true).take 7 = (rm.used.set i true).take 7
      rw [List.set_take, List.set_take, h1]
  · have hall := allocateTimes_prefix 7 rm h (le_refl _) 0 (by omega) (by intro j hj; omega)
    rw [allocateTemp_full _ (fun i hi => hall i (by omega))]

/-- C24 at the pool of a fresh generator. -/
theorem allocateTemp_lowest_free_witness :
    RegisterManager.fresh.allocateTemp =
        ("t0", { used := RegisterManager.fresh.used.set 0 true }) ∧
      (allocateTimes 7 RegisterManager.fresh).allocateTemp.1 = "" :=
  ⟨(allocateTemp_lowest_free RegisterManager.fresh rfl).1 0 (by decide) rfl
      (fun j hj => absurd hj (Nat.not_lt_zero j)),
    (allocateTemp_lowest_free RegisterManager.fresh rfl).2.2.2.2.2⟩

/-- C25: in a pool with its 19 flags, `releaseRegister` clears the flag of the register it
names and no other, it changes nothing for a name that is neither of t0..t6 nor of
s0..s11, and `releaseAllTemp` clears the seven flags of t0..t6 and keeps the twelve flags
of s0..s11. -/
theorem release_only_named (rm : RegisterManager) (h : rm.used.length = 19) :
    (∀ i, i < 19 →
      rm.releaseRegister (registerNames.getD i "") = { used := rm.used.set i false }) ∧
    (∀ name, name ∉ registerNames → rm.releaseRegister name = rm) ∧
    rm.releaseAllTemp.used = List.replicate 7 false ++ rm.used.drop 7 := by
  refine ⟨fun i hi => ?_, fun name hn => ?_, ?_⟩
  · unfold RegisterManager.releaseRegister
    simp only [getRegisterIndex_names i hi]
    rw [if_pos (by omega)]
    simp
  · unfold RegisterManager.releaseRegister
    simp only [getRegisterIndex_other name hn]
    rw [if_neg (by decide)]
  · exact releaseAllTemp_used rm.used (by omega)

/-- C25 at the pool in which all flags are set: releasing `t3`, releasing the unknown
name `a0`, and releasing all temporaries. -/
theorem release_only_named_witness :
    (RegisterManager.releaseRegister { used := List.replicate 19 true } "t3").used =
        [true, true, true, false, true, true, true, true, true, true, true, true, true, true,
          true, true, true, true, true] ∧
      RegisterManager.releaseRegister { used := List.replicate 19 true } "a0" =
        { used := List.replicate 19 true } ∧
      (RegisterManager.releaseAllTemp { used := List.replicate 19 true }).used =
        List.replicate 7 false ++ List.replicate 12 true :=
  ⟨congrArg RegisterManager.used
      ((release_only_named { used := List.replicate 19 true } rfl).1 3 (by decide)),
    (release_only_named { used := List.replicate 19 true } rfl).2.1 "a0" (by decide),
    (release_only_named { used := List.replicate 19 true } rfl).2.2⟩

/-- C26: `analyze` visits the function definitions one after the other from the state
`analyzeEntry`, and `loopDepth` has before and after the visit of each definition the value
it had when `analyze` was called, which is 0 for a fresh analyzer; `generate` does the same
from `generateEntry`, and both label stacks are before and after the visit of each
definition as they were when `generate` was called, empty for a fresh generator; the visit
of any statement leaves `loopDepth`, and the generator's visit both label stacks, as they
were. -/
theorem loop_state_restored :
    (∀ (a : SemanticAnalyzer) (pre : List FunctionDefinition) (f : FunctionDefinition)
        (post : List FunctionDefinition),
      (a.analyze ⟨pre ++ f :: post⟩).2.1 =
          (visitFunctions (visitFunction
            (visitFunctions (analyzeEntry a ⟨pre ++ f :: post⟩) pre).1 f).1 post).1 ∧
        (visitFunctions (analyzeEntry a ⟨pre ++ f :: post⟩) pre).1.loopDepth = a.loopDepth ∧
        (visitFunction (visitFunctions (analyzeEntry a ⟨pre ++ f :: post⟩) pre).1
          f).1.loopDepth = a.loopDepth) ∧
    SemanticAnalyzer.fresh.loopDepth = 0 ∧
    (∀ (g : RISCVCodeGenerator) (pre : List FunctionDefinition) (f : FunctionDefinition)
        (post : List FunctionDefinition) (fns : List (String × FunctionInfo)),
      g.generate ⟨pre ++ f :: post⟩ fns =
          genFunctions (genFunction (genFunctions (generateEntry g fns) pre) f) post ∧
        (genFunctions (generateEntry g fns) pre).breakLabels = g.breakLabels ∧
        (genFunctions (generateEntry g fns) pre).continueLabels = g.continueLabels ∧
        (genFunction (genFunctions (generateEntry g fns) pre) f).breakLabels =
          g.breakLabels ∧
        (genFunction (genFunctions (generateEntry g fns) pre) f).continueLabels =
          g.continueLabels) ∧
    (RISCVCodeGenerator.fresh.breakLabels = [] ∧
      RISCVCodeGenerator.fresh.continueLabels = []) ∧
    (∀ (s : Stmt) (a : SemanticAnalyzer), (visitStmt a s).1.loopDepth = a.loopDepth) ∧
    (∀ (s : Stmt) (g : RISCVCodeGenerator),
      (genStmt g s).breakLabels = g.breakLabels ∧
        (genStmt g s).continueLabels = g.continueLabels) := by
  refine ⟨fun a pre f post => ?_, rfl, fun g pre f post fns => ?_, ⟨rfl, rfl⟩,
    fun s a => (visitStmt_frame s a).loopDepth,
    fun s g => ⟨(genStmt_step s g).breakLabels, (genStmt_step s g).continueLabels⟩⟩
  · have h0 := analyzeEntry_loopDepth a ⟨pre ++ f :: post⟩
    have h1 := (visitFunctions_frame pre (analyzeEntry a ⟨pre ++ f :: post⟩)).1.loopDepth
    have h2 := (visitFunction_frame f
      (visitFunctions (analyzeEntry a ⟨pre ++ f :: post⟩) pre).1).1.loopDepth
    refine ⟨?_, h1.trans h0, (h2.trans h1).trans h0⟩
    rw [analyze_entry]
    exact visitFunctions_append pre _ f post
  · have h1 := genFunctions_stacks pre (generateEntry g fns)
    have h2 := genFunction_stacks (genFunctions (generateEntry g fns) pre) f
    have e1 : (generateEntry g fns).breakLabels = g.breakLabels := rfl
    have e2 : (generateEntry g fns).continueLabels = g.continueLabels := rfl
    refine ⟨?_, h1.1.trans e1, h1.2.trans e2, (h2.1.trans h1.1).trans e1,
      (h2.2.trans h1.2).trans e2⟩
    rw [generate_entry]
    exact genFunctions_append pre _ f post

/-- C27 fails: the analyzer keeps its function table between two calls of `analyze`. For
`int main() { return 0; }` the first call returns `true` with no error, the second call on
the same analyzer returns `false` with the error that `main` is already declared; and for
every unit that a fresh analyzer accepts, a second call with a unit of the same function
names returns `false` and reports every function as already declared. -/
theorem second_analysis_differs :
    (SemanticAnalyzer.fresh.analyze unitMain).1 = true ∧
    (SemanticAnalyzer.fresh.analyze unitMain).2.1.errors = [] ∧
    ((SemanticAnalyzer.fresh.analyze unitMain).2.1.analyze
      (SemanticAnalyzer.fresh.analyze unitMain).2.2).1 = false ∧
    ((SemanticAnalyzer.fresh.analyze unitMain).2.1.analyze
      (SemanticAnalyzer.fresh.analyze unitMain).2.2).2.1.errors =
        ["Function 'main' is already declared"] ∧
    ∀ u v : CompilationUnit, (SemanticAnalyzer.fresh.analyze u).1 = true →
      v.functions.map (fun f => f.name) = u.functions.map (fun f => f.name) →
      (∃ others, ((SemanticAnalyzer.fresh.analyze u).2.1.analyze v).2.1.errors =
        v.functions.map (fun f => "Function '" ++ f.name ++ "' is already declared") ++
          others) ∧
      ((SemanticAnalyzer.fresh.analyze u).2.1.analyze v).1 = false := by
  refine ⟨by decide, by decide, by decide, by decide, fun u v h hn => analyze_again u v h hn⟩

/-- C28 fails: the generator keeps its register pool and its label counter between two
calls of `generate`. For `int main() { return 0; }` the first call loads the value into
`t0` and the second call on the same generator into `t1`; for
`int main() { if (1) {} else {} return 0; }` the labels of the first call are `if_else0`
and `if_end1` and those of the second call `if_else2` and `if_end3`. -/
theorem second_generation_differs :
    (RISCVCodeGenerator.fresh.generate unitMain []).output.map Line.render =
      ["    .text", "    .globl main", "    # ToyC Compiler Generated Code", "main:",
        "    # Function: main", "    addi sp, sp, -8", "    sw ra, 4(sp)", "    sw fp, 0(sp)",
        "    addi fp, sp, 8", "    addi t0, zero, 0", "    mv a0, t0", "    lw ra, 4(sp)",
        "    lw fp, 0(sp)", "    addi sp, sp, 8", "    jr ra", "    "] ∧
    ((RISCVCodeGenerator.fresh.generate unitMain []).generate unitMain []).output.map
        Line.render =
      ["    .text", "    .globl main", "    # ToyC Compiler Generated Code", "main:",
        "    # Function: main", "    addi sp, sp, -8", "    sw ra, 4(sp)", "    sw fp, 0(sp)",
        "    addi fp, sp, 8", "    addi t1, zero, 0", "    mv a0, t0", "    lw ra, 4(sp)",
        "    lw fp, 0(sp)", "    addi sp, sp, 8", "    jr ra", "    "] ∧
    labelsOf (RISCVCodeGenerator.fresh.generate unitIf []).output =
      ["main", "if_else0", "if_end1"] ∧
    labelsOf ((RISCVCodeGenerator.fresh.generate unitIf []).generate unitIf []).output =
      ["main", "if_else2", "if_end3"] := by
  refine ⟨by decide, by decide, by decide, by decide⟩

/-- C29 fails: `int f() { return 1; } int main() { return 2; }` is accepted, and the code
of `main` loads 2 into `t1`, because `t0` is still marked used from the `Return` of `f`,
and then moves `t0` to `a0`. -/
theorem return_reads_other_register :
    (SemanticAnalyzer.fresh.analyze unitTwoReturns).1 = true ∧
    (compile unitTwoReturns).map (fun out => out.map Line.render) =
      some ["    .text", "    .globl main", "    # ToyC Compiler Generated Code", "f:",
        "    # Function: f", "    addi sp, sp, -8", "    sw ra, 4(sp)", "    sw fp, 0(sp)",
        "    addi fp, sp, 8", "    addi t0, zero, 1", "    mv a0, t0", "    lw ra, 4(sp)",
        "    lw fp, 0(sp)", "    addi sp, sp, 8", "    jr ra", "    ", "main:",
        "    # Function: main", "    addi sp, sp, -8", "    sw ra, 4(sp)", "    sw fp, 0(sp)",
        "    addi fp, sp, 8", "    addi t1, zero, 2", "    mv a0, t0", "    lw ra, 4(sp)",
        "    lw fp, 0(sp)", "    addi sp, sp, 8", "    jr ra", "    "] := by
  refine ⟨by decide, by decide⟩

/-- C30 fails: from the pool of a fresh generator, in which all temporaries are free, the
code of `1 + 2` is `addi t0, zero, 1`, `addi t1, zero, 2`, `add t2, t0, t1`, and for each
arithmetic or relational operator every instruction after the two loads writes `t2`: the
result is left in `t2`, not in `t0`. -/
theorem binary_result_in_t2 :
    (genExpr RISCVCodeGenerator.fresh (.binary (.number 1) .ADD (.number 2))).output =
      [.instr (.addi "t0" "zero" 1), .instr (.addi "t1" "zero" 2),
        .instr (.op3 .add "t2" "t0" "t1")] ∧
    ∀ op ∈ arithmeticOps,
      (instrsOf (genExpr RISCVCodeGenerator.fresh
          (.binary (.number 1) op (.number 2))).output).take 2 =
        [.addi "t0" "zero" 1, .addi "t1" "zero" 2] ∧
      (instrsOf (genExpr RISCVCodeGenerator.fresh
          (.binary (.number 1) op (.number 2))).output).drop 2 ≠ [] ∧
      ∀ i ∈ (instrsOf (genExpr RISCVCodeGenerator.fresh
          (.binary (.number 1) op (.number 2))).output).drop 2, i.dest = some "t2" := by
  refine ⟨by decide, by decide⟩

/-- C31: with signed 32-bit values `l` in `t0` and `r` in `t1`, the instructions that
`visit(BinaryExpression&)` emits for `<`, `<=`, `>`, `>=`, `==` and `!=` run under the RV32
semantics and leave 1 in the result register when the relation holds between `l` and `r`,
and 0 when it does not; the result register is any register but `zero`. -/
theorem comparison_code_correct (g : RISCVCodeGenerator) (res : String) (hres : res ≠ "zero")
    (m : Machine) (l r : Int) (hl1 : -2147483648 ≤ l) (hl2 : l ≤ 2147483647)
    (hr1 : -2147483648 ≤ r) (hr2 : r ≤ 2147483647)
    (h0 : m.regs "t0" = l) (h1 : m.regs "t1" = r) :
    ∀ op ∈ relationalOps, ∃ code m1,
      (g.genBinaryOp op res).output = g.output ++ code.map Line.instr ∧
      execInstrs code m = some m1 ∧
      readReg m1.regs res = if relationHolds op l r = true then 1 else 0 := by
  have r0 : readReg m.regs "t0" = l := by simp [readReg, h0]
  have r1 : readReg m.regs "t1" = r := by simp [readReg, h1]
  have hz := wrap32_sub_zero l r hl1 hl2 hr1 hr2
  intro op hop
  simp only [relationalOps, List.mem_cons, List.mem_singleton, List.not_mem_nil, or_false] at hop
  rcases hop with rfl | rfl | rfl | rfl | rfl | rfl
  · refine ⟨[.op3 .slt res "t0" "t1"], _, by simp [genBinaryOp, emit], rfl, ?_⟩
    simp only [readReg_setReg _ _ _ hres, r0, r1, relationHolds, decide_eq_true_eq]
    split <;> decide
  · refine ⟨[.op3 .slt res "t1" "t0", .xori res res 1], _, by simp [genBinaryOp, emit], rfl, ?_⟩
    simp only [readReg_setReg _ _ _ hres, r0, r1, relationHolds, decide_eq_true_eq]
    by_cases h : r < l
    · have h2 : ¬ l ≤ r := by omega
      simp only [h, h2, if_true, if_false]
      decide
    · have h2 : l ≤ r := by omega
      simp only [h, h2, if_true, if_false]
      decide
  · refine ⟨[.op3 .slt res "t1" "t0"], _, by simp [genBinaryOp, emit], rfl, ?_⟩
    simp only [readReg_setReg _ _ _ hres, r0, r1, relationHolds, decide_eq_true_eq, gt_iff_lt]
    split <;> decide
  · refine ⟨[.op3 .slt res "t0" "t1", .xori res res 1], _, by simp [genBinaryOp, emit], rfl, ?_⟩
    simp only [readReg_setReg _ _ _ hres, r0, r1, relationHolds, decide_eq_true_eq, ge_iff_le]
    by_cases h : l < r
    · have h2 : ¬ r ≤ l := by omega
      simp only [h, h2, if_true, if_false]
      decide
    · have h2 : r ≤ l := by omega
      simp only [h, h2, if_true, if_false]
      decide
  · refine ⟨[.op3 .sub res "t0" "t1", .seqz res res], _, by simp [genBinaryOp, emit], rfl, ?_⟩
    simp only [readReg_setReg _ _ _ hres, r0, r1, relationHolds, decide_eq_true_eq]
    by_cases h : l = r
    · rw [if_pos (hz.mpr h), if_pos h]
      decide
    · have h2 : ¬ wrap32 (l - r) = 0 := fun e => h (hz.mp e)
      simp only [h2, h, if_false]
      decide
  · refine ⟨[.op3 .sub res "t0" "t1", .snez res res], _, by simp [genBinaryOp, emit], rfl, ?_⟩
    simp only [readReg_setReg _ _ _ hres, r0, r1, relationHolds, decide_eq_true_eq, ne_eq]
    by_cases h : l = r
    · rw [if_pos (hz.mpr h), if_neg (not_not.mpr h)]
      decide
    · have h2 : ¬ wrap32 (l - r) = 0 := fun e => h (hz.mp e)
      simp only [h2, h, if_false, not_false_eq_true, if_true]
      decide

/-- C31 on a machine with 5 in `t0` and in `t1`, for `<=` and the result register `t2`. -/
theorem comparison_code_correct_witness :
    ∃ code m1,
      (RISCVCodeGenerator.fresh.genBinaryOp .LE "t2").output =
        RISCVCodeGenerator.fresh.output ++ code.map Line.instr ∧
      execInstrs code machineFiveFive = some m1 ∧
      readReg m1.regs "t2" = if relationHolds .LE 5 5 = true then 1 else 0 :=
  comparison_code_correct RISCVCodeGenerator.fresh "t2" (by decide) machineFiveFive 5 5
    (by decide) (by decide) (by decide) (by decide) rfl rfl .LE (by decide)

/-- C32 fails: for `int main() { int x = 7; int y = 9; return x; }` the frame size is 16,
`ra` is saved at `12(sp)` and the old `fp` at `8(sp)`, and with `fp = sp + 16` the locals
`x` and `y` are stored at `-4(fp)` and `-8(fp)`, which are the same two addresses. Run from
a state with `sp = 1000`, `ra = 4242` and `fp = 2000`, the prologue leaves 4242 and 2000 in
the words at 996 and 992, the two stores of the body replace them by 7 and 9, and the
epilogue loads `ra = 7` and `fp = 9`. -/
theorem local_slots_overlap_saved_registers :
    (compile unitTwoLocals).map (fun out => out.map Line.render) =
      some ["    .text", "    .globl main", "    # ToyC Compiler Generated Code", "main:",
        "    # Function: main", "    addi sp, sp, -16", "    sw ra, 12(sp)",
        "    sw fp, 8(sp)", "    addi fp, sp, 16", "    addi t0, zero, 7",
        "    sw t0, -4(fp)", "    addi t0, zero, 9", "    sw t0, -8(fp)", "    lw t0, -4(fp)",
        "    mv a0, t0", "    lw ra, 12(sp)", "    lw fp, 8(sp)", "    addi sp, sp, 16",
        "    jr ra", "    "] ∧
    (compile unitTwoLocals).bind (fun out => runFromEntry out 4) =
      some (984, 1000, 4242, 4242, 2000) ∧
    (compile unitTwoLocals).bind (fun out => runFromEntry out 8) =
      some (984, 1000, 4242, 7, 9) ∧
    (compile unitTwoLocals).bind (fun out => runFromEntry out 13) =
      some (1000, 9, 7, 7, 9) := by
  refine ⟨by decide, by decide, by decide, by decide⟩

/-- C33: the code of `while (c) b`, visited in any state, is the loop label, the code of
`c`, `beqz t0` to the end label, the code of `b`, `j` to the loop label and the end label;
the two labels are `while_loop` and `while_end` followed by the next two values of the
label counter, no label line occurs twice in this code, and the body is visited with the
two labels pushed on the stacks. Whenever the visit of a statement leads to a `Break`
(`Continue`) inside a `While` of that statement, that visit writes `j` to the end (loop)
label of the innermost such `While`. In `while (1) { while (2) { break; continue; } break;
continue; }` the exits of the inner loop go to `while_end3` and `while_loop2`, and those
that follow the inner loop go to `while_end1` and `while_loop0`. -/
theorem exits_jump_to_innermost_loop :
    (∀ (g : RISCVCodeGenerator) (c : Expr) (b : Stmt), ∃ cc bc,
      (genExpr (whileConditionEntry g) c).output = (whileConditionEntry g).output ++ cc ∧
      (genStmt (whileBodyEntry g c) b).output = (whileBodyEntry g c).output ++ bc ∧
      (genStmt g (.whileS c b)).output = g.output ++
        (Line.label (whileLoopLabel g) :: cc ++
          Line.instr (.beqz "t0" (whileEndLabel g)) :: bc ++
          [Line.instr (.j (whileLoopLabel g)), Line.label (whileEndLabel g)]) ∧
      (labelsOf (Line.label (whileLoopLabel g) :: cc ++
          Line.instr (.beqz "t0" (whileEndLabel g)) :: bc ++
          [Line.instr (.j (whileLoopLabel g)), Line.label (whileEndLabel g)])).Nodup) ∧
    (∀ g : RISCVCodeGenerator,
      whileLoopLabel g = "while_loop" ++ toString g.labelCounter ∧
      whileEndLabel g = "while_end" ++ toString (g.labelCounter + 1)) ∧
    (∀ (g : RISCVCodeGenerator) (c : Expr),
      (whileBodyEntry g c).breakLabels = whileEndLabel g :: g.breakLabels ∧
      (whileBodyEntry g c).continueLabels = whileLoopLabel g :: g.continueLabels) ∧
    (∀ (g : RISCVCodeGenerator) (s : Stmt) (g1 : RISCVCodeGenerator) (p : String × String),
      Reaches g s none g1 .breakS (some p) →
        (genStmt g1 .breakS).output = g1.output ++ [Line.instr (.j p.2)]) ∧
    (∀ (g : RISCVCodeGenerator) (s : Stmt) (g1 : RISCVCodeGenerator) (p : String × String),
      Reaches g s none g1 .continueS (some p) →
        (genStmt g1 .continueS).output = g1.output ++ [Line.instr (.j p.1)]) ∧
    (∃ g1, Reaches RISCVCodeGenerator.fresh outerLoop none g1 .breakS
      (some ("while_loop2", "while_end3"))) ∧
    (∃ g1, Reaches RISCVCodeGenerator.fresh outerLoop none g1 .breakS
      (some ("while_loop0", "while_end1"))) ∧
    (∃ g1, Reaches RISCVCodeGenerator.fresh outerLoop none g1 .continueS
      (some ("while_loop0", "while_end1"))) ∧
    (genStmt RISCVCodeGenerator.fresh outerLoop).output.map Line.render =
      ["while_loop0:", "    addi t0, zero, 1", "    beqz t0, while_end1", "while_loop2:",
        "    addi t0, zero, 2", "    beqz t0, while_end3", "    j while_end3",
        "    j while_loop2", "    j while_loop2", "while_end3:", "    j while_end1",
        "    j while_loop0", "    j while_loop0", "while_end1:"] := by
  refine ⟨genStmt_while_output, fun g => ⟨rfl, rfl⟩, whileBodyEntry_stacks, ?_, ?_, ?_, ?_, ?_,
    by decide⟩
  · intro g s g1 p h
    exact genStmt_break g1 p.2
      (reaches_stacks h (fun q hq => by simp at hq) p rfl).1
  · intro g s g1 p h
    exact genStmt_continue g1 p.1
      (reaches_stacks h (fun q hq => by simp at hq) p rfl).2
  · exact ⟨_, Reaches.body _ _ _ _ _ _ _
      (Reaches.block _ [] innerLoop [.breakS, .continueS] _ _ _ _
        (Reaches.body _ _ _ _ _ _ _
          (Reaches.block _ [] .breakS [.continueS] _ _ _ _ (Reaches.here _ _ _))))⟩
  · exact ⟨_, Reaches.body _ _ _ _ _ _ _
      (Reaches.block _ [innerLoop] .breakS [.continueS] _ _ _ _ (Reaches.here _ _ _))⟩
  · exact ⟨_, Reaches.body _ _ _ _ _ _ _
      (Reaches.block _ [innerLoop, .breakS] .continueS [] _ _ _ _ (Reaches.here _ _ _))⟩

/-- C34: `saveRegisters` pushes t0..t6 one by one and `restoreRegisters` pops them in
reverse order; on a machine whose registers hold 32-bit values, running the save, then
anything that leaves `sp` and the seven saved words as they were, then the restore, gives
back `sp` and each of t0..t6; and the code of a call is the save, the code of each of the
first `min(n, 8)` arguments followed by `mv a<i>, t0`, `call <name>`, the restore, and the
move of `a0` to a register when the call has type `int`. -/
theorem caller_save_round_trip (m : Machine)
    (hw : ∀ r, -2147483648 ≤ m.regs r ∧ m.regs r ≤ 2147483647) :
    saveInstrs callerSaved =
      [.addi "sp" "sp" (-4), .sw "t0" 0 "sp", .addi "sp" "sp" (-4), .sw "t1" 0 "sp",
        .addi "sp" "sp" (-4), .sw "t2" 0 "sp", .addi "sp" "sp" (-4), .sw "t3" 0 "sp",
        .addi "sp" "sp" (-4), .sw "t4" 0 "sp", .addi "sp" "sp" (-4), .sw "t5" 0 "sp",
        .addi "sp" "sp" (-4), .sw "t6" 0 "sp"] ∧
    restoreInstrs callerSaved =
      [.lw "t6" 0 "sp", .addi "sp" "sp" 4, .lw "t5" 0 "sp", .addi "sp" "sp" 4,
        .lw "t4" 0 "sp", .addi "sp" "sp" 4, .lw "t3" 0 "sp", .addi "sp" "sp" 4,
        .lw "t2" 0 "sp", .addi "sp" "sp" 4, .lw "t1" 0 "sp", .addi "sp" "sp" 4,
        .lw "t0" 0 "sp", .addi "sp" "sp" 4] ∧
    (∃ m1, execInstrs (saveInstrs callerSaved) m = some m1 ∧
      ∀ m2 : Machine, readReg m2.regs "sp" = readReg m1.regs "sp" →
        (∀ k, 1 ≤ k → k ≤ 7 →
          m2.mem (slot (readReg m.regs "sp") k) = m1.mem (slot (readReg m.regs "sp") k)) →
        ∃ m3, execInstrs (restoreInstrs callerSaved) m2 = some m3 ∧
          readReg m3.regs "sp" = readReg m.regs "sp" ∧
          ∀ r ∈ callerSaved, readReg m3.regs r = readReg m.regs r) ∧
    ∀ (g : RISCVCodeGenerator) (fn : String) (args : List Expr) (rt : VType),
      ∃ (codes : List (List Line)) (res : String), codes.length = min args.length 8 ∧
        List.Forall₂
          (fun e c => ∃ g1 : RISCVCodeGenerator, (genExpr g1 e).output = g1.output ++ c)
          (args.take 8) codes ∧
        (genExpr g (.call fn args rt)).output = g.output ++
          (saveInstrs callerSaved).map Line.instr ++ argMoves 0 codes ++
          [Line.instr (.call fn)] ++ (restoreInstrs callerSaved).map Line.instr ++
          (if rt = VType.INT then [Line.instr (.mv res "a0")] else []) := by
  refine ⟨rfl, rfl, ?_, genCall_output⟩
  have hsp : readReg m.regs "sp" = m.regs "sp" := by simp [readReg]
  obtain ⟨m1, e1, _, _, _, back⟩ := save_restore callerSaved m (by decide) (by decide)
    (by decide) (by decide) (by rw [hsp]; exact (hw "sp").1) (by rw [hsp]; exact (hw "sp").2)
  refine ⟨m1, e1, fun m2 h1 h2 => ?_⟩
  obtain ⟨m3, e3, s3, _, r3, _⟩ := back m2 h1 h2
  refine ⟨m3, e3, s3, fun r hr => ?_⟩
  rw [r3 r hr]
  have hz : r ≠ "zero" := by
    intro h
    rw [h] at hr
    revert hr
    decide
  have : readReg m.regs r = m.regs r := by simp [readReg, hz]
  rw [this]
  have h1 := (hw r).1
  have h2 := (hw r).2
  unfold wrap32
  omega

/-- C34 on a machine with 5 in `t0` and `t1` and 0 in every other register. -/
theorem caller_save_round_trip_witness :
    ∃ m1, execInstrs (saveInstrs callerSaved) machineFiveFive = some m1 ∧
      ∀ m2 : Machine, readReg m2.regs "sp" = readReg m1.regs "sp" →
        (∀ k, 1 ≤ k → k ≤ 7 →
          m2.mem (slot (readReg machineFiveFive.regs "sp") k) =
            m1.mem (slot (readReg machineFiveFive.regs "sp") k)) →
        ∃ m3, execInstrs (restoreInstrs callerSaved) m2 = some m3 ∧
          readReg m3.regs "sp" = readReg machineFiveFive.regs "sp" ∧
          ∀ r ∈ callerSaved, readReg m3.regs r = readReg machineFiveFive.regs r :=
  (caller_save_round_trip machineFiveFive (fun r => by
    simp only [machineFiveFive]
    split <;> decide)).2.2.1

/-- C35 fails: the lines of every function definition hold one `jr ra` for each `Return`
statement of the body and one more whenever the function is `VOID`, whatever its last
statement is. The function `void f() { return; }` has one `Return` statement, which is
the last statement of its body, and in the code of
`void f() { return; } int main() { return 0; }` it gets two epilogues. -/
theorem void_function_extra_epilogue :
    (∀ (g : RISCVCodeGenerator) (f : FunctionDefinition), ∃ code,
      (g.genFunction f).output = g.output ++ code ∧
      code.count lineReturn =
        (returnsOfList f.body).length + (if f.returnType = VType.VOID then 1 else 0)) ∧
    functionVoidReturn.returnType = VType.VOID ∧
    functionVoidReturn.body.getLast? = some (.returnS none) ∧
    (returnsOfList functionVoidReturn.body).length = 1 ∧
    (compile unitVoidReturn).map (fun out => out.map Line.render) =
      some ["    .text", "    .globl main", "    # ToyC Compiler Generated Code", "f:",
        "    # Function: f", "    addi sp, sp, -8", "    sw ra, 4(sp)", "    sw fp, 0(sp)",
        "    addi fp, sp, 8", "    lw ra, 4(sp)", "    lw fp, 0(sp)", "    addi sp, sp, 8",
        "    jr ra", "    lw ra, 4(sp)", "    lw fp, 0(sp)", "    addi sp, sp, 8",
        "    jr ra", "    ", "main:", "    # Function: main", "    addi sp, sp, -8",
        "    sw ra, 4(sp)", "    sw fp, 0(sp)", "    addi fp, sp, 8", "    addi t0, zero, 0",
        "    mv a0, t0", "    lw ra, 4(sp)", "    lw fp, 0(sp)", "    addi sp, sp, 8",
        "    jr ra", "    "] := by
  refine ⟨genFunction_returns, rfl, rfl, rfl, by decide⟩

/-- C36: when `x` is not declared in the innermost scope, the analysis of `int x = x;`
adds no error at all: the declaration succeeds, and the lookup of `x` for the initializer
finds the symbol just declared, whether or not an enclosing scope declares `x`. -/
theorem declaration_before_initializer (a : SemanticAnalyzer) (x : String)
    (top : List (String × Symbol)) (outer : List (List (String × Symbol)))
    (hst : a.scope.scopeStack = top :: outer) (hx : mapFind top x = none) :
    (visitStmt a (.varDecl x (some (.ident x)))).1.errors = a.errors ∧
      (visitStmt a (.varDecl x (some (.ident x)))).1.scope.lookupVariable x =
        some ⟨x, VType.INT, a.scope.currentOffset - 4, false⟩ :=
  ⟨(visitStmt_selfInit a x top outer hst hx).1, (visitStmt_selfInit a x top outer hst hx).2.1⟩

/-- C36 at a fresh analyzer and the name `x`, which no scope declares. -/
theorem declaration_before_initializer_witness :
    Scope.lookupIn SemanticAnalyzer.fresh.scope.scopeStack "x" = none ∧
    (visitStmt SemanticAnalyzer.fresh (.varDecl "x" (some (.ident "x")))).1.errors = [] ∧
    (visitStmt SemanticAnalyzer.fresh
        (.varDecl "x" (some (.ident "x")))).1.scope.lookupVariable "x" =
      some ⟨"x", VType.INT, -4, false⟩ :=
  ⟨rfl, declaration_before_initializer SemanticAnalyzer.fresh "x" [] [] rfl rfl⟩

/-- C37 fails: `int f(int a) { int a = 1; return a; } int main() { return 0; }` is
accepted, and the code of `f` stores the initializer of the local to `8(fp)` and loads the
later use from `8(fp)`, the offset of the parameter, though the frame size 16 counts a slot
for the local: the pass that sizes the frame enters the local at offset -4, and the
parameter loop then replaces the entry. In the state in which the body of any function is visited, the name of every
parameter maps to the parameter, at `8 + 4 * i` for the parameter of index `i`, whatever the
body declares. -/
theorem parameter_hides_local :
    (SemanticAnalyzer.fresh.analyze unitShadowParam).1 = true ∧
    (compile unitShadowParam).map (fun out => out.map Line.render) =
      some ["    .text", "    .globl main", "    # ToyC Compiler Generated Code", "f:",
        "    # Function: f", "    addi sp, sp, -16", "    sw ra, 12(sp)", "    sw fp, 8(sp)",
        "    addi fp, sp, 16", "    addi t0, zero, 1", "    sw t0, 8(fp)", "    lw t0, 8(fp)",
        "    mv a0, t0", "    lw ra, 12(sp)", "    lw fp, 8(sp)", "    addi sp, sp, 16",
        "    jr ra", "    ", "main:", "    # Function: main", "    addi sp, sp, -8",
        "    sw ra, 4(sp)", "    sw fp, 0(sp)", "    addi fp, sp, 8", "    addi t1, zero, 0",
        "    mv a0, t0", "    lw ra, 4(sp)", "    lw fp, 0(sp)", "    addi sp, sp, 8",
        "    jr ra", "    "] ∧
    (∀ g : RISCVCodeGenerator,
      (g.calculateFrameSize functionShadowParam.parameters functionShadowParam.body).2.symbolTable
          = mapSet g.symbolTable "a" ⟨"a", VType.INT, -4, false⟩ ∧
        mapFind (bodyEntry g functionShadowParam).symbolTable "a" =
          some ⟨"a", VType.INT, 8, true⟩) ∧
    ∀ (g : RISCVCodeGenerator) (f : FunctionDefinition),
      (f.parameters.map (fun p => p.name)).Nodup →
      ∀ (i : Nat) (p : Parameter), f.parameters[i]? = some p →
        mapFind (bodyEntry g f).symbolTable p.name = some ⟨p.name, p.type, 8 + 4 * i, true⟩ := by
  refine ⟨by decide, by decide, fun g => ⟨rfl, rfl⟩, ?_⟩
  intro g f hn i p hp
  exact addParameters_find f.parameters _ 8 hn i p hp

/-- C38: for a unit that `analyze` accepts, the lines that `generate` writes for each
function definition begin with the label of the function, and every target of a `beqz`,
`bnez` or `j` among them is the label of a label line among them; and every `call` line of
the whole output names a label line of the output. -/
theorem branch_targets_and_callees_defined (u : CompilationUnit)
    (h : (SemanticAnalyzer.fresh.analyze u).1 = true) :
    (∀ (pre : List FunctionDefinition) (f : FunctionDefinition)
        (post : List FunctionDefinition),
      (SemanticAnalyzer.fresh.analyze u).2.2.functions = pre ++ f :: post →
      compile u = some (genFunctions (genFunction (genFunctions
          (generateEntry RISCVCodeGenerator.fresh
            (buildFunctionTable [] (SemanticAnalyzer.fresh.analyze u).2.2.functions)) pre) f)
          post).output ∧
      ∃ code,
        (genFunction (genFunctions (generateEntry RISCVCodeGenerator.fresh
            (buildFunctionTable [] (SemanticAnalyzer.fresh.analyze u).2.2.functions)) pre)
            f).output =
          (genFunctions (generateEntry RISCVCodeGenerator.fresh
            (buildFunctionTable [] (SemanticAnalyzer.fresh.analyze u).2.2.functions))
            pre).output ++ code ∧
        code.head? = some (Line.label f.name) ∧
        ∀ t ∈ targetsOf code, t ∈ labelsOf code) ∧
    ∃ out, compile u = some out ∧ ∀ n ∈ calleesOf out, n ∈ labelsOf out := by
  have acc := analyze_accepted u h
  have hcomp : compile u = some (RISCVCodeGenerator.fresh.generate
      (SemanticAnalyzer.fresh.analyze u).2.2
      (buildFunctionTable [] (SemanticAnalyzer.fresh.analyze u).2.2.functions)).output := by
    unfold compile
    simp only [h, if_true]
  have hnames : ∀ c ∈ callsOfFunctions (SemanticAnalyzer.fresh.analyze u).2.2.functions,
      c.1 ∈ (SemanticAnalyzer.fresh.analyze u).2.2.functions.map (fun f => f.name) := by
    intro c hc
    obtain ⟨info, h1, _, _⟩ := acc.calls c hc
    obtain ⟨f, hf, hn, _⟩ := acc.tableOnly c.1 info h1
    rw [acc.names, ← hn]
    exact List.mem_map_of_mem _ hf
  constructor
  · intro pre f post hfs
    have hst := genFunctions_stacks pre (generateEntry RISCVCodeGenerator.fresh
      (buildFunctionTable [] (SemanticAnalyzer.fresh.analyze u).2.2.functions))
    obtain ⟨code, e, hd, l⟩ := genFunction_linked (genFunctions
      (generateEntry RISCVCodeGenerator.fresh
        (buildFunctionTable [] (SemanticAnalyzer.fresh.analyze u).2.2.functions)) pre) f
      ((SemanticAnalyzer.fresh.analyze u).2.2.functions.map (fun f => f.name))
      hst.1 hst.2
      (fun c hc => hnames c (by
        rw [hfs]
        clear hfs hst
        induction pre with
        | nil => simp only [List.nil_append, callsOfFunctions, List.mem_append]; exact Or.inl hc
        | cons p pre ih =>
          simp only [List.cons_append, callsOfFunctions, List.mem_append]
          exact Or.inr ih))
    refine ⟨?_, code, e, hd, fun t ht => ?_⟩
    · rw [hcomp, generate_entry, hfs, genFunctions_append]
    · rcases l.1 t ht with h1 | h1
      · exact h1
      · simp at h1
  · refine ⟨_, hcomp, ?_⟩
    rw [generate_entry]
    obtain ⟨code, e, l⟩ := genFunctions_callees
      (SemanticAnalyzer.fresh.analyze u).2.2.functions
      (generateEntry RISCVCodeGenerator.fresh
        (buildFunctionTable [] (SemanticAnalyzer.fresh.analyze u).2.2.functions))
      ((SemanticAnalyzer.fresh.analyze u).2.2.functions.map (fun f => f.name))
      rfl rfl hnames
    obtain ⟨ls, k, p, _⟩ := generate_labels RISCVCodeGenerator.fresh
      (SemanticAnalyzer.fresh.analyze u).2.2
      (buildFunctionTable [] (SemanticAnalyzer.fresh.analyze u).2.2.functions)
    rw [generate_entry] at p
    intro n hn
    rw [e, calleesOf_append, List.mem_append] at hn
    rcases hn with hn | hn
    · simp [generateEntry, calleesOf, emit, emitComment, Line.callee] at hn
    · exact p.symm.subset (List.mem_append_left _ (l n hn))

/-- C38 at `unitSample`, whose `main` has a loop, an `if` with both branches, a `break` and
two calls. -/
theorem branch_targets_and_callees_defined_witness :
    (SemanticAnalyzer.fresh.analyze unitSample).1 = true ∧
    ∃ out, compile unitSample = some out ∧ ∀ n ∈ calleesOf out, n ∈ labelsOf out :=
  ⟨by decide, (branch_targets_and_callees_defined unitSample (by decide)).2⟩

/-- C39 fails: `int main() { return 0; ... return 0; }` with eight `return 0;` is accepted.
The visit of each `return 0;` takes a register from the pool and releases none, so the
eighth call of `allocateTemp` returns the empty string, and the code has the instruction
`addi , zero, 0`. -/
theorem eight_returns_exhaust_pool :
    (SemanticAnalyzer.fresh.analyze unitEightReturns).1 = true ∧
    (∀ g : RISCVCodeGenerator,
      (genStmt g (.returnS (some (.number 0)))).regManager = g.regManager.allocateTemp.2) ∧
    ((allocateTimes 7 RegisterManager.fresh).allocateTemp).1 = "" ∧
    (compile unitEightReturns).map
        (fun out => (instrsOf out).filter (fun i => decide ("" ∈ i.operands))) =
      some [.addi "" "zero" 0] ∧
    (compile unitEightReturns).map (fun out => ((out.map Line.render).drop 51).take 2) =
      some ["    addi , zero, 0", "    mv a0, t0"] := by
  refine ⟨by decide, fun g => rfl, by decide, by decide!, by decide!⟩

/-- C40: the scope stack of a fresh `Scope` has depth 1; from a scope whose stack is not
empty, every sequence of calls of `enterScope`, `exitScope` and `declareVariable` leads to
a scope whose stack is not empty; `exitScope` on a stack of depth 1 changes nothing; and
`analyze`, on any unit, returns with the scope stack that it was called with, when that
was not empty, so with depth 1 on a fresh analyzer. -/
theorem scope_stack_never_empty :
    Scope.fresh.scopeStack.length = 1 ∧
    (∀ (s : Scope) (ops : List ScopeOp), s.scopeStack ≠ [] →
      (s.runOps ops).1.scopeStack ≠ []) ∧
    (∀ s : Scope, s.scopeStack.length = 1 → s.exitScope = s) ∧
    (∀ (a : SemanticAnalyzer) (u : CompilationUnit), a.scope.scopeStack ≠ [] →
      (a.analyze u).2.1.scope.scopeStack = a.scope.scopeStack) ∧
    ∀ u : CompilationUnit,
      (SemanticAnalyzer.fresh.analyze u).2.1.scope.scopeStack.length = 1 := by
  refine ⟨rfl, fun s ops h => runOps_stack ops s h, exitScope_single, analyze_stack, ?_⟩
  intro u
  rw [analyze_stack _ u (by simp [SemanticAnalyzer.fresh, Scope.fresh, Scope.enterScope])]
  rfl

end ToyC
